import Mathlib

/-!
# CornerCulling: the occlusion-determination engine

A shallow embedding of `Source/CornerCulling/CullingController.cpp`.

Conventions of the embedding.

* Engine floats are exact rationals where the code only passes them on or the
  arithmetic is the engine's (`GetSafeNormal`, the peeks); the not-a-number
  sentinel of `IntersectionTime` is `none`. The sphere test does its own
  arithmetic and compares the results, so there every operation is rounded to
  single precision (`F32`).
* `TArray` is `List`; an indexed read outside the array is a failure, so every
  routine that indexes returns an `Option`, and `none` stands for the
  out-of-range access.
* The per-pair matrices (`VisibilityTimers`, `CuboidCaches`, `CacheTimers`) are
  fixed-size C arrays declared in the controller's header; they are total maps
  on indices here.
* `int` quantities are `Int`. The sum `TimerIncrement + jitter` of the timer
  reset, whose first term is a configured value, wraps around at 32 bits as the
  machine's sum does (`Int32Add`); the counters start at zero and advance by one
  or by a measured duration, and are not followed to the 32-bit limit.
* What the controller receives from outside (the clock, the random source, the
  engine maths, the geometry header) is a parameter, collected in `Externals`.
-/

namespace CornerCulling

/-! ## Vectors -/

/-- FVector of the engine: three coordinates. -/
structure FVector where
  X : ℚ
  Y : ℚ
  Z : ℚ
deriving DecidableEq

namespace FVector

/-- Componentwise sum, the engine's `operator+`. -/
def add (a b : FVector) : FVector := ⟨a.X + b.X, a.Y + b.Y, a.Z + b.Z⟩

/-- Componentwise difference, the engine's `operator-`. -/
def sub (a b : FVector) : FVector := ⟨a.X - b.X, a.Y - b.Y, a.Z - b.Z⟩

/-- Scaling by a number, the engine's `float * FVector`. -/
def smul (s : ℚ) (a : FVector) : FVector := ⟨s * a.X, s * a.Y, s * a.Z⟩

/-- Dot product, the engine's `operator|`. -/
def dot (a b : FVector) : ℚ := a.X * b.X + a.Y * b.Y + a.Z * b.Z

/-- Squared length, the engine's `SizeSquared`. -/
def SizeSquared (a : FVector) : ℚ := a.X * a.X + a.Y * a.Y + a.Z * a.Z

instance : Add FVector := ⟨add⟩
instance : Sub FVector := ⟨sub⟩

end FVector

/-! ## Geometric primitives -/

/-- Modelled from the spec: the `Face` record of the geometry header, which is
not among the sources: an outward normal and the perimeter vertex indices. -/
structure Face where
  Normal : FVector
  Perimeter : List Nat
deriving DecidableEq

/-- Modelled from the spec: the `Cuboid` record of the geometry header, which is
not among the sources: the vertices and the faces. -/
structure Cuboid where
  Vertices : List FVector
  Faces : List Face
deriving DecidableEq

/-- Modelled from the spec: the `Sphere` record of the geometry header: centre
and radius. -/
structure Sphere where
  Center : FVector
  Radius : ℚ
deriving DecidableEq

/-- Modelled from the spec: the `CharacterBounds` record of the geometry header:
camera location, centre and the two vertex groups. -/
structure CharacterBounds where
  CameraLocation : FVector
  Center : FVector
  TopVertices : List FVector
  BottomVertices : List FVector
deriving DecidableEq

/-- Bundle: a visibility query for the ordered pair `(PlayerI, EnemyI)` with the
candidate peek positions, as built in `PopulateBundles`. -/
structure Bundle where
  PlayerI : Nat
  EnemyI : Nat
  PossiblePeeks : List FVector
deriving DecidableEq

/-- The engine's `FTransform` as far as a bounds constructor can use it: a
translation and the images of the three axes. -/
structure FTransform where
  Translation : FVector
  AxisX : FVector
  AxisY : FVector
  AxisZ : FVector
deriving DecidableEq

/-- What the controller takes from outside the given sources. -/
structure Externals where
  /-- `IntersectionTime(C, Start, Direction)` of the geometry header; `none` is
  the not-a-number sentinel. -/
  IntersectionTime : Cuboid → FVector → FVector → Option ℚ
  /-- The engine's inverse square root, used by `GetSafeNormal`. -/
  InvSqrt : ℚ → ℚ
  /-- The `CharacterBounds(CameraLocation, Transform)` constructor. -/
  MakeBounds : FVector → FTransform → CharacterBounds
  /-- The successive results of `FMath::Rand()`. -/
  Rand : Nat → Nat
  /-- The compile-time cache size `CUBOID_CACHE_SIZE`. -/
  CUBOID_CACHE_SIZE : Nat

/-- Modelled from the spec: the constant `NUM_PEEKS` of the header, a bundle
carries exactly 4 peeks. -/
def NUM_PEEKS : Nat := 4

/-! ## The cuboid blocking test -/

/-- One `for (const FVector& V : ...)` loop of `IsBlocking(Bundle, Cuboid)`:
for each vertex the segments from `Peeks[a]` and from `Peeks[b]` are tested in
this order, and the first not-a-number answer returns `false`. -/
def IsBlocking.loop (E : Externals) (C : Cuboid) (Peeks : List FVector) (a b : Nat) :
    List FVector → Option Bool
  | [] => some true
  | V :: Vs =>
    match Peeks[a]? with
    | none => none
    | some Pa =>
      if (E.IntersectionTime C Pa (V - Pa)).isNone then some false
      else
        match Peeks[b]? with
        | none => none
        | some Pb =>
          if (E.IntersectionTime C Pb (V - Pb)).isNone then some false
          else IsBlocking.loop E C Peeks a b Vs

/-- The source's `IsBlocking(const Bundle&, const Cuboid&)`: the top vertices
against peeks 0 and 1, then the bottom vertices against peeks 2 and 3. -/
def IsBlocking (E : Externals) (Bounds : List CharacterBounds) (B : Bundle) (C : Cuboid) :
    Option Bool :=
  match Bounds[B.EnemyI]? with
  | none => none
  | some EnemyBounds =>
    match IsBlocking.loop E C B.PossiblePeeks 0 1 EnemyBounds.TopVertices with
    | none => none
    | some false => some false
    | some true => IsBlocking.loop E C B.PossiblePeeks 2 3 EnemyBounds.BottomVertices

/-- The segment from `P` to `V` intersects `C`: `IntersectionTime` is not the
not-a-number sentinel. -/
def Intersects (E : Externals) (C : Cuboid) (P V : FVector) : Prop :=
  (E.IntersectionTime C P (V - P)).isSome = true

instance (E : Externals) (C : Cuboid) (P V : FVector) : Decidable (Intersects E C P V) := by
  unfold Intersects; infer_instance

/-! ## Single-precision arithmetic -/

/-- A value of the type `float`: a finite number, an infinity or not-a-number.
The sign of a zero is not kept: the only quotient the embedded code forms has a
sum of squares as its divisor, whose zero is the positive one. -/
inductive F32 where
  | fin (q : ℚ)
  | pinf
  | ninf
  | nan
deriving DecidableEq

/-- One step of the bisection for the binade of `M / D`: `j + w` when
`D * 2 ^ (j + w) ≤ M`, and `j` when not. -/
def F32.bisect (M D j w : Nat) : Nat :=
  cond (Nat.ble (Nat.shiftLeft D (Nat.add j w)) M) (Nat.add j w) j

/-- The exponent of the binade of the positive number `N / D`, raised by 150 so
that it is a natural number: the greatest `j` below 512 with
`2 ^ (j - 150) ≤ N / D`, found by bisection on the nine binary digits of `j`,
but at least 24 and at most 277, which stand for -126, the exponent of the
subnormal numbers, and for 127, the largest exponent. The primitive operations
on natural numbers are written out to keep the evaluation short. -/
def F32.binade (N D : Nat) : Nat :=
  let M := Nat.shiftLeft N 150
  let j := F32.bisect M D (F32.bisect M D (F32.bisect M D (F32.bisect M D (F32.bisect M D
    (F32.bisect M D (F32.bisect M D (F32.bisect M D (F32.bisect M D 0 256) 128) 64) 32) 16)
    8) 4) 2) 1
  cond (Nat.ble j 24) 24 (cond (Nat.ble 277 j) 277 j)

/-- The integer nearest to the quotient `N / D`, the even one of the two when
the quotient lies half way: twice the remainder is compared with `D`. -/
def F32.nearest (N D : Nat) : Nat :=
  cond (Nat.ble (Nat.succ (Nat.mul 2 (Nat.mod N D))) D) (Nat.div N D)
    (cond (Nat.ble (Nat.succ D) (Nat.mul 2 (Nat.mod N D))) (Nat.succ (Nat.div N D))
      (Nat.add (Nat.div N D) (Nat.mod (Nat.div N D) 2)))

/-- Rounding of the number `N / D`, with `N` positive, or of its opposite when
`negative` is set: with `e` the exponent of its binade, the result is the
multiple `n * 2 ^ (e - 23)` nearest to it, and `e - 23` is `j - 173` for the
raised exponent `j`; a result that reaches `2 ^ 128` is an infinity. -/
def F32.finite (negative : Bool) (N D : Nat) : F32 :=
  let j := F32.binade N D
  let n := F32.nearest (Nat.shiftLeft N (Nat.sub 173 j)) (Nat.shiftLeft D (Nat.sub j 173))
  cond (and (Nat.beq j 277) (Nat.ble 16777216 n)) (cond negative .ninf .pinf)
    (.fin (mkRat
      (cond negative (Int.negOfNat (Nat.shiftLeft n (Nat.sub j 173)))
        (Int.ofNat (Nat.shiftLeft n (Nat.sub j 173))))
      (Nat.shiftLeft 1 (Nat.sub 173 j))))

/-- A number `N / D` in lowest terms is a `float` value as it stands when `D` is
a power of two of at most `2 ^ 149` and `N` is below `2 ^ 24`. -/
def F32.exact (N D : Nat) : Bool :=
  and (Nat.beq (Nat.land D (Nat.pred D)) 0)
    (and (Nat.ble D (Nat.shiftLeft 1 149)) (Nat.ble N 16777215))

/-- Rounding of an exact result to single precision, to the nearest value with
24 significant bits and ties to the even one, as the machine does after every
operation. A number that is a `float` value as it stands is its own rounding. -/
def F32.round (q : ℚ) : F32 :=
  cond (F32.exact q.num.natAbs q.den) (.fin q)
    (match q.num with
      | Int.ofNat N => F32.finite false N q.den
      | Int.negSucc N => F32.finite true (Nat.succ N) q.den)

/-- The machine's `float` sum. -/
def F32.add : F32 → F32 → F32
  | .fin a, .fin b => F32.round (a + b)
  | .nan, _ => .nan
  | _, .nan => .nan
  | .pinf, .ninf => .nan
  | .ninf, .pinf => .nan
  | .pinf, _ => .pinf
  | _, .pinf => .pinf
  | .ninf, _ => .ninf
  | _, .ninf => .ninf

/-- The machine's `float` negation. -/
def F32.neg : F32 → F32
  | .fin a => .fin (-a)
  | .pinf => .ninf
  | .ninf => .pinf
  | .nan => .nan

/-- The machine's `float` difference. -/
def F32.sub (a b : F32) : F32 := F32.add a (F32.neg b)

/-- The sign of a value that is not not-a-number: -1, 0 or 1. -/
def F32.sign : F32 → Int
  | .fin a => if a < 0 then -1 else if a = 0 then 0 else 1
  | .pinf => 1
  | .ninf => -1
  | .nan => 0

/-- An infinity of the given sign, and not-a-number for the sign 0. -/
def F32.inf (s : Int) : F32 := if 0 < s then .pinf else if s < 0 then .ninf else .nan

/-- The machine's `float` product. -/
def F32.mul : F32 → F32 → F32
  | .fin a, .fin b => F32.round (a * b)
  | .nan, _ => .nan
  | _, .nan => .nan
  | a, b => F32.inf (F32.sign a * F32.sign b)

/-- The machine's `float` quotient; a zero divisor counts as the positive
zero. -/
def F32.div : F32 → F32 → F32
  | .fin a, .fin b => if b = 0 then F32.inf (F32.sign (.fin a)) else F32.round (a / b)
  | .nan, _ => .nan
  | _, .nan => .nan
  | .fin _, _ => .fin 0
  | a, .fin b => F32.inf (F32.sign a * (if b < 0 then -1 else 1))
  | _, _ => .nan

/-- The machine's comparison `a < b` of two `float` values, false as soon as
one of them is not-a-number. -/
def F32.lt : F32 → F32 → Bool
  | .fin a, .fin b => decide (a < b)
  | .nan, _ => false
  | _, .nan => false
  | .pinf, _ => false
  | _, .ninf => false
  | _, _ => true

/-- The engine's `FVector` with its `float` coordinates. -/
structure FVector32 where
  X : F32
  Y : F32
  Z : F32
deriving DecidableEq

/-- The coordinates of a vector as `float` values. -/
def FVector.toF32 (a : FVector) : FVector32 := ⟨F32.round a.X, F32.round a.Y, F32.round a.Z⟩

/-- Componentwise sum, the engine's `operator+`. -/
def FVector32.add (a b : FVector32) : FVector32 :=
  ⟨F32.add a.X b.X, F32.add a.Y b.Y, F32.add a.Z b.Z⟩

/-- Componentwise difference, the engine's `operator-`. -/
def FVector32.sub (a b : FVector32) : FVector32 :=
  ⟨F32.sub a.X b.X, F32.sub a.Y b.Y, F32.sub a.Z b.Z⟩

/-- Scaling by a number, the engine's `float * FVector`. -/
def FVector32.smul (s : F32) (a : FVector32) : FVector32 :=
  ⟨F32.mul a.X s, F32.mul a.Y s, F32.mul a.Z s⟩

/-- Dot product, the engine's `operator|`: `X * V.X + Y * V.Y + Z * V.Z`. -/
def FVector32.dot (a b : FVector32) : F32 :=
  F32.add (F32.add (F32.mul a.X b.X) (F32.mul a.Y b.Y)) (F32.mul a.Z b.Z)

/-- Squared length, the engine's `SizeSquared`: `X * X + Y * Y + Z * Z`. -/
def FVector32.SizeSquared (a : FVector32) : F32 := FVector32.dot a a

/-! ## The sphere blocking test -/

/-- The inner `for (FVector V : *Vertices)` loop of `IsBlocking(Bundle, Sphere)`
for one peek, in the code's single-precision arithmetic: `u` is the parameter of
the point of the line closest to the sphere centre; the loop returns `false` at
the first vertex whose `u` is not strictly between 0 and 1 or whose closest
point is farther than the radius. -/
def IsBlockingSphere.inner (SphereCenter : FVector32) (RadiusSquared : F32)
    (Peek PlayerToSphere : FVector32) : List FVector → Bool
  | [] => true
  | V :: Vs =>
    let PlayerToEnemy := FVector32.sub V.toF32 Peek
    let u := F32.div (FVector32.dot PlayerToEnemy PlayerToSphere)
      (FVector32.dot PlayerToEnemy PlayerToEnemy)
    if F32.lt (.fin 0) u && F32.lt u (.fin 1) then
      let ClosestPoint := FVector32.add Peek (FVector32.smul u PlayerToEnemy)
      if F32.lt RadiusSquared (FVector32.sub SphereCenter ClosestPoint).SizeSquared then false
      else IsBlockingSphere.inner SphereCenter RadiusSquared Peek PlayerToSphere Vs
    else false

/-- The outer `for (int i = 0; i < NUM_PEEKS; i++)` loop of
`IsBlocking(Bundle, Sphere)`, over the remaining peek indices. -/
def IsBlockingSphere.outer (EnemyBounds : CharacterBounds) (Peeks : List FVector)
    (SphereCenter : FVector32) (RadiusSquared : F32) : List Nat → Option Bool
  | [] => some true
  | i :: rest =>
    match Peeks[i]? with
    | none => none
    | some Peek =>
      let PlayerToSphere := FVector32.sub SphereCenter Peek.toF32
      let Vertices := if i < 2 then EnemyBounds.TopVertices else EnemyBounds.BottomVertices
      if IsBlockingSphere.inner SphereCenter RadiusSquared Peek.toF32 PlayerToSphere
          Vertices then
        IsBlockingSphere.outer EnemyBounds Peeks SphereCenter RadiusSquared rest
      else some false

/-- The source's `IsBlocking(const Bundle&, const Sphere&)`. -/
def IsBlockingSphere (Bounds : List CharacterBounds) (B : Bundle) (OccludingSphere : Sphere) :
    Option Bool :=
  match Bounds[B.EnemyI]? with
  | none => none
  | some EnemyBounds =>
    IsBlockingSphere.outer EnemyBounds B.PossiblePeeks OccludingSphere.Center.toF32
      (F32.mul (F32.round OccludingSphere.Radius) (F32.round OccludingSphere.Radius))
      (List.range NUM_PEEKS)

/-! ## Peeks -/

/-- The engine's `FVector::GetSafeNormal(Tolerance)`: the vector itself when its
squared length is 1, the zero vector when the squared length is below the
tolerance, the vector scaled by the inverse square root otherwise. -/
def GetSafeNormal (E : Externals) (v : FVector) (Tolerance : ℚ) : FVector :=
  let SquareSum := v.X * v.X + v.Y * v.Y + v.Z * v.Z
  if SquareSum = 1 then v
  else if SquareSum < Tolerance then ⟨0, 0, 0⟩
  else FVector.smul (E.InvSqrt SquareSum) v

/-- The source's `GetPossiblePeeks`. -/
def GetPossiblePeeks (E : Externals) (PlayerCameraLocation EnemyLocation : FVector)
    (MaxDeltaHorizontal MaxDeltaVertical : ℚ) : List FVector :=
  let PlayerToEnemy := GetSafeNormal E (EnemyLocation - PlayerCameraLocation) (1 / 1000000)
  let Horizontal := FVector.smul MaxDeltaHorizontal ⟨-PlayerToEnemy.Y, PlayerToEnemy.X, 0⟩
  let Vertical : FVector := ⟨0, 0, MaxDeltaVertical⟩
  [PlayerCameraLocation + Horizontal + Vertical,
   PlayerCameraLocation - Horizontal + Vertical,
   PlayerCameraLocation - Horizontal - Vertical,
   PlayerCameraLocation + Horizontal - Vertical]

/-! ## The controller -/

/-- The character actor as far as the controller reads it: team, camera
location and actor transform. -/
structure Character where
  Team : Int
  CameraLocation : FVector
  Transform : FTransform
deriving DecidableEq

/-- The state of `ACullingController`, with two logs added: `Sent` records the
calls of `SendLocation` in order, `Lines` the sight lines it draws. `RandCalls`
counts the draws taken from the random source. -/
structure Controller where
  Characters : List Character
  IsAlive : List Bool
  Teams : List Int
  Cuboids : List Cuboid
  Spheres : List Sphere
  Bounds : List CharacterBounds
  BundleQueue : List Bundle
  VisibilityTimers : Nat → Nat → Int
  CuboidCaches : Nat → Nat → Nat → Nat
  CacheTimers : Nat → Nat → Nat → Int
  TotalTicks : Int
  CullingPeriod : Int
  TimerIncrement : Int
  MinTimerIncrement : Int
  MaxTimerIncrement : Int
  TimerLoadThreshold : Int
  RollingWindowLength : Int
  TotalTime : Int
  RollingTotalTime : Int
  RollingMaxTime : Int
  RollingAverageTime : Int
  RandCalls : Nat
  Sent : List (Nat × Nat)
  Lines : List (FVector × FVector)

/-- Assignment `M[i][j] = v` on a pair matrix. -/
def set2 {α : Type} (M : Nat → Nat → α) (i j : Nat) (v : α) : Nat → Nat → α :=
  fun a b => if a = i ∧ b = j then v else M a b

/-- Assignment `M[i][j][k] = v` on a per-pair cache. -/
def set3 {α : Type} (M : Nat → Nat → Nat → α) (i j k : Nat) (v : α) : Nat → Nat → Nat → α :=
  fun a b c => if a = i ∧ b = j ∧ c = k then v else M a b c

/-- The engine's `TArray::EmplaceAt(Index, Item)`: insertion at `Index`, which
must not exceed the current number of elements. -/
def EmplaceAt {α : Type} (l : List α) (Index : Nat) (Item : α) : Option (List α) :=
  if Index ≤ l.length then some (l.take Index ++ Item :: l.drop Index) else none

/-- The first loop of `PopulateBundles` (after `Bounds.Reset()`), over the
remaining character indices, `Bounds` so far in the accumulator. -/
def PopulateBundles.bounds (E : Externals) (s : Controller) :
    List Nat → List CharacterBounds → Option (List CharacterBounds)
  | [], Bounds => some Bounds
  | i :: rest, Bounds =>
    match s.IsAlive[i]? with
    | none => none
    | some false => PopulateBundles.bounds E s rest Bounds
    | some true =>
      match s.Characters[i]? with
      | none => none
      | some Ch =>
        match EmplaceAt Bounds i (E.MakeBounds Ch.CameraLocation Ch.Transform) with
        | none => none
        | some Bounds1 => PopulateBundles.bounds E s rest Bounds1

/-- The `for (int j ...)` loop of `PopulateBundles` for player `i`, threading the
timers and the bundle queue. -/
def PopulateBundles.inner (E : Externals) (s : Controller) (Bounds : List CharacterBounds)
    (i : Nat) : List Nat → (Nat → Nat → Int) × List Bundle →
    Option ((Nat → Nat → Int) × List Bundle)
  | [], st => some st
  | j :: rest, (Timers, Queue) =>
    let Timers1 := if Timers i j > 0 then set2 Timers i j (Timers i j - 1) else Timers
    if Timers1 i j = 0 then
      match s.IsAlive[j]? with
      | none => none
      | some false => PopulateBundles.inner E s Bounds i rest (Timers1, Queue)
      | some true =>
        match s.Teams[i]?, s.Teams[j]? with
        | some ti, some tj =>
          if ti ≠ tj then
            match Bounds[i]?, Bounds[j]? with
            | some Bi, some Bj =>
              PopulateBundles.inner E s Bounds i rest
                (Timers1, Queue ++ [⟨i, j, GetPossiblePeeks E Bi.CameraLocation Bj.Center 15 10⟩])
            | _, _ => none
          else PopulateBundles.inner E s Bounds i rest (Timers1, Queue)
        | _, _ => none
    else PopulateBundles.inner E s Bounds i rest (Timers1, Queue)

/-- The `for (int i ...)` loop of the second half of `PopulateBundles`. -/
def PopulateBundles.outer (E : Externals) (s : Controller) (Bounds : List CharacterBounds) :
    List Nat → (Nat → Nat → Int) × List Bundle → Option ((Nat → Nat → Int) × List Bundle)
  | [], st => some st
  | i :: rest, st =>
    match s.IsAlive[i]? with
    | none => none
    | some false => PopulateBundles.outer E s Bounds rest st
    | some true =>
      match PopulateBundles.inner E s Bounds i (List.range s.Characters.length) st with
      | none => none
      | some st1 => PopulateBundles.outer E s Bounds rest st1

/-- The source's `PopulateBundles`. -/
def PopulateBundles (E : Externals) (s : Controller) : Option Controller :=
  match PopulateBundles.bounds E s (List.range s.Characters.length) [] with
  | none => none
  | some Bounds =>
    match PopulateBundles.outer E s Bounds (List.range s.Characters.length)
        (s.VisibilityTimers, []) with
    | none => none
    | some (Timers, Queue) =>
      some { s with Bounds := Bounds, VisibilityTimers := Timers, BundleQueue := Queue }

/-! ## The cull stages -/

/-- The `for (int k ...)` loop of `CullWithCache` for one bundle: the flag
`Blocked` and the cache timestamps after the loop. -/
def CullWithCache.scan (E : Externals) (s : Controller) (B : Bundle) :
    List Nat → (Nat → Nat → Nat → Int) → Option (Bool × (Nat → Nat → Nat → Int))
  | [], CacheTimers => some (false, CacheTimers)
  | k :: rest, CacheTimers =>
    match s.Cuboids[s.CuboidCaches B.PlayerI B.EnemyI k]? with
    | none => none
    | some C =>
      match IsBlocking E s.Bounds B C with
      | none => none
      | some true => some (true, set3 CacheTimers B.PlayerI B.EnemyI k s.TotalTicks)
      | some false => CullWithCache.scan E s B rest CacheTimers

/-- The `for (Bundle B : BundleQueue)` loop of `CullWithCache`. -/
def CullWithCache.run (E : Externals) (s : Controller) :
    List Bundle → (Nat → Nat → Nat → Int) × List Bundle →
    Option ((Nat → Nat → Nat → Int) × List Bundle)
  | [], st => some st
  | B :: rest, (CacheTimers, Remaining) =>
    match CullWithCache.scan E s B (List.range E.CUBOID_CACHE_SIZE) CacheTimers with
    | none => none
    | some (Blocked, CacheTimers1) =>
      CullWithCache.run E s rest
        (CacheTimers1, if Blocked then Remaining else Remaining ++ [B])

/-- The source's `CullWithCache`. -/
def CullWithCache (E : Externals) (s : Controller) : Option Controller :=
  match CullWithCache.run E s s.BundleQueue (s.CacheTimers, []) with
  | none => none
  | some (CacheTimers, Remaining) =>
    some { s with CacheTimers := CacheTimers, BundleQueue := Remaining }

/-- The `for (Sphere S : Spheres)` loop of `CullWithSpheres` for one bundle: the
flag `Blocked`. -/
def CullWithSpheres.scan (s : Controller) (B : Bundle) : List Sphere → Option Bool
  | [] => some false
  | S :: rest =>
    match IsBlockingSphere s.Bounds B S with
    | none => none
    | some true => some true
    | some false => CullWithSpheres.scan s B rest

/-- The `for (Bundle B : BundleQueue)` loop of `CullWithSpheres`. -/
def CullWithSpheres.run (s : Controller) : List Bundle → List Bundle → Option (List Bundle)
  | [], Remaining => some Remaining
  | B :: rest, Remaining =>
    match CullWithSpheres.scan s B s.Spheres with
    | none => none
    | some Blocked =>
      CullWithSpheres.run s rest (if Blocked then Remaining else Remaining ++ [B])

/-- The source's `CullWithSpheres`. -/
def CullWithSpheres (s : Controller) : Option Controller :=
  match CullWithSpheres.run s s.BundleQueue [] with
  | none => none
  | some Remaining => some { s with BundleQueue := Remaining }

/-- The source's `GetPossibleOccludingCuboids`: every cuboid index. -/
def GetPossibleOccludingCuboids (s : Controller) (_B : Bundle) : List Nat :=
  List.range s.Cuboids.length

/-- Modelled from the spec: the helper `ArgMin(input, length)`, declared outside
the given sources: the position of the oldest timestamp among the first `length`
entries (the first such position when several are equally old). This is the
scan over the remaining positions, `MinI` the best so far. -/
def ArgMin.go (input : Nat → Int) : List Nat → Nat → Nat
  | [], MinI => MinI
  | i :: rest, MinI => if input i < input MinI then ArgMin.go input rest i
      else ArgMin.go input rest MinI

/-- Modelled from the spec: the helper `ArgMin(input, length)`, declared outside
the given sources: the position of the least entry (the oldest timestamp) among
the first `length` entries. -/
def ArgMin (input : Nat → Int) (length : Nat) : Nat :=
  ArgMin.go input (List.range length) 0

/-- The `for (int CuboidI : GetPossibleOccludingCuboids(B))` loop of
`CullWithCuboids` for one bundle: the flag `Blocked`, the caches and the cache
timestamps after the loop. -/
def CullWithCuboids.scan (E : Externals) (s : Controller) (B : Bundle) :
    List Nat → (Nat → Nat → Nat → Nat) × (Nat → Nat → Nat → Int) →
    Option (Bool × (Nat → Nat → Nat → Nat) × (Nat → Nat → Nat → Int))
  | [], (CuboidCaches, CacheTimers) => some (false, CuboidCaches, CacheTimers)
  | CuboidI :: rest, (CuboidCaches, CacheTimers) =>
    match s.Cuboids[CuboidI]? with
    | none => none
    | some C =>
      match IsBlocking E s.Bounds B C with
      | none => none
      | some true =>
        let MinI := ArgMin (CacheTimers B.PlayerI B.EnemyI) E.CUBOID_CACHE_SIZE
        some (true, set3 CuboidCaches B.PlayerI B.EnemyI MinI CuboidI,
          set3 CacheTimers B.PlayerI B.EnemyI MinI s.TotalTicks)
      | some false => CullWithCuboids.scan E s B rest (CuboidCaches, CacheTimers)

/-- The `for (Bundle B : BundleQueue)` loop of `CullWithCuboids`. -/
def CullWithCuboids.run (E : Externals) (s : Controller) :
    List Bundle → (Nat → Nat → Nat → Nat) × (Nat → Nat → Nat → Int) × List Bundle →
    Option ((Nat → Nat → Nat → Nat) × (Nat → Nat → Nat → Int) × List Bundle)
  | [], st => some st
  | B :: rest, (CuboidCaches, CacheTimers, Remaining) =>
    match CullWithCuboids.scan E s B (GetPossibleOccludingCuboids s B)
        (CuboidCaches, CacheTimers) with
    | none => none
    | some (Blocked, CuboidCaches1, CacheTimers1) =>
      CullWithCuboids.run E s rest
        (CuboidCaches1, CacheTimers1, if Blocked then Remaining else Remaining ++ [B])

/-- The source's `CullWithCuboids`. -/
def CullWithCuboids (E : Externals) (s : Controller) : Option Controller :=
  match CullWithCuboids.run E s s.BundleQueue (s.CuboidCaches, s.CacheTimers, []) with
  | none => none
  | some (CuboidCaches, CacheTimers, Remaining) =>
    some { s with CuboidCaches := CuboidCaches, CacheTimers := CacheTimers,
                  BundleQueue := Remaining }

/-- The source's `Cull`: the four steps on a tick whose number is a multiple of
`CullingPeriod`, nothing otherwise; the remainder by zero is a failure. -/
def Cull (E : Externals) (s : Controller) : Option Controller :=
  if s.CullingPeriod = 0 then none
  else if s.TotalTicks.tmod s.CullingPeriod = 0 then
    (((PopulateBundles E s).bind (CullWithCache E)).bind CullWithSpheres).bind
      (CullWithCuboids E)
  else some s

/-! ## Visibility update -/

/-- The value an `int` holds after an arithmetic result `x`: the result modulo
2^32, in the range of a 32-bit two's complement integer. -/
def Int32Wrap (x : Int) : Int := (x + 2147483648) % 4294967296 - 2147483648

/-- The sum of two `int` values as the machine forms it. -/
def Int32Add (a b : Int) : Int := Int32Wrap (a + b)

/-- The first loop of `UpdateVisibility`: each queued bundle sets its pair's
timer to `TimerIncrement + (FMath::Rand() % 3)`, an `int` sum, drawing one
random number. -/
def UpdateVisibility.reset (E : Externals) (TimerIncrement : Int) :
    List Bundle → (Nat → Nat → Int) × Nat → (Nat → Nat → Int) × Nat
  | [], st => st
  | B :: rest, (Timers, RandCalls) =>
    UpdateVisibility.reset E TimerIncrement rest
      (set2 Timers B.PlayerI B.EnemyI
        (Int32Add TimerIncrement ((E.Rand RandCalls % 3 : Nat) : Int)),
        RandCalls + 1)

/-- The source's `SendLocation(i, j)`: the call is recorded, and for a player of
team 0 the sight line between the two centres is drawn. -/
def SendLocation (s : Controller) (i j : Nat) :
    List (Nat × Nat) × List (FVector × FVector) →
    Option (List (Nat × Nat) × List (FVector × FVector))
  | (Sent, Lines) =>
    match s.Teams[i]? with
    | none => none
    | some t =>
      if t = 0 then
        match s.Bounds[i]?, s.Bounds[j]? with
        | some Bi, some Bj =>
          some (Sent ++ [(i, j)], Lines ++ [(Bi.Center + ⟨0, 0, 10⟩, Bj.Center)])
        | _, _ => none
      else some (Sent ++ [(i, j)], Lines)

/-- The `for (int j ...)` loop of the second half of `UpdateVisibility`. -/
def UpdateVisibility.inner (s : Controller) (i : Nat) :
    List Nat → List (Nat × Nat) × List (FVector × FVector) →
    Option (List (Nat × Nat) × List (FVector × FVector))
  | [], log => some log
  | j :: rest, log =>
    match s.IsAlive[j]? with
    | none => none
    | some false => UpdateVisibility.inner s i rest log
    | some true =>
      if s.VisibilityTimers i j > 0 then
        match SendLocation s i j log with
        | none => none
        | some log1 => UpdateVisibility.inner s i rest log1
      else UpdateVisibility.inner s i rest log

/-- The `for (int i ...)` loop of the second half of `UpdateVisibility`. -/
def UpdateVisibility.outer (s : Controller) :
    List Nat → List (Nat × Nat) × List (FVector × FVector) →
    Option (List (Nat × Nat) × List (FVector × FVector))
  | [], log => some log
  | i :: rest, log =>
    match s.IsAlive[i]? with
    | none => none
    | some false => UpdateVisibility.outer s rest log
    | some true =>
      match UpdateVisibility.inner s i (List.range s.Characters.length) log with
      | none => none
      | some log1 => UpdateVisibility.outer s rest log1

/-- The source's `UpdateVisibility`: timer resets for the queued bundles, then
the reports. -/
def UpdateVisibility (E : Externals) (s : Controller) : Option Controller :=
  let r := UpdateVisibility.reset E s.TimerIncrement s.BundleQueue
    (s.VisibilityTimers, s.RandCalls)
  let s1 : Controller := { s with VisibilityTimers := r.1, RandCalls := r.2 }
  match UpdateVisibility.outer s1 (List.range s1.Characters.length) (s1.Sent, s1.Lines) with
  | none => none
  | some (Sent, Lines) => some { s1 with Sent := Sent, Lines := Lines }

/-! ## Scheduler and tick -/

/-- The statistics part of `BenchmarkCull`, after `Cull` and `UpdateVisibility`;
`Delta` is the measured duration of `Cull` in microseconds. The remainder and
the quotient by a zero `RollingWindowLength` are failures. -/
def BenchmarkCull.stats (Delta : Int) (s : Controller) : Option Controller :=
  let s1 : Controller :=
    { s with TotalTime := s.TotalTime + Delta,
             RollingTotalTime := s.RollingTotalTime + Delta,
             RollingMaxTime := max s.RollingMaxTime Delta }
  if s1.RollingWindowLength = 0 then none
  else if s1.TotalTicks.tmod s1.RollingWindowLength = 0 then
    some { s1 with
      RollingAverageTime := s1.RollingTotalTime.tdiv s1.RollingWindowLength,
      TimerIncrement :=
        if s1.RollingMaxTime > s1.TimerLoadThreshold then s1.MaxTimerIncrement
        else s1.MinTimerIncrement,
      RollingTotalTime := 0,
      RollingMaxTime := 0 }
  else some s1

/-- The source's `BenchmarkCull`; `Delta` is what the clock measures around
`Cull`. -/
def BenchmarkCull (E : Externals) (Delta : Int) (s : Controller) : Option Controller :=
  ((Cull E s).bind (UpdateVisibility E)).bind (BenchmarkCull.stats Delta)

/-- The source's `Tick`: the tick counter advances, then `BenchmarkCull`. -/
def Tick (E : Externals) (Delta : Int) (s : Controller) : Option Controller :=
  BenchmarkCull E Delta { s with TotalTicks := s.TotalTicks + 1 }

/-! ## Predicates used to state the blocking tests -/

/-- The parameter `u` of the point of the line through `Peek` and `V` that is
closest to `Center`, by the formula of `IsBlocking(Bundle, Sphere)` in exact
arithmetic. -/
def ClosestParameter (Peek V Center : FVector) : ℚ :=
  FVector.dot (V - Peek) (Center - Peek) / FVector.dot (V - Peek) (V - Peek)

/-- The closest point `Peek + u (V - Peek)`, in exact arithmetic. -/
def ClosestPoint (Peek V Center : FVector) : FVector :=
  Peek + FVector.smul (ClosestParameter Peek V Center) (V - Peek)

/-- The segment from `Peek` to `V` intersects the sphere in the sense of the
sphere test, read in exact arithmetic: `u` strictly between 0 and 1 and the
closest point within the radius. -/
def IntersectsSphere (S : Sphere) (Peek V : FVector) : Prop :=
  0 < ClosestParameter Peek V S.Center ∧ ClosestParameter Peek V S.Center < 1 ∧
    (S.Center - ClosestPoint Peek V S.Center).SizeSquared ≤ S.Radius * S.Radius

instance (S : Sphere) (Peek V : FVector) : Decidable (IntersectsSphere S Peek V) := by
  unfold IntersectsSphere; infer_instance

/-- The parameter `u` in single precision: the quotient of the two dot
products, every operation rounded. -/
def ClosestParameter32 (Peek V Center : FVector) : F32 :=
  F32.div
    (FVector32.dot (FVector32.sub V.toF32 Peek.toF32) (FVector32.sub Center.toF32 Peek.toF32))
    (FVector32.dot (FVector32.sub V.toF32 Peek.toF32) (FVector32.sub V.toF32 Peek.toF32))

/-- The closest point `Peek + u (V - Peek)` in single precision. -/
def ClosestPoint32 (Peek V Center : FVector) : FVector32 :=
  FVector32.add Peek.toF32
    (FVector32.smul (ClosestParameter32 Peek V Center) (FVector32.sub V.toF32 Peek.toF32))

/-- The squared distance from the sphere centre to the closest point, in single
precision. -/
def ClosestDistanceSquared32 (Peek V Center : FVector) : F32 :=
  (FVector32.sub Center.toF32 (ClosestPoint32 Peek V Center)).SizeSquared

/-- The squared radius of a sphere in single precision. -/
def RadiusSquared32 (S : Sphere) : F32 := F32.mul (F32.round S.Radius) (F32.round S.Radius)

/-- The segment from `Peek` to `V` intersects the sphere in single precision:
the rounded `u` lies strictly between 0 and 1 and the rounded squared distance
of the closest point does not exceed the rounded squared radius. -/
def IntersectsSphere32 (S : Sphere) (Peek V : FVector) : Prop :=
  F32.lt (.fin 0) (ClosestParameter32 Peek V S.Center) = true ∧
  F32.lt (ClosestParameter32 Peek V S.Center) (.fin 1) = true ∧
  F32.lt (RadiusSquared32 S) (ClosestDistanceSquared32 Peek V S.Center) = false

instance (S : Sphere) (Peek V : FVector) : Decidable (IntersectsSphere32 S Peek V) := by
  unfold IntersectsSphere32; infer_instance

/-- The vertex group tested for peek `i`: the top vertices for the first two
peeks, the bottom vertices for the others. -/
def TestedVertices (EB : CharacterBounds) (i : Nat) : List FVector :=
  if i < 2 then EB.TopVertices else EB.BottomVertices

/-! ## A reference geometry and a small scene

The theorems below hold for every `Externals`. To run the controller on
concrete inputs, the geometry header is given a reference reading here. -/

/-- Modelled from the spec: the face loop of `IntersectionTime` of the geometry
header, which is not among the sources: the segment is clipped against the plane
of each face, entering where it runs against the outward normal and leaving
where it runs along it; `none` (not a number) as soon as it leaves before it
enters or lies outside a face it runs parallel to. -/
def IntersectionTime.clip (C : Cuboid) (Start Direction : FVector) :
    List Face → ℚ → ℚ → Option ℚ
  | [], TimeEnter, _ => some TimeEnter
  | F :: rest, TimeEnter, TimeExit =>
    let FaceV := C.Vertices.getD (F.Perimeter.getD 0 0) ⟨0, 0, 0⟩
    let Num := FVector.dot F.Normal (FaceV - Start)
    let Denom := FVector.dot Direction F.Normal
    if Denom = 0 then
      if Num < 0 then none else IntersectionTime.clip C Start Direction rest TimeEnter TimeExit
    else
      let t := Num / Denom
      let TimeEnter1 := if Denom < 0 then max TimeEnter t else TimeEnter
      let TimeExit1 := if Denom < 0 then TimeExit else min TimeExit t
      if TimeEnter1 > TimeExit1 then none
      else IntersectionTime.clip C Start Direction rest TimeEnter1 TimeExit1

/-- Modelled from the spec: `IntersectionTime(C, Start, Direction)` of the
geometry header, which is not among the sources: the parametric time in [0, 1]
at which the segment from `Start` to `Start + Direction` enters the cuboid,
computed against the cuboid's face planes, and `none` (the not-a-number
sentinel) when the segment does not hit the cuboid. -/
def IntersectionTime (C : Cuboid) (Start Direction : FVector) : Option ℚ :=
  IntersectionTime.clip C Start Direction C.Faces 0 1

/-- An axis-aligned cuboid between the corners `lo` and `hi`, with outward
normals and perimeters wound counter-clockwise seen from outside. -/
def Scene.Box (lo hi : FVector) : Cuboid where
  Vertices :=
    [⟨lo.X, lo.Y, lo.Z⟩, ⟨hi.X, lo.Y, lo.Z⟩, ⟨lo.X, hi.Y, lo.Z⟩, ⟨hi.X, hi.Y, lo.Z⟩,
     ⟨lo.X, lo.Y, hi.Z⟩, ⟨hi.X, lo.Y, hi.Z⟩, ⟨lo.X, hi.Y, hi.Z⟩, ⟨hi.X, hi.Y, hi.Z⟩]
  Faces :=
    [⟨⟨-1, 0, 0⟩, [0, 4, 6, 2]⟩, ⟨⟨1, 0, 0⟩, [1, 3, 7, 5]⟩,
     ⟨⟨0, -1, 0⟩, [0, 1, 5, 4]⟩, ⟨⟨0, 1, 0⟩, [2, 6, 7, 3]⟩,
     ⟨⟨0, 0, -1⟩, [0, 2, 3, 1]⟩, ⟨⟨0, 0, 1⟩, [4, 5, 7, 6]⟩]

/-- A bounds constructor for the scene: the centre is the translation, the top
vertices lie 2 above and the bottom vertices 2 below it, 1 to each side. -/
def Scene.MakeBounds (CameraLocation : FVector) (T : FTransform) : CharacterBounds where
  CameraLocation := CameraLocation
  Center := T.Translation
  TopVertices :=
    [T.Translation + ⟨1, 1, 2⟩, T.Translation + ⟨1, -1, 2⟩,
     T.Translation + ⟨-1, 1, 2⟩, T.Translation + ⟨-1, -1, 2⟩]
  BottomVertices :=
    [T.Translation + ⟨1, 1, -2⟩, T.Translation + ⟨1, -1, -2⟩,
     T.Translation + ⟨-1, 1, -2⟩, T.Translation + ⟨-1, -1, -2⟩]

/-- The externals of the scene: the reference `IntersectionTime`, an inverse
square root that is exact on the squared distance 10000 occurring in the scene,
the scene's bounds constructor, a random source whose `n`-th draw is `n`, and a
cache of 2 slots per pair. -/
def Scene.E : Externals where
  IntersectionTime := IntersectionTime
  InvSqrt := fun x => if x = 10000 then 1 / 100 else 1
  MakeBounds := Scene.MakeBounds
  Rand := fun n => n
  CUBOID_CACHE_SIZE := 2

/-- A character of the scene standing at `p`, camera at the same point. -/
def Scene.CharacterAt (Team : Int) (p : FVector) : Character :=
  ⟨Team, p, ⟨p, ⟨1, 0, 0⟩, ⟨0, 1, 0⟩, ⟨0, 0, 1⟩⟩⟩

/-- A wall across the line between the two characters of the scene. -/
def Scene.Wall : Cuboid := Scene.Box ⟨49, -1000, -1000⟩ ⟨51, 1000, 1000⟩

/-- A controller before its first tick: the given characters, liveness flags
and occluders, all timers and caches zero, a cull on every tick, timer
increment between 3 and 9, statistics window of 4 ticks. -/
def Scene.Start (Characters : List Character) (IsAlive : List Bool)
    (Cuboids : List Cuboid) (Spheres : List Sphere) : Controller where
  Characters := Characters
  IsAlive := IsAlive
  Teams := Characters.map (fun c => c.Team)
  Cuboids := Cuboids
  Spheres := Spheres
  Bounds := []
  BundleQueue := []
  VisibilityTimers := fun _ _ => 0
  CuboidCaches := fun _ _ _ => 0
  CacheTimers := fun _ _ _ => 0
  TotalTicks := 0
  CullingPeriod := 1
  TimerIncrement := 3
  MinTimerIncrement := 3
  MaxTimerIncrement := 9
  TimerLoadThreshold := 1000
  RollingWindowLength := 4
  TotalTime := 0
  RollingTotalTime := 0
  RollingMaxTime := 0
  RollingAverageTime := 0
  RandCalls := 0
  Sent := []
  Lines := []

/-- Two living characters of teams 0 and 1, 100 apart along the X axis. -/
def Scene.Duel : List Character :=
  [Scene.CharacterAt 0 ⟨0, 0, 0⟩, Scene.CharacterAt 1 ⟨100, 0, 0⟩]

/-- The bounds of the two characters of `Scene.Duel`. -/
def Scene.DuelBounds : List CharacterBounds :=
  Scene.Duel.map (fun c => Scene.MakeBounds c.CameraLocation c.Transform)

/-- The bundle of player 0 looking at enemy 1 in `Scene.Duel`, with the peeks
`GetPossiblePeeks` gives for them. -/
def Scene.DuelBundle : Bundle :=
  ⟨0, 1, [⟨0, 15, 10⟩, ⟨0, -15, 10⟩, ⟨0, -15, -10⟩, ⟨0, 15, -10⟩]⟩

/-- A wall of height 5 across the line between the two characters. -/
def Scene.LowWall : Cuboid := Scene.Box ⟨49, -1000, -1000⟩ ⟨51, 1000, 5⟩

/-- Bounds of an enemy at (100, 0, 0) that is turned upside down: the vertices
of its top group lie 2 below the centre and those of its bottom group 2 above. -/
def Scene.UpsideDownBounds : List CharacterBounds :=
  [⟨⟨0, 0, 0⟩, ⟨0, 0, 0⟩, [], []⟩,
   ⟨⟨100, 0, 0⟩, ⟨100, 0, 0⟩,
    [⟨101, 1, -2⟩, ⟨101, -1, -2⟩, ⟨99, 1, -2⟩, ⟨99, -1, -2⟩],
    [⟨101, 1, 2⟩, ⟨101, -1, 2⟩, ⟨99, 1, 2⟩, ⟨99, -1, 2⟩]⟩]

/-- A large sphere centred between the two characters of the scene. -/
def Scene.Ball : Sphere := ⟨⟨50, 0, 0⟩, 40⟩

/-- A sphere between the two characters of the scene that reaches just beyond
the outermost tested segments of the bundle of player 0: its radius is the
smallest `float` whose exact square is not below the largest exact squared
distance from its centre to the closest points of these segments. -/
def Scene.Grazing : Sphere := ⟨⟨37, 1, 0⟩, 6714045 / 524288⟩

/-! ## Predicates used to state the cull stages -/

/-- Some cached cuboid of the bundle's pair blocks the bundle. -/
def BlockedByCache (E : Externals) (s : Controller) (B : Bundle) : Bool :=
  (List.range E.CUBOID_CACHE_SIZE).any fun k =>
    match s.Cuboids[s.CuboidCaches B.PlayerI B.EnemyI k]? with
    | some C => IsBlocking E s.Bounds B C == some true
    | none => false

/-- Some sphere blocks the bundle. -/
def BlockedBySphere (s : Controller) (B : Bundle) : Bool :=
  s.Spheres.any fun S => IsBlockingSphere s.Bounds B S == some true

/-- Some cuboid returned by `GetPossibleOccludingCuboids` blocks the bundle. -/
def BlockedByCuboid (E : Externals) (s : Controller) (B : Bundle) : Bool :=
  (GetPossibleOccludingCuboids s B).any fun CuboidI =>
    match s.Cuboids[CuboidI]? with
    | some C => IsBlocking E s.Bounds B C == some true
    | none => false

/-- The queue is ready for the cull stages: every queued bundle has its
`NUM_PEEKS` peeks, its enemy has bounds, and the cache entries of its pair are
indices of cuboids. -/
def QueueReady (E : Externals) (s : Controller) : Prop :=
  ∀ B ∈ s.BundleQueue, B.EnemyI < s.Bounds.length ∧ NUM_PEEKS ≤ B.PossiblePeeks.length ∧
    ∀ k, k < E.CUBOID_CACHE_SIZE → s.CuboidCaches B.PlayerI B.EnemyI k < s.Cuboids.length

instance (E : Externals) (s : Controller) : Decidable (QueueReady E s) := by
  unfold QueueReady; infer_instance

/-- Three living characters: player 0 of team 0 at the origin, enemies 1 and 2 of
team 1 at distance 100 along the X axis and along the Y axis. -/
def Scene.Trio : List Character :=
  [Scene.CharacterAt 0 ⟨0, 0, 0⟩, Scene.CharacterAt 1 ⟨100, 0, 0⟩,
   Scene.CharacterAt 1 ⟨0, 100, 0⟩]

/-- The trio with the wall between characters 0 and 1, before the first tick. -/
def Scene.TrioStart : Controller :=
  Scene.Start Scene.Trio [true, true, true] [Scene.Wall] []

/-- The trio after `PopulateBundles`: bounds refreshed and four bundles queued. -/
def Scene.TrioQueued : Controller :=
  (PopulateBundles Scene.E Scene.TrioStart).getD Scene.TrioStart

/-! ## Predicates used to state bundle generation -/

/-- The decrement of `PopulateBundles` on one timer: a positive timer goes down
by one, any other value stays. -/
def Decremented (t : Int) : Int := if t > 0 then t - 1 else t

/-- The test of `PopulateBundles` for the pair `(i, j)` of a living player `i`,
on the timers `T` before the row of `i` is visited: the decremented timer is 0,
the enemy is alive and the teams differ. -/
def Eligible (s : Controller) (T : Nat → Nat → Int) (i j : Nat) : Prop :=
  Decremented (T i j) = 0 ∧ s.IsAlive[j]? = some true ∧ s.Teams[i]? ≠ s.Teams[j]?

instance (s : Controller) (T : Nat → Nat → Int) (i j : Nat) : Decidable (Eligible s T i j) := by
  unfold Eligible; infer_instance

/-- What `PopulateBundles` guarantees of a bundle it queues: both teams are
recorded and differ, both characters have bounds, and the peeks are those of
`GetPossiblePeeks` from the player's camera to the enemy's centre. -/
def Generated (E : Externals) (s : Controller) (Bounds : List CharacterBounds) (B : Bundle) :
    Prop :=
  (∃ ti tj, s.Teams[B.PlayerI]? = some ti ∧ s.Teams[B.EnemyI]? = some tj ∧ ti ≠ tj) ∧
  ∃ Bi Bj, Bounds[B.PlayerI]? = some Bi ∧ Bounds[B.EnemyI]? = some Bj ∧
    B.PossiblePeeks = GetPossiblePeeks E Bi.CameraLocation Bj.Center 15 10

/-- The pairs `PopulateBundles` queues while it visits the players `is` in
order, on the timers `T` before the visit: for each living player the eligible
enemies in increasing order. -/
def QueuedPairs (s : Controller) (T : Nat → Nat → Int) : List Nat → List (Nat × Nat)
  | [] => []
  | i :: rest =>
    (if s.IsAlive[i]? = some true then
      ((List.range s.Characters.length).filter (fun j => decide (Eligible s T i j))).map
        (fun j => (i, j))
    else []) ++ QueuedPairs s T rest

/-- The parallel arrays `Characters`, `IsAlive` and `Teams` have one entry per
character, as `BeginPlay` fills them. -/
def ArraysAligned (s : Controller) : Prop :=
  s.IsAlive.length = s.Characters.length ∧ s.Teams.length = s.Characters.length

/-- No dead character has a lower index than a living one. -/
def AlivePrefix (s : Controller) : Prop :=
  ∀ i k : Nat, k < i → s.IsAlive[i]? = some true → s.IsAlive[k]? = some true

instance (s : Controller) : Decidable (ArraysAligned s) := by
  unfold ArraysAligned; infer_instance

/-- The duel after character 1 has died: the timer of the living player 0
towards 1 stands at 3, the timer of the dead player 1 towards 0 at 5. -/
def Scene.DeadWatcher : Controller :=
  { Scene.Start Scene.Duel [true, false] [Scene.Wall] [] with
    VisibilityTimers := fun a b =>
      if a = 0 ∧ b = 1 then 3 else if a = 1 ∧ b = 0 then 5 else 0 }

/-! ## Predicates used to state the visibility update -/

/-- The pairs `UpdateVisibility` reports while it visits the players `is` in
order: for each living player the living enemies with a positive timer, in
increasing order. -/
def ReportedPairs (s : Controller) : List Nat → List (Nat × Nat)
  | [] => []
  | i :: rest =>
    (if s.IsAlive[i]? = some true then
      ((List.range s.Characters.length).filter
        (fun j => decide (s.IsAlive[j]? = some true ∧ 0 < s.VisibilityTimers i j))).map
        (fun j => (i, j))
    else []) ++ ReportedPairs s rest

/-- The fields no cull stage writes are the same in `s1` as in `s`. -/
def CullFrame (s s1 : Controller) : Prop :=
  s1.Characters = s.Characters ∧ s1.IsAlive = s.IsAlive ∧ s1.Teams = s.Teams ∧
  s1.Cuboids = s.Cuboids ∧ s1.Spheres = s.Spheres ∧ s1.TotalTicks = s.TotalTicks ∧
  s1.CullingPeriod = s.CullingPeriod ∧ s1.TimerIncrement = s.TimerIncrement ∧
  s1.RollingWindowLength = s.RollingWindowLength ∧ s1.RandCalls = s.RandCalls ∧
  s1.Sent = s.Sent ∧ s1.Lines = s.Lines

/-- Every living character has bounds. -/
def BoundsCover (s : Controller) : Prop :=
  ∀ i, i < s.Characters.length → s.IsAlive[i]? = some true → i < s.Bounds.length

/-- The trio before a cull tick of a controller that culls every second tick. -/
def Scene.TrioSlow : Controller :=
  { Scene.TrioStart with TotalTicks := 1, CullingPeriod := 2 }

/-- The trio before its first tick, with the timer increment configured at the
largest `int`. -/
def Scene.TrioMaxed : Controller :=
  { Scene.TrioStart with TimerIncrement := 2147483647, MaxTimerIncrement := 2147483647 }

/-- The trio one tick later: the cull tick 2 has run, the bundles of the pairs
(0, 2) and (2, 0) survived and are still queued, their timers stand at 3 and 4. -/
def Scene.TrioAfterCull : Controller :=
  (Tick Scene.E 7 Scene.TrioSlow).getD Scene.TrioSlow

/-- The same state after character 2 has died. -/
def Scene.TrioAfterDeath : Controller :=
  { Scene.TrioAfterCull with IsAlive := [true, true, false] }

/-! ## Predicates used to state the cache update -/

/-- The first cuboid index, in the order of `GetPossibleOccludingCuboids`, whose
cuboid blocks the bundle. -/
def FirstBlocker (E : Externals) (s : Controller) (B : Bundle) : Option Nat :=
  (GetPossibleOccludingCuboids s B).find? fun CuboidI =>
    match s.Cuboids[CuboidI]? with
    | some C => IsBlocking E s.Bounds B C == some true
    | none => false

/-- A small box high above the scene, which blocks no line of sight. -/
def Scene.Pebble : Cuboid := Scene.Box ⟨0, 0, 500⟩ ⟨1, 1, 501⟩

/-- The duel with two cuboids, the pebble at index 0 and the wall at index 1,
after `PopulateBundles` of tick 5: both bundles are queued, and the caches are
still in their initial state, all entries 0 with timestamp 0. -/
def Scene.TwoCuboidsQueued : Controller :=
  (PopulateBundles Scene.E
      { Scene.Start Scene.Duel [true, true] [Scene.Pebble, Scene.Wall] [] with
        TotalTicks := 5 }).getD
    (Scene.Start Scene.Duel [true, true] [Scene.Pebble, Scene.Wall] [])

/-- A sufficient condition for a tick to return: the two periods are not zero,
the character arrays are aligned, no dead character precedes a living one, every
cache entry is the index of a cuboid, and, when the tick is a skipped one, every
living character still has bounds from an earlier cull. -/
def TickReady (E : Externals) (s : Controller) : Prop :=
  s.CullingPeriod ≠ 0 ∧ s.RollingWindowLength ≠ 0 ∧ ArraysAligned s ∧ AlivePrefix s ∧
  (∀ i j k, k < E.CUBOID_CACHE_SIZE → s.CuboidCaches i j k < s.Cuboids.length) ∧
  ((s.TotalTicks + 1).tmod s.CullingPeriod ≠ 0 → BoundsCover s)

/-! ## The parts of `GetPossiblePeeks` -/

/-- The local `PlayerToEnemy` of `GetPossiblePeeks`: the safely normalised
direction from the camera to the enemy. -/
def GetPossiblePeeks.PlayerToEnemy (E : Externals)
    (PlayerCameraLocation EnemyLocation : FVector) : FVector :=
  GetSafeNormal E (EnemyLocation - PlayerCameraLocation) (1 / 1000000)

/-- The local `Horizontal` of `GetPossiblePeeks`. -/
def GetPossiblePeeks.Horizontal (E : Externals)
    (PlayerCameraLocation EnemyLocation : FVector) (MaxDeltaHorizontal : ℚ) : FVector :=
  FVector.smul MaxDeltaHorizontal
    ⟨-(GetPossiblePeeks.PlayerToEnemy E PlayerCameraLocation EnemyLocation).Y,
      (GetPossiblePeeks.PlayerToEnemy E PlayerCameraLocation EnemyLocation).X, 0⟩

/-- The local `Vertical` of `GetPossiblePeeks`. -/
def GetPossiblePeeks.Vertical (MaxDeltaVertical : ℚ) : FVector := ⟨0, 0, MaxDeltaVertical⟩

/-- The bounds `PopulateBundles` computes for a character. -/
def BoundsOf (E : Externals) (Ch : Character) : CharacterBounds :=
  E.MakeBounds Ch.CameraLocation Ch.Transform

/-- The duel in which character 0 is dead and character 1 alive. -/
def Scene.DeadFirst : Controller :=
  Scene.Start Scene.Duel [false, true] [Scene.Wall] []

/-! ## Fixture for the scene without occluders -/

/-- The duel with no cuboid and no sphere, before its first tick. -/
def Scene.OpenDuel : Controller := Scene.Start Scene.Duel [true, true] [] []

/-! ## Predicates used to state whole ticks -/

/-- The scene and the configuration, which no tick writes, are the same in `s1`
as in `s`. -/
def StaticFrame (s s1 : Controller) : Prop :=
  s1.Characters = s.Characters ∧ s1.IsAlive = s.IsAlive ∧ s1.Teams = s.Teams ∧
  s1.Cuboids = s.Cuboids ∧ s1.Spheres = s.Spheres ∧ s1.CullingPeriod = s.CullingPeriod ∧
  s1.RollingWindowLength = s.RollingWindowLength ∧
  s1.MinTimerIncrement = s.MinTimerIncrement ∧ s1.MaxTimerIncrement = s.MaxTimerIncrement ∧
  s1.TimerLoadThreshold = s.TimerLoadThreshold

/-- The scheduler's variables, which only the statistics part of `BenchmarkCull`
and `Tick` write, are the same in `s1` as in `s`. -/
def SchedulerFrame (s s1 : Controller) : Prop :=
  s1.TotalTicks = s.TotalTicks ∧ s1.TimerIncrement = s.TimerIncrement ∧
  s1.TotalTime = s.TotalTime ∧ s1.RollingTotalTime = s.RollingTotalTime ∧
  s1.RollingMaxTime = s.RollingMaxTime ∧ s1.RollingAverageTime = s.RollingAverageTime

/-- Some cached cuboid, some sphere or some cuboid of the scene blocks the
bundle: the bundle is removed by one of the three cull stages. -/
def Blocked (E : Externals) (s : Controller) (B : Bundle) : Bool :=
  BlockedByCache E s B || BlockedBySphere s B || BlockedByCuboid E s B

/-! ## Fixtures for the degenerate peek direction -/

/-- Two living characters of teams 0 and 1 standing at the same point, so that
the camera of either is the centre of the other. -/
def Scene.Overlap : List Character :=
  [Scene.CharacterAt 0 ⟨0, 0, 0⟩, Scene.CharacterAt 1 ⟨0, 0, 0⟩]

/-- A pillar around the origin, reaching from 6 below to 6 above it. -/
def Scene.Pillar : Cuboid := Scene.Box ⟨-3, -3, -6⟩ ⟨3, 3, 6⟩

/-- The overlapping characters inside the pillar, before the first tick. -/
def Scene.Buried : Controller := Scene.Start Scene.Overlap [true, true] [Scene.Pillar] []

/-- The overlapping characters with the pebble high above as the only
occluder, before the first tick. -/
def Scene.Unburied : Controller := Scene.Start Scene.Overlap [true, true] [Scene.Pebble] []

/-- The state after `PopulateBundles` of the first tick of `s`. -/
def Scene.Queued (s : Controller) : Controller :=
  (PopulateBundles Scene.E { s with TotalTicks := s.TotalTicks + 1 }).getD s

/-- The bundle of player 0 looking at enemy 1 when both stand at the origin:
the horizontal displacement is zero, so the peeks are 10 above and 10 below the
camera, each twice. -/
def Scene.OverlapBundle : Bundle :=
  ⟨0, 1, [⟨0, 0, 10⟩, ⟨0, 0, 10⟩, ⟨0, 0, -10⟩, ⟨0, 0, -10⟩]⟩

/-! ## Predicates used to state blocked pairs over several ticks -/

/-- The bounds the first loop of `PopulateBundles` computes from the characters
and the liveness flags of `s` (empty when that loop fails). -/
def RefreshedBounds (E : Externals) (s : Controller) : List CharacterBounds :=
  (PopulateBundles.bounds E s (List.range s.Characters.length) []).getD []

/-- The bundle `PopulateBundles` builds for the pair `(p, e)` from the refreshed
bounds. -/
def BundleOf (E : Externals) (s : Controller) (p e : Nat) : Option Bundle :=
  match (RefreshedBounds E s)[p]?, (RefreshedBounds E s)[e]? with
  | some Bp, some Be => some ⟨p, e, GetPossiblePeeks E Bp.CameraLocation Be.Center 15 10⟩
  | _, _ => none

/-- The cuboid of index `c` blocks the bundle of the pair `(p, e)`: `IsBlocking`
is true for it on the refreshed bounds. -/
def CuboidBlocksPair (E : Externals) (s : Controller) (p e c : Nat) : Bool :=
  match BundleOf E s p e, s.Cuboids[c]? with
  | some B, some C => IsBlocking E (RefreshedBounds E s) B C == some true
  | _, _ => false

/-- Some sphere blocks the bundle of the pair `(p, e)`. -/
def SphereBlocksPair (E : Externals) (s : Controller) (p e : Nat) : Bool :=
  match BundleOf E s p e with
  | some B => s.Spheres.any fun S => IsBlockingSphere (RefreshedBounds E s) B S == some true
  | none => false

/-- Some slot of `CuboidCaches[p][e]` holds the index of a cuboid that blocks
the bundle of the pair `(p, e)`. -/
def CacheHoldsBlocker (E : Externals) (s : Controller) (p e : Nat) : Bool :=
  (List.range E.CUBOID_CACHE_SIZE).any fun k => CuboidBlocksPair E s p e (s.CuboidCaches p e k)

/-- Successive ticks of the controller with the measured cull durations
`Deltas`, nothing else touching the controller in between. -/
def Run (E : Externals) : List Int → Controller → Option Controller
  | [], s => some s
  | Delta :: rest, s => (Tick E Delta s).bind (Run E rest)

/-! ## Fixtures for the blocked pair -/

/-- The duel with the pebble at index 0 and the wall at index 1, before the
first tick. -/
def Scene.Walled : Controller :=
  Scene.Start Scene.Duel [true, true] [Scene.Pebble, Scene.Wall] []

/-- The same duel with the ball between the two characters as well. -/
def Scene.Shaded : Controller :=
  Scene.Start Scene.Duel [true, true] [Scene.Pebble, Scene.Wall] [Scene.Ball]

/-! ## The shadow frustum -/

/-- The engine's `FPlane(A, B, C)`, the plane through three points, recorded by
the three points it is constructed from, in this order; the engine's plane
arithmetic is outside the sources. -/
structure FPlane where
  A : FVector
  B : FVector
  C : FVector
deriving DecidableEq

/-- The number of vertices of a cuboid, the dimension of the source's
`EdgeSet[CUBOID_V][CUBOID_V]`, which is initialised with 8 rows of 8 entries. -/
def CUBOID_V : Nat := 8

/-- Modelled from the spec: the number of faces of a cuboid, a constant of the
geometry header, which is not among the sources: a cuboid has 6 faces. -/
def CUBOID_F : Nat := 6

/-- Modelled from the spec: `GetVertex(i, j)` of the geometry header, which is
not among the sources: the `j`-th perimeter vertex of face `i`. -/
def Cuboid.GetVertex (C : Cuboid) (i j : Nat) : Option FVector :=
  match C.Faces[i]? with
  | none => none
  | some F =>
    match F.Perimeter[j]? with
    | none => none
    | some v => C.Vertices[v]?

/-- The `for (int i ...)` loop of `GetFacesBetween`, over the remaining face
indices, `FacesBetween` so far in the accumulator. -/
def GetFacesBetween.loop (PlayerCameraLocation EnemyCenter : FVector) (OccludingCuboid : Cuboid) :
    List Nat → List Face → Option (List Face)
  | [], FacesBetween => some FacesBetween
  | i :: rest, FacesBetween =>
    match OccludingCuboid.Faces[i]?, OccludingCuboid.GetVertex i 0 with
    | some F, some FaceV =>
      if FVector.dot (FaceV - PlayerCameraLocation) F.Normal < 0
          ∧ FVector.dot (FaceV - EnemyCenter) F.Normal > 0 then
        GetFacesBetween.loop PlayerCameraLocation EnemyCenter OccludingCuboid rest
          (FacesBetween ++ [F])
      else
        GetFacesBetween.loop PlayerCameraLocation EnemyCenter OccludingCuboid rest FacesBetween
    | _, _ => none

/-- The source's `GetFacesBetween`. -/
def GetFacesBetween (PlayerCameraLocation EnemyCenter : FVector) (OccludingCuboid : Cuboid) :
    Option (List Face) :=
  GetFacesBetween.loop PlayerCameraLocation EnemyCenter OccludingCuboid (List.range CUBOID_F) []

/-- The first loop of `GetShadowFrustum`: the four perimeter edges of every face
are entered into `EdgeSet`; an index outside the array is a failure. -/
def GetShadowFrustum.mark : List Face → (Nat → Nat → Bool) → Option (Nat → Nat → Bool)
  | [], EdgeSet => some EdgeSet
  | F :: rest, EdgeSet =>
    match F.Perimeter[0]?, F.Perimeter[1]?, F.Perimeter[2]?, F.Perimeter[3]? with
    | some V0, some V1, some V2, some V3 =>
      if V0 < CUBOID_V ∧ V1 < CUBOID_V ∧ V2 < CUBOID_V ∧ V3 < CUBOID_V then
        GetShadowFrustum.mark rest
          (set2 (set2 (set2 (set2 EdgeSet V0 V1 true) V1 V2 true) V2 V3 true) V3 V0 true)
      else none
    | _, _, _, _ => none

/-- One `if (!EdgeSet[Vb][Va]) ShadowFrustum.Emplace(FPlane(camera, Vertices[Va],
Vertices[Vb]))` of the second loop of `GetShadowFrustum`. -/
def GetShadowFrustum.edge (PlayerCameraLocation : FVector) (OccludingCuboid : Cuboid)
    (EdgeSet : Nat → Nat → Bool) (Va Vb : Nat) (ShadowFrustum : List FPlane) :
    Option (List FPlane) :=
  if EdgeSet Vb Va then some ShadowFrustum
  else
    match OccludingCuboid.Vertices[Va]?, OccludingCuboid.Vertices[Vb]? with
    | some A, some B => some (ShadowFrustum ++ [⟨PlayerCameraLocation, A, B⟩])
    | _, _ => none

/-- The second loop of `GetShadowFrustum`: for every face the edges (V0, V1),
(V1, V2), (V2, V3), (V3, V0) in this order. -/
def GetShadowFrustum.build (PlayerCameraLocation : FVector) (OccludingCuboid : Cuboid)
    (EdgeSet : Nat → Nat → Bool) : List Face → List FPlane → Option (List FPlane)
  | [], ShadowFrustum => some ShadowFrustum
  | F :: rest, ShadowFrustum =>
    match F.Perimeter[0]?, F.Perimeter[1]?, F.Perimeter[2]?, F.Perimeter[3]? with
    | some V0, some V1, some V2, some V3 =>
      ((((GetShadowFrustum.edge PlayerCameraLocation OccludingCuboid EdgeSet V0 V1
            ShadowFrustum).bind
          (GetShadowFrustum.edge PlayerCameraLocation OccludingCuboid EdgeSet V1 V2)).bind
          (GetShadowFrustum.edge PlayerCameraLocation OccludingCuboid EdgeSet V2 V3)).bind
          (GetShadowFrustum.edge PlayerCameraLocation OccludingCuboid EdgeSet V3 V0)).bind
        (GetShadowFrustum.build PlayerCameraLocation OccludingCuboid EdgeSet rest)
    | _, _, _, _ => none

/-- The source's `GetShadowFrustum`: the planes are appended to the
`ShadowFrustum` passed in. -/
def GetShadowFrustum (PlayerCameraLocation : FVector) (OccludingCuboid : Cuboid)
    (FacesBetween : List Face) (ShadowFrustum : List FPlane) : Option (List FPlane) :=
  match GetShadowFrustum.mark FacesBetween (fun _ _ => false) with
  | none => none
  | some EdgeSet =>
    GetShadowFrustum.build PlayerCameraLocation OccludingCuboid EdgeSet FacesBetween
      ShadowFrustum

/-! ## Predicates used to state the shadow frustum -/

/-- The four directed edges of a perimeter, in the order of the source: (V0, V1),
(V1, V2), (V2, V3), (V3, V0). -/
def EdgesOf (Perimeter : List Nat) : List (Nat × Nat) :=
  match Perimeter[0]?, Perimeter[1]?, Perimeter[2]?, Perimeter[3]? with
  | some V0, some V1, some V2, some V3 => [(V0, V1), (V1, V2), (V2, V3), (V3, V0)]
  | _, _, _, _ => []

/-- The directed perimeter edges of a list of perimeters, face after face. -/
def AllEdgesOf : List (List Nat) → List (Nat × Nat)
  | [] => []
  | Perimeter :: rest => EdgesOf Perimeter ++ AllEdgesOf rest

/-- The directed perimeter edges of the faces, face after face. -/
def AllEdges (Faces : List Face) : List (Nat × Nat) :=
  AllEdgesOf (Faces.map (fun F => F.Perimeter))

/-- The silhouette edges of a list of perimeters: the directed perimeter edges
(i, j) whose reverse (j, i) is not a perimeter edge of any of them. -/
def SilhouetteOf (Perimeters : List (List Nat)) : List (Nat × Nat) :=
  (AllEdgesOf Perimeters).filter (fun e => !decide ((e.2, e.1) ∈ AllEdgesOf Perimeters))

/-- The silhouette edges of the faces. -/
def SilhouetteEdges (Faces : List Face) : List (Nat × Nat) :=
  SilhouetteOf (Faces.map (fun F => F.Perimeter))

/-- The plane is the one built from the camera location and the two vertices of
the directed edge, in this order. -/
def PlaneOfEdge (PlayerCameraLocation : FVector) (OccludingCuboid : Cuboid)
    (Plane : FPlane) (e : Nat × Nat) : Prop :=
  ∃ A B, OccludingCuboid.Vertices[e.1]? = some A ∧ OccludingCuboid.Vertices[e.2]? = some B ∧
    Plane = ⟨PlayerCameraLocation, A, B⟩

/-- Every face has four perimeter indices, each the index of a vertex. -/
def FacesValid (Faces : List Face) : Prop :=
  ∀ F ∈ Faces, F.Perimeter.length = 4 ∧ ∀ v ∈ F.Perimeter, v < CUBOID_V

instance (Faces : List Face) : Decidable (FacesValid Faces) := by
  unfold FacesValid; infer_instance

/-! ## Fixtures for the shadow frustum -/

/-- The box between (-1, -1, -1) and (1, 1, 1). -/
def Scene.Crate : Cuboid := Scene.Box ⟨-1, -1, -1⟩ ⟨1, 1, 1⟩

/-- The two faces of the crate towards negative X and towards negative Y, which
share the edge between the vertices 0 and 4. -/
def Scene.CrateCorner : List Face :=
  [⟨⟨-1, 0, 0⟩, [0, 4, 6, 2]⟩, ⟨⟨0, -1, 0⟩, [0, 1, 5, 4]⟩]

/-! ## Predicates used to count the planes of the shadow frustum -/

/-- The perimeters of the six faces of a cuboid in the layout of `Scene.Box`:
the faces towards negative and positive X, Y and Z, each wound
counter-clockwise seen from outside. -/
def StandardPerimeters : List (List Nat) :=
  [[0, 4, 6, 2], [1, 3, 7, 5], [0, 1, 5, 4], [2, 6, 7, 3], [0, 2, 3, 1], [4, 5, 7, 6]]

/-- No two of the perimeters belong to opposite faces: any two of them share a
vertex. -/
def OppositeFreeOf (Perimeters : List (List Nat)) : Prop :=
  ∀ p ∈ Perimeters, ∀ q ∈ Perimeters, ∃ v ∈ p, v ∈ q

instance (Perimeters : List (List Nat)) : Decidable (OppositeFreeOf Perimeters) := by
  unfold OppositeFreeOf; infer_instance

/-- No two of the faces are opposite faces of the cuboid. -/
def OppositeFree (Faces : List Face) : Prop :=
  OppositeFreeOf (Faces.map (fun F => F.Perimeter))

/-- The number of pairs of opposite faces among the perimeters: the pairs that
share no vertex. -/
def OppositePairsOf : List (List Nat) → Nat
  | [] => 0
  | p :: rest =>
    (rest.filter (fun q => !(p.any (fun v => q.contains v)))).length + OppositePairsOf rest

/-- The number of pairs of opposite faces among the faces. -/
def OppositePairs (Faces : List Face) : Nat :=
  OppositePairsOf (Faces.map (fun F => F.Perimeter))

/-- The vertex `GetVertex(i, 0)` of face `i`, which `GetFacesBetween` takes as
the point of the face, and the origin when there is none. -/
def FaceVertex (C : Cuboid) (i : Nat) : FVector := (C.GetVertex i 0).getD ⟨0, 0, 0⟩

/-- The normal of face `i`, and the zero vector when there is no such face. -/
def FaceNormal (C : Cuboid) (i : Nat) : FVector := (C.Faces.getD i ⟨⟨0, 0, 0⟩, []⟩).Normal

/-- The cuboid is a box, in any orientation: the faces 0 and 1, 2 and 3, 4 and
5 are parallel, their outward normals opposite to each other, and the second
face of each pair does not lie beyond the first along the first one's normal. -/
def ParallelOpposite (C : Cuboid) : Prop :=
  ∀ k ∈ [0, 2, 4], FaceNormal C (k + 1) = FVector.smul (-1) (FaceNormal C k) ∧
    0 ≤ FVector.dot (FaceVertex C k - FaceVertex C (k + 1)) (FaceNormal C k)

instance (C : Cuboid) : Decidable (ParallelOpposite C) := by
  unfold ParallelOpposite; infer_instance

/-- A box of 10 by 10 by 2 around the origin, turned about the vertical axis by
the angle whose cosine is 3/5 and whose sine is 4/5. -/
def Scene.Tilted : Cuboid where
  Vertices :=
    [⟨1, -7, -1⟩, ⟨7, 1, -1⟩, ⟨-7, -1, -1⟩, ⟨-1, 7, -1⟩,
     ⟨1, -7, 1⟩, ⟨7, 1, 1⟩, ⟨-7, -1, 1⟩, ⟨-1, 7, 1⟩]
  Faces :=
    [⟨⟨-3 / 5, -4 / 5, 0⟩, [0, 4, 6, 2]⟩, ⟨⟨3 / 5, 4 / 5, 0⟩, [1, 3, 7, 5]⟩,
     ⟨⟨4 / 5, -3 / 5, 0⟩, [0, 1, 5, 4]⟩, ⟨⟨-4 / 5, 3 / 5, 0⟩, [2, 6, 7, 3]⟩,
     ⟨⟨0, 0, -1⟩, [0, 2, 3, 1]⟩, ⟨⟨0, 0, 1⟩, [4, 5, 7, 6]⟩]

/-- A wedge with the standard face layout and outward unit normals: the bottom
is 14 by 2, the top, 3 higher, is 6 by 2, so that the two faces towards negative
and positive X lean towards each other and are both seen from above. -/
def Scene.Wedge : Cuboid where
  Vertices :=
    [⟨-7, -1, 0⟩, ⟨7, -1, 0⟩, ⟨-7, 1, 0⟩, ⟨7, 1, 0⟩,
     ⟨-3, -1, 3⟩, ⟨3, -1, 3⟩, ⟨-3, 1, 3⟩, ⟨3, 1, 3⟩]
  Faces :=
    [⟨⟨-3 / 5, 0, 4 / 5⟩, [0, 4, 6, 2]⟩, ⟨⟨3 / 5, 0, 4 / 5⟩, [1, 3, 7, 5]⟩,
     ⟨⟨0, -1, 0⟩, [0, 1, 5, 4]⟩, ⟨⟨0, 1, 0⟩, [2, 6, 7, 3]⟩,
     ⟨⟨0, 0, -1⟩, [0, 2, 3, 1]⟩, ⟨⟨0, 0, 1⟩, [4, 5, 7, 6]⟩]

/-! ## The BVH traverser -/

/-- Modelled from the spec: the node record of the BVH header, which is not
among the sources, as far as `traverse` reads it: the bounding box, the run of
primitives of a leaf, the offset of the right child of an interior node, and
the answer of `isLeaf()`. -/
structure FastBVH.Node (Box : Type) where
  bbox : Box
  start : Nat
  primitive_count : Nat
  right_offset : Nat
  isLeaf : Bool
deriving DecidableEq

/-- The class `Traverser`: the nodes and the primitives of the BVH, the
intersector, and the flag `OnlyTestOcclusion`. The bounding-box test
`bbox.intersect(segment, &tmin, &tmax)` of the BVH header, which is not among
the sources, is the field `intersect`: `none` for a miss, the two hit times for
a hit. The intersector returns `none` for a miss and the intersected primitive
for a hit. -/
structure FastBVH.Traverser (Box Prim Seg : Type) where
  nodes : List (FastBVH.Node Box)
  build_prims : List Prim
  intersect : Box → Seg → Option (ℚ × ℚ)
  intersector : Prim → Seg → Option Prim
  OnlyTestOcclusion : Bool

/-- How a run of `traverse` ends: it returns, it reads or writes outside an
array, or the model runs out of fuel. -/
inductive FastBVH.Traversed (α : Type) where
  | returned (r : α)
  | outOfRange
  | outOfFuel
deriving DecidableEq

/-- The size of the working set `Traversal todo[64]`. -/
def FastBVH.TODO_SIZE : Nat := 64

/-- The step `todo[++stackptr] = Traversal(i, mint)`: a failure when the working
set is full. The top of the working set is the head of the list. -/
def FastBVH.push (todo : List (Nat × ℚ)) (i : Nat) (mint : ℚ) : Option (List (Nat × ℚ)) :=
  if todo.length < FastBVH.TODO_SIZE then some ((i, mint) :: todo) else none

/-- The `for (uint32_t o ...)` loop of `traverse` over the primitives of a leaf:
whether the routine returns from inside the loop, and `IntersectedPrimitives`. -/
def FastBVH.traverse.leaf {Box Prim Seg : Type} (T : FastBVH.Traverser Box Prim Seg)
    (segment : Seg) (node : FastBVH.Node Box) :
    List Nat → List Prim → Option (Bool × List Prim)
  | [], IntersectedPrimitives => some (false, IntersectedPrimitives)
  | o :: rest, IntersectedPrimitives =>
    match T.build_prims[node.start + o]? with
    | none => none
    | some obj =>
      match T.intersector obj segment with
      | some IntersectedP =>
        if T.OnlyTestOcclusion then some (true, IntersectedPrimitives ++ [IntersectedP])
        else FastBVH.traverse.leaf T segment node rest (IntersectedPrimitives ++ [IntersectedP])
      | none => FastBVH.traverse.leaf T segment node rest IntersectedPrimitives

/-- The `while (stackptr >= 0)` loop of `traverse`, with fuel: the working set
`todo` (top first) and `IntersectedPrimitives`. -/
def FastBVH.traverse.loop {Box Prim Seg : Type} (T : FastBVH.Traverser Box Prim Seg)
    (segment : Seg) :
    Nat → List (Nat × ℚ) → List Prim → FastBVH.Traversed (List Prim)
  | _, [], IntersectedPrimitives => .returned IntersectedPrimitives
  | 0, _ :: _, _ => .outOfFuel
  | fuel + 1, (ni, _) :: todo, IntersectedPrimitives =>
    match T.nodes[ni]? with
    | none => .outOfRange
    | some node =>
      if node.isLeaf then
        match FastBVH.traverse.leaf T segment node (List.range node.primitive_count)
            IntersectedPrimitives with
        | none => .outOfRange
        | some (true, IntersectedPrimitives1) => .returned IntersectedPrimitives1
        | some (false, IntersectedPrimitives1) =>
          FastBVH.traverse.loop T segment fuel todo IntersectedPrimitives1
      else
        match T.nodes[ni + 1]?, T.nodes[ni + node.right_offset]? with
        | some c0, some c1 =>
          match T.intersect c0.bbox segment, T.intersect c1.bbox segment with
          | some (t0, _), some (t2, _) =>
            let closer := if t2 < t0 then ni + node.right_offset else ni + 1
            let other := if t2 < t0 then ni + 1 else ni + node.right_offset
            let tcloser := if t2 < t0 then t2 else t0
            let tother := if t2 < t0 then t0 else t2
            match FastBVH.push todo other tother with
            | none => .outOfRange
            | some todo1 =>
              match FastBVH.push todo1 closer tcloser with
              | none => .outOfRange
              | some todo2 => FastBVH.traverse.loop T segment fuel todo2 IntersectedPrimitives
          | some (t0, _), none =>
            match FastBVH.push todo (ni + 1) t0 with
            | none => .outOfRange
            | some todo1 => FastBVH.traverse.loop T segment fuel todo1 IntersectedPrimitives
          | none, some (t2, _) =>
            match FastBVH.push todo (ni + node.right_offset) t2 with
            | none => .outOfRange
            | some todo1 => FastBVH.traverse.loop T segment fuel todo1 IntersectedPrimitives
          | none, none => FastBVH.traverse.loop T segment fuel todo IntersectedPrimitives
        | _, _ => .outOfRange

/-- The source's `traverse`: the root is pushed, then the loop runs. -/
def FastBVH.traverse {Box Prim Seg : Type} (T : FastBVH.Traverser Box Prim Seg)
    (segment : Seg) (fuel : Nat) : FastBVH.Traversed (List Prim) :=
  FastBVH.traverse.loop T segment fuel [(0, -9999999)] []

/-! ## Predicates used to state the traversal -/

/-- A binary tree of bounding boxes, the shape a BVH flattens: a leaf with its
run of primitives, or an interior node with two children. -/
inductive FastBVH.Tree (Box : Type) where
  | leaf (bbox : Box) (start primitive_count : Nat)
  | node (bbox : Box) (left right : FastBVH.Tree Box)

/-- The number of nodes of a tree. -/
def FastBVH.Tree.size {Box : Type} : FastBVH.Tree Box → Nat
  | .leaf _ _ _ => 1
  | .node _ l r => 1 + l.size + r.size

/-- The depth of a tree: 0 for a leaf. -/
def FastBVH.Tree.depth {Box : Type} : FastBVH.Tree Box → Nat
  | .leaf _ _ _ => 0
  | .node _ l r => 1 + max l.depth r.depth

/-- The bounding box at the root of a tree. -/
def FastBVH.Tree.bbox {Box : Type} : FastBVH.Tree Box → Box
  | .leaf b _ _ => b
  | .node b _ _ => b

/-- The node array of a tree: every node is followed by its left subtree and
then its right subtree, so that the left child of the node at `n` is at `n + 1`
and the right child at `n + right_offset`. -/
def FastBVH.Tree.flatten {Box : Type} : FastBVH.Tree Box → List (FastBVH.Node Box)
  | .leaf b s c => [⟨b, s, c, 0, true⟩]
  | .node b l r => ⟨b, 0, 0, l.size + 1, false⟩ :: (l.flatten ++ r.flatten)

/-- The leaves of the tree, from left to right, hold the consecutive runs of
primitives that start at `a`; the result is the end of the last run. -/
def FastBVH.Tree.covers {Box : Type} : FastBVH.Tree Box → Nat → Option Nat
  | .leaf _ s c, a => if s = a then some (a + c) else none
  | .node _ l r, a =>
    match l.covers a with
    | none => none
    | some m => r.covers m

/-- The intersector reports a hit for the primitive of index `i`. -/
def FastBVH.HitAt {Box Prim Seg : Type} (T : FastBVH.Traverser Box Prim Seg) (segment : Seg)
    (i : Nat) : Bool :=
  match T.build_prims[i]? with
  | some obj => (T.intersector obj segment).isSome
  | none => false

/-- The intersector reports a hit for some primitive with index in `[a, b)`. -/
def FastBVH.HitIn {Box Prim Seg : Type} (T : FastBVH.Traverser Box Prim Seg) (segment : Seg)
    (a b : Nat) : Bool :=
  (List.range' a (b - a)).any (FastBVH.HitAt T segment)

/-- Brute force: the intersector reports a hit for some primitive of the whole
set. -/
def FastBVH.BruteForce {Box Prim Seg : Type} (T : FastBVH.Traverser Box Prim Seg)
    (segment : Seg) : Bool :=
  T.build_prims.any fun obj => (T.intersector obj segment).isSome

/-- Every node's bounding box is hit by the segment whenever the intersector
hits a primitive of the node's subtree, whose leaves hold the runs that start
at `a`. -/
def FastBVH.BoxesSound {Box Prim Seg : Type} (T : FastBVH.Traverser Box Prim Seg)
    (segment : Seg) : FastBVH.Tree Box → Nat → Bool
  | .leaf b _ c, a =>
    !FastBVH.HitIn T segment a (a + c) || (T.intersect b segment).isSome
  | .node b l r, a =>
    match l.covers a with
    | none => false
    | some m =>
      match r.covers m with
      | none => false
      | some e =>
        (!FastBVH.HitIn T segment a e || (T.intersect b segment).isSome) &&
          FastBVH.BoxesSound T segment l a && FastBVH.BoxesSound T segment r m

/-- The BVH of the traverser is well formed for the segment: its node array is
the flattening of the tree `t`, the leaves of `t` partition the primitive
array, and the bounding boxes are sound for the segment. -/
def FastBVH.WellFormed {Box Prim Seg : Type} (T : FastBVH.Traverser Box Prim Seg)
    (segment : Seg) (t : FastBVH.Tree Box) : Prop :=
  T.nodes = t.flatten ∧ t.covers 0 = some T.build_prims.length ∧
  FastBVH.BoxesSound T segment t 0 = true

/-- The hit `h` is the intersector's answer for a primitive with index in
`[a, b)`. -/
def FastBVH.GenuineHit {Box Prim Seg : Type} (T : FastBVH.Traverser Box Prim Seg)
    (segment : Seg) (h : Prim) (a b : Nat) : Prop :=
  ∃ i obj, a ≤ i ∧ i < b ∧ T.build_prims[i]? = some obj ∧ T.intersector obj segment = some h

/-- The loop works off the subtree whose root is at index `i` on top of the
working set `todo`: within `sz` iterations it either returns the first hit, when
the subtree has one (`hit`), or has popped the subtree and goes on with `todo`. -/
def FastBVH.Visits {Box Prim Seg : Type} (T : FastBVH.Traverser Box Prim Seg) (segment : Seg)
    (i sz : Nat) (hit : Bool) (a b : Nat) (todo : List (Nat × ℚ)) : Prop :=
  (hit = false → ∃ c, 1 ≤ c ∧ c ≤ sz ∧ ∀ f m,
    FastBVH.traverse.loop T segment (c + f) ((i, m) :: todo) []
      = FastBVH.traverse.loop T segment f todo []) ∧
  (hit = true → ∃ c, 1 ≤ c ∧ c ≤ sz ∧ ∃ h, FastBVH.GenuineHit T segment h a b ∧ ∀ f m,
    FastBVH.traverse.loop T segment (c + f) ((i, m) :: todo) [] = .returned [h])

/-- The root node of a tree in the node array. -/
def FastBVH.Tree.root {Box : Type} : FastBVH.Tree Box → FastBVH.Node Box
  | .leaf b s c => ⟨b, s, c, 0, true⟩
  | .node b l _ => ⟨b, 0, 0, l.size + 1, false⟩

/-! ## Fixtures for the BVH traversal -/

/-- A left-deep tree of depth `k` over the primitives `0 .. k`: the left child
of every interior node is the rest of the chain, the right child a leaf with
one primitive. -/
def Scene.Chain : Nat → FastBVH.Tree Unit
  | 0 => .leaf () 0 1
  | k + 1 => .node () (Scene.Chain k) (.leaf () (k + 1) 1)

/-- A traverser in occlusion mode over the chain of depth `k`: every bounding
box is hit by every segment at the same times, and the intersector hits the
primitives selected by `hits`. -/
def Scene.ChainBVH (k : Nat) (hits : Nat → Bool) : FastBVH.Traverser Unit Nat Unit where
  nodes := (Scene.Chain k).flatten
  build_prims := List.range (k + 1)
  intersect := fun _ _ => some (0, 1)
  intersector := fun obj _ => if hits obj then some obj else none
  OnlyTestOcclusion := true

/-! ## The culling box -/

/-- The engine's `FVector2D`: two coordinates. -/
structure FVector2D where
  X : ℚ
  Y : ℚ
deriving DecidableEq

/-- Componentwise difference, the engine's `operator-` on `FVector2D`. -/
def FVector2D.sub (a b : FVector2D) : FVector2D := ⟨a.X - b.X, a.Y - b.Y⟩

instance : Sub FVector2D := ⟨FVector2D.sub⟩

/-- The constant `FLT_MAX` of the C library: the largest finite `float`,
(2 - 2^-23) * 2^127. -/
def FLT_MAX : ℚ := (2 ^ 24 - 1) * 2 ^ 104

/-- The constant `FLT_MIN` of the C library: the smallest positive normalised
`float`, 2^-126. -/
def FLT_MIN : ℚ := 1 / 2 ^ 126

/-- The fields of `ACullingBox` that `GetRelevantCorners` reads: the number of
corners `N`, the corner locations and the centre. -/
structure ACullingBox where
  N : Nat
  CornerLocations : List FVector2D
  Center : FVector

/-- The `for (int i ...)` loop of `GetRelevantCorners`, threading `Min`, `Max`,
`MinIndex` and `MaxIndex`; `GetAngleFast` belongs to the utilities header, which
is not among the sources, and is a parameter. -/
def GetRelevantCorners.loop (GetAngleFast : FVector2D → FVector2D → ℚ) (Box : ACullingBox)
    (PlayerLocation PlayerToCenter : FVector2D) :
    List Nat → ℚ × ℚ × Nat × Nat → Option (ℚ × ℚ × Nat × Nat)
  | [], st => some st
  | i :: rest, (Min, Max, MinIndex, MaxIndex) =>
    match Box.CornerLocations[i]? with
    | none => none
    | some Corner =>
      let Angle := GetAngleFast PlayerToCenter (Corner - PlayerLocation)
      GetRelevantCorners.loop GetAngleFast Box PlayerLocation PlayerToCenter rest
        (if Angle < Min then Angle else Min, if Angle > Max then Angle else Max,
          if Angle < Min then i else MinIndex, if Angle > Max then i else MaxIndex)

/-- The source's `GetRelevantCorners`: the pair `(CornerLeft, CornerRight)`. -/
def GetRelevantCorners (GetAngleFast : FVector2D → FVector2D → ℚ) (Box : ACullingBox)
    (PlayerLocation : FVector2D) : Option (FVector2D × FVector2D) :=
  let PlayerToCenter : FVector2D :=
    ⟨Box.Center.X - PlayerLocation.X, Box.Center.Y - PlayerLocation.Y⟩
  match GetRelevantCorners.loop GetAngleFast Box PlayerLocation PlayerToCenter
      (List.range Box.N) (FLT_MAX, FLT_MIN, 0, 0) with
  | none => none
  | some (_, _, MinIndex, MaxIndex) =>
    match Box.CornerLocations[MinIndex]?, Box.CornerLocations[MaxIndex]? with
    | some CornerLeft, some CornerRight => some (CornerLeft, CornerRight)
    | _, _ => none

/-! ## Predicates used to state the relevant corners -/

/-- The angle `GetRelevantCorners` computes for a corner: between the direction
from the player to the centre and the direction from the player to the corner. -/
def CornerAngle (GetAngleFast : FVector2D → FVector2D → ℚ) (Box : ACullingBox)
    (PlayerLocation Corner : FVector2D) : ℚ :=
  GetAngleFast ⟨Box.Center.X - PlayerLocation.X, Box.Center.Y - PlayerLocation.Y⟩
    (Corner - PlayerLocation)

/-- The angle of the corner of index `i` (0 when there is no such corner). -/
def AngleAt (GetAngleFast : FVector2D → FVector2D → ℚ) (Box : ACullingBox)
    (PlayerLocation : FVector2D) (i : Nat) : ℚ :=
  match Box.CornerLocations[i]? with
  | some Corner => CornerAngle GetAngleFast Box PlayerLocation Corner
  | none => 0

/-- A stand-in for `GetAngleFast` in the scene: the cross product of the two
directions, which has the sign of the angle from the first to the second. -/
def Scene.Cross (u v : FVector2D) : ℚ := u.X * v.Y - u.Y * v.X

/-- A corner list that `BeginPlay` cannot lay out: a centre at (10, 0) and four
corners that all lie to the right of the line from the origin to the centre. -/
def Scene.SideBox : ACullingBox :=
  ⟨4, [⟨10, -2⟩, ⟨10, -1⟩, ⟨12, -2⟩, ⟨12, -1⟩], ⟨10, 0, 0⟩⟩

/-- The engine's `FVector2D::CrossProduct`: positive when `B` lies
counter-clockwise of `A`. -/
def FVector2D.CrossProduct (A B : FVector2D) : ℚ := A.X * B.Y - A.Y * B.X

/-- The source's `ACullingBox::BeginPlay`, the one routine that writes `Center`
and `CornerLocations`: the centre is the actor's location and the four corners
are the centre plus the rotated horizontal extents, with both signs of each
extent, cut to their first two coordinates (`FVector2D(FVector)`). `N` keeps its
initial value 4 of the class declaration, which no routine assigns.
`RotateVector` is `FRotator::RotateVector` of the actor's rotation, an engine
routine and a parameter here; the sums are exact. -/
def ACullingBox.BeginPlay (ActorLocation Extents : FVector)
    (RotateVector : FVector → FVector) : ACullingBox :=
  let Center := ActorLocation
  let Corner (v : FVector) : FVector2D := ⟨(Center + RotateVector v).X, (Center + RotateVector v).Y⟩
  { N := 4
    CornerLocations :=
      [Corner ⟨Extents.X, Extents.Y, 0⟩, Corner ⟨Extents.X, -Extents.Y, 0⟩,
        Corner ⟨-Extents.X, Extents.Y, 0⟩, Corner ⟨-Extents.X, -Extents.Y, 0⟩]
    Center := Center }

/-- The cross product of the direction from the player to the centre and the
direction from the player to the corner of index `i` (0 when there is no such
corner). -/
def CrossAt (Box : ACullingBox) (PlayerLocation : FVector2D) (i : Nat) : ℚ :=
  match Box.CornerLocations[i]? with
  | some Corner =>
    FVector2D.CrossProduct ⟨Box.Center.X - PlayerLocation.X, Box.Center.Y - PlayerLocation.Y⟩
      (Corner - PlayerLocation)
  | none => 0

/-- What is asked of `GetAngleFast` at the corners of a box seen from
`PlayerLocation` for it to count as a signed angle. `Side` is 1 when positive
angles turn counter-clockwise and -1 when they turn clockwise. An angle is
negative only for a corner on the negative side of the direction to the centre,
it is positive for every corner on the positive side, no angle lies strictly
between 0 and `FLT_MIN` or at it, and none exceeds `FLT_MAX`. -/
def SignedAngles (GetAngleFast : FVector2D → FVector2D → ℚ) (Box : ACullingBox)
    (PlayerLocation : FVector2D) (Side : ℚ) : Prop :=
  ∀ i, i < Box.N →
    (AngleAt GetAngleFast Box PlayerLocation i < 0 → Side * CrossAt Box PlayerLocation i < 0) ∧
    (0 < Side * CrossAt Box PlayerLocation i → 0 < AngleAt GetAngleFast Box PlayerLocation i) ∧
    (0 < AngleAt GetAngleFast Box PlayerLocation i →
      FLT_MIN < AngleAt GetAngleFast Box PlayerLocation i) ∧
    AngleAt GetAngleFast Box PlayerLocation i ≤ FLT_MAX

instance (GetAngleFast : FVector2D → FVector2D → ℚ) (Box : ACullingBox)
    (PlayerLocation : FVector2D) (Side : ℚ) :
    Decidable (SignedAngles GetAngleFast Box PlayerLocation Side) := by
  unfold SignedAngles
  exact inferInstance

/-- A rotation about the vertical axis by the angle of the 3-4-5 triangle. -/
def Scene.Yaw (v : FVector) : FVector := ⟨(3 * v.X - 4 * v.Y) / 5, (4 * v.X + 3 * v.Y) / 5, v.Z⟩

/-- The culling box that `BeginPlay` lays out for an actor at (10, 0, 0) with
extents (5, 10, 3), rotated by `Scene.Yaw`: its corners are (5, 10), (21, -2),
(-1, 2) and (15, -10). -/
def Scene.YawedBox : ACullingBox := ACullingBox.BeginPlay ⟨10, 0, 0⟩ ⟨5, 10, 3⟩ Scene.Yaw

/-! ## Predicates used to state the working set of the traversal -/

/-- One iteration of the `while` loop of `traverse`, after the entry `ni` has
been popped from the working set, of which `todo` is left: either the routine
ends, or it goes on with a new working set and new `IntersectedPrimitives`. -/
def FastBVH.traverse.step {Box Prim Seg : Type} (T : FastBVH.Traverser Box Prim Seg)
    (segment : Seg) (ni : Nat) (todo : List (Nat × ℚ)) (IntersectedPrimitives : List Prim) :
    FastBVH.Traversed (List Prim) ⊕ (List (Nat × ℚ) × List Prim) :=
  match T.nodes[ni]? with
  | none => .inl .outOfRange
  | some node =>
    if node.isLeaf then
      match FastBVH.traverse.leaf T segment node (List.range node.primitive_count)
          IntersectedPrimitives with
      | none => .inl .outOfRange
      | some (true, IntersectedPrimitives1) => .inl (.returned IntersectedPrimitives1)
      | some (false, IntersectedPrimitives1) => .inr (todo, IntersectedPrimitives1)
    else
      match T.nodes[ni + 1]?, T.nodes[ni + node.right_offset]? with
      | some c0, some c1 =>
        match T.intersect c0.bbox segment, T.intersect c1.bbox segment with
        | some (t0, _), some (t2, _) =>
          let closer := if t2 < t0 then ni + node.right_offset else ni + 1
          let other := if t2 < t0 then ni + 1 else ni + node.right_offset
          let tcloser := if t2 < t0 then t2 else t0
          let tother := if t2 < t0 then t0 else t2
          match FastBVH.push todo other tother with
          | none => .inl .outOfRange
          | some todo1 =>
            match FastBVH.push todo1 closer tcloser with
            | none => .inl .outOfRange
            | some todo2 => .inr (todo2, IntersectedPrimitives)
        | some (t0, _), none =>
          match FastBVH.push todo (ni + 1) t0 with
          | none => .inl .outOfRange
          | some todo1 => .inr (todo1, IntersectedPrimitives)
        | none, some (t2, _) =>
          match FastBVH.push todo (ni + node.right_offset) t2 with
          | none => .inl .outOfRange
          | some todo1 => .inr (todo1, IntersectedPrimitives)
        | none, none => .inr (todo, IntersectedPrimitives)
      | _, _ => .inl .outOfRange

/-- The working sets at the top of the `while` loop, iteration after iteration,
for as long as the fuel lasts: the stack index `stackptr` is the length of the
working set minus 1, and the loop ends on the empty working set. -/
def FastBVH.traverse.stacks {Box Prim Seg : Type} (T : FastBVH.Traverser Box Prim Seg)
    (segment : Seg) : Nat → List (Nat × ℚ) → List Prim → List (List (Nat × ℚ))
  | _, [], _ => [[]]
  | 0, x :: todo, _ => [x :: todo]
  | fuel + 1, (ni, m) :: todo, IntersectedPrimitives =>
    ((ni, m) :: todo) ::
      match FastBVH.traverse.step T segment ni todo IntersectedPrimitives with
      | .inl _ => []
      | .inr (todo1, IntersectedPrimitives1) =>
        FastBVH.traverse.stacks T segment fuel todo1 IntersectedPrimitives1

/-- The loop works off the subtree whose root is at index `i` on top of the
working set `todo`, in either mode: within `sz` iterations it either returns or
has popped the subtree and goes on with `todo`. -/
def FastBVH.Passes {Box Prim Seg : Type} (T : FastBVH.Traverser Box Prim Seg) (segment : Seg)
    (i sz : Nat) (todo : List (Nat × ℚ)) : Prop :=
  ∀ acc, ∃ c, 1 ≤ c ∧ c ≤ sz ∧
    ((∃ r, ∀ f m, FastBVH.traverse.loop T segment (c + f) ((i, m) :: todo) acc = .returned r) ∨
     (∃ acc1, ∀ f m, FastBVH.traverse.loop T segment (c + f) ((i, m) :: todo) acc
        = FastBVH.traverse.loop T segment f todo acc1))

/-- A traverser over two leaves under one root, whose boxes carry their own
entry time: every box is hit, at the time it carries. -/
def Scene.ForkBVH (tl tr : ℚ) : FastBVH.Traverser ℚ Nat Unit where
  nodes := (FastBVH.Tree.node 0 (.leaf tl 0 1) (.leaf tr 1 1)).flatten
  build_prims := [0, 1]
  intersect := fun b _ => some (b, b + 1)
  intersector := fun _ _ => none
  OnlyTestOcclusion := false

/-! ## Predicates used to state the unsampled segments -/

/-- The segment from `a` to `b` meets the region `K`. -/
def Meets (K : FVector → Prop) (a b : FVector) : Prop :=
  ∃ t : ℚ, 0 ≤ t ∧ t ≤ 1 ∧ K (a + FVector.smul t (b - a))

/-- Modelled from the spec: what `IntersectionTime` of the geometry header, which
is not among the sources, answers for the cuboid: a time, and not the
not-a-number sentinel, exactly when the segment from `Start` to
`Start + Direction` hits the volume of the cuboid, a convex region. -/
def ConvexTest (E : Externals) (C : Cuboid) : Prop :=
  ∃ K : FVector → Prop,
    (∀ a b, K a → K b → ∀ t : ℚ, 0 ≤ t → t ≤ 1 → K (a + FVector.smul t (b - a))) ∧
    ∀ Start Direction, (E.IntersectionTime C Start Direction).isSome = true ↔
      ∃ t : ℚ, 0 ≤ t ∧ t ≤ 1 ∧ K (Start + FVector.smul t Direction)

/-- The bounds are those of a standing character: the two vertex groups have
the same size, and every top vertex lies straight above the bottom vertex at the
same position of its group. -/
def Upright (EB : CharacterBounds) : Prop :=
  EB.TopVertices.length = EB.BottomVertices.length ∧
  ∀ p ∈ List.zip EB.TopVertices EB.BottomVertices,
    p.1.X = p.2.X ∧ p.1.Y = p.2.Y ∧ p.2.Z ≤ p.1.Z

instance (EB : CharacterBounds) : Decidable (Upright EB) := by
  unfold Upright; infer_instance

/-- The volume of a cuboid given by its face planes: the points on the inner
side of the plane of every face, as the reference `IntersectionTime` reads the
cuboid. -/
def Cuboid.Inside (C : Cuboid) (x : FVector) : Prop :=
  ∀ F ∈ C.Faces,
    0 ≤ FVector.dot F.Normal (C.Vertices.getD (F.Perimeter.getD 0 0) ⟨0, 0, 0⟩ - x)

/-! ## Lemmas on the cuboid blocking test -/

theorem IsBlocking_loop_eq (E : Externals) (C : Cuboid) (Peeks : List FVector) (a b : Nat)
    (Pa Pb : FVector) (ha : Peeks[a]? = some Pa) (hb : Peeks[b]? = some Pb)
    (Vs : List FVector) :
    IsBlocking.loop E C Peeks a b Vs
      = some (decide (∀ V ∈ Vs, Intersects E C Pa V ∧ Intersects E C Pb V)) := by
  induction Vs with
  | nil => simp [IsBlocking.loop]
  | cons V Vs ih =>
    simp only [IsBlocking.loop, ha, hb, ih, Intersects, List.mem_cons, forall_eq_or_imp]
    cases h1 : E.IntersectionTime C Pa (V - Pa) <;> cases h2 : E.IntersectionTime C Pb (V - Pb) <;>
      simp

theorem IsBlocking_eq (E : Externals) (Bounds : List CharacterBounds) (B : Bundle) (C : Cuboid)
    (EB : CharacterBounds) (P0 P1 P2 P3 : FVector)
    (hB : Bounds[B.EnemyI]? = some EB) (hP : B.PossiblePeeks = [P0, P1, P2, P3]) :
    IsBlocking E Bounds B C
      = some (decide ((∀ V ∈ EB.TopVertices, Intersects E C P0 V ∧ Intersects E C P1 V)
          ∧ (∀ V ∈ EB.BottomVertices, Intersects E C P2 V ∧ Intersects E C P3 V))) := by
  unfold IsBlocking
  rw [hB, hP]
  simp only []
  rw [IsBlocking_loop_eq E C _ 0 1 P0 P1 (by simp) (by simp),
    IsBlocking_loop_eq E C _ 2 3 P2 P3 (by simp) (by simp)]
  by_cases h1 : ∀ V ∈ EB.TopVertices, Intersects E C P0 V ∧ Intersects E C P1 V
  · rw [decide_eq_true h1]
    exact congrArg some (decide_eq_decide.mpr (and_iff_right h1).symm)
  · rw [decide_eq_false h1]
    simp [h1]



/-! ## Lemmas on the sphere blocking test -/

theorem IsBlockingSphere_inner_eq (S : Sphere) (Peek : FVector) (Vs : List FVector) :
    IsBlockingSphere.inner S.Center.toF32 (RadiusSquared32 S) Peek.toF32
        (FVector32.sub S.Center.toF32 Peek.toF32) Vs
      = decide (∀ V ∈ Vs, IntersectsSphere32 S Peek V) := by
  induction Vs with
  | nil => simp [IsBlockingSphere.inner]
  | cons V Vs ih =>
    simp only [IsBlockingSphere.inner, ih, List.mem_cons, forall_eq_or_imp]
    have hu32 : F32.div
        (FVector32.dot (FVector32.sub V.toF32 Peek.toF32)
          (FVector32.sub S.Center.toF32 Peek.toF32))
        (FVector32.dot (FVector32.sub V.toF32 Peek.toF32) (FVector32.sub V.toF32 Peek.toF32))
        = ClosestParameter32 Peek V S.Center := rfl
    rw [hu32]
    have hd32 : (FVector32.sub S.Center.toF32 (FVector32.add Peek.toF32
        (FVector32.smul (ClosestParameter32 Peek V S.Center)
          (FVector32.sub V.toF32 Peek.toF32)))).SizeSquared
        = ClosestDistanceSquared32 Peek V S.Center := rfl
    rw [hd32]
    cases h0 : F32.lt (.fin 0) (ClosestParameter32 Peek V S.Center) with
    | false =>
      have : ¬ IntersectsSphere32 S Peek V := fun h => by
        rw [h.1] at h0
        cases h0
      simp [this]
    | true =>
      cases h1 : F32.lt (ClosestParameter32 Peek V S.Center) (.fin 1) with
      | false =>
        have : ¬ IntersectsSphere32 S Peek V := fun h => by
          rw [h.2.1] at h1
          cases h1
        simp [this]
      | true =>
        cases hd : F32.lt (RadiusSquared32 S) (ClosestDistanceSquared32 Peek V S.Center) with
        | true =>
          have : ¬ IntersectsSphere32 S Peek V := fun h => by
            rw [h.2.2] at hd
            cases hd
          simp [this]
        | false =>
          have : IntersectsSphere32 S Peek V := ⟨h0, h1, hd⟩
          simp [this]

theorem IsBlockingSphere_outer_eq (EB : CharacterBounds) (Peeks : List FVector) (S : Sphere)
    (idx : List Nat) (hidx : ∀ i ∈ idx, i < Peeks.length) :
    IsBlockingSphere.outer EB Peeks S.Center.toF32 (RadiusSquared32 S) idx
      = some (decide (∀ i ∈ idx, ∀ P, Peeks[i]? = some P →
          ∀ V ∈ TestedVertices EB i, IntersectsSphere32 S P V)) := by
  induction idx with
  | nil => simp [IsBlockingSphere.outer]
  | cons i rest ih =>
    have hi : i < Peeks.length := hidx i (List.mem_cons_self _ _)
    have hrest : ∀ j ∈ rest, j < Peeks.length := fun j hj => hidx j (List.mem_cons_of_mem _ hj)
    obtain ⟨P, hP⟩ : ∃ P, Peeks[i]? = some P := ⟨Peeks[i], List.getElem?_eq_getElem hi⟩
    simp only [IsBlockingSphere.outer, hP, ih hrest, IsBlockingSphere_inner_eq,
      List.mem_cons, forall_eq_or_imp]
    by_cases h : ∀ V ∈ TestedVertices EB i, IntersectsSphere32 S P V
    · have h' := h
      unfold TestedVertices at h'
      rw [decide_eq_true h', if_pos rfl]
      refine congrArg some (decide_eq_decide.mpr ?_)
      constructor
      · intro hr
        exact ⟨fun Q hQ => by cases hQ; exact h, hr⟩
      · intro hr
        exact hr.2
    · have h' := h
      unfold TestedVertices at h'
      rw [decide_eq_false h']
      simp only [Bool.false_eq_true, if_false]
      refine congrArg some (Eq.symm (decide_eq_false ?_))
      intro hr
      exact h (hr.1 P rfl)

theorem IsBlockingSphere_eq (Bounds : List CharacterBounds) (B : Bundle) (S : Sphere)
    (EB : CharacterBounds) (hB : Bounds[B.EnemyI]? = some EB)
    (hP : NUM_PEEKS ≤ B.PossiblePeeks.length) :
    IsBlockingSphere Bounds B S
      = some (decide (∀ i ∈ List.range NUM_PEEKS, ∀ P, B.PossiblePeeks[i]? = some P →
          ∀ V ∈ TestedVertices EB i, IntersectsSphere32 S P V)) := by
  unfold IsBlockingSphere
  rw [hB]
  exact IsBlockingSphere_outer_eq EB B.PossiblePeeks S _
    (fun i hi => lt_of_lt_of_le (List.mem_range.mp hi) hP)

/-! ## Claims on the blocking tests -/

/-- C1: for a bundle with its 4 peeks and an enemy whose bounds exist,
`IsBlocking(B, C)` returns a result, and the result is true if and only if the
segments from peeks 0 and 1 to every top vertex and from peeks 2 and 3 to every
bottom vertex all intersect the cuboid (`IntersectionTime` is not the
not-a-number sentinel); hence under any `IntersectionTime` for which one of
these tested segments does not intersect, the result is false. -/
theorem C1_IsBlocking_cuboid_iff (E : Externals) (Bounds : List CharacterBounds) (B : Bundle)
    (C : Cuboid) (EB : CharacterBounds) (P0 P1 P2 P3 : FVector)
    (hB : Bounds[B.EnemyI]? = some EB) (hP : B.PossiblePeeks = [P0, P1, P2, P3]) :
    (IsBlocking E Bounds B C = some true ∨ IsBlocking E Bounds B C = some false) ∧
    (IsBlocking E Bounds B C = some true ↔
      (∀ V ∈ EB.TopVertices, Intersects E C P0 V ∧ Intersects E C P1 V) ∧
      (∀ V ∈ EB.BottomVertices, Intersects E C P2 V ∧ Intersects E C P3 V)) ∧
    (∀ E1 : Externals,
      ((∃ V ∈ EB.TopVertices, ¬ Intersects E1 C P0 V ∨ ¬ Intersects E1 C P1 V) ∨
       (∃ V ∈ EB.BottomVertices, ¬ Intersects E1 C P2 V ∨ ¬ Intersects E1 C P3 V)) →
      IsBlocking E1 Bounds B C = some false) := by
  refine ⟨?_, ?_, ?_⟩
  · rw [IsBlocking_eq E Bounds B C EB P0 P1 P2 P3 hB hP]
    by_cases h : (∀ V ∈ EB.TopVertices, Intersects E C P0 V ∧ Intersects E C P1 V) ∧
        (∀ V ∈ EB.BottomVertices, Intersects E C P2 V ∧ Intersects E C P3 V)
    · exact Or.inl (congrArg some (decide_eq_true h))
    · exact Or.inr (congrArg some (decide_eq_false h))
  · rw [IsBlocking_eq E Bounds B C EB P0 P1 P2 P3 hB hP]
    constructor
    · intro h
      exact of_decide_eq_true (Option.some.inj h)
    · intro h
      exact congrArg some (decide_eq_true h)
  · intro E1 h
    rw [IsBlocking_eq E1 Bounds B C EB P0 P1 P2 P3 hB hP]
    refine congrArg some (decide_eq_false ?_)
    rintro ⟨ht, hb⟩
    rcases h with ⟨V, hV, h | h⟩ | ⟨V, hV, h | h⟩
    · exact h (ht V hV).1
    · exact h (ht V hV).2
    · exact h (hb V hV).1
    · exact h (hb V hV).2

set_option maxRecDepth 4000 in
/-- Witness of C1 in the duel scene: behind the wall the bundle of player 0 is
blocked, and the characterisation holds there. -/
theorem C1_IsBlocking_cuboid_iff_witness :
    Scene.DuelBounds[Scene.DuelBundle.EnemyI]? = some (Scene.MakeBounds ⟨100, 0, 0⟩
        ⟨⟨100, 0, 0⟩, ⟨1, 0, 0⟩, ⟨0, 1, 0⟩, ⟨0, 0, 1⟩⟩) ∧
    IsBlocking Scene.E Scene.DuelBounds Scene.DuelBundle Scene.Wall = some true ∧
    (IsBlocking Scene.E Scene.DuelBounds Scene.DuelBundle Scene.Wall = some true ↔
      (∀ V ∈ (Scene.MakeBounds ⟨100, 0, 0⟩
          ⟨⟨100, 0, 0⟩, ⟨1, 0, 0⟩, ⟨0, 1, 0⟩, ⟨0, 0, 1⟩⟩).TopVertices,
        Intersects Scene.E Scene.Wall ⟨0, 15, 10⟩ V ∧
        Intersects Scene.E Scene.Wall ⟨0, -15, 10⟩ V) ∧
      (∀ V ∈ (Scene.MakeBounds ⟨100, 0, 0⟩
          ⟨⟨100, 0, 0⟩, ⟨1, 0, 0⟩, ⟨0, 1, 0⟩, ⟨0, 0, 1⟩⟩).BottomVertices,
        Intersects Scene.E Scene.Wall ⟨0, -15, -10⟩ V ∧
        Intersects Scene.E Scene.Wall ⟨0, 15, -10⟩ V)) :=
  ⟨rfl, by decide!,
    (C1_IsBlocking_cuboid_iff Scene.E Scene.DuelBounds Scene.DuelBundle Scene.Wall
      _ _ _ _ _ rfl rfl).2.1⟩

set_option maxRecDepth 100000 in
/-- C3, as stated, fails, because the test computes in single precision. For
the bundle of player 0 in the duel scene and the sphere `Scene.Grazing`, every
tested segment has its exact `u` strictly between 0 and 1 and its exact closest
point within the radius, yet `IsBlocking(B, S)` returns false: for the segment
from peek 1 to the second top vertex the rounded squared distance exceeds the
rounded squared radius. Likewise for the segment from the origin to (21, 28, 0)
and the sphere of radius 5 around (2, 11, 0), which touches it: the exact
squared distance is 25, the rounded one 6553601/262144, above 25. -/
theorem C3_counterexample :
    Scene.DuelBounds[Scene.DuelBundle.EnemyI]?
      = some (Scene.MakeBounds ⟨100, 0, 0⟩ ⟨⟨100, 0, 0⟩, ⟨1, 0, 0⟩, ⟨0, 1, 0⟩, ⟨0, 0, 1⟩⟩) ∧
    (∀ i ∈ List.range 4,
      ∀ V ∈ TestedVertices
        (Scene.MakeBounds ⟨100, 0, 0⟩ ⟨⟨100, 0, 0⟩, ⟨1, 0, 0⟩, ⟨0, 1, 0⟩, ⟨0, 0, 1⟩⟩) i,
        IntersectsSphere Scene.Grazing (Scene.DuelBundle.PossiblePeeks.getD i ⟨0, 0, 0⟩) V) ∧
    IsBlockingSphere Scene.DuelBounds Scene.DuelBundle Scene.Grazing = some false ∧
    ¬ IntersectsSphere32 Scene.Grazing ⟨0, -15, 10⟩ ⟨101, -1, 2⟩ ∧
    IntersectsSphere ⟨⟨2, 11, 0⟩, 5⟩ ⟨0, 0, 0⟩ ⟨21, 28, 0⟩ ∧
    (⟨2, 11, 0⟩ - ClosestPoint ⟨0, 0, 0⟩ ⟨21, 28, 0⟩ ⟨2, 11, 0⟩ : FVector).SizeSquared = 25 ∧
    ClosestDistanceSquared32 ⟨0, 0, 0⟩ ⟨21, 28, 0⟩ ⟨2, 11, 0⟩ = .fin (6553601 / 262144) ∧
    ¬ IntersectsSphere32 ⟨⟨2, 11, 0⟩, 5⟩ ⟨0, 0, 0⟩ ⟨21, 28, 0⟩ := by
  refine ⟨rfl, by decide!, by decide!, by decide!, by decide!, by decide!, by decide!,
    by decide!⟩

/-- C3, amended: for a bundle with at least `NUM_PEEKS` peeks and an enemy whose
bounds exist, `IsBlocking(B, S)` returns a result, and the result is true if and
only if for every peek index `i` below 4 and every vertex `V` of the group
tested for that peek the parameter `u`, computed in single precision, lies
strictly between 0 and 1 and the squared distance of the closest point, computed
in single precision, does not exceed the rounded squared radius; a rounded `u`
outside (0, 1) for one tested segment yields false, and so does a rounded
squared distance above the rounded squared radius. -/
theorem C3_IsBlocking_sphere_iff (Bounds : List CharacterBounds) (B : Bundle) (S : Sphere)
    (EB : CharacterBounds) (hB : Bounds[B.EnemyI]? = some EB)
    (hP : NUM_PEEKS ≤ B.PossiblePeeks.length) :
    (IsBlockingSphere Bounds B S = some true ∨ IsBlockingSphere Bounds B S = some false) ∧
    (IsBlockingSphere Bounds B S = some true ↔
      ∀ i, i < 4 → ∀ P, B.PossiblePeeks[i]? = some P → ∀ V ∈ TestedVertices EB i,
        F32.lt (.fin 0) (ClosestParameter32 P V S.Center) = true ∧
        F32.lt (ClosestParameter32 P V S.Center) (.fin 1) = true ∧
        F32.lt (RadiusSquared32 S) (ClosestDistanceSquared32 P V S.Center) = false) ∧
    (∀ i, i < 4 → ∀ P, B.PossiblePeeks[i]? = some P → ∀ V ∈ TestedVertices EB i,
      ¬ (F32.lt (.fin 0) (ClosestParameter32 P V S.Center) = true ∧
        F32.lt (ClosestParameter32 P V S.Center) (.fin 1) = true) →
      IsBlockingSphere Bounds B S = some false) ∧
    (∀ i, i < 4 → ∀ P, B.PossiblePeeks[i]? = some P → ∀ V ∈ TestedVertices EB i,
      F32.lt (RadiusSquared32 S) (ClosestDistanceSquared32 P V S.Center) = true →
      IsBlockingSphere Bounds B S = some false) := by
  have key := IsBlockingSphere_eq Bounds B S EB hB hP
  have hiff : IsBlockingSphere Bounds B S = some true ↔
      ∀ i, i < 4 → ∀ P, B.PossiblePeeks[i]? = some P → ∀ V ∈ TestedVertices EB i,
        IntersectsSphere32 S P V := by
    rw [key]
    constructor
    · intro h i hi
      exact of_decide_eq_true (Option.some.inj h) i (List.mem_range.mpr hi)
    · intro h
      exact congrArg some (decide_eq_true (fun i hi => h i (List.mem_range.mp hi)))
  have hfalse : ¬ (IsBlockingSphere Bounds B S = some true) →
      IsBlockingSphere Bounds B S = some false := by
    rw [key]
    intro h
    cases hd : decide (∀ i ∈ List.range NUM_PEEKS, ∀ P, B.PossiblePeeks[i]? = some P →
          ∀ V ∈ TestedVertices EB i, IntersectsSphere32 S P V)
    · rfl
    · exact absurd (congrArg some hd) h
  refine ⟨?_, hiff, ?_, ?_⟩
  · by_cases h : IsBlockingSphere Bounds B S = some true
    · exact Or.inl h
    · exact Or.inr (hfalse h)
  · intro i hi P hPi V hV hu
    exact hfalse (fun h => hu ⟨(hiff.mp h i hi P hPi V hV).1, (hiff.mp h i hi P hPi V hV).2.1⟩)
  · intro i hi P hPi V hV hd
    refine hfalse (fun h => ?_)
    rw [(hiff.mp h i hi P hPi V hV).2.2] at hd
    cases hd

set_option maxRecDepth 100000 in
/-- Witness of C3 in the duel scene: the large sphere between the characters
blocks the bundle of player 0, and a sphere of radius 1 does not. -/
theorem C3_IsBlocking_sphere_iff_witness :
    IsBlockingSphere Scene.DuelBounds Scene.DuelBundle Scene.Ball = some true ∧
    IsBlockingSphere Scene.DuelBounds Scene.DuelBundle ⟨⟨50, 0, 0⟩, 1⟩ = some false ∧
    (IsBlockingSphere Scene.DuelBounds Scene.DuelBundle Scene.Ball = some true ∨
      IsBlockingSphere Scene.DuelBounds Scene.DuelBundle Scene.Ball = some false) :=
  ⟨by decide!, by decide!,
    (C3_IsBlocking_sphere_iff Scene.DuelBounds Scene.DuelBundle Scene.Ball
      (Scene.MakeBounds ⟨100, 0, 0⟩ ⟨⟨100, 0, 0⟩, ⟨1, 0, 0⟩, ⟨0, 1, 0⟩, ⟨0, 0, 1⟩⟩)
      rfl (by decide)).1⟩

/-! ## Lemmas on the cull stages -/

theorem IsBlocking_loop_total (E : Externals) (C : Cuboid) (Peeks : List FVector) (a b : Nat)
    (ha : a < Peeks.length) (hb : b < Peeks.length) (Vs : List FVector) :
    ∃ r, IsBlocking.loop E C Peeks a b Vs = some r :=
  ⟨_, IsBlocking_loop_eq E C Peeks a b Peeks[a] Peeks[b]
    (List.getElem?_eq_getElem ha) (List.getElem?_eq_getElem hb) Vs⟩

theorem IsBlocking_total (E : Externals) (Bounds : List CharacterBounds) (B : Bundle) (C : Cuboid)
    (hB : B.EnemyI < Bounds.length) (hP : NUM_PEEKS ≤ B.PossiblePeeks.length) :
    ∃ r, IsBlocking E Bounds B C = some r := by
  have h4 : 4 ≤ B.PossiblePeeks.length := hP
  unfold IsBlocking
  rw [List.getElem?_eq_getElem hB]
  obtain ⟨r1, h1⟩ := IsBlocking_loop_total E C B.PossiblePeeks 0 1 (by omega) (by omega)
    Bounds[B.EnemyI].TopVertices
  obtain ⟨r2, h2⟩ := IsBlocking_loop_total E C B.PossiblePeeks 2 3 (by omega) (by omega)
    Bounds[B.EnemyI].BottomVertices
  simp only [h1, h2]
  cases r1
  · exact ⟨false, rfl⟩
  · exact ⟨r2, rfl⟩

theorem IsBlockingSphere_total (Bounds : List CharacterBounds) (B : Bundle) (S : Sphere)
    (hB : B.EnemyI < Bounds.length) (hP : NUM_PEEKS ≤ B.PossiblePeeks.length) :
    ∃ r, IsBlockingSphere Bounds B S = some r :=
  ⟨_, IsBlockingSphere_eq Bounds B S Bounds[B.EnemyI] (List.getElem?_eq_getElem hB) hP⟩

theorem CullWithCache_scan_flag (E : Externals) (s : Controller) (B : Bundle) (ks : List Nat)
    (CT CT1 : Nat → Nat → Nat → Int) (b : Bool)
    (h : CullWithCache.scan E s B ks CT = some (b, CT1)) :
    b = ks.any fun k =>
      match s.Cuboids[s.CuboidCaches B.PlayerI B.EnemyI k]? with
      | some C => IsBlocking E s.Bounds B C == some true
      | none => false := by
  induction ks with
  | nil =>
    simp only [CullWithCache.scan, Option.some.injEq, Prod.mk.injEq] at h
    simp [← h.1]
  | cons k rest ih =>
    simp only [CullWithCache.scan] at h
    cases hC : s.Cuboids[s.CuboidCaches B.PlayerI B.EnemyI k]? with
    | none => simp [hC] at h
    | some C =>
      cases hI : IsBlocking E s.Bounds B C with
      | none => simp [hC, hI] at h
      | some r =>
        cases r with
        | true =>
          simp only [hC, hI, Option.some.injEq, Prod.mk.injEq] at h
          simp [← h.1, hC, hI]
        | false =>
          simp only [hC, hI] at h
          simp [ih h, hC, hI]

theorem CullWithCache_run_queue (E : Externals) (s : Controller) (Bs : List Bundle)
    (CT CT1 : Nat → Nat → Nat → Int) (Rem Rem1 : List Bundle)
    (h : CullWithCache.run E s Bs (CT, Rem) = some (CT1, Rem1)) :
    Rem1 = Rem ++ Bs.filter (fun B => !BlockedByCache E s B) := by
  induction Bs generalizing CT Rem with
  | nil =>
    simp only [CullWithCache.run, Option.some.injEq, Prod.mk.injEq] at h
    simp [h.2]
  | cons B rest ih =>
    simp only [CullWithCache.run] at h
    cases hs : CullWithCache.scan E s B (List.range E.CUBOID_CACHE_SIZE) CT with
    | none => simp [hs] at h
    | some r =>
      obtain ⟨b, CT2⟩ := r
      simp only [hs] at h
      have hb := CullWithCache_scan_flag E s B _ CT CT2 b hs
      have hb' : BlockedByCache E s B = b := hb.symm
      rw [ih _ _ h, List.filter_cons]
      cases b <;> simp [hb']

theorem CullWithCache_queue (E : Externals) (s s1 : Controller)
    (h : CullWithCache E s = some s1) :
    s1.BundleQueue = s.BundleQueue.filter (fun B => !BlockedByCache E s B) ∧
    s1.Bounds = s.Bounds ∧ s1.Cuboids = s.Cuboids ∧ s1.Spheres = s.Spheres ∧
    s1.CuboidCaches = s.CuboidCaches ∧ s1.VisibilityTimers = s.VisibilityTimers := by
  unfold CullWithCache at h
  cases hr : CullWithCache.run E s s.BundleQueue (s.CacheTimers, []) with
  | none => simp [hr] at h
  | some r =>
    obtain ⟨CT1, Rem1⟩ := r
    simp only [hr, Option.some.injEq] at h
    subst h
    have := CullWithCache_run_queue E s _ _ _ _ _ hr
    simp [this]

theorem CullWithSpheres_scan_flag (s : Controller) (B : Bundle) (Ss : List Sphere) (b : Bool)
    (h : CullWithSpheres.scan s B Ss = some b) :
    b = Ss.any fun S => IsBlockingSphere s.Bounds B S == some true := by
  induction Ss with
  | nil =>
    simp only [CullWithSpheres.scan, Option.some.injEq] at h
    simp [← h]
  | cons S rest ih =>
    simp only [CullWithSpheres.scan] at h
    cases hI : IsBlockingSphere s.Bounds B S with
    | none => simp [hI] at h
    | some r =>
      cases r with
      | true =>
        simp only [hI, Option.some.injEq] at h
        simp [← h, hI]
      | false =>
        simp only [hI] at h
        simp [ih h, hI]

theorem CullWithSpheres_run_queue (s : Controller) (Bs : List Bundle) (Rem Rem1 : List Bundle)
    (h : CullWithSpheres.run s Bs Rem = some Rem1) :
    Rem1 = Rem ++ Bs.filter (fun B => !BlockedBySphere s B) := by
  induction Bs generalizing Rem with
  | nil =>
    simp only [CullWithSpheres.run, Option.some.injEq] at h
    simp [h]
  | cons B rest ih =>
    simp only [CullWithSpheres.run] at h
    cases hs : CullWithSpheres.scan s B s.Spheres with
    | none => simp [hs] at h
    | some b =>
      simp only [hs] at h
      have hb : BlockedBySphere s B = b := (CullWithSpheres_scan_flag s B _ b hs).symm
      rw [ih _ h, List.filter_cons]
      cases b <;> simp [hb]

theorem CullWithSpheres_queue (s s1 : Controller) (h : CullWithSpheres s = some s1) :
    s1.BundleQueue = s.BundleQueue.filter (fun B => !BlockedBySphere s B) ∧
    s1.Bounds = s.Bounds ∧ s1.Cuboids = s.Cuboids ∧ s1.Spheres = s.Spheres ∧
    s1.CuboidCaches = s.CuboidCaches ∧ s1.VisibilityTimers = s.VisibilityTimers ∧
    s1.CacheTimers = s.CacheTimers := by
  unfold CullWithSpheres at h
  cases hr : CullWithSpheres.run s s.BundleQueue [] with
  | none => simp [hr] at h
  | some Rem1 =>
    simp only [hr, Option.some.injEq] at h
    subst h
    have := CullWithSpheres_run_queue s _ _ _ hr
    simp [this]

theorem CullWithCuboids_scan_flag (E : Externals) (s : Controller) (B : Bundle) (is : List Nat)
    (CC CC1 : Nat → Nat → Nat → Nat) (CT CT1 : Nat → Nat → Nat → Int) (b : Bool)
    (h : CullWithCuboids.scan E s B is (CC, CT) = some (b, CC1, CT1)) :
    b = is.any fun CuboidI =>
      match s.Cuboids[CuboidI]? with
      | some C => IsBlocking E s.Bounds B C == some true
      | none => false := by
  induction is with
  | nil =>
    simp only [CullWithCuboids.scan, Option.some.injEq, Prod.mk.injEq] at h
    simp [← h.1]
  | cons i rest ih =>
    simp only [CullWithCuboids.scan] at h
    cases hC : s.Cuboids[i]? with
    | none => simp [hC] at h
    | some C =>
      cases hI : IsBlocking E s.Bounds B C with
      | none => simp [hC, hI] at h
      | some r =>
        cases r with
        | true =>
          simp only [hC, hI, Option.some.injEq, Prod.mk.injEq] at h
          simp [← h.1, hC, hI]
        | false =>
          simp only [hC, hI] at h
          simp [ih h, hC, hI]

theorem CullWithCuboids_run_queue (E : Externals) (s : Controller) (Bs : List Bundle)
    (CC CC1 : Nat → Nat → Nat → Nat) (CT CT1 : Nat → Nat → Nat → Int) (Rem Rem1 : List Bundle)
    (h : CullWithCuboids.run E s Bs (CC, CT, Rem) = some (CC1, CT1, Rem1)) :
    Rem1 = Rem ++ Bs.filter (fun B => !BlockedByCuboid E s B) := by
  induction Bs generalizing CC CT Rem with
  | nil =>
    simp only [CullWithCuboids.run, Option.some.injEq, Prod.mk.injEq] at h
    simp [h.2.2]
  | cons B rest ih =>
    simp only [CullWithCuboids.run] at h
    cases hs : CullWithCuboids.scan E s B (GetPossibleOccludingCuboids s B) (CC, CT) with
    | none => simp [hs] at h
    | some r =>
      obtain ⟨b, CC2, CT2⟩ := r
      simp only [hs] at h
      have hb : BlockedByCuboid E s B = b :=
        (CullWithCuboids_scan_flag E s B _ CC CC2 CT CT2 b hs).symm
      rw [ih _ _ _ h, List.filter_cons]
      cases b <;> simp [hb]

theorem CullWithCuboids_queue (E : Externals) (s s1 : Controller)
    (h : CullWithCuboids E s = some s1) :
    s1.BundleQueue = s.BundleQueue.filter (fun B => !BlockedByCuboid E s B) ∧
    s1.Bounds = s.Bounds ∧ s1.Cuboids = s.Cuboids ∧ s1.Spheres = s.Spheres ∧
    s1.VisibilityTimers = s.VisibilityTimers := by
  unfold CullWithCuboids at h
  cases hr : CullWithCuboids.run E s s.BundleQueue (s.CuboidCaches, s.CacheTimers, []) with
  | none => simp [hr] at h
  | some r =>
    obtain ⟨CC1, CT1, Rem1⟩ := r
    simp only [hr, Option.some.injEq] at h
    subst h
    have := CullWithCuboids_run_queue E s _ _ _ _ _ _ _ hr
    simp [this]

theorem CullWithCache_scan_total (E : Externals) (s : Controller) (B : Bundle) (ks : List Nat)
    (CT : Nat → Nat → Nat → Int)
    (hB : B.EnemyI < s.Bounds.length) (hP : NUM_PEEKS ≤ B.PossiblePeeks.length)
    (hk : ∀ k ∈ ks, s.CuboidCaches B.PlayerI B.EnemyI k < s.Cuboids.length) :
    ∃ r, CullWithCache.scan E s B ks CT = some r := by
  induction ks with
  | nil => exact ⟨_, rfl⟩
  | cons k rest ih =>
    simp only [CullWithCache.scan]
    obtain ⟨C, hC⟩ : ∃ C, s.Cuboids[s.CuboidCaches B.PlayerI B.EnemyI k]? = some C :=
      ⟨_, List.getElem?_eq_getElem (hk k (List.mem_cons_self _ _))⟩
    obtain ⟨r, hr⟩ := IsBlocking_total E s.Bounds B C hB hP
    simp only [hC, hr]
    cases r
    · exact ih (fun j hj => hk j (List.mem_cons_of_mem _ hj))
    · exact ⟨_, rfl⟩

theorem CullWithCache_run_total (E : Externals) (s : Controller) (Bs : List Bundle)
    (st : (Nat → Nat → Nat → Int) × List Bundle)
    (h : ∀ B ∈ Bs, B.EnemyI < s.Bounds.length ∧ NUM_PEEKS ≤ B.PossiblePeeks.length ∧
      ∀ k, k < E.CUBOID_CACHE_SIZE → s.CuboidCaches B.PlayerI B.EnemyI k < s.Cuboids.length) :
    ∃ r, CullWithCache.run E s Bs st = some r := by
  induction Bs generalizing st with
  | nil => exact ⟨_, rfl⟩
  | cons B rest ih =>
    obtain ⟨CT, Rem⟩ := st
    obtain ⟨hB, hP, hk⟩ := h B (List.mem_cons_self _ _)
    obtain ⟨r, hr⟩ := CullWithCache_scan_total E s B (List.range E.CUBOID_CACHE_SIZE) CT hB hP
      (fun k hk' => hk k (List.mem_range.mp hk'))
    simp only [CullWithCache.run, hr]
    exact ih _ (fun B' hB' => h B' (List.mem_cons_of_mem _ hB'))

theorem CullWithSpheres_scan_total (s : Controller) (B : Bundle) (Ss : List Sphere)
    (hB : B.EnemyI < s.Bounds.length) (hP : NUM_PEEKS ≤ B.PossiblePeeks.length) :
    ∃ r, CullWithSpheres.scan s B Ss = some r := by
  induction Ss with
  | nil => exact ⟨_, rfl⟩
  | cons S rest ih =>
    simp only [CullWithSpheres.scan]
    obtain ⟨r, hr⟩ := IsBlockingSphere_total s.Bounds B S hB hP
    simp only [hr]
    cases r
    · exact ih
    · exact ⟨_, rfl⟩

theorem CullWithSpheres_run_total (s : Controller) (Bs : List Bundle) (Rem : List Bundle)
    (h : ∀ B ∈ Bs, B.EnemyI < s.Bounds.length ∧ NUM_PEEKS ≤ B.PossiblePeeks.length) :
    ∃ r, CullWithSpheres.run s Bs Rem = some r := by
  induction Bs generalizing Rem with
  | nil => exact ⟨_, rfl⟩
  | cons B rest ih =>
    obtain ⟨hB, hP⟩ := h B (List.mem_cons_self _ _)
    obtain ⟨r, hr⟩ := CullWithSpheres_scan_total s B s.Spheres hB hP
    simp only [CullWithSpheres.run, hr]
    exact ih _ (fun B' hB' => h B' (List.mem_cons_of_mem _ hB'))

theorem CullWithCuboids_scan_total (E : Externals) (s : Controller) (B : Bundle) (is : List Nat)
    (st : (Nat → Nat → Nat → Nat) × (Nat → Nat → Nat → Int))
    (hB : B.EnemyI < s.Bounds.length) (hP : NUM_PEEKS ≤ B.PossiblePeeks.length)
    (hi : ∀ i ∈ is, i < s.Cuboids.length) :
    ∃ r, CullWithCuboids.scan E s B is st = some r := by
  obtain ⟨CC, CT⟩ := st
  induction is with
  | nil => exact ⟨_, rfl⟩
  | cons i rest ih =>
    simp only [CullWithCuboids.scan]
    obtain ⟨C, hC⟩ : ∃ C, s.Cuboids[i]? = some C :=
      ⟨_, List.getElem?_eq_getElem (hi i (List.mem_cons_self _ _))⟩
    obtain ⟨r, hr⟩ := IsBlocking_total E s.Bounds B C hB hP
    simp only [hC, hr]
    cases r
    · exact ih (fun j hj => hi j (List.mem_cons_of_mem _ hj))
    · exact ⟨_, rfl⟩

theorem CullWithCuboids_run_total (E : Externals) (s : Controller) (Bs : List Bundle)
    (st : (Nat → Nat → Nat → Nat) × (Nat → Nat → Nat → Int) × List Bundle)
    (h : ∀ B ∈ Bs, B.EnemyI < s.Bounds.length ∧ NUM_PEEKS ≤ B.PossiblePeeks.length) :
    ∃ r, CullWithCuboids.run E s Bs st = some r := by
  induction Bs generalizing st with
  | nil => exact ⟨_, rfl⟩
  | cons B rest ih =>
    obtain ⟨CC, CT, Rem⟩ := st
    obtain ⟨hB, hP⟩ := h B (List.mem_cons_self _ _)
    obtain ⟨r, hr⟩ := CullWithCuboids_scan_total E s B (GetPossibleOccludingCuboids s B)
      (CC, CT) hB hP (fun i hi => List.mem_range.mp hi)
    simp only [CullWithCuboids.run, hr]
    exact ih _ (fun B' hB' => h B' (List.mem_cons_of_mem _ hB'))

theorem CullWithCache_total (E : Externals) (s : Controller) (h : QueueReady E s) :
    ∃ s1, CullWithCache E s = some s1 := by
  obtain ⟨r, hr⟩ := CullWithCache_run_total E s s.BundleQueue (s.CacheTimers, []) h
  unfold CullWithCache
  rw [hr]
  exact ⟨_, rfl⟩

theorem CullWithSpheres_total (s : Controller)
    (h : ∀ B ∈ s.BundleQueue, B.EnemyI < s.Bounds.length ∧ NUM_PEEKS ≤ B.PossiblePeeks.length) :
    ∃ s1, CullWithSpheres s = some s1 := by
  obtain ⟨r, hr⟩ := CullWithSpheres_run_total s s.BundleQueue [] h
  unfold CullWithSpheres
  rw [hr]
  exact ⟨_, rfl⟩

theorem CullWithCuboids_total (E : Externals) (s : Controller)
    (h : ∀ B ∈ s.BundleQueue, B.EnemyI < s.Bounds.length ∧ NUM_PEEKS ≤ B.PossiblePeeks.length) :
    ∃ s1, CullWithCuboids E s = some s1 := by
  obtain ⟨r, hr⟩ := CullWithCuboids_run_total E s s.BundleQueue
    (s.CuboidCaches, s.CacheTimers, []) h
  unfold CullWithCuboids
  rw [hr]
  exact ⟨_, rfl⟩

theorem BlockedBySphere_congr (s s1 : Controller) (B : Bundle)
    (hB : s1.Bounds = s.Bounds) (hS : s1.Spheres = s.Spheres) :
    BlockedBySphere s1 B = BlockedBySphere s B := by
  unfold BlockedBySphere
  rw [hB, hS]

theorem BlockedByCuboid_congr (E : Externals) (s s1 : Controller) (B : Bundle)
    (hB : s1.Bounds = s.Bounds) (hC : s1.Cuboids = s.Cuboids) :
    BlockedByCuboid E s1 B = BlockedByCuboid E s B := by
  unfold BlockedByCuboid GetPossibleOccludingCuboids
  rw [hB, hC]

/-! ## Claim on the three cull stages -/

/-- C4: each of `CullWithCache`, `CullWithSpheres`, `CullWithCuboids` replaces the
bundle queue by an order-preserving sub-sequence of itself, and after the three
stages the queue is the original queue filtered, in order and with
multiplicities, to the bundles blocked by no cached cuboid of their pair, by no
sphere and by no cuboid returned by `GetPossibleOccludingCuboids`; on a queue
that is ready (peeks, enemy bounds and cache entries in range) the three stages
do return. -/
theorem C4_cull_stages_filter (E : Externals) (s : Controller) :
    (∀ s1 s2 s3, CullWithCache E s = some s1 → CullWithSpheres s1 = some s2 →
      CullWithCuboids E s2 = some s3 →
      s1.BundleQueue.Sublist s.BundleQueue ∧ s2.BundleQueue.Sublist s1.BundleQueue ∧
      s3.BundleQueue.Sublist s2.BundleQueue ∧
      s3.BundleQueue = s.BundleQueue.filter (fun B =>
        !BlockedByCache E s B && !BlockedBySphere s B && !BlockedByCuboid E s B)) ∧
    (QueueReady E s → ∃ s1 s2 s3, CullWithCache E s = some s1 ∧ CullWithSpheres s1 = some s2 ∧
      CullWithCuboids E s2 = some s3) := by
  constructor
  · intro s1 s2 s3 h1 h2 h3
    obtain ⟨q1, b1, c1, p1, -, -⟩ := CullWithCache_queue E s s1 h1
    obtain ⟨q2, b2, c2, p2, -, -, -⟩ := CullWithSpheres_queue s1 s2 h2
    obtain ⟨q3, -, -, -, -⟩ := CullWithCuboids_queue E s2 s3 h3
    have e2 : ∀ B, BlockedBySphere s1 B = BlockedBySphere s B :=
      fun B => BlockedBySphere_congr s s1 B b1 p1
    have e3 : ∀ B, BlockedByCuboid E s2 B = BlockedByCuboid E s B :=
      fun B => BlockedByCuboid_congr E s s2 B (b2.trans b1) (c2.trans c1)
    refine ⟨?_, ?_, ?_, ?_⟩
    · rw [q1]; exact List.filter_sublist _
    · rw [q2]; exact List.filter_sublist _
    · rw [q3]; exact List.filter_sublist _
    · rw [q3, q2, q1, List.filter_filter, List.filter_filter]
      congr 1
      funext B
      rw [e2 B, e3 B]
      cases BlockedByCache E s B <;> cases BlockedBySphere s B <;>
        cases BlockedByCuboid E s B <;> rfl
  · intro h
    obtain ⟨s1, h1⟩ := CullWithCache_total E s h
    obtain ⟨q1, b1, c1, p1, -, -⟩ := CullWithCache_queue E s s1 h1
    have r1 : ∀ B ∈ s1.BundleQueue,
        B.EnemyI < s1.Bounds.length ∧ NUM_PEEKS ≤ B.PossiblePeeks.length := by
      intro B hB
      rw [q1] at hB
      rw [b1]
      exact ⟨(h B (List.mem_of_mem_filter hB)).1, (h B (List.mem_of_mem_filter hB)).2.1⟩
    obtain ⟨s2, h2⟩ := CullWithSpheres_total s1 r1
    obtain ⟨q2, b2, c2, p2, -, -, -⟩ := CullWithSpheres_queue s1 s2 h2
    have r2 : ∀ B ∈ s2.BundleQueue,
        B.EnemyI < s2.Bounds.length ∧ NUM_PEEKS ≤ B.PossiblePeeks.length := by
      intro B hB
      rw [q2] at hB
      rw [b2]
      exact r1 B (List.mem_of_mem_filter hB)
    obtain ⟨s3, h3⟩ := CullWithCuboids_total E s2 r2
    exact ⟨s1, s2, s3, h1, h2, h3⟩

set_option maxRecDepth 8000 in
/-- Witness of C4 on the trio: the queue is ready, the three stages return, and
of the four queued bundles exactly those of the pairs (0, 2) and (2, 0), which
the wall does not separate, remain. -/
theorem C4_cull_stages_filter_witness :
    QueueReady Scene.E Scene.TrioQueued ∧
    Scene.TrioQueued.BundleQueue.map (fun B => (B.PlayerI, B.EnemyI))
      = [(0, 1), (0, 2), (1, 0), (2, 0)] ∧
    ∃ s1 s2 s3, CullWithCache Scene.E Scene.TrioQueued = some s1 ∧
      CullWithSpheres s1 = some s2 ∧ CullWithCuboids Scene.E s2 = some s3 ∧
      s3.BundleQueue.Sublist s2.BundleQueue ∧
      s3.BundleQueue.map (fun B => (B.PlayerI, B.EnemyI)) = [(0, 2), (2, 0)] := by
  have hr : QueueReady Scene.E Scene.TrioQueued := by decide!
  obtain ⟨s1, s2, s3, h1, h2, h3⟩ := (C4_cull_stages_filter Scene.E Scene.TrioQueued).2 hr
  have h := (C4_cull_stages_filter Scene.E Scene.TrioQueued).1 s1 s2 s3 h1 h2 h3
  refine ⟨hr, by decide!, s1, s2, s3, h1, h2, h3, h.2.2.1, ?_⟩
  rw [h.2.2.2]
  decide!

/-! ## Lemmas on bundle generation -/

theorem set2_same {α : Type} (M : Nat → Nat → α) (i j : Nat) (v : α) :
    set2 M i j v i j = v := by
  simp [set2]

theorem set2_other {α : Type} (M : Nat → Nat → α) (i j a b : Nat) (v : α)
    (h : ¬ (a = i ∧ b = j)) : set2 M i j v a b = M a b := by
  simp [set2, h]

theorem PopulateBundles_decrement_eq (T : Nat → Nat → Int) (i j : Nat) :
    (if T i j > 0 then set2 T i j (T i j - 1) else T) = set2 T i j (Decremented (T i j)) := by
  funext a b
  unfold Decremented
  by_cases h : T i j > 0
  · simp [h]
  · simp only [h, if_false]
    by_cases hab : a = i ∧ b = j
    · obtain ⟨rfl, rfl⟩ := hab
      simp [set2]
    · simp [set2, hab]

theorem PopulateBundles_inner_spec (E : Externals) (s : Controller)
    (Bounds : List CharacterBounds) (i : Nat) (js : List Nat) (hjs : js.Nodup)
    (T T1 : Nat → Nat → Int) (Q Q1 : List Bundle)
    (h : PopulateBundles.inner E s Bounds i js (T, Q) = some (T1, Q1)) :
    (∀ a b, T1 a b = if a = i ∧ b ∈ js then Decremented (T a b) else T a b) ∧
    ∃ New, Q1 = Q ++ New ∧
      New.map (fun B => B.EnemyI) = js.filter (fun j => decide (Eligible s T i j)) ∧
      ∀ B ∈ New, B.PlayerI = i ∧ Generated E s Bounds B := by
  induction js generalizing T Q with
  | nil =>
    simp only [PopulateBundles.inner, Option.some.injEq, Prod.mk.injEq] at h
    obtain ⟨rfl, rfl⟩ := h
    exact ⟨fun a b => by simp, [], by simp, by simp, by simp⟩
  | cons j rest ih =>
    have hj : j ∉ rest := (List.nodup_cons.mp hjs).1
    have hrest : rest.Nodup := (List.nodup_cons.mp hjs).2
    simp only [PopulateBundles.inner] at h
    rw [PopulateBundles_decrement_eq] at h
    rw [set2_same] at h
    -- the timers after the step on `j`
    have hT : ∀ T2 : Nat → Nat → Int,
        (∀ a b, T2 a b = if a = i ∧ b ∈ rest then
          Decremented (set2 T i j (Decremented (T i j)) a b)
          else set2 T i j (Decremented (T i j)) a b) →
        ∀ a b, T2 a b = if a = i ∧ b ∈ j :: rest then Decremented (T a b) else T a b := by
      intro T2 h2 a b
      rw [h2 a b]
      by_cases hab : a = i ∧ b = j
      · obtain ⟨rfl, rfl⟩ := hab
        simp [hj, set2]
      · rw [set2_other _ _ _ _ _ _ hab]
        by_cases ha : a = i
        · subst ha
          have hb : b ≠ j := fun hb => hab ⟨rfl, hb⟩
          simp [hb]
        · simp [ha]
    -- the filter over the rest does not see the step on `j`
    have hF : rest.filter (fun j' => decide (Eligible s (set2 T i j (Decremented (T i j))) i j'))
        = rest.filter (fun j' => decide (Eligible s T i j')) := by
      apply List.filter_congr
      intro j' hj'
      have hne : ¬ (i = i ∧ j' = j) := fun hc => hj (hc.2 ▸ hj')
      simp only [Eligible, set2_other _ _ _ _ _ _ hne]
    -- the step on `j` queues nothing
    have skip : ¬ Eligible s T i j →
        PopulateBundles.inner E s Bounds i rest (set2 T i j (Decremented (T i j)), Q)
          = some (T1, Q1) →
        (∀ a b, T1 a b = if a = i ∧ b ∈ j :: rest then Decremented (T a b) else T a b) ∧
        ∃ New, Q1 = Q ++ New ∧
          New.map (fun B => B.EnemyI) = (j :: rest).filter (fun j => decide (Eligible s T i j)) ∧
          ∀ B ∈ New, B.PlayerI = i ∧ Generated E s Bounds B := by
      intro hne hrun
      obtain ⟨h1, New, h2, h3, h4⟩ := ih hrest _ _ hrun
      refine ⟨hT T1 h1, New, h2, ?_, h4⟩
      rw [h3, hF, List.filter_cons]
      simp [hne]
    by_cases h0 : Decremented (T i j) = 0
    · rw [if_pos h0] at h
      cases hA : s.IsAlive[j]? with
      | none => simp [hA] at h
      | some alive =>
        cases alive with
        | false =>
          simp only [hA] at h
          exact skip (fun he => by simp [he.2.1] at hA) h
        | true =>
          simp only [hA] at h
          cases hti : s.Teams[i]? with
          | none => simp [hti] at h
          | some ti =>
            cases htj : s.Teams[j]? with
            | none => simp [hti, htj] at h
            | some tj =>
              simp only [hti, htj] at h
              by_cases hne : ti ≠ tj
              · rw [if_pos hne] at h
                cases hBi : Bounds[i]? with
                | none => simp [hBi] at h
                | some Bi =>
                  cases hBj : Bounds[j]? with
                  | none => simp [hBi, hBj] at h
                  | some Bj =>
                    simp only [hBi, hBj] at h
                    obtain ⟨h1, New, h2, h3, h4⟩ := ih hrest _ _ h
                    have hel : Eligible s T i j :=
                      ⟨h0, hA, by rw [hti, htj]; exact fun hc => hne (Option.some.inj hc)⟩
                    refine ⟨hT T1 h1,
                      ⟨i, j, GetPossiblePeeks E Bi.CameraLocation Bj.Center 15 10⟩ :: New,
                      by simp [h2], ?_, ?_⟩
                    · rw [List.filter_cons]
                      simp [hel, h3, hF]
                    · intro B hB
                      rcases List.mem_cons.mp hB with rfl | hB
                      · exact ⟨rfl, ⟨ti, tj, hti, htj, hne⟩, Bi, Bj, hBi, hBj, rfl⟩
                      · exact h4 B hB
              · rw [if_neg hne] at h
                have heq : ti = tj := not_not.mp hne
                exact skip (fun he => he.2.2 (by rw [hti, htj, heq])) h
    · rw [if_neg h0] at h
      exact skip (fun he => h0 he.1) h

theorem QueuedPairs_mem (s : Controller) (T : Nat → Nat → Int) (is : List Nat) (i j : Nat) :
    (i, j) ∈ QueuedPairs s T is ↔
      i ∈ is ∧ s.IsAlive[i]? = some true ∧ j < s.Characters.length ∧ Eligible s T i j := by
  induction is with
  | nil => simp [QueuedPairs]
  | cons a rest ih =>
    simp only [QueuedPairs, List.mem_append, ih, List.mem_cons]
    by_cases ha : s.IsAlive[a]? = some true
    · rw [if_pos ha]
      simp only [List.mem_map, List.mem_filter, List.mem_range, decide_eq_true_eq,
        Prod.mk.injEq]
      constructor
      · rintro (⟨j', ⟨hj', hel⟩, rfl, rfl⟩ | h)
        · exact ⟨Or.inl rfl, ha, hj', hel⟩
        · exact ⟨Or.inr h.1, h.2⟩
      · rintro ⟨rfl | hi, hal, hj, hel⟩
        · exact Or.inl ⟨j, ⟨hj, hel⟩, rfl, rfl⟩
        · exact Or.inr ⟨hi, hal, hj, hel⟩
    · rw [if_neg ha]
      simp only [List.not_mem_nil, false_or]
      constructor
      · rintro ⟨hi, h⟩
        exact ⟨Or.inr hi, h⟩
      · rintro ⟨rfl | hi, hal, h⟩
        · exact absurd hal ha
        · exact ⟨hi, hal, h⟩

theorem QueuedPairs_fst (s : Controller) (T : Nat → Nat → Int) (is : List Nat) (p : Nat × Nat)
    (h : p ∈ QueuedPairs s T is) : p.1 ∈ is := by
  obtain ⟨i, j⟩ := p
  exact ((QueuedPairs_mem s T is i j).mp h).1

theorem QueuedPairs_nodup (s : Controller) (T : Nat → Nat → Int) (is : List Nat)
    (h : is.Nodup) : (QueuedPairs s T is).Nodup := by
  induction is with
  | nil => simp [QueuedPairs]
  | cons a rest ih =>
    have ha : a ∉ rest := (List.nodup_cons.mp h).1
    simp only [QueuedPairs]
    refine List.Nodup.append ?_ (ih (List.nodup_cons.mp h).2) ?_
    · split
      · refine List.Nodup.map ?_ ((List.nodup_range _).filter _)
        intro x y hxy
        exact (Prod.mk.inj hxy).2
      · exact List.nodup_nil
    · intro p hp1 hp2
      have h2 := QueuedPairs_fst s T rest p hp2
      split at hp1
      · obtain ⟨j, -, rfl⟩ := List.mem_map.mp hp1
        exact ha h2
      · simp at hp1

theorem QueuedPairs_congr (s : Controller) (T T2 : Nat → Nat → Int) (is : List Nat)
    (h : ∀ a ∈ is, ∀ b, T2 a b = T a b) : QueuedPairs s T2 is = QueuedPairs s T is := by
  induction is with
  | nil => rfl
  | cons a rest ih =>
    simp only [QueuedPairs]
    rw [ih (fun x hx b => h x (List.mem_cons_of_mem _ hx) b)]
    have : (fun j => decide (Eligible s T2 a j)) = (fun j => decide (Eligible s T a j)) := by
      funext j
      simp only [Eligible, h a (List.mem_cons_self _ _) j]
    rw [this]

theorem PopulateBundles_outer_spec (E : Externals) (s : Controller)
    (Bounds : List CharacterBounds) (is : List Nat) (his : is.Nodup)
    (T T1 : Nat → Nat → Int) (Q Q1 : List Bundle)
    (h : PopulateBundles.outer E s Bounds is (T, Q) = some (T1, Q1)) :
    (∀ a b, T1 a b =
      if a ∈ is ∧ s.IsAlive[a]? = some true ∧ b < s.Characters.length
      then Decremented (T a b) else T a b) ∧
    ∃ New, Q1 = Q ++ New ∧
      New.map (fun B => (B.PlayerI, B.EnemyI)) = QueuedPairs s T is ∧
      ∀ B ∈ New, Generated E s Bounds B := by
  induction is generalizing T Q with
  | nil =>
    simp only [PopulateBundles.outer, Option.some.injEq, Prod.mk.injEq] at h
    obtain ⟨rfl, rfl⟩ := h
    exact ⟨fun a b => by simp, [], by simp, by simp [QueuedPairs], by simp⟩
  | cons i rest ih =>
    have hi : i ∉ rest := (List.nodup_cons.mp his).1
    have hrest : rest.Nodup := (List.nodup_cons.mp his).2
    simp only [PopulateBundles.outer] at h
    cases hA : s.IsAlive[i]? with
    | none => simp [hA] at h
    | some alive =>
      cases alive with
      | false =>
        simp only [hA] at h
        obtain ⟨h1, New, h2, h3, h4⟩ := ih hrest _ _ h
        refine ⟨?_, New, h2, ?_, h4⟩
        · intro a b
          rw [h1 a b]
          by_cases ha : a = i
          · subst ha
            simp [hi, hA]
          · simp [ha]
        · rw [h3]
          simp [QueuedPairs, hA]
      | true =>
        simp only [hA] at h
        cases hin : PopulateBundles.inner E s Bounds i (List.range s.Characters.length) (T, Q) with
        | none => simp [hin] at h
        | some st =>
          obtain ⟨T2, Q2⟩ := st
          simp only [hin] at h
          obtain ⟨g1, NewI, g2, g3, g4⟩ :=
            PopulateBundles_inner_spec E s Bounds i _ (List.nodup_range _) T T2 Q Q2 hin
          obtain ⟨h1, New, h2, h3, h4⟩ := ih hrest _ _ h
          have hrow : ∀ a ∈ rest, ∀ b, T2 a b = T a b := by
            intro a ha b
            rw [g1 a b]
            have : a ≠ i := fun hc => hi (hc ▸ ha)
            simp [this]
          refine ⟨?_, NewI ++ New, by rw [h2, g2, List.append_assoc], ?_, ?_⟩
          · intro a b
            rw [h1 a b, g1 a b]
            by_cases ha : a = i
            · subst ha
              simp [hi, hA, List.mem_range]
            · by_cases har : a ∈ rest
              · simp [ha, har]
              · simp [ha, har]
          · rw [List.map_append, h3, QueuedPairs_congr s T T2 rest hrow]
            simp only [QueuedPairs, hA, if_true]
            congr 1
            rw [← g3, List.map_map]
            apply List.map_congr_left
            intro B hB
            simp [(g4 B hB).1]
          · intro B hB
            rcases List.mem_append.mp hB with hB | hB
            · exact (g4 B hB).2
            · exact h4 B hB

theorem PopulateBundles_spec (E : Externals) (s s1 : Controller)
    (h : PopulateBundles E s = some s1) :
    (∀ a b, s1.VisibilityTimers a b =
      if a < s.Characters.length ∧ s.IsAlive[a]? = some true ∧ b < s.Characters.length
      then Decremented (s.VisibilityTimers a b) else s.VisibilityTimers a b) ∧
    s1.BundleQueue.map (fun B => (B.PlayerI, B.EnemyI))
      = QueuedPairs s s.VisibilityTimers (List.range s.Characters.length) ∧
    (∀ B ∈ s1.BundleQueue, Generated E s s1.Bounds B) ∧
    PopulateBundles.bounds E s (List.range s.Characters.length) [] = some s1.Bounds ∧
    s1.Characters = s.Characters ∧ s1.IsAlive = s.IsAlive ∧ s1.Teams = s.Teams ∧
    s1.Cuboids = s.Cuboids ∧ s1.Spheres = s.Spheres ∧ s1.CuboidCaches = s.CuboidCaches ∧
    s1.CacheTimers = s.CacheTimers ∧ s1.TimerIncrement = s.TimerIncrement ∧
    s1.RandCalls = s.RandCalls ∧ s1.Sent = s.Sent ∧ s1.TotalTicks = s.TotalTicks := by
  unfold PopulateBundles at h
  cases hb : PopulateBundles.bounds E s (List.range s.Characters.length) [] with
  | none => simp [hb] at h
  | some Bounds =>
    simp only [hb] at h
    cases ho : PopulateBundles.outer E s Bounds (List.range s.Characters.length)
        (s.VisibilityTimers, []) with
    | none => simp [ho] at h
    | some st =>
      obtain ⟨T1, Q1⟩ := st
      simp only [ho, Option.some.injEq] at h
      subst h
      obtain ⟨h1, New, h2, h3, h4⟩ :=
        PopulateBundles_outer_spec E s Bounds _ (List.nodup_range _) _ _ _ _ ho
      simp only [List.nil_append] at h2
      subst h2
      refine ⟨?_, h3, h4, rfl, rfl, rfl, rfl, rfl, rfl, rfl, rfl, rfl, rfl, rfl, rfl⟩
      intro a b
      show T1 a b = _
      rw [h1 a b]
      simp only [List.mem_range]

theorem PopulateBundles_bounds_total (E : Externals) (s : Controller)
    (hA : ArraysAligned s) (hP : AlivePrefix s) (m k : Nat) (acc : List CharacterBounds)
    (hkm : k + m ≤ s.Characters.length)
    (hacc : ∀ i, k ≤ i → s.IsAlive[i]? = some true → acc.length = k)
    (hlow : ∀ i, i < k → s.IsAlive[i]? = some true → i < acc.length) :
    ∃ B, PopulateBundles.bounds E s (List.range' k m) acc = some B ∧
      ∀ i, i < k + m → s.IsAlive[i]? = some true → i < B.length := by
  induction m generalizing k acc with
  | zero =>
    exact ⟨acc, rfl, fun i hi ha => hlow i (by omega) ha⟩
  | succ m ih =>
    have hk : k < s.IsAlive.length := by rw [hA.1]; omega
    have hkc : k < s.Characters.length := by omega
    simp only [List.range', PopulateBundles.bounds]
    rw [List.getElem?_eq_getElem hk]
    cases hal : s.IsAlive[k] with
    | false =>
      have hdead : s.IsAlive[k]? = some false := by rw [List.getElem?_eq_getElem hk, hal]
      simp only []
      obtain ⟨B, hB, hB2⟩ := ih (k + 1) acc (by omega)
        (fun i hi ha => by
          have := hP i k (by omega) ha
          rw [hdead] at this
          cases this)
        (fun i hi ha => by
          rcases Nat.lt_succ_iff_lt_or_eq.mp hi with h | h
          · exact hlow i h ha
          · subst h
            rw [hdead] at ha
            cases ha)
      exact ⟨B, hB, fun i hi ha => hB2 i (by omega) ha⟩
    | true =>
      have halive : s.IsAlive[k]? = some true := by rw [List.getElem?_eq_getElem hk, hal]
      have hlen : acc.length = k := hacc k (le_refl k) halive
      simp only []
      rw [List.getElem?_eq_getElem hkc]
      simp only [EmplaceAt, hlen, le_refl, if_true]
      obtain ⟨B, hB, hB2⟩ := ih (k + 1)
        (List.take k acc ++
          E.MakeBounds s.Characters[k].CameraLocation s.Characters[k].Transform ::
            List.drop k acc)
        (by omega)
        (fun i hi ha => by simp [hlen])
        (fun i hi ha => by simp [hlen]; omega)
      exact ⟨B, hB, fun i hi ha => hB2 i (by omega) ha⟩

theorem PopulateBundles_inner_total (E : Externals) (s : Controller)
    (Bounds : List CharacterBounds) (hA : ArraysAligned s) (i : Nat)
    (hi : i < s.Characters.length) (hBi : i < Bounds.length)
    (hB : ∀ j, j < s.Characters.length → s.IsAlive[j]? = some true → j < Bounds.length)
    (js : List Nat) (hjs : ∀ j ∈ js, j < s.Characters.length)
    (st : (Nat → Nat → Int) × List Bundle) :
    ∃ r, PopulateBundles.inner E s Bounds i js st = some r := by
  induction js generalizing st with
  | nil => exact ⟨_, rfl⟩
  | cons j rest ih =>
    obtain ⟨T, Q⟩ := st
    have hj : j < s.Characters.length := hjs j (List.mem_cons_self _ _)
    have hrest : ∀ j' ∈ rest, j' < s.Characters.length :=
      fun j' hj' => hjs j' (List.mem_cons_of_mem _ hj')
    obtain ⟨a, ha⟩ : ∃ a, s.IsAlive[j]? = some a :=
      ⟨_, List.getElem?_eq_getElem (by rw [hA.1]; exact hj)⟩
    obtain ⟨ti, hti⟩ : ∃ t, s.Teams[i]? = some t :=
      ⟨_, List.getElem?_eq_getElem (by rw [hA.2]; exact hi)⟩
    obtain ⟨tj, htj⟩ : ∃ t, s.Teams[j]? = some t :=
      ⟨_, List.getElem?_eq_getElem (by rw [hA.2]; exact hj)⟩
    obtain ⟨Bi, hBi'⟩ : ∃ b, Bounds[i]? = some b := ⟨_, List.getElem?_eq_getElem hBi⟩
    simp only [PopulateBundles.inner]
    rw [PopulateBundles_decrement_eq, set2_same]
    by_cases h0 : Decremented (T i j) = 0
    · rw [if_pos h0]
      simp only [ha, hti, htj]
      cases a with
      | false => exact ih hrest _
      | true =>
        obtain ⟨Bj, hBj⟩ : ∃ b, Bounds[j]? = some b :=
          ⟨_, List.getElem?_eq_getElem (hB j hj ha)⟩
        simp only [hBi', hBj]
        by_cases hne : ti ≠ tj
        · rw [if_pos hne]
          exact ih hrest _
        · rw [if_neg hne]
          exact ih hrest _
    · rw [if_neg h0]
      exact ih hrest _

theorem PopulateBundles_outer_total (E : Externals) (s : Controller)
    (Bounds : List CharacterBounds) (hA : ArraysAligned s)
    (hB : ∀ j, j < s.Characters.length → s.IsAlive[j]? = some true → j < Bounds.length)
    (is : List Nat) (his : ∀ i ∈ is, i < s.Characters.length)
    (st : (Nat → Nat → Int) × List Bundle) :
    ∃ r, PopulateBundles.outer E s Bounds is st = some r := by
  induction is generalizing st with
  | nil => exact ⟨_, rfl⟩
  | cons i rest ih =>
    have hi : i < s.Characters.length := his i (List.mem_cons_self _ _)
    have hrest : ∀ i' ∈ rest, i' < s.Characters.length :=
      fun i' hi' => his i' (List.mem_cons_of_mem _ hi')
    obtain ⟨a, ha⟩ : ∃ a, s.IsAlive[i]? = some a :=
      ⟨_, List.getElem?_eq_getElem (by rw [hA.1]; exact hi)⟩
    simp only [PopulateBundles.outer, ha]
    cases a with
    | false => exact ih hrest _
    | true =>
      obtain ⟨r, hr⟩ := PopulateBundles_inner_total E s Bounds hA i hi (hB i hi ha) hB
        (List.range s.Characters.length) (fun j hj => List.mem_range.mp hj) st
      simp only [hr]
      exact ih hrest _

theorem PopulateBundles_total (E : Externals) (s : Controller)
    (hA : ArraysAligned s) (hP : AlivePrefix s) :
    ∃ s1, PopulateBundles E s = some s1 := by
  obtain ⟨B, hB, hB2⟩ := PopulateBundles_bounds_total E s hA hP s.Characters.length 0 []
    (by omega) (fun i _ _ => rfl) (fun i hi _ => absurd hi (Nat.not_lt_zero i))
  rw [← List.range_eq_range'] at hB
  obtain ⟨r, hr⟩ := PopulateBundles_outer_total E s B hA
    (fun j hj ha => hB2 j (by omega) ha) (List.range s.Characters.length)
    (fun i hi => List.mem_range.mp hi) (s.VisibilityTimers, [])
  unfold PopulateBundles
  rw [hB]
  simp only [hr]
  exact ⟨_, rfl⟩

theorem GetPossiblePeeks_length (E : Externals) (P Q : FVector) (h v : ℚ) :
    (GetPossiblePeeks E P Q h v).length = 4 := rfl

theorem AlivePrefix_of_all_alive (s : Controller)
    (h : ∀ k, k < s.IsAlive.length → s.IsAlive[k]? = some true) : AlivePrefix s := by
  intro i k hki hi
  have hi' : i < s.IsAlive.length := by
    by_contra hc
    rw [List.getElem?_eq_none (by omega)] at hi
    cases hi
  exact h k (by omega)

/-! ## Claims on bundle generation -/

/-- C5: after `PopulateBundles` the queue holds a bundle for the ordered pair
`(i, j)` if and only if `i` and `j` are living characters of different teams
whose timer is 0 after this tick's decrement; no pair is queued twice, every
bundle carries exactly 4 peeks, and no queued pair has a positive timer. The
routine returns whenever the three character arrays have equal length and no
dead character precedes a living one. -/
theorem C5_PopulateBundles_queue (E : Externals) (s : Controller) :
    (ArraysAligned s → AlivePrefix s → ∃ s1, PopulateBundles E s = some s1) ∧
    ∀ s1, PopulateBundles E s = some s1 →
      (∀ i j, (∃ B ∈ s1.BundleQueue, B.PlayerI = i ∧ B.EnemyI = j) ↔
        (i < s.Characters.length ∧ j < s.Characters.length ∧
          s.IsAlive[i]? = some true ∧ s.IsAlive[j]? = some true ∧
          (∃ ti tj, s.Teams[i]? = some ti ∧ s.Teams[j]? = some tj ∧ ti ≠ tj) ∧
          s1.VisibilityTimers i j = 0)) ∧
      (s1.BundleQueue.map (fun B => (B.PlayerI, B.EnemyI))).Nodup ∧
      (∀ B ∈ s1.BundleQueue, B.PossiblePeeks.length = 4) ∧
      (∀ B ∈ s1.BundleQueue, ¬ 0 < s1.VisibilityTimers B.PlayerI B.EnemyI) := by
  refine ⟨PopulateBundles_total E s, ?_⟩
  intro s1 h
  obtain ⟨hT, hQ, hG, -⟩ := PopulateBundles_spec E s s1 h
  have hmem : ∀ i j, (∃ B ∈ s1.BundleQueue, B.PlayerI = i ∧ B.EnemyI = j) ↔
      (i, j) ∈ QueuedPairs s s.VisibilityTimers (List.range s.Characters.length) := by
    intro i j
    rw [← hQ, List.mem_map]
    constructor
    · rintro ⟨B, hB, rfl, rfl⟩
      exact ⟨B, hB, rfl⟩
    · rintro ⟨B, hB, hp⟩
      exact ⟨B, hB, (Prod.mk.inj hp).1, (Prod.mk.inj hp).2⟩
  have hzero : ∀ B ∈ s1.BundleQueue, s1.VisibilityTimers B.PlayerI B.EnemyI = 0 := by
    intro B hB
    have hq := (hmem B.PlayerI B.EnemyI).mp ⟨B, hB, rfl, rfl⟩
    obtain ⟨hi, hal, hj, hel⟩ := (QueuedPairs_mem s _ _ _ _).mp hq
    rw [hT, if_pos ⟨List.mem_range.mp hi, hal, hj⟩]
    exact hel.1
  refine ⟨?_, ?_, ?_, ?_⟩
  · intro i j
    rw [hmem i j, QueuedPairs_mem]
    constructor
    · rintro ⟨hi, hal, hj, hel⟩
      have hq := (QueuedPairs_mem s s.VisibilityTimers _ i j).mpr ⟨hi, hal, hj, hel⟩
      obtain ⟨B, hB, rfl, rfl⟩ := (hmem i j).mpr hq
      refine ⟨List.mem_range.mp hi, hj, hal, hel.2.1, (hG B hB).1, hzero B hB⟩
    · rintro ⟨hi, hj, hali, halj, ⟨ti, tj, hti, htj, hne⟩, h0⟩
      refine ⟨List.mem_range.mpr hi, hali, hj, ?_, halj, ?_⟩
      · rw [hT, if_pos ⟨hi, hali, hj⟩] at h0
        exact h0
      · rw [hti, htj]
        exact fun hc => hne (Option.some.inj hc)
  · rw [hQ]
    exact QueuedPairs_nodup s _ _ (List.nodup_range _)
  · intro B hB
    obtain ⟨-, Bi, Bj, -, -, hp⟩ := hG B hB
    rw [hp]
    rfl
  · intro B hB
    rw [hzero B hB]
    exact lt_irrefl 0

set_option maxRecDepth 8000 in
/-- Witness of C5 on the trio: `PopulateBundles` returns, and it queues exactly
the pairs (0, 1), (0, 2), (1, 0), (2, 0), each once. -/
theorem C5_PopulateBundles_queue_witness :
    ∃ s1, PopulateBundles Scene.E Scene.TrioStart = some s1 ∧
      s1.BundleQueue.map (fun B => (B.PlayerI, B.EnemyI)) = [(0, 1), (0, 2), (1, 0), (2, 0)] ∧
      (s1.BundleQueue.map (fun B => (B.PlayerI, B.EnemyI))).Nodup ∧
      ((∃ B ∈ s1.BundleQueue, B.PlayerI = 1 ∧ B.EnemyI = 2) ↔
        (1 < Scene.TrioStart.Characters.length ∧ 2 < Scene.TrioStart.Characters.length ∧
          Scene.TrioStart.IsAlive[1]? = some true ∧ Scene.TrioStart.IsAlive[2]? = some true ∧
          (∃ ti tj, Scene.TrioStart.Teams[1]? = some ti ∧ Scene.TrioStart.Teams[2]? = some tj ∧
            ti ≠ tj) ∧
          s1.VisibilityTimers 1 2 = 0)) := by
  obtain ⟨s1, h⟩ := (C5_PopulateBundles_queue Scene.E Scene.TrioStart).1 (by decide)
    (AlivePrefix_of_all_alive _ (by decide))
  have hq : Scene.TrioQueued = s1 := by
    unfold Scene.TrioQueued
    rw [h]
    rfl
  have hc := (C5_PopulateBundles_queue Scene.E Scene.TrioStart).2 s1 h
  refine ⟨s1, h, ?_, hc.2.1, hc.1 1 2⟩
  rw [← hq]
  decide!

/-- C7, as stated, fails: in the duel whose character 1 is dead, the positive
timer 5 of the pair (1, 0) is still 5 after `PopulateBundles`, not
max(5 - 1, 0) = 4. -/
theorem C7_counterexample :
    Scene.DeadWatcher.VisibilityTimers 1 0 = 5 ∧
    (PopulateBundles Scene.E Scene.DeadWatcher).map (fun s => s.VisibilityTimers 1 0)
      = some 5 ∧
    (5 : Int) ≠ max (5 - 1) 0 := by
  refine ⟨by decide!, by decide!, by decide⟩

/-- C7, amended: `PopulateBundles` decrements the timers in the rows of the
living players only: for a living player `i` and every character `j` the timer
after bundle generation is max(old - 1, 0) for every old value that is not
negative, whatever the liveness and team of `j`; the timers in the row of a
player that is not alive keep their value. The routine returns whenever the
character arrays have equal length and no dead character precedes a living
one. -/
theorem C7_PopulateBundles_decrement (E : Externals) (s : Controller) :
    (ArraysAligned s → AlivePrefix s → ∃ s1, PopulateBundles E s = some s1) ∧
    ∀ s1, PopulateBundles E s = some s1 →
      (∀ i j, i < s.Characters.length → j < s.Characters.length →
        s.IsAlive[i]? = some true → 0 ≤ s.VisibilityTimers i j →
        s1.VisibilityTimers i j = max (s.VisibilityTimers i j - 1) 0) ∧
      (∀ i j, s.IsAlive[i]? ≠ some true →
        s1.VisibilityTimers i j = s.VisibilityTimers i j) := by
  refine ⟨PopulateBundles_total E s, ?_⟩
  intro s1 h
  obtain ⟨hT, -⟩ := PopulateBundles_spec E s s1 h
  constructor
  · intro i j hi hj hal h0
    rw [hT, if_pos ⟨hi, hal, hj⟩]
    unfold Decremented
    split
    · rw [max_eq_left (by omega)]
    · rw [max_eq_right (by omega)]
      omega
  · intro i j hal
    rw [hT, if_neg (fun hc => hal hc.2.1)]

/-- Witness of the amended C7 on the duel whose character 1 is dead: the timer
of the living player 0 goes from 3 to 2, the timer of the dead player 1 stays
at 5. -/
theorem C7_PopulateBundles_decrement_witness :
    ∃ s1, PopulateBundles Scene.E Scene.DeadWatcher = some s1 ∧
      s1.VisibilityTimers 0 1 = 2 ∧ s1.VisibilityTimers 1 0 = 5 := by
  obtain ⟨s1, h⟩ := (C7_PopulateBundles_decrement Scene.E Scene.DeadWatcher).1 (by decide) (by
    intro i k hki hi
    have hi2 : i < 2 := by
      by_contra hc
      have : Scene.DeadWatcher.IsAlive[i]? = none := List.getElem?_eq_none (by
        show [true, false].length ≤ i
        simp only [List.length_cons, List.length_nil]; omega)
      rw [this] at hi
      cases hi
    interval_cases i
    · omega
    · exact absurd hi (by decide))
  have hc := (C7_PopulateBundles_decrement Scene.E Scene.DeadWatcher).2 s1 h
  refine ⟨s1, h, ?_, ?_⟩
  · rw [hc.1 0 1 (by decide) (by decide) (by decide) (by decide)]
    decide
  · rw [hc.2 1 0 (by decide)]
    decide

/-! ## Lemmas on the visibility update -/

theorem Int32Add_exact (a b : Int) (h1 : -2147483648 ≤ a + b) (h2 : a + b ≤ 2147483647) :
    Int32Add a b = a + b := by
  unfold Int32Add Int32Wrap
  omega

theorem Int32Add_jitter (TI : Int) (r : Nat) (hr : r < 3) (h1 : -2147483648 ≤ TI)
    (h2 : TI ≤ 2147483645) : Int32Add TI (r : Int) = TI + (r : Int) := by
  apply Int32Add_exact <;> omega

theorem UpdateVisibility_reset_spec (E : Externals) (TI : Int) (Bs : List Bundle)
    (T : Nat → Nat → Int) (R : Nat) :
    (∀ a b, (a, b) ∉ Bs.map (fun B => (B.PlayerI, B.EnemyI)) →
      (UpdateVisibility.reset E TI Bs (T, R)).1 a b = T a b) ∧
    (∀ a b, (a, b) ∈ Bs.map (fun B => (B.PlayerI, B.EnemyI)) →
      ∃ r : Nat, r < 3 ∧
        (UpdateVisibility.reset E TI Bs (T, R)).1 a b = Int32Add TI (r : Int)) ∧
    (UpdateVisibility.reset E TI Bs (T, R)).2 = R + Bs.length := by
  induction Bs generalizing T R with
  | nil => simp [UpdateVisibility.reset]
  | cons B rest ih =>
    simp only [UpdateVisibility.reset]
    obtain ⟨h1, h2, h3⟩ := ih
      (set2 T B.PlayerI B.EnemyI (Int32Add TI ((E.Rand R % 3 : Nat) : Int))) (R + 1)
    refine ⟨?_, ?_, ?_⟩
    · intro a b hab
      simp only [List.map_cons, List.mem_cons, not_or] at hab
      rw [h1 a b hab.2]
      exact set2_other _ _ _ _ _ _ (fun hc => hab.1 (by rw [hc.1, hc.2]))
    · intro a b hab
      by_cases hr : (a, b) ∈ rest.map (fun B => (B.PlayerI, B.EnemyI))
      · exact h2 a b hr
      · rw [h1 a b hr]
        simp only [List.map_cons, List.mem_cons] at hab
        rcases hab with hab | hab
        · rw [(Prod.mk.inj hab).1, (Prod.mk.inj hab).2, set2_same]
          exact ⟨E.Rand R % 3, Nat.mod_lt _ (by decide), rfl⟩
        · exact absurd hab hr
    · rw [h3]
      simp only [List.length_cons]
      omega

theorem SendLocation_sent (s : Controller) (i j : Nat)
    (log log1 : List (Nat × Nat) × List (FVector × FVector))
    (h : SendLocation s i j log = some log1) : log1.1 = log.1 ++ [(i, j)] := by
  obtain ⟨Sent, Lines⟩ := log
  simp only [SendLocation] at h
  cases ht : s.Teams[i]? with
  | none => simp [ht] at h
  | some t =>
    simp only [ht] at h
    by_cases h0 : t = 0
    · rw [if_pos h0] at h
      cases hBi : s.Bounds[i]? with
      | none => simp [hBi] at h
      | some Bi =>
        cases hBj : s.Bounds[j]? with
        | none => simp [hBi, hBj] at h
        | some Bj =>
          simp only [hBi, hBj, Option.some.injEq] at h
          rw [← h]
    · rw [if_neg h0, Option.some.injEq] at h
      rw [← h]

theorem SendLocation_total (s : Controller) (i j : Nat)
    (log : List (Nat × Nat) × List (FVector × FVector))
    (hi : i < s.Teams.length) (hBi : i < s.Bounds.length) (hBj : j < s.Bounds.length) :
    ∃ r, SendLocation s i j log = some r := by
  obtain ⟨Sent, Lines⟩ := log
  simp only [SendLocation, List.getElem?_eq_getElem hi, List.getElem?_eq_getElem hBi,
    List.getElem?_eq_getElem hBj]
  split
  · exact ⟨_, rfl⟩
  · exact ⟨_, rfl⟩

theorem UpdateVisibility_inner_spec (s : Controller) (i : Nat) (js : List Nat)
    (log log1 : List (Nat × Nat) × List (FVector × FVector))
    (h : UpdateVisibility.inner s i js log = some log1) :
    log1.1 = log.1 ++
      (js.filter (fun j => decide (s.IsAlive[j]? = some true ∧ 0 < s.VisibilityTimers i j))).map
        (fun j => (i, j)) := by
  induction js generalizing log with
  | nil =>
    simp only [UpdateVisibility.inner, Option.some.injEq] at h
    simp [h]
  | cons j rest ih =>
    simp only [UpdateVisibility.inner] at h
    cases hA : s.IsAlive[j]? with
    | none => simp [hA] at h
    | some alive =>
      cases alive with
      | false =>
        simp only [hA] at h
        rw [ih _ h, List.filter_cons]
        simp [hA]
      | true =>
        simp only [hA] at h
        by_cases hpos : s.VisibilityTimers i j > 0
        · rw [if_pos hpos] at h
          cases hS : SendLocation s i j log with
          | none => simp [hS] at h
          | some log2 =>
            simp only [hS] at h
            have hpos' : 0 < s.VisibilityTimers i j := hpos
            rw [ih _ h, SendLocation_sent s i j log log2 hS, List.filter_cons]
            simp [hA, hpos']
        · rw [if_neg hpos] at h
          have hpos' : ¬ 0 < s.VisibilityTimers i j := hpos
          rw [ih _ h, List.filter_cons]
          simp [hA, hpos']

theorem UpdateVisibility_outer_spec (s : Controller) (is : List Nat)
    (log log1 : List (Nat × Nat) × List (FVector × FVector))
    (h : UpdateVisibility.outer s is log = some log1) :
    log1.1 = log.1 ++ ReportedPairs s is := by
  induction is generalizing log with
  | nil =>
    simp only [UpdateVisibility.outer, Option.some.injEq] at h
    simp [h, ReportedPairs]
  | cons i rest ih =>
    simp only [UpdateVisibility.outer] at h
    cases hA : s.IsAlive[i]? with
    | none => simp [hA] at h
    | some alive =>
      cases alive with
      | false =>
        simp only [hA] at h
        rw [ih _ h]
        simp [ReportedPairs, hA]
      | true =>
        simp only [hA] at h
        cases hI : UpdateVisibility.inner s i (List.range s.Characters.length) log with
        | none => simp [hI] at h
        | some log2 =>
          simp only [hI] at h
          rw [ih _ h, UpdateVisibility_inner_spec s i _ log log2 hI]
          simp [ReportedPairs, hA]

theorem ReportedPairs_mem (s : Controller) (is : List Nat) (i j : Nat) :
    (i, j) ∈ ReportedPairs s is ↔
      i ∈ is ∧ s.IsAlive[i]? = some true ∧ j < s.Characters.length ∧
        s.IsAlive[j]? = some true ∧ 0 < s.VisibilityTimers i j := by
  induction is with
  | nil => simp [ReportedPairs]
  | cons a rest ih =>
    simp only [ReportedPairs, List.mem_append, ih, List.mem_cons]
    by_cases ha : s.IsAlive[a]? = some true
    · rw [if_pos ha]
      simp only [List.mem_map, List.mem_filter, List.mem_range, decide_eq_true_eq,
        Prod.mk.injEq]
      constructor
      · rintro (⟨j', ⟨hj', hel⟩, rfl, rfl⟩ | h)
        · exact ⟨Or.inl rfl, ha, hj', hel⟩
        · exact ⟨Or.inr h.1, h.2⟩
      · rintro ⟨rfl | hi, hal, hj, hel⟩
        · exact Or.inl ⟨j, ⟨hj, hel⟩, rfl, rfl⟩
        · exact Or.inr ⟨hi, hal, hj, hel⟩
    · rw [if_neg ha]
      simp only [List.not_mem_nil, false_or]
      constructor
      · rintro ⟨hi, h⟩
        exact ⟨Or.inr hi, h⟩
      · rintro ⟨rfl | hi, hal, h⟩
        · exact absurd hal ha
        · exact ⟨hi, hal, h⟩

theorem ReportedPairs_nodup (s : Controller) (is : List Nat) (h : is.Nodup) :
    (ReportedPairs s is).Nodup := by
  induction is with
  | nil => simp [ReportedPairs]
  | cons a rest ih =>
    have ha : a ∉ rest := (List.nodup_cons.mp h).1
    simp only [ReportedPairs]
    refine List.Nodup.append ?_ (ih (List.nodup_cons.mp h).2) ?_
    · split
      · refine List.Nodup.map ?_ ((List.nodup_range _).filter _)
        intro x y hxy
        exact (Prod.mk.inj hxy).2
      · exact List.nodup_nil
    · intro p hp1 hp2
      obtain ⟨i, j⟩ := p
      have h2 := ((ReportedPairs_mem s rest i j).mp hp2).1
      split at hp1
      · obtain ⟨j', -, hp⟩ := List.mem_map.mp hp1
        rw [← (Prod.mk.inj hp).1] at h2
        exact ha h2
      · simp at hp1

theorem ReportedPairs_congr (s s1 : Controller) (is : List Nat)
    (hA : s1.IsAlive = s.IsAlive) (hC : s1.Characters = s.Characters)
    (hV : s1.VisibilityTimers = s.VisibilityTimers) :
    ReportedPairs s1 is = ReportedPairs s is := by
  induction is with
  | nil => rfl
  | cons i rest ih => simp only [ReportedPairs, hA, hC, hV, ih]

theorem UpdateVisibility_spec (E : Externals) (s s1 : Controller)
    (h : UpdateVisibility E s = some s1) :
    s1.VisibilityTimers = (UpdateVisibility.reset E s.TimerIncrement s.BundleQueue
      (s.VisibilityTimers, s.RandCalls)).1 ∧
    s1.Sent = s.Sent ++ ReportedPairs s1 (List.range s.Characters.length) ∧
    s1.RandCalls = s.RandCalls + s.BundleQueue.length ∧
    s1.BundleQueue = s.BundleQueue ∧ s1.CuboidCaches = s.CuboidCaches ∧
    s1.CacheTimers = s.CacheTimers ∧ s1.Bounds = s.Bounds ∧
    s1.Characters = s.Characters ∧ s1.IsAlive = s.IsAlive ∧ s1.Teams = s.Teams ∧
    s1.TimerIncrement = s.TimerIncrement ∧ s1.TotalTicks = s.TotalTicks ∧
    s1.RollingWindowLength = s.RollingWindowLength := by
  unfold UpdateVisibility at h
  simp only [] at h
  split at h
  · cases h
  · rename_i Sent Lines hout
    simp only [Option.some.injEq] at h
    subst h
    have := UpdateVisibility_outer_spec _ _ _ _ hout
    refine ⟨rfl, ?_, (UpdateVisibility_reset_spec E _ _ _ _).2.2, rfl, rfl, rfl, rfl, rfl, rfl,
      rfl, rfl, rfl, rfl⟩
    simp only [] at this
    show Sent = _
    rw [this]
    congr 1
    apply ReportedPairs_congr <;> rfl

theorem UpdateVisibility_inner_total (s : Controller) (hA : ArraysAligned s)
    (hB : BoundsCover s) (i : Nat) (hi : i < s.Characters.length)
    (hal : s.IsAlive[i]? = some true) (js : List Nat)
    (hjs : ∀ j ∈ js, j < s.Characters.length)
    (log : List (Nat × Nat) × List (FVector × FVector)) :
    ∃ r, UpdateVisibility.inner s i js log = some r := by
  induction js generalizing log with
  | nil => exact ⟨_, rfl⟩
  | cons j rest ih =>
    have hj : j < s.Characters.length := hjs j (List.mem_cons_self _ _)
    have hrest : ∀ j' ∈ rest, j' < s.Characters.length :=
      fun j' hj' => hjs j' (List.mem_cons_of_mem _ hj')
    obtain ⟨a, ha⟩ : ∃ a, s.IsAlive[j]? = some a :=
      ⟨_, List.getElem?_eq_getElem (by rw [hA.1]; exact hj)⟩
    simp only [UpdateVisibility.inner, ha]
    cases a with
    | false => exact ih hrest _
    | true =>
      simp only []
      split
      · obtain ⟨r, hr⟩ := SendLocation_total s i j log (by rw [hA.2]; exact hi)
          (hB i hi hal) (hB j hj ha)
        simp only [hr]
        exact ih hrest _
      · exact ih hrest _

theorem UpdateVisibility_outer_total (s : Controller) (hA : ArraysAligned s)
    (hB : BoundsCover s) (is : List Nat) (his : ∀ i ∈ is, i < s.Characters.length)
    (log : List (Nat × Nat) × List (FVector × FVector)) :
    ∃ r, UpdateVisibility.outer s is log = some r := by
  induction is generalizing log with
  | nil => exact ⟨_, rfl⟩
  | cons i rest ih =>
    have hi : i < s.Characters.length := his i (List.mem_cons_self _ _)
    have hrest : ∀ i' ∈ rest, i' < s.Characters.length :=
      fun i' hi' => his i' (List.mem_cons_of_mem _ hi')
    obtain ⟨a, ha⟩ : ∃ a, s.IsAlive[i]? = some a :=
      ⟨_, List.getElem?_eq_getElem (by rw [hA.1]; exact hi)⟩
    simp only [UpdateVisibility.outer, ha]
    cases a with
    | false => exact ih hrest _
    | true =>
      obtain ⟨r, hr⟩ := UpdateVisibility_inner_total s hA hB i hi ha
        (List.range s.Characters.length) (fun j hj => List.mem_range.mp hj) log
      simp only [hr]
      exact ih hrest _

theorem UpdateVisibility_total (E : Externals) (s : Controller) (hA : ArraysAligned s)
    (hB : BoundsCover s) : ∃ s1, UpdateVisibility E s = some s1 := by
  unfold UpdateVisibility
  simp only []
  obtain ⟨r, hr⟩ := UpdateVisibility_outer_total
    { s with
      VisibilityTimers := (UpdateVisibility.reset E s.TimerIncrement s.BundleQueue
        (s.VisibilityTimers, s.RandCalls)).1,
      RandCalls := (UpdateVisibility.reset E s.TimerIncrement s.BundleQueue
        (s.VisibilityTimers, s.RandCalls)).2 }
    hA hB (List.range s.Characters.length) (fun i hi => List.mem_range.mp hi) (s.Sent, s.Lines)
  rw [hr]
  exact ⟨_, rfl⟩

/-! ## Claims on the visibility update -/

set_option maxRecDepth 8000 in
/-- C8, as stated, fails: in the duel whose character 1 is dead the timer of the
pair (0, 1) is 3 after `UpdateVisibility`, hence positive, and `SendLocation`
is not invoked for it (nothing is reported at all). -/
theorem C8_counterexample :
    Scene.DeadWatcher.IsAlive = [true, false] ∧
    (UpdateVisibility Scene.E Scene.DeadWatcher).map
      (fun s => (s.VisibilityTimers 0 1, s.Sent)) = some (3, []) := by
  refine ⟨rfl, by decide!⟩

/-- C8, amended: in one call of `UpdateVisibility`, `SendLocation` is invoked
exactly once for every ordered pair of living characters whose timer is positive
after the timer resets, at most once for any pair, and never for a pair whose
timer is not positive or one of whose members is not alive. The call returns
whenever the character arrays have equal length and every living character has
bounds. -/
theorem C8_UpdateVisibility_reports (E : Externals) (s : Controller) :
    (ArraysAligned s → BoundsCover s → ∃ s1, UpdateVisibility E s = some s1) ∧
    ∀ s1, UpdateVisibility E s = some s1 →
      ∃ New, s1.Sent = s.Sent ++ New ∧ New.Nodup ∧
        ∀ i j, (i, j) ∈ New ↔
          (i < s.Characters.length ∧ j < s.Characters.length ∧
            s.IsAlive[i]? = some true ∧ s.IsAlive[j]? = some true ∧
            0 < s1.VisibilityTimers i j) := by
  refine ⟨UpdateVisibility_total E s, ?_⟩
  intro s1 h
  obtain ⟨-, hS, -, -, -, -, -, -, hA, -⟩ := UpdateVisibility_spec E s s1 h
  have hnd := ReportedPairs_nodup s1 (List.range s.Characters.length) (List.nodup_range _)
  refine ⟨_, hS, hnd, ?_⟩
  intro i j
  rw [ReportedPairs_mem, hA, List.mem_range]
  have hC : s1.Characters = s.Characters := (UpdateVisibility_spec E s s1 h).2.2.2.2.2.2.2.1
  rw [hC]
  constructor
  · rintro ⟨hi, hali, hj, halj, hpos⟩
    exact ⟨hi, hj, hali, halj, hpos⟩
  · rintro ⟨hi, hj, hali, halj, hpos⟩
    exact ⟨hi, hali, hj, halj, hpos⟩

set_option maxRecDepth 8000 in
/-- Witness of the amended C8 on the trio after its cull tick: a further call
of `UpdateVisibility` returns and reports the pairs (0, 2) and (2, 0), once
each. -/
theorem C8_UpdateVisibility_reports_witness :
    ∃ s1, UpdateVisibility Scene.E Scene.TrioAfterCull = some s1 ∧
      ∃ New, s1.Sent = Scene.TrioAfterCull.Sent ++ New ∧ New.Nodup ∧
        ((0, 2) ∈ New ↔
          (0 < Scene.TrioAfterCull.Characters.length ∧
            2 < Scene.TrioAfterCull.Characters.length ∧
            Scene.TrioAfterCull.IsAlive[0]? = some true ∧
            Scene.TrioAfterCull.IsAlive[2]? = some true ∧
            0 < s1.VisibilityTimers 0 2)) := by
  have hC : Scene.TrioAfterCull.Characters.length = 3 := by decide!
  have hB : Scene.TrioAfterCull.Bounds.length = 3 := by decide!
  obtain ⟨s1, h⟩ := (C8_UpdateVisibility_reports Scene.E Scene.TrioAfterCull).1 (by decide!)
    (fun i hi _ => by rw [hB]; rw [hC] at hi; exact hi)
  obtain ⟨New, h1, h2, h3⟩ :=
    (C8_UpdateVisibility_reports Scene.E Scene.TrioAfterCull).2 s1 h
  exact ⟨s1, h, New, h1, h2, h3 0 2⟩

/-! ## Lemmas on a whole tick -/

theorem CullFrame_refl (s : Controller) : CullFrame s s :=
  ⟨rfl, rfl, rfl, rfl, rfl, rfl, rfl, rfl, rfl, rfl, rfl, rfl⟩

theorem CullFrame_trans {s s1 s2 : Controller} (h1 : CullFrame s s1) (h2 : CullFrame s1 s2) :
    CullFrame s s2 := by
  obtain ⟨a1, a2, a3, a4, a5, a6, a7, a8, a9, a10, a11, a12⟩ := h1
  obtain ⟨b1, b2, b3, b4, b5, b6, b7, b8, b9, b10, b11, b12⟩ := h2
  exact ⟨b1.trans a1, b2.trans a2, b3.trans a3, b4.trans a4, b5.trans a5, b6.trans a6,
    b7.trans a7, b8.trans a8, b9.trans a9, b10.trans a10, b11.trans a11, b12.trans a12⟩

theorem PopulateBundles_frame (E : Externals) (s s1 : Controller)
    (h : PopulateBundles E s = some s1) :
    CullFrame s s1 ∧ s1.CuboidCaches = s.CuboidCaches ∧ s1.CacheTimers = s.CacheTimers := by
  unfold PopulateBundles at h
  split at h
  · cases h
  · split at h
    · cases h
    · simp only [Option.some.injEq] at h
      subst h
      exact ⟨CullFrame_refl s, rfl, rfl⟩

theorem CullWithCache_frame (E : Externals) (s s1 : Controller)
    (h : CullWithCache E s = some s1) :
    CullFrame s s1 ∧ s1.Bounds = s.Bounds ∧ s1.VisibilityTimers = s.VisibilityTimers ∧
      s1.CuboidCaches = s.CuboidCaches := by
  unfold CullWithCache at h
  split at h
  · cases h
  · simp only [Option.some.injEq] at h
    subst h
    exact ⟨CullFrame_refl s, rfl, rfl, rfl⟩

theorem CullWithSpheres_frame (s s1 : Controller) (h : CullWithSpheres s = some s1) :
    CullFrame s s1 ∧ s1.Bounds = s.Bounds ∧ s1.VisibilityTimers = s.VisibilityTimers ∧
      s1.CuboidCaches = s.CuboidCaches ∧ s1.CacheTimers = s.CacheTimers := by
  unfold CullWithSpheres at h
  split at h
  · cases h
  · simp only [Option.some.injEq] at h
    subst h
    exact ⟨CullFrame_refl s, rfl, rfl, rfl, rfl⟩

theorem CullWithCuboids_frame (E : Externals) (s s1 : Controller)
    (h : CullWithCuboids E s = some s1) :
    CullFrame s s1 ∧ s1.Bounds = s.Bounds ∧ s1.VisibilityTimers = s.VisibilityTimers := by
  unfold CullWithCuboids at h
  split at h
  · cases h
  · simp only [Option.some.injEq] at h
    subst h
    exact ⟨CullFrame_refl s, rfl, rfl⟩

/-- A cull pass, when it runs, is `PopulateBundles` followed by the three
stages. -/
theorem Cull_run (E : Externals) (s sc : Controller) (h : Cull E s = some sc)
    (hrun : s.TotalTicks.tmod s.CullingPeriod = 0) :
    ∃ s0 s1 s2, PopulateBundles E s = some s0 ∧ CullWithCache E s0 = some s1 ∧
      CullWithSpheres s1 = some s2 ∧ CullWithCuboids E s2 = some sc := by
  unfold Cull at h
  by_cases hz : s.CullingPeriod = 0
  · rw [if_pos hz] at h
    cases h
  · rw [if_neg hz, if_pos hrun] at h
    cases h0 : PopulateBundles E s with
    | none => simp [h0] at h
    | some s0 =>
      cases h1 : CullWithCache E s0 with
      | none => simp [h0, h1] at h
      | some s1 =>
        cases h2 : CullWithSpheres s1 with
        | none => simp [h0, h1, h2] at h
        | some s2 =>
          simp only [h0, h1, h2, Option.bind_eq_bind, Option.some_bind] at h
          exact ⟨s0, s1, s2, rfl, h1, h2, h⟩

theorem Cull_skip (E : Externals) (s sc : Controller) (h : Cull E s = some sc)
    (hskip : s.TotalTicks.tmod s.CullingPeriod ≠ 0) : sc = s := by
  unfold Cull at h
  by_cases hz : s.CullingPeriod = 0
  · rw [if_pos hz] at h
    cases h
  · rw [if_neg hz, if_neg hskip, Option.some.injEq] at h
    exact h.symm

theorem Cull_timers (E : Externals) (s sc : Controller) (h : Cull E s = some sc) :
    CullFrame s sc ∧
    ∀ a b, sc.VisibilityTimers a b = s.VisibilityTimers a b ∨
      (0 < s.VisibilityTimers a b ∧ sc.VisibilityTimers a b = s.VisibilityTimers a b - 1) := by
  by_cases hrun : s.TotalTicks.tmod s.CullingPeriod = 0
  · obtain ⟨s0, s1, s2, h0, h1, h2, h3⟩ := Cull_run E s sc h hrun
    obtain ⟨f0, -, -⟩ := PopulateBundles_frame E s s0 h0
    obtain ⟨f1, -, v1, -⟩ := CullWithCache_frame E s0 s1 h1
    obtain ⟨f2, -, v2, -, -⟩ := CullWithSpheres_frame s1 s2 h2
    obtain ⟨f3, -, v3⟩ := CullWithCuboids_frame E s2 sc h3
    refine ⟨CullFrame_trans (CullFrame_trans (CullFrame_trans f0 f1) f2) f3, ?_⟩
    intro a b
    rw [v3, v2, v1, (PopulateBundles_spec E s s0 h0).1 a b]
    split
    · unfold Decremented
      split
      · exact Or.inr ⟨by assumption, rfl⟩
      · exact Or.inl rfl
    · exact Or.inl rfl
  · rw [Cull_skip E s sc h hrun]
    exact ⟨CullFrame_refl s, fun a b => Or.inl rfl⟩

theorem BenchmarkCull_stats_frame (Delta : Int) (s s1 : Controller)
    (h : BenchmarkCull.stats Delta s = some s1) :
    s1.VisibilityTimers = s.VisibilityTimers ∧ s1.Sent = s.Sent ∧
    s1.BundleQueue = s.BundleQueue ∧ s1.CuboidCaches = s.CuboidCaches ∧
    s1.CacheTimers = s.CacheTimers ∧ s1.Bounds = s.Bounds ∧
    s1.Characters = s.Characters ∧ s1.IsAlive = s.IsAlive := by
  unfold BenchmarkCull.stats at h
  simp only [] at h
  split at h
  · cases h
  · split at h
    · simp only [Option.some.injEq] at h
      subst h
      exact ⟨rfl, rfl, rfl, rfl, rfl, rfl, rfl, rfl⟩
    · simp only [Option.some.injEq] at h
      subst h
      exact ⟨rfl, rfl, rfl, rfl, rfl, rfl, rfl, rfl⟩

/-- A tick that returns went through `Cull`, `UpdateVisibility` and the
statistics, in this order, on the advanced tick counter. -/
theorem Tick_steps (E : Externals) (Delta : Int) (s s1 : Controller)
    (h : Tick E Delta s = some s1) :
    ∃ sc su, Cull E { s with TotalTicks := s.TotalTicks + 1 } = some sc ∧
      UpdateVisibility E sc = some su ∧ BenchmarkCull.stats Delta su = some s1 := by
  unfold Tick BenchmarkCull at h
  cases hc : Cull E { s with TotalTicks := s.TotalTicks + 1 } with
  | none => simp [hc] at h
  | some sc =>
    cases hu : UpdateVisibility E sc with
    | none => simp [hc, hu] at h
    | some su =>
      simp only [hc, hu, Option.bind_eq_bind, Option.some_bind] at h
      exact ⟨sc, su, rfl, hu, h⟩

theorem UpdateVisibility_reported (E : Externals) (s s1 : Controller)
    (h : UpdateVisibility E s = some s1) :
    ∃ New, s1.Sent = s.Sent ++ New ∧ New.Nodup ∧
      ∀ i j, (i, j) ∈ New ↔
        (i < s.Characters.length ∧ j < s.Characters.length ∧
          s.IsAlive[i]? = some true ∧ s.IsAlive[j]? = some true ∧
          0 < s1.VisibilityTimers i j) := by
  obtain ⟨-, hS, -, -, -, -, -, hC, hA, -⟩ := UpdateVisibility_spec E s s1 h
  refine ⟨_, hS, ReportedPairs_nodup s1 _ (List.nodup_range _), ?_⟩
  intro i j
  rw [ReportedPairs_mem, hA, hC, List.mem_range]
  constructor
  · rintro ⟨hi, hali, hj, halj, hpos⟩
    exact ⟨hi, hj, hali, halj, hpos⟩
  · rintro ⟨hi, hj, hali, halj, hpos⟩
    exact ⟨hi, hali, hj, halj, hpos⟩

theorem BenchmarkCull_stats_total (Delta : Int) (s : Controller)
    (h : s.RollingWindowLength ≠ 0) : ∃ s1, BenchmarkCull.stats Delta s = some s1 := by
  unfold BenchmarkCull.stats
  simp only []
  rw [if_neg h]
  split
  · exact ⟨_, rfl⟩
  · exact ⟨_, rfl⟩

theorem Tick_skipped_total (E : Externals) (Delta : Int) (s : Controller)
    (hP : s.CullingPeriod ≠ 0) (hW : s.RollingWindowLength ≠ 0)
    (hskip : (s.TotalTicks + 1).tmod s.CullingPeriod ≠ 0)
    (hA : ArraysAligned s) (hB : BoundsCover s) :
    ∃ s1, Tick E Delta s = some s1 := by
  have hc : Cull E { s with TotalTicks := s.TotalTicks + 1 }
      = some { s with TotalTicks := s.TotalTicks + 1 } := by
    unfold Cull
    rw [if_neg hP, if_neg hskip]
  obtain ⟨su, hu⟩ := UpdateVisibility_total E { s with TotalTicks := s.TotalTicks + 1 } hA hB
  have hWu : su.RollingWindowLength ≠ 0 := by
    rw [(UpdateVisibility_spec E _ su hu).2.2.2.2.2.2.2.2.2.2.2.2]
    exact hW
  obtain ⟨s1, hs⟩ := BenchmarkCull_stats_total Delta su hWu
  refine ⟨s1, ?_⟩
  unfold Tick BenchmarkCull
  rw [hc]
  simp only [Option.bind_eq_bind, Option.some_bind, hu, hs]

theorem getElem?_some_lt {α : Type} (l : List α) (i : Nat) (x : α) (h : l[i]? = some x) :
    i < l.length := by
  by_contra hc
  rw [List.getElem?_eq_none (not_lt.mp hc)] at h
  cases h

theorem PopulateBundles_ready (E : Externals) (s s0 : Controller)
    (h : PopulateBundles E s = some s0) (hA : ArraysAligned s) (hP : AlivePrefix s) :
    BoundsCover s0 ∧ ArraysAligned s0 ∧
    ∀ B ∈ s0.BundleQueue, B.EnemyI < s0.Bounds.length ∧ NUM_PEEKS ≤ B.PossiblePeeks.length := by
  obtain ⟨-, -, hG, hb, hCh, hAl, hTe, -⟩ := PopulateBundles_spec E s s0 h
  obtain ⟨B, hB, hB2⟩ := PopulateBundles_bounds_total E s hA hP s.Characters.length 0 []
    (by omega) (fun i _ _ => rfl) (fun i hi _ => absurd hi (Nat.not_lt_zero i))
  rw [← List.range_eq_range', hb, Option.some.injEq] at hB
  refine ⟨?_, ?_, ?_⟩
  · intro i hi hal
    rw [hCh] at hi
    rw [hAl] at hal
    rw [hB]
    exact hB2 i (by omega) hal
  · unfold ArraysAligned
    rw [hCh, hAl, hTe]
    exact hA
  · intro Bd hBd
    obtain ⟨-, Bi, Bj, -, hj, hp⟩ := hG Bd hBd
    refine ⟨getElem?_some_lt _ _ _ hj, ?_⟩
    rw [hp]
    exact le_refl 4

theorem Cull_stages_total (E : Externals) (s : Controller) (h : QueueReady E s) :
    ∃ s1 s2 s3, CullWithCache E s = some s1 ∧ CullWithSpheres s1 = some s2 ∧
      CullWithCuboids E s2 = some s3 := by
  obtain ⟨s1, h1⟩ := CullWithCache_total E s h
  obtain ⟨q1, b1, -⟩ := CullWithCache_queue E s s1 h1
  have r1 : ∀ B ∈ s1.BundleQueue,
      B.EnemyI < s1.Bounds.length ∧ NUM_PEEKS ≤ B.PossiblePeeks.length := by
    intro B hB
    rw [q1] at hB
    rw [b1]
    exact ⟨(h B (List.mem_of_mem_filter hB)).1, (h B (List.mem_of_mem_filter hB)).2.1⟩
  obtain ⟨s2, h2⟩ := CullWithSpheres_total s1 r1
  obtain ⟨q2, b2, -⟩ := CullWithSpheres_queue s1 s2 h2
  have r2 : ∀ B ∈ s2.BundleQueue,
      B.EnemyI < s2.Bounds.length ∧ NUM_PEEKS ≤ B.PossiblePeeks.length := by
    intro B hB
    rw [q2] at hB
    rw [b2]
    exact r1 B (List.mem_of_mem_filter hB)
  obtain ⟨s3, h3⟩ := CullWithCuboids_total E s2 r2
  exact ⟨s1, s2, s3, h1, h2, h3⟩

theorem Cull_total (E : Externals) (s : Controller) (hP : s.CullingPeriod ≠ 0)
    (hA : ArraysAligned s) (hPre : AlivePrefix s)
    (hC : ∀ i j k, k < E.CUBOID_CACHE_SIZE → s.CuboidCaches i j k < s.Cuboids.length)
    (hB : s.TotalTicks.tmod s.CullingPeriod ≠ 0 → BoundsCover s) :
    ∃ sc, Cull E s = some sc ∧ ArraysAligned sc ∧ BoundsCover sc := by
  by_cases hrun : s.TotalTicks.tmod s.CullingPeriod = 0
  · obtain ⟨s0, h0⟩ := PopulateBundles_total E s hA hPre
    obtain ⟨c0, a0, q0⟩ := PopulateBundles_ready E s s0 h0 hA hPre
    obtain ⟨f0, cc0, -⟩ := PopulateBundles_frame E s s0 h0
    have hready : QueueReady E s0 := by
      intro B hB
      refine ⟨(q0 B hB).1, (q0 B hB).2, ?_⟩
      intro k hk
      rw [cc0, f0.2.2.2.1]
      exact hC _ _ k hk
    obtain ⟨s1, s2, s3, h1, h2, h3⟩ := Cull_stages_total E s0 hready
    obtain ⟨f1, b1, -⟩ := CullWithCache_frame E s0 s1 h1
    obtain ⟨f2, b2, -⟩ := CullWithSpheres_frame s1 s2 h2
    obtain ⟨f3, b3, -⟩ := CullWithCuboids_frame E s2 s3 h3
    have f := CullFrame_trans (CullFrame_trans f1 f2) f3
    refine ⟨s3, ?_, ?_, ?_⟩
    · unfold Cull
      rw [if_neg hP, if_pos hrun, h0]
      simp only [Option.bind_eq_bind, Option.some_bind, h1, h2, h3]
    · unfold ArraysAligned
      rw [f.1, f.2.1, f.2.2.1]
      exact a0
    · intro i hi hal
      rw [f.1] at hi
      rw [f.2.1] at hal
      rw [b3, b2, b1]
      exact c0 i hi hal
  · refine ⟨s, ?_, hA, hB hrun⟩
    unfold Cull
    rw [if_neg hP, if_neg hrun]

theorem Tick_total (E : Externals) (Delta : Int) (s : Controller) (h : TickReady E s) :
    ∃ s1, Tick E Delta s = some s1 := by
  obtain ⟨hP, hW, hA, hPre, hC, hB⟩ := h
  obtain ⟨sc, hc, ha, hb⟩ := Cull_total E { s with TotalTicks := s.TotalTicks + 1 } hP hA hPre
    hC hB
  obtain ⟨fc, -⟩ := Cull_timers E _ sc hc
  obtain ⟨su, hu⟩ := UpdateVisibility_total E sc ha hb
  have hWu : su.RollingWindowLength ≠ 0 := by
    rw [(UpdateVisibility_spec E _ su hu).2.2.2.2.2.2.2.2.2.2.2.2, fc.2.2.2.2.2.2.2.2.1]
    exact hW
  obtain ⟨s1, hs⟩ := BenchmarkCull_stats_total Delta su hWu
  refine ⟨s1, ?_⟩
  unfold Tick BenchmarkCull
  rw [hc]
  simp only [Option.bind_eq_bind, Option.some_bind, hu, hs]

/-! ## Claim on the timer invariant -/

set_option maxRecDepth 8000 in
/-- C6, as stated, fails: on the trio all timers are 0 and `TimerIncrement` is
2147483647, not negative. The bundles of the pairs (0, 2) and (2, 0) survive the
cull of the first tick; the first draws jitter 0 and the second jitter 1, whose
`int` sum with `TimerIncrement` wraps around: after the tick the timer of (2, 0)
is -2147483648, and that pair is not reported. -/
theorem C6_counterexample :
    (∀ i j, 0 ≤ Scene.TrioMaxed.VisibilityTimers i j) ∧
    0 ≤ Scene.TrioMaxed.TimerIncrement ∧
    (Tick Scene.E 7 Scene.TrioMaxed).map
      (fun s => (s.VisibilityTimers 0 2, s.VisibilityTimers 2 0, s.Sent))
      = some (2147483647, -2147483648, [(0, 2)]) := by
  refine ⟨fun _ _ => le_refl 0, by decide, by decide!⟩

/-- C6, amended: a tick of a ready controller returns, and across one tick each
visibility timer's new value is its old value, or its old value minus exactly 1
(only when the old value was positive), or the `int` sum of `TimerIncrement` and
a jitter in {0, 1, 2}, which is `TimerIncrement + jitter` when `TimerIncrement`
is an `int` of at most 2147483645 (the largest `int` minus 2); hence if all
timers are not negative and `TimerIncrement` lies between 0 and 2147483645
before the tick, all timers are not negative after it. -/
theorem C6_timers_nonnegative (E : Externals) (Delta : Int) (s : Controller) :
    (TickReady E s → ∃ s1, Tick E Delta s = some s1) ∧
    ∀ s1, Tick E Delta s = some s1 →
      (∀ i j, s1.VisibilityTimers i j = s.VisibilityTimers i j ∨
        (0 < s.VisibilityTimers i j ∧ s1.VisibilityTimers i j = s.VisibilityTimers i j - 1) ∨
        ∃ jitter : Nat, jitter < 3 ∧
          s1.VisibilityTimers i j = Int32Add s.TimerIncrement jitter ∧
          (-2147483648 ≤ s.TimerIncrement → s.TimerIncrement ≤ 2147483645 →
            s1.VisibilityTimers i j = s.TimerIncrement + jitter)) ∧
      ((∀ i j, 0 ≤ s.VisibilityTimers i j) → 0 ≤ s.TimerIncrement →
        s.TimerIncrement ≤ 2147483645 → ∀ i j, 0 ≤ s1.VisibilityTimers i j) := by
  refine ⟨Tick_total E Delta s, ?_⟩
  intro s1 h
  obtain ⟨sc, su, hc, hu, hs⟩ := Tick_steps E Delta s s1 h
  obtain ⟨fc, hcT⟩ := Cull_timers E _ sc hc
  have hTI : sc.TimerIncrement = s.TimerIncrement := fc.2.2.2.2.2.2.2.1
  obtain ⟨huT, -⟩ := UpdateVisibility_spec E sc su hu
  obtain ⟨hsT, -⟩ := BenchmarkCull_stats_frame Delta su s1 hs
  have key : ∀ i j, s1.VisibilityTimers i j = s.VisibilityTimers i j ∨
      (0 < s.VisibilityTimers i j ∧ s1.VisibilityTimers i j = s.VisibilityTimers i j - 1) ∨
      ∃ jitter : Nat, jitter < 3 ∧
        s1.VisibilityTimers i j = Int32Add s.TimerIncrement jitter ∧
        (-2147483648 ≤ s.TimerIncrement → s.TimerIncrement ≤ 2147483645 →
          s1.VisibilityTimers i j = s.TimerIncrement + jitter) := by
    intro i j
    rw [hsT, huT]
    obtain ⟨r1, r2, -⟩ := UpdateVisibility_reset_spec E sc.TimerIncrement sc.BundleQueue
      sc.VisibilityTimers sc.RandCalls
    by_cases hq : (i, j) ∈ sc.BundleQueue.map (fun B => (B.PlayerI, B.EnemyI))
    · obtain ⟨r, hr, hv⟩ := r2 i j hq
      have hv2 := hv.trans (congrArg (fun t => Int32Add t (r : Int)) hTI)
      exact Or.inr (Or.inr ⟨r, hr, hv2, fun hlo hhi =>
        hv2.trans (Int32Add_jitter _ r hr hlo hhi)⟩)
    · rw [r1 i j hq]
      rcases hcT i j with hv | ⟨hp, hv⟩
      · exact Or.inl hv
      · exact Or.inr (Or.inl ⟨hp, hv⟩)
  refine ⟨key, ?_⟩
  intro h0 hI hM i j
  rcases key i j with hv | ⟨hp, hv⟩ | ⟨r, -, -, hv⟩
  · rw [hv]; exact h0 i j
  · rw [hv]; omega
  · rw [hv (by omega) hM]; omega

set_option maxRecDepth 8000 in
/-- Witness of C6 on the trio: the controller is ready, the tick from the start
returns, the timer of the pair (0, 2) becomes 3 = TimerIncrement + 0 and every
timer stays non-negative. -/
theorem C6_timers_nonnegative_witness :
    TickReady Scene.E Scene.TrioSlow ∧
    ∃ s1, Tick Scene.E 7 Scene.TrioSlow = some s1 ∧
      s1.VisibilityTimers 0 2 = Scene.TrioSlow.TimerIncrement + 0 ∧
      ∀ i j, 0 ≤ s1.VisibilityTimers i j := by
  have hr : TickReady Scene.E Scene.TrioSlow :=
    ⟨by decide, by decide, by decide, AlivePrefix_of_all_alive _ (by decide),
      fun _ _ _ _ => Nat.zero_lt_one, fun hc => absurd (by decide) hc⟩
  obtain ⟨s1, h⟩ := (C6_timers_nonnegative Scene.E 7 Scene.TrioSlow).1 hr
  have hq : Scene.TrioAfterCull = s1 := by
    unfold Scene.TrioAfterCull
    rw [h]
    rfl
  refine ⟨hr, s1, h, ?_, ((C6_timers_nonnegative Scene.E 7 Scene.TrioSlow).2 s1 h).2
    (fun i j => le_refl 0) (by decide) (by decide)⟩
  rw [← hq]
  decide!

/-! ## Claim on skipped ticks -/

set_option maxRecDepth 8000 in
/-- C9, as stated, fails: the trio has had its cull tick 2 (period 2), the
bundles of the pairs (0, 2) and (2, 0) are still queued, the timer of (0, 2) is
3, and character 2 has died. Tick 3 is skipped, yet it changes the timer of
(0, 2) from 3 to 5, and it reports nothing new, although the timer of (0, 2)
was already positive. -/
theorem C9_counterexample :
    (Scene.TrioAfterDeath.TotalTicks + 1).tmod Scene.TrioAfterDeath.CullingPeriod ≠ 0 ∧
    Scene.TrioAfterDeath.BundleQueue.map (fun B => (B.PlayerI, B.EnemyI)) = [(0, 2), (2, 0)] ∧
    Scene.TrioAfterDeath.VisibilityTimers 0 2 = 3 ∧
    Scene.TrioAfterDeath.IsAlive = [true, true, false] ∧
    (Tick Scene.E 7 Scene.TrioAfterDeath).map (fun s => (s.VisibilityTimers 0 2, s.Sent))
      = some (5, Scene.TrioAfterDeath.Sent) := by
  refine ⟨by decide!, by decide!, by decide!, rfl, by decide!⟩

/-- C9, amended: on a skipped tick (the advanced `TotalTicks` is not a multiple
of `CullingPeriod`) `Cull` does nothing, so the bundle queue, the bounds, the
occluder caches and the cache timestamps are unchanged; `UpdateVisibility` still
runs on the queue left by the last cull: the timer of every pair still queued
is set to the `int` sum of `TimerIncrement` and a jitter in {0, 1, 2}, which is
`TimerIncrement + jitter` when `TimerIncrement` is an `int` of at most
2147483645, every other timer is unchanged (so all timers are unchanged when the
queue is empty), and exactly the pairs of living characters whose timer is
positive after that are reported, once each. The skipped tick returns whenever the two periods are not zero, the
character arrays have equal length and every living character has bounds. -/
theorem C9_skipped_tick (E : Externals) (Delta : Int) (s : Controller)
    (hskip : (s.TotalTicks + 1).tmod s.CullingPeriod ≠ 0) :
    (s.CullingPeriod ≠ 0 → s.RollingWindowLength ≠ 0 → ArraysAligned s → BoundsCover s →
      ∃ s1, Tick E Delta s = some s1) ∧
    ∀ s1, Tick E Delta s = some s1 →
      s1.BundleQueue = s.BundleQueue ∧ s1.Bounds = s.Bounds ∧
      s1.CuboidCaches = s.CuboidCaches ∧ s1.CacheTimers = s.CacheTimers ∧
      (∀ i j, (i, j) ∉ s.BundleQueue.map (fun B => (B.PlayerI, B.EnemyI)) →
        s1.VisibilityTimers i j = s.VisibilityTimers i j) ∧
      (∀ i j, (i, j) ∈ s.BundleQueue.map (fun B => (B.PlayerI, B.EnemyI)) →
        ∃ jitter : Nat, jitter < 3 ∧
          s1.VisibilityTimers i j = Int32Add s.TimerIncrement jitter ∧
          (-2147483648 ≤ s.TimerIncrement → s.TimerIncrement ≤ 2147483645 →
            s1.VisibilityTimers i j = s.TimerIncrement + jitter)) ∧
      (s.BundleQueue = [] → ∀ i j, s1.VisibilityTimers i j = s.VisibilityTimers i j) ∧
      ∃ New, s1.Sent = s.Sent ++ New ∧ New.Nodup ∧
        ∀ i j, (i, j) ∈ New ↔
          (i < s.Characters.length ∧ j < s.Characters.length ∧
            s.IsAlive[i]? = some true ∧ s.IsAlive[j]? = some true ∧
            0 < s1.VisibilityTimers i j) := by
  refine ⟨fun hP hW hA hB => Tick_skipped_total E Delta s hP hW hskip hA hB, ?_⟩
  intro s1 h
  obtain ⟨sc, su, hc, hu, hs⟩ := Tick_steps E Delta s s1 h
  have hsc : sc = { s with TotalTicks := s.TotalTicks + 1 } := Cull_skip E _ sc hc hskip
  subst hsc
  obtain ⟨huT, -, -, uQ, uCC, uCT, uB, -⟩ := UpdateVisibility_spec E _ su hu
  obtain ⟨sT, sS, sQ, sCC, sCT, sB, sCh, sA⟩ := BenchmarkCull_stats_frame Delta su s1 hs
  obtain ⟨r1, r2, -⟩ := UpdateVisibility_reset_spec E s.TimerIncrement s.BundleQueue
    s.VisibilityTimers s.RandCalls
  have hT : s1.VisibilityTimers = (UpdateVisibility.reset E s.TimerIncrement s.BundleQueue
      (s.VisibilityTimers, s.RandCalls)).1 := by rw [sT, huT]
  have hnot : ∀ i j, (i, j) ∉ s.BundleQueue.map (fun B => (B.PlayerI, B.EnemyI)) →
      s1.VisibilityTimers i j = s.VisibilityTimers i j := by
    intro i j hq
    rw [hT]
    exact r1 i j hq
  refine ⟨sQ.trans uQ, sB.trans uB, sCC.trans uCC, sCT.trans uCT, hnot, ?_, ?_, ?_⟩
  · intro i j hq
    rw [hT]
    obtain ⟨r, hr, hv⟩ := r2 i j hq
    exact ⟨r, hr, hv, fun hlo hhi => hv.trans (Int32Add_jitter _ r hr hlo hhi)⟩
  · intro he i j
    exact hnot i j (by rw [he]; simp)
  · obtain ⟨New, n1, n2, n3⟩ := UpdateVisibility_reported E _ su hu
    refine ⟨New, by rw [sS, n1], n2, ?_⟩
    intro i j
    rw [n3 i j, sT]

set_option maxRecDepth 8000 in
/-- Witness of the amended C9 on the trio after its cull tick: tick 3 is
skipped and returns; it leaves the queue and the caches alone and sets the timer
of the queued pair (0, 2) to `TimerIncrement + jitter`. -/
theorem C9_skipped_tick_witness :
    (Scene.TrioAfterCull.TotalTicks + 1).tmod Scene.TrioAfterCull.CullingPeriod ≠ 0 ∧
    ∃ s1, Tick Scene.E 7 Scene.TrioAfterCull = some s1 ∧
      s1.BundleQueue = Scene.TrioAfterCull.BundleQueue ∧
      s1.CuboidCaches = Scene.TrioAfterCull.CuboidCaches ∧
      s1.VisibilityTimers 0 1 = Scene.TrioAfterCull.VisibilityTimers 0 1 ∧
      ∃ jitter : Nat, jitter < 3 ∧
        s1.VisibilityTimers 0 2 = Scene.TrioAfterCull.TimerIncrement + jitter := by
  have hskip : (Scene.TrioAfterCull.TotalTicks + 1).tmod Scene.TrioAfterCull.CullingPeriod ≠ 0 := by
    decide!
  have hC : Scene.TrioAfterCull.Characters.length = 3 := by decide!
  have hB : Scene.TrioAfterCull.Bounds.length = 3 := by decide!
  obtain ⟨s1, h⟩ := (C9_skipped_tick Scene.E 7 Scene.TrioAfterCull hskip).1 (by decide!)
    (by decide!) (by decide!) (fun i hi _ => by rw [hB]; rw [hC] at hi; exact hi)
  have hc := (C9_skipped_tick Scene.E 7 Scene.TrioAfterCull hskip).2 s1 h
  obtain ⟨jitter, hj, -, hplain⟩ := hc.2.2.2.2.2.1 0 2 (by decide!)
  exact ⟨hskip, s1, h, hc.1, hc.2.2.1, hc.2.2.2.2.1 0 1 (by decide!),
    jitter, hj, hplain (by decide!) (by decide!)⟩

/-! ## Lemmas on the cache update -/

theorem set3_same {α : Type} (M : Nat → Nat → Nat → α) (i j k : Nat) (v : α) :
    set3 M i j k v i j k = v := by
  simp [set3]

theorem set3_other {α : Type} (M : Nat → Nat → Nat → α) (i j k a b c : Nat) (v : α)
    (h : ¬ (a = i ∧ b = j ∧ c = k)) : set3 M i j k v a b c = M a b c := by
  simp [set3, h]

theorem ArgMin_go_spec (input : Nat → Int) (is : List Nat) (MinI : Nat) :
    (ArgMin.go input is MinI = MinI ∨ ArgMin.go input is MinI ∈ is) ∧
    input (ArgMin.go input is MinI) ≤ input MinI ∧
    ∀ k ∈ is, input (ArgMin.go input is MinI) ≤ input k := by
  induction is generalizing MinI with
  | nil => simp [ArgMin.go]
  | cons i rest ih =>
    simp only [ArgMin.go]
    by_cases hlt : input i < input MinI
    · rw [if_pos hlt]
      obtain ⟨h1, h2, h3⟩ := ih i
      refine ⟨?_, le_trans h2 (le_of_lt hlt), ?_⟩
      · rcases h1 with h1 | h1
        · exact Or.inr (by rw [h1]; exact List.mem_cons_self _ _)
        · exact Or.inr (List.mem_cons_of_mem _ h1)
      · intro k hk
        rcases List.mem_cons.mp hk with rfl | hk
        · exact h2
        · exact h3 k hk
    · rw [if_neg hlt]
      obtain ⟨h1, h2, h3⟩ := ih MinI
      refine ⟨?_, h2, ?_⟩
      · rcases h1 with h1 | h1
        · exact Or.inl h1
        · exact Or.inr (List.mem_cons_of_mem _ h1)
      · intro k hk
        rcases List.mem_cons.mp hk with rfl | hk
        · exact le_trans h2 (not_lt.mp hlt)
        · exact h3 k hk

theorem ArgMin_spec (input : Nat → Int) (length : Nat) (h : 0 < length) :
    ArgMin input length < length ∧ ∀ k, k < length → input (ArgMin input length) ≤ input k := by
  obtain ⟨h1, -, h3⟩ := ArgMin_go_spec input (List.range length) 0
  constructor
  · rcases h1 with h1 | h1
    · unfold ArgMin
      rw [h1]
      exact h
    · exact List.mem_range.mp h1
  · intro k hk
    exact h3 k (List.mem_range.mpr hk)

theorem CullWithCuboids_scan_result (E : Externals) (s : Controller) (B : Bundle)
    (is : List Nat) (CC : Nat → Nat → Nat → Nat) (CT : Nat → Nat → Nat → Int)
    (r : Bool × (Nat → Nat → Nat → Nat) × (Nat → Nat → Nat → Int))
    (h : CullWithCuboids.scan E s B is (CC, CT) = some r) :
    r = match is.find? (fun CuboidI =>
          match s.Cuboids[CuboidI]? with
          | some C => IsBlocking E s.Bounds B C == some true
          | none => false) with
        | some CuboidI =>
          (true,
            set3 CC B.PlayerI B.EnemyI
              (ArgMin (CT B.PlayerI B.EnemyI) E.CUBOID_CACHE_SIZE) CuboidI,
            set3 CT B.PlayerI B.EnemyI
              (ArgMin (CT B.PlayerI B.EnemyI) E.CUBOID_CACHE_SIZE) s.TotalTicks)
        | none => (false, CC, CT) := by
  induction is with
  | nil =>
    simp only [CullWithCuboids.scan, Option.some.injEq] at h
    simp [← h]
  | cons i rest ih =>
    simp only [CullWithCuboids.scan] at h
    cases hC : s.Cuboids[i]? with
    | none => simp [hC] at h
    | some C =>
      cases hI : IsBlocking E s.Bounds B C with
      | none => simp [hC, hI] at h
      | some b =>
        cases b with
        | true =>
          simp only [hC, hI, Option.some.injEq] at h
          simp [List.find?_cons, hC, hI, ← h]
        | false =>
          simp only [hC, hI] at h
          rw [ih h]
          simp [List.find?_cons, hC, hI]

theorem FirstBlocker_some (E : Externals) (s : Controller) (B : Bundle) (CuboidI : Nat)
    (h : FirstBlocker E s B = some CuboidI) :
    CuboidI < s.Cuboids.length ∧
    ∃ C, s.Cuboids[CuboidI]? = some C ∧ IsBlocking E s.Bounds B C = some true := by
  unfold FirstBlocker at h
  have hm := List.mem_of_find?_eq_some h
  have hp := List.find?_some h
  simp only [GetPossibleOccludingCuboids, List.mem_range] at hm
  refine ⟨hm, ?_⟩
  cases hC : s.Cuboids[CuboidI]? with
  | none => simp [hC] at hp
  | some C =>
    simp only [hC, beq_iff_eq] at hp
    exact ⟨C, rfl, hp⟩

theorem find?_isSome_eq_any {α : Type} (p : α → Bool) (l : List α) :
    (l.find? p).isSome = l.any p := by
  induction l with
  | nil => rfl
  | cons a rest ih =>
    rw [List.find?_cons, List.any_cons]
    cases hp : p a
    · simpa using ih
    · rfl

theorem FirstBlocker_isSome (E : Externals) (s : Controller) (B : Bundle) :
    (FirstBlocker E s B).isSome = BlockedByCuboid E s B := by
  unfold FirstBlocker BlockedByCuboid
  exact find?_isSome_eq_any _ _

/-- The effect of the loop body of `CullWithCuboids` for the bundle `B` on the
caches: when some cuboid blocks `B`, the first blocker is written into the slot
`ArgMin` finds, with the current tick as timestamp. -/
theorem CullWithCuboids_scan_caches (E : Externals) (s : Controller) (B : Bundle)
    (CC CC1 : Nat → Nat → Nat → Nat) (CT CT1 : Nat → Nat → Nat → Int) (b : Bool)
    (h : CullWithCuboids.scan E s B (GetPossibleOccludingCuboids s B) (CC, CT)
      = some (b, CC1, CT1)) :
    (∀ CuboidI, FirstBlocker E s B = some CuboidI →
      b = true ∧
      CC1 = set3 CC B.PlayerI B.EnemyI
        (ArgMin (CT B.PlayerI B.EnemyI) E.CUBOID_CACHE_SIZE) CuboidI ∧
      CT1 = set3 CT B.PlayerI B.EnemyI
        (ArgMin (CT B.PlayerI B.EnemyI) E.CUBOID_CACHE_SIZE) s.TotalTicks) ∧
    (FirstBlocker E s B = none → b = false ∧ CC1 = CC ∧ CT1 = CT) := by
  have hr := CullWithCuboids_scan_result E s B _ CC CT _ h
  constructor
  · intro CuboidI hF
    unfold FirstBlocker at hF
    rw [hF] at hr
    simp only [Prod.mk.injEq] at hr
    exact hr
  · intro hF
    unfold FirstBlocker at hF
    rw [hF] at hr
    simp only [Prod.mk.injEq] at hr
    exact hr

theorem CullWithCuboids_run_caches (E : Externals) (s : Controller) (Bs : List Bundle)
    (hnd : (Bs.map (fun B => (B.PlayerI, B.EnemyI))).Nodup)
    (CC CC1 : Nat → Nat → Nat → Nat) (CT CT1 : Nat → Nat → Nat → Int) (Rem Rem1 : List Bundle)
    (h : CullWithCuboids.run E s Bs (CC, CT, Rem) = some (CC1, CT1, Rem1)) :
    (∀ B ∈ Bs, ∀ CuboidI, FirstBlocker E s B = some CuboidI → ∀ k,
      CC1 B.PlayerI B.EnemyI k = set3 CC B.PlayerI B.EnemyI
        (ArgMin (CT B.PlayerI B.EnemyI) E.CUBOID_CACHE_SIZE) CuboidI B.PlayerI B.EnemyI k ∧
      CT1 B.PlayerI B.EnemyI k = set3 CT B.PlayerI B.EnemyI
        (ArgMin (CT B.PlayerI B.EnemyI) E.CUBOID_CACHE_SIZE) s.TotalTicks
          B.PlayerI B.EnemyI k) ∧
    (∀ a b, (¬ ∃ B ∈ Bs, (B.PlayerI, B.EnemyI) = (a, b) ∧ (FirstBlocker E s B).isSome = true) →
      ∀ k, CC1 a b k = CC a b k ∧ CT1 a b k = CT a b k) := by
  induction Bs generalizing CC CT Rem with
  | nil =>
    simp only [CullWithCuboids.run, Option.some.injEq, Prod.mk.injEq] at h
    obtain ⟨rfl, rfl, -⟩ := h
    exact ⟨fun B hB => absurd hB (List.not_mem_nil B), fun a b _ k => ⟨rfl, rfl⟩⟩
  | cons B rest ih =>
    simp only [List.map_cons, List.nodup_cons] at hnd
    obtain ⟨hB, hrest⟩ := hnd
    simp only [CullWithCuboids.run] at h
    cases hs : CullWithCuboids.scan E s B (GetPossibleOccludingCuboids s B) (CC, CT) with
    | none => simp [hs] at h
    | some r =>
      obtain ⟨b, CC2, CT2⟩ := r
      simp only [hs] at h
      obtain ⟨hsome, hnone⟩ := CullWithCuboids_scan_caches E s B CC CC2 CT CT2 b hs
      obtain ⟨i1, i2⟩ := ih hrest CC2 CT2 _ h
      -- the rows of the pairs other than that of `B` are not touched by the step on `B`
      have hrow : ∀ a b', (a, b') ≠ (B.PlayerI, B.EnemyI) → ∀ k,
          CC2 a b' k = CC a b' k ∧ CT2 a b' k = CT a b' k := by
        intro a b' hne k
        have hne' : ∀ m, ¬ (a = B.PlayerI ∧ b' = B.EnemyI ∧ k = m) :=
          fun m hc => hne (by rw [hc.1, hc.2.1])
        cases hF : FirstBlocker E s B with
        | none =>
          obtain ⟨-, e1, e2⟩ := hnone hF
          rw [e1, e2]
          exact ⟨rfl, rfl⟩
        | some c =>
          obtain ⟨-, e1, e2⟩ := hsome c hF
          rw [e1, e2, set3_other _ _ _ _ _ _ _ _ (hne' _), set3_other _ _ _ _ _ _ _ _ (hne' _)]
          exact ⟨rfl, rfl⟩
      -- the row of the pair of `B` is not touched by the steps on the rest
      have hB2 : ¬ ∃ B' ∈ rest, (B'.PlayerI, B'.EnemyI) = (B.PlayerI, B.EnemyI) ∧
          (FirstBlocker E s B').isSome = true := by
        rintro ⟨B', hB', hp, -⟩
        exact hB (List.mem_map.mpr ⟨B', hB', hp⟩)
      constructor
      · intro B' hB' c hF k
        rcases List.mem_cons.mp hB' with rfl | hB'
        · obtain ⟨-, e1, e2⟩ := hsome c hF
          rw [(i2 _ _ hB2 k).1, (i2 _ _ hB2 k).2, e1, e2]
          exact ⟨rfl, rfl⟩
        · have hne : (B'.PlayerI, B'.EnemyI) ≠ (B.PlayerI, B.EnemyI) :=
            fun hc => hB (List.mem_map.mpr ⟨B', hB', hc⟩)
          have hfun : CT2 B'.PlayerI B'.EnemyI = CT B'.PlayerI B'.EnemyI :=
            funext fun m => (hrow _ _ hne m).2
          obtain ⟨j1, j2⟩ := i1 B' hB' c hF k
          rw [j1, j2, hfun]
          simp only [set3]
          rw [(hrow _ _ hne k).1, (hrow _ _ hne k).2]
          exact ⟨rfl, rfl⟩
      · intro a b' hno k
        have hno' : ¬ ∃ B' ∈ rest, (B'.PlayerI, B'.EnemyI) = (a, b') ∧
            (FirstBlocker E s B').isSome = true := by
          rintro ⟨B', hB', hp⟩
          exact hno ⟨B', List.mem_cons_of_mem _ hB', hp⟩
        rw [(i2 a b' hno' k).1, (i2 a b' hno' k).2]
        by_cases hp : (a, b') = (B.PlayerI, B.EnemyI)
        · cases hF : FirstBlocker E s B with
          | none =>
            obtain ⟨-, e1, e2⟩ := hnone hF
            rw [e1, e2]
            exact ⟨rfl, rfl⟩
          | some c =>
            exact absurd ⟨B, List.mem_cons_self _ _, hp.symm, by rw [hF]; rfl⟩ hno
        · exact hrow a b' hp k

/-! ## Claim on the cache update -/

/-- C10: when the loop of `CullWithCuboids` finds a cuboid that blocks the bundle
of the pair (p, e), the index of that cuboid (the first blocker) is afterwards in
`CuboidCaches[p][e]`, in the slot `ArgMin` returns, whose timestamp was the
minimum of the pair's timestamps; that slot's timestamp becomes `TotalTicks`;
the other slots of the pair and all slots of every other pair keep index and
timestamp. The first part states this for the loop body on one bundle, the
second for the whole stage on a queue without repeated pairs, where the slots of
a pair without a blocked bundle are unchanged; the stage returns whenever every
queued bundle has its peeks and its enemy has bounds. -/
theorem C10_cache_update (E : Externals) (s : Controller) (hK : 0 < E.CUBOID_CACHE_SIZE) :
    (∀ B CC CT CC1 CT1,
      CullWithCuboids.scan E s B (GetPossibleOccludingCuboids s B) (CC, CT)
        = some (true, CC1, CT1) →
      ∃ CuboidI MinI, FirstBlocker E s B = some CuboidI ∧
        MinI = ArgMin (CT B.PlayerI B.EnemyI) E.CUBOID_CACHE_SIZE ∧
        (CuboidI < s.Cuboids.length ∧
          ∃ C, s.Cuboids[CuboidI]? = some C ∧ IsBlocking E s.Bounds B C = some true) ∧
        MinI < E.CUBOID_CACHE_SIZE ∧
        (∀ k, k < E.CUBOID_CACHE_SIZE →
          CT B.PlayerI B.EnemyI MinI ≤ CT B.PlayerI B.EnemyI k) ∧
        CC1 B.PlayerI B.EnemyI MinI = CuboidI ∧
        CT1 B.PlayerI B.EnemyI MinI = s.TotalTicks ∧
        (∀ k, k ≠ MinI →
          CC1 B.PlayerI B.EnemyI k = CC B.PlayerI B.EnemyI k ∧
          CT1 B.PlayerI B.EnemyI k = CT B.PlayerI B.EnemyI k) ∧
        (∀ a b k, (a, b) ≠ (B.PlayerI, B.EnemyI) →
          CC1 a b k = CC a b k ∧ CT1 a b k = CT a b k)) ∧
    (∀ s1, CullWithCuboids E s = some s1 →
      (s.BundleQueue.map (fun B => (B.PlayerI, B.EnemyI))).Nodup →
      (∀ B ∈ s.BundleQueue, BlockedByCuboid E s B = true →
        ∃ CuboidI MinI, FirstBlocker E s B = some CuboidI ∧
          MinI = ArgMin (s.CacheTimers B.PlayerI B.EnemyI) E.CUBOID_CACHE_SIZE ∧
          (CuboidI < s.Cuboids.length ∧
            ∃ C, s.Cuboids[CuboidI]? = some C ∧ IsBlocking E s.Bounds B C = some true) ∧
          MinI < E.CUBOID_CACHE_SIZE ∧
          (∀ k, k < E.CUBOID_CACHE_SIZE →
            s.CacheTimers B.PlayerI B.EnemyI MinI ≤ s.CacheTimers B.PlayerI B.EnemyI k) ∧
          s1.CuboidCaches B.PlayerI B.EnemyI MinI = CuboidI ∧
          s1.CacheTimers B.PlayerI B.EnemyI MinI = s.TotalTicks ∧
          (∀ k, k ≠ MinI →
            s1.CuboidCaches B.PlayerI B.EnemyI k = s.CuboidCaches B.PlayerI B.EnemyI k ∧
            s1.CacheTimers B.PlayerI B.EnemyI k = s.CacheTimers B.PlayerI B.EnemyI k)) ∧
      (∀ a b, (¬ ∃ B ∈ s.BundleQueue, (B.PlayerI, B.EnemyI) = (a, b) ∧
          BlockedByCuboid E s B = true) →
        ∀ k, s1.CuboidCaches a b k = s.CuboidCaches a b k ∧
          s1.CacheTimers a b k = s.CacheTimers a b k)) ∧
    ((∀ B ∈ s.BundleQueue,
        B.EnemyI < s.Bounds.length ∧ NUM_PEEKS ≤ B.PossiblePeeks.length) →
      ∃ s1, CullWithCuboids E s = some s1) := by
  refine ⟨?_, ?_, CullWithCuboids_total E s⟩
  · intro B CC CT CC1 CT1 h
    obtain ⟨hsome, hnone⟩ := CullWithCuboids_scan_caches E s B CC CC1 CT CT1 true h
    cases hF : FirstBlocker E s B with
    | none => exact absurd (hnone hF).1 (by decide)
    | some c =>
      obtain ⟨-, e1, e2⟩ := hsome c hF
      obtain ⟨m1, m2⟩ := ArgMin_spec (CT B.PlayerI B.EnemyI) E.CUBOID_CACHE_SIZE hK
      refine ⟨c, _, rfl, rfl, FirstBlocker_some E s B c hF, m1, m2, ?_, ?_, ?_, ?_⟩
      · rw [e1, set3_same]
      · rw [e2, set3_same]
      · intro k hk
        have hne : ¬ (B.PlayerI = B.PlayerI ∧ B.EnemyI = B.EnemyI ∧
            k = ArgMin (CT B.PlayerI B.EnemyI) E.CUBOID_CACHE_SIZE) := fun hc => hk hc.2.2
        rw [e1, e2, set3_other _ _ _ _ _ _ _ _ hne, set3_other _ _ _ _ _ _ _ _ hne]
        exact ⟨rfl, rfl⟩
      · intro a b k hab
        have hne : ∀ m, ¬ (a = B.PlayerI ∧ b = B.EnemyI ∧ k = m) :=
          fun m hc => hab (by rw [hc.1, hc.2.1])
        rw [e1, e2, set3_other _ _ _ _ _ _ _ _ (hne _), set3_other _ _ _ _ _ _ _ _ (hne _)]
        exact ⟨rfl, rfl⟩
  · intro s1 h hnd
    unfold CullWithCuboids at h
    cases hr : CullWithCuboids.run E s s.BundleQueue (s.CuboidCaches, s.CacheTimers, []) with
    | none => simp [hr] at h
    | some r =>
      obtain ⟨CC1, CT1, Rem1⟩ := r
      simp only [hr, Option.some.injEq] at h
      subst h
      obtain ⟨r1, r2⟩ := CullWithCuboids_run_caches E s s.BundleQueue hnd _ _ _ _ _ _ hr
      constructor
      · intro B hB hblocked
        rw [← FirstBlocker_isSome] at hblocked
        obtain ⟨c, hF⟩ := Option.isSome_iff_exists.mp hblocked
        obtain ⟨m1, m2⟩ := ArgMin_spec (s.CacheTimers B.PlayerI B.EnemyI) E.CUBOID_CACHE_SIZE hK
        refine ⟨c, _, hF, rfl, FirstBlocker_some E s B c hF, m1, m2, ?_, ?_, ?_⟩
        · show CC1 B.PlayerI B.EnemyI _ = c
          rw [(r1 B hB c hF _).1, set3_same]
        · show CT1 B.PlayerI B.EnemyI _ = s.TotalTicks
          rw [(r1 B hB c hF _).2, set3_same]
        · intro k hk
          have hne : ¬ (B.PlayerI = B.PlayerI ∧ B.EnemyI = B.EnemyI ∧
              k = ArgMin (s.CacheTimers B.PlayerI B.EnemyI) E.CUBOID_CACHE_SIZE) :=
            fun hc => hk hc.2.2
          show CC1 B.PlayerI B.EnemyI k = _ ∧ CT1 B.PlayerI B.EnemyI k = _
          rw [(r1 B hB c hF k).1, (r1 B hB c hF k).2, set3_other _ _ _ _ _ _ _ _ hne,
            set3_other _ _ _ _ _ _ _ _ hne]
          exact ⟨rfl, rfl⟩
      · intro a b hno k
        have hno' : ¬ ∃ B ∈ s.BundleQueue, (B.PlayerI, B.EnemyI) = (a, b) ∧
            (FirstBlocker E s B).isSome = true := by
          rintro ⟨B, hB, hp, hb⟩
          rw [FirstBlocker_isSome] at hb
          exact hno ⟨B, hB, hp, hb⟩
        exact r2 a b hno' k

set_option maxRecDepth 8000 in
/-- Witness of C10 on the duel with two cuboids at tick 5: the bundles of both
pairs are blocked by the wall, cuboid 1; its index is written into slot 0 of
either pair with timestamp 5, and slot 1 keeps index 0 and timestamp 0. -/
theorem C10_cache_update_witness :
    0 < Scene.E.CUBOID_CACHE_SIZE ∧
    (CullWithCuboids Scene.E Scene.TwoCuboidsQueued).map (fun s =>
      (s.BundleQueue.length, s.CuboidCaches 0 1 0, s.CacheTimers 0 1 0,
        s.CuboidCaches 0 1 1, s.CacheTimers 0 1 1)) = some (0, 1, 5, 0, 0) ∧
    ∀ s1, CullWithCuboids Scene.E Scene.TwoCuboidsQueued = some s1 →
      ∀ k, s1.CuboidCaches 0 2 k = Scene.TwoCuboidsQueued.CuboidCaches 0 2 k ∧
        s1.CacheTimers 0 2 k = Scene.TwoCuboidsQueued.CacheTimers 0 2 k := by
  refine ⟨by decide, by decide!, ?_⟩
  intro s1 h k
  refine ((C10_cache_update Scene.E Scene.TwoCuboidsQueued (by decide)).2.1 s1 h
    (by decide!)).2 0 2 ?_ k
  decide!

/-! ## Claims on the peeks -/

theorem GetSafeNormal_multiple (E : Externals) (v : FVector) (Tolerance : ℚ) :
    ∃ c : ℚ, GetSafeNormal E v Tolerance = FVector.smul c v := by
  unfold GetSafeNormal
  simp only []
  split
  · exact ⟨1, by simp [FVector.smul]⟩
  · split
    · exact ⟨0, by simp [FVector.smul]⟩
    · exact ⟨_, rfl⟩

theorem FVector_sub_X (a b : FVector) : (a - b).X = a.X - b.X := rfl

theorem FVector_sub_Y (a b : FVector) : (a - b).Y = a.Y - b.Y := rfl

theorem FVector_sub_Z (a b : FVector) : (a - b).Z = a.Z - b.Z := rfl

theorem FVector_add_X (a b : FVector) : (a + b).X = a.X + b.X := rfl

theorem FVector_add_Y (a b : FVector) : (a + b).Y = a.Y + b.Y := rfl

theorem FVector_add_Z (a b : FVector) : (a + b).Z = a.Z + b.Z := rfl

theorem GetSafeNormal_unit (E : Externals) (v : FVector) (Tolerance : ℚ)
    (hfar : Tolerance ≤ v.SizeSquared)
    (hinv : E.InvSqrt v.SizeSquared * E.InvSqrt v.SizeSquared * v.SizeSquared = 1) :
    (GetSafeNormal E v Tolerance).SizeSquared = 1 := by
  unfold GetSafeNormal
  simp only []
  have hS : v.X * v.X + v.Y * v.Y + v.Z * v.Z = v.SizeSquared := rfl
  rw [hS]
  by_cases h1 : v.SizeSquared = 1
  · rw [if_pos h1]
    exact h1
  · rw [if_neg h1, if_neg (not_lt.mpr hfar)]
    have : (FVector.smul (E.InvSqrt v.SizeSquared) v).SizeSquared
        = E.InvSqrt v.SizeSquared * E.InvSqrt v.SizeSquared * v.SizeSquared := by
      simp only [FVector.smul, FVector.SizeSquared]
      ring
    rw [this]
    exact hinv

theorem GetSafeNormal_Z_zero (E : Externals) (v : FVector) (Tolerance : ℚ) (h : v.Z = 0) :
    (GetSafeNormal E v Tolerance).Z = 0 := by
  obtain ⟨c, hc⟩ := GetSafeNormal_multiple E v Tolerance
  rw [hc]
  simp [FVector.smul, h]

theorem FVector_ext (a b : FVector) (hx : a.X = b.X) (hy : a.Y = b.Y) (hz : a.Z = b.Z) :
    a = b := by
  cases a
  cases b
  simp only [FVector.mk.injEq]
  exact ⟨hx, hy, hz⟩

theorem FVector_smul_X (s : ℚ) (a : FVector) : (FVector.smul s a).X = s * a.X := rfl

theorem FVector_smul_Y (s : ℚ) (a : FVector) : (FVector.smul s a).Y = s * a.Y := rfl

theorem FVector_smul_Z (s : ℚ) (a : FVector) : (FVector.smul s a).Z = s * a.Z := rfl

theorem Meets_symm (K : FVector → Prop) (a b : FVector) (h : Meets K a b) : Meets K b a := by
  obtain ⟨t, h0, h1, hK⟩ := h
  refine ⟨1 - t, by linarith, by linarith, ?_⟩
  have e : b + FVector.smul (1 - t) (a - b) = a + FVector.smul t (b - a) := by
    apply FVector_ext <;>
      simp only [FVector_add_X, FVector_add_Y, FVector_add_Z, FVector_smul_X, FVector_smul_Y,
        FVector_smul_Z, FVector_sub_X, FVector_sub_Y, FVector_sub_Z] <;>
      ring
  rw [e]
  exact hK

theorem Meets_diagonal (K : FVector → Prop)
    (hK : ∀ a b, K a → K b → ∀ t : ℚ, 0 ≤ t → t ≤ 1 → K (a + FVector.smul t (b - a)))
    (A B : FVector) (α β : ℚ) (hα : 0 ≤ α) (hβ : 0 ≤ β)
    (hX : Meets K (A + ⟨0, 0, α⟩) (B + ⟨0, 0, β⟩)) (hY : Meets K A B) :
    Meets K (A + ⟨0, 0, α⟩) B := by
  obtain ⟨s, s0, s1, hs⟩ := hX
  obtain ⟨r, r0, r1, hr⟩ := hY
  have hD0 : 0 ≤ α * (1 - r) + s * β :=
    add_nonneg (mul_nonneg hα (by linarith)) (mul_nonneg s0 hβ)
  by_cases hD : α * (1 - r) + s * β = 0
  · have h1 : α * (1 - r) = 0 := by
      have := mul_nonneg hα (show (0 : ℚ) ≤ 1 - r by linarith)
      have := mul_nonneg s0 hβ
      linarith
    have h2 : s * β = 0 := by linarith
    refine ⟨s, s0, s1, ?_⟩
    have e : A + ⟨0, 0, α⟩ + FVector.smul s (B - (A + ⟨0, 0, α⟩))
        = A + ⟨0, 0, α⟩ + FVector.smul s (B + ⟨0, 0, β⟩ - (A + ⟨0, 0, α⟩)) := by
      apply FVector_ext <;>
        simp only [FVector_add_X, FVector_add_Y, FVector_add_Z, FVector_smul_X,
          FVector_smul_Y, FVector_smul_Z, FVector_sub_X, FVector_sub_Y, FVector_sub_Z]
      · ring
      · ring
      · linear_combination -h2
    rw [e]
    exact hs
  · have hDpos : 0 < α * (1 - r) + s * β := lt_of_le_of_ne hD0 (Ne.symm hD)
    have hl0 : 0 ≤ s * β / (α * (1 - r) + s * β) := div_nonneg (mul_nonneg s0 hβ) hD0
    have hl1 : s * β / (α * (1 - r) + s * β) ≤ 1 := by
      rw [div_le_one hDpos]
      have := mul_nonneg hα (show (0 : ℚ) ≤ 1 - r by linarith)
      linarith
    have hlD : s * β / (α * (1 - r) + s * β) * (α * (1 - r) + s * β) = s * β :=
      div_mul_cancel₀ _ hD
    have hZ := hK _ _ hs hr _ hl0 hl1
    have ht0 : 0 ≤ (1 - s * β / (α * (1 - r) + s * β)) * s
        + s * β / (α * (1 - r) + s * β) * r :=
      add_nonneg (mul_nonneg (by linarith) s0) (mul_nonneg hl0 r0)
    have ht1 : (1 - s * β / (α * (1 - r) + s * β)) * s
        + s * β / (α * (1 - r) + s * β) * r ≤ 1 := by
      nlinarith [mul_nonneg (show (0 : ℚ) ≤ 1 - s * β / (α * (1 - r) + s * β) by linarith)
        (show (0 : ℚ) ≤ 1 - s by linarith),
        mul_nonneg hl0 (show (0 : ℚ) ≤ 1 - r by linarith)]
    refine ⟨_, ht0, ht1, ?_⟩
    have e : A + ⟨0, 0, α⟩ + FVector.smul ((1 - s * β / (α * (1 - r) + s * β)) * s
          + s * β / (α * (1 - r) + s * β) * r) (B - (A + ⟨0, 0, α⟩))
        = (A + ⟨0, 0, α⟩ + FVector.smul s (B + ⟨0, 0, β⟩ - (A + ⟨0, 0, α⟩)))
          + FVector.smul (s * β / (α * (1 - r) + s * β))
            ((A + FVector.smul r (B - A))
              - (A + ⟨0, 0, α⟩ + FVector.smul s (B + ⟨0, 0, β⟩ - (A + ⟨0, 0, α⟩)))) := by
      apply FVector_ext <;>
        simp only [FVector_add_X, FVector_add_Y, FVector_add_Z, FVector_smul_X,
          FVector_smul_Y, FVector_smul_Z, FVector_sub_X, FVector_sub_Y, FVector_sub_Z]
      · ring
      · ring
      · linear_combination hlD
    rw [e]
    exact hZ

theorem Inside_convex (C : Cuboid) (a b : FVector) (ha : C.Inside a) (hb : C.Inside b)
    (t : ℚ) (h0 : 0 ≤ t) (h1 : t ≤ 1) : C.Inside (a + FVector.smul t (b - a)) := by
  intro F hF
  have e : FVector.dot F.Normal
      (C.Vertices.getD (F.Perimeter.getD 0 0) ⟨0, 0, 0⟩ - (a + FVector.smul t (b - a)))
      = (1 - t) * FVector.dot F.Normal (C.Vertices.getD (F.Perimeter.getD 0 0) ⟨0, 0, 0⟩ - a)
        + t * FVector.dot F.Normal (C.Vertices.getD (F.Perimeter.getD 0 0) ⟨0, 0, 0⟩ - b) := by
    simp only [FVector.dot, FVector_add_X, FVector_add_Y, FVector_add_Z, FVector_smul_X,
      FVector_smul_Y, FVector_smul_Z, FVector_sub_X, FVector_sub_Y, FVector_sub_Z]
    ring
  rw [e]
  exact add_nonneg (mul_nonneg (by linarith) (ha F hF)) (mul_nonneg h0 (hb F hF))

theorem Face_constraint (n V Start Direction : FVector) (t : ℚ) :
    FVector.dot n (V - (Start + FVector.smul t Direction))
      = FVector.dot n (V - Start) - t * FVector.dot Direction n := by
  simp only [FVector.dot, FVector_add_X, FVector_add_Y, FVector_add_Z, FVector_smul_X,
    FVector_smul_Y, FVector_smul_Z, FVector_sub_X, FVector_sub_Y, FVector_sub_Z]
  ring

theorem IntersectionTime_clip_iff (C : Cuboid) (Start Direction : FVector) (Fs : List Face) :
    ∀ lo hi : ℚ, lo ≤ hi →
      ((IntersectionTime.clip C Start Direction Fs lo hi).isSome = true ↔
        ∃ t : ℚ, lo ≤ t ∧ t ≤ hi ∧ ∀ F ∈ Fs,
          0 ≤ FVector.dot F.Normal (C.Vertices.getD (F.Perimeter.getD 0 0) ⟨0, 0, 0⟩
            - (Start + FVector.smul t Direction))) := by
  induction Fs with
  | nil =>
    intro lo hi h
    constructor
    · intro _
      exact ⟨lo, le_refl _, h, fun F hF => by cases hF⟩
    · intro _
      rfl
  | cons F rest ih =>
    intro lo hi h
    have hcons : ∀ t : ℚ,
        (∀ G ∈ F :: rest, 0 ≤ FVector.dot G.Normal
          (C.Vertices.getD (G.Perimeter.getD 0 0) ⟨0, 0, 0⟩
            - (Start + FVector.smul t Direction))) ↔
        (0 ≤ FVector.dot F.Normal (C.Vertices.getD (F.Perimeter.getD 0 0) ⟨0, 0, 0⟩ - Start)
            - t * FVector.dot Direction F.Normal ∧
          ∀ G ∈ rest, 0 ≤ FVector.dot G.Normal
            (C.Vertices.getD (G.Perimeter.getD 0 0) ⟨0, 0, 0⟩
              - (Start + FVector.smul t Direction))) := by
      intro t
      rw [List.forall_mem_cons, Face_constraint]
    rw [IntersectionTime.clip]
    simp only []
    by_cases hD : FVector.dot Direction F.Normal = 0
    · rw [if_pos hD]
      by_cases hN : FVector.dot F.Normal
          (C.Vertices.getD (F.Perimeter.getD 0 0) ⟨0, 0, 0⟩ - Start) < 0
      · rw [if_pos hN]
        constructor
        · intro hc; cases hc
        · rintro ⟨t, -, -, ht⟩
          have := ((hcons t).mp ht).1
          rw [hD] at this
          linarith
      · rw [if_neg hN, ih lo hi h]
        constructor
        · rintro ⟨t, a, b, c⟩
          refine ⟨t, a, b, (hcons t).mpr ⟨?_, c⟩⟩
          rw [hD]
          linarith
        · rintro ⟨t, a, b, c⟩
          exact ⟨t, a, b, ((hcons t).mp c).2⟩
    · rw [if_neg hD]
      by_cases hneg : FVector.dot Direction F.Normal < 0
      · simp only [if_pos hneg]
        have hkey : ∀ t : ℚ,
            (0 ≤ FVector.dot F.Normal
                (C.Vertices.getD (F.Perimeter.getD 0 0) ⟨0, 0, 0⟩ - Start)
              - t * FVector.dot Direction F.Normal ↔
            FVector.dot F.Normal (C.Vertices.getD (F.Perimeter.getD 0 0) ⟨0, 0, 0⟩ - Start)
              / FVector.dot Direction F.Normal ≤ t) := by
          intro t
          rw [div_le_iff_of_neg hneg]
          constructor <;> intro hh <;> linarith
        by_cases hgt : max lo (FVector.dot F.Normal
            (C.Vertices.getD (F.Perimeter.getD 0 0) ⟨0, 0, 0⟩ - Start)
              / FVector.dot Direction F.Normal) > hi
        · rw [if_pos hgt]
          constructor
          · intro hc; cases hc
          · rintro ⟨t, a, b, c⟩
            have h3 := (hkey t).mp ((hcons t).mp c).1
            have := max_le a h3
            linarith
        · rw [if_neg hgt, ih _ _ (not_lt.mp hgt)]
          constructor
          · rintro ⟨t, a, b, c⟩
            exact ⟨t, le_trans (le_max_left _ _) a, b,
              (hcons t).mpr ⟨(hkey t).mpr (le_trans (le_max_right _ _) a), c⟩⟩
          · rintro ⟨t, a, b, c⟩
            exact ⟨t, max_le a ((hkey t).mp ((hcons t).mp c).1), b, ((hcons t).mp c).2⟩
      · simp only [if_neg hneg]
        have hpos : 0 < FVector.dot Direction F.Normal :=
          lt_of_le_of_ne (not_lt.mp hneg) (Ne.symm hD)
        have hkey : ∀ t : ℚ,
            (0 ≤ FVector.dot F.Normal
                (C.Vertices.getD (F.Perimeter.getD 0 0) ⟨0, 0, 0⟩ - Start)
              - t * FVector.dot Direction F.Normal ↔
            t ≤ FVector.dot F.Normal
              (C.Vertices.getD (F.Perimeter.getD 0 0) ⟨0, 0, 0⟩ - Start)
              / FVector.dot Direction F.Normal) := by
          intro t
          rw [le_div_iff₀ hpos]
          constructor <;> intro hh <;> linarith
        by_cases hgt : lo > min hi (FVector.dot F.Normal
            (C.Vertices.getD (F.Perimeter.getD 0 0) ⟨0, 0, 0⟩ - Start)
              / FVector.dot Direction F.Normal)
        · rw [if_pos hgt]
          constructor
          · intro hc; cases hc
          · rintro ⟨t, a, b, c⟩
            have h3 := (hkey t).mp ((hcons t).mp c).1
            have := le_min b h3
            linarith
        · rw [if_neg hgt, ih _ _ (not_lt.mp hgt)]
          constructor
          · rintro ⟨t, a, b, c⟩
            exact ⟨t, a, le_trans b (min_le_left _ _),
              (hcons t).mpr ⟨(hkey t).mpr (le_trans b (min_le_right _ _)), c⟩⟩
          · rintro ⟨t, a, b, c⟩
            exact ⟨t, a, le_min b ((hkey t).mp ((hcons t).mp c).1), ((hcons t).mp c).2⟩

theorem IntersectionTime_convex (E : Externals) (C : Cuboid)
    (hE : E.IntersectionTime = IntersectionTime) : ConvexTest E C := by
  refine ⟨C.Inside, fun a b ha hb t h0 h1 => Inside_convex C a b ha hb t h0 h1, ?_⟩
  intro Start Direction
  rw [hE]
  exact IntersectionTime_clip_iff C Start Direction C.Faces 0 1 (by norm_num)

theorem zip_cover_right {α β : Type} :
    ∀ (l1 : List α) (l2 : List β), l1.length = l2.length →
      ∀ b ∈ l2, ∃ a ∈ l1, (a, b) ∈ List.zip l1 l2
  | [], [], _, b, hb => by cases hb
  | [], _ :: _, h, _, _ => by cases h
  | _ :: _, [], h, _, _ => by cases h
  | x :: xs, y :: ys, h, b, hb => by
    rcases List.mem_cons.mp hb with hb | hb
    · subst hb
      exact ⟨x, List.mem_cons_self _ _, by simp⟩
    · obtain ⟨a, ha, hz⟩ := zip_cover_right xs ys (Nat.succ.inj h) b hb
      exact ⟨a, List.mem_cons_of_mem _ ha, by
        rw [List.zip_cons_cons]
        exact List.mem_cons_of_mem _ hz⟩

theorem zip_cover_left {α β : Type} :
    ∀ (l1 : List α) (l2 : List β), l1.length = l2.length →
      ∀ a ∈ l1, ∃ b ∈ l2, (a, b) ∈ List.zip l1 l2
  | [], [], _, a, ha => by cases ha
  | [], _ :: _, h, _, _ => by cases h
  | _ :: _, [], h, _, _ => by cases h
  | x :: xs, y :: ys, h, a, ha => by
    rcases List.mem_cons.mp ha with ha | ha
    · subst ha
      exact ⟨y, List.mem_cons_self _ _, by simp⟩
    · obtain ⟨b, hb, hz⟩ := zip_cover_left xs ys (Nat.succ.inj h) a ha
      exact ⟨b, List.mem_cons_of_mem _ hb, by
        rw [List.zip_cons_cons]
        exact List.mem_cons_of_mem _ hz⟩

theorem Upright_offset (T V : FVector) (hx : T.X = V.X) (hy : T.Y = V.Y) :
    T = V + ⟨0, 0, T.Z - V.Z⟩ := by
  apply FVector_ext <;> simp only [FVector_add_X, FVector_add_Y, FVector_add_Z]
  · rw [hx]; ring
  · rw [hy]; ring
  · ring

theorem GetPossiblePeeks_vertical (E : Externals) (Pc Q : FVector) (Mh Mv : ℚ) :
    ∃ P0 P1 P2 P3, GetPossiblePeeks E Pc Q Mh Mv = [P0, P1, P2, P3] ∧
      P0 = P3 + ⟨0, 0, 2 * Mv⟩ ∧ P1 = P2 + ⟨0, 0, 2 * Mv⟩ := by
  refine ⟨_, _, _, _, rfl, ?_, ?_⟩
  · apply FVector_ext <;>
      simp only [FVector_add_X, FVector_add_Y, FVector_add_Z, FVector_sub_X, FVector_sub_Y,
        FVector_sub_Z] <;>
      ring
  · apply FVector_ext <;>
      simp only [FVector_add_X, FVector_add_Y, FVector_add_Z, FVector_sub_X, FVector_sub_Y,
        FVector_sub_Z] <;>
      ring

theorem IsBlocking_sampled_segments (E : Externals) (Bounds : List CharacterBounds)
    (B : Bundle) (C : Cuboid) (EB : CharacterBounds) (P0 P1 P2 P3 : FVector)
    (hB : Bounds[B.EnemyI]? = some EB) (hP : B.PossiblePeeks = [P0, P1, P2, P3])
    (h : IsBlocking E Bounds B C = some true) :
    (∀ V ∈ EB.TopVertices, Intersects E C P0 V ∧ Intersects E C P1 V) ∧
    (∀ V ∈ EB.BottomVertices, Intersects E C P2 V ∧ Intersects E C P3 V) := by
  rw [IsBlocking_eq E Bounds B C EB P0 P1 P2 P3 hB hP] at h
  exact of_decide_eq_true (Option.some.inj h)

theorem Intersects_iff_Meets (E : Externals) (C : Cuboid) (K : FVector → Prop)
    (hK : ∀ Start Direction, (E.IntersectionTime C Start Direction).isSome = true ↔
      ∃ t : ℚ, 0 ≤ t ∧ t ≤ 1 ∧ K (Start + FVector.smul t Direction)) (P V : FVector) :
    Intersects E C P V ↔ Meets K P V := hK P (V - P)

/-! ## Claim on the unsampled segments -/

set_option maxRecDepth 8000 in
/-- The bounds have to be upright for this: with the low wall and an enemy
turned upside down, the top group 2 below the centre and the bottom group 2
above it, the bundle is blocked (every tested segment hits the wall), yet the
segment from peek 0 to the first vertex of the bottom group passes over the
wall. -/
theorem IsBlocking_upside_down :
    ¬ Upright (Scene.UpsideDownBounds.getD Scene.DuelBundle.EnemyI
      ⟨⟨0, 0, 0⟩, ⟨0, 0, 0⟩, [], []⟩) ∧
    IsBlocking Scene.E Scene.UpsideDownBounds Scene.DuelBundle Scene.LowWall = some true ∧
    Scene.DuelBundle.PossiblePeeks[0]? = some ⟨0, 15, 10⟩ ∧
    (⟨101, 1, 2⟩ : FVector) ∈
      (Scene.UpsideDownBounds.getD Scene.DuelBundle.EnemyI
        ⟨⟨0, 0, 0⟩, ⟨0, 0, 0⟩, [], []⟩).BottomVertices ∧
    ¬ Intersects Scene.E Scene.LowWall ⟨0, 15, 10⟩ ⟨101, 1, 2⟩ := by
  refine ⟨by decide!, by decide!, rfl, by decide!, by decide!⟩

/-! ## Lemmas on the bounds refresh -/

theorem EmplaceAt_some {α : Type} (l l1 : List α) (i : Nat) (x : α) (hle : l.length ≤ i)
    (h : EmplaceAt l i x = some l1) : l.length = i ∧ l1 = l ++ [x] := by
  unfold EmplaceAt at h
  by_cases hi : i ≤ l.length
  · have hlen : l.length = i := le_antisymm hle hi
    rw [if_pos hi, Option.some.injEq] at h
    refine ⟨hlen, ?_⟩
    rw [← h, ← hlen, List.take_length, List.drop_length]
  · rw [if_neg hi] at h
    cases h

theorem PopulateBundles_bounds_content (E : Externals) (s : Controller) (m k : Nat)
    (acc B : List CharacterBounds) (hacc : acc.length ≤ k)
    (h : PopulateBundles.bounds E s (List.range' k m) acc = some B) :
    (∀ i, k ≤ i → i < k + m → s.IsAlive[i]? = some true →
      ∃ Ch, s.Characters[i]? = some Ch ∧ B[i]? = some (BoundsOf E Ch)) ∧
    (∀ i, i < acc.length → B[i]? = acc[i]?) ∧ B.length ≤ k + m := by
  induction m generalizing k acc with
  | zero =>
    simp only [List.range', PopulateBundles.bounds, Option.some.injEq] at h
    subst h
    exact ⟨fun i h1 h2 => absurd h2 (by omega), fun i _ => rfl, by omega⟩
  | succ m ih =>
    simp only [List.range', PopulateBundles.bounds] at h
    cases hA : s.IsAlive[k]? with
    | none => simp [hA] at h
    | some alive =>
      cases alive with
      | false =>
        simp only [hA] at h
        obtain ⟨h1, h2, h3⟩ := ih (k + 1) acc (by omega) h
        refine ⟨?_, h2, by omega⟩
        intro i hi1 hi2 hal
        rcases Nat.eq_or_lt_of_le hi1 with rfl | hlt
        · rw [hA] at hal
          cases hal
        · exact h1 i hlt (by omega) hal
      | true =>
        simp only [hA] at h
        cases hC : s.Characters[k]? with
        | none => simp [hC] at h
        | some Ch =>
          simp only [hC] at h
          cases hE : EmplaceAt acc k (E.MakeBounds Ch.CameraLocation Ch.Transform) with
          | none => simp [hE] at h
          | some acc1 =>
            simp only [hE] at h
            obtain ⟨hlen, hacc1⟩ := EmplaceAt_some acc acc1 k _ hacc hE
            have hlen1 : acc1.length = k + 1 := by rw [hacc1]; simp [hlen]
            obtain ⟨h1, h2, h3⟩ := ih (k + 1) acc1 (by omega) h
            refine ⟨?_, ?_, by omega⟩
            · intro i hi1 hi2 hal
              rcases Nat.eq_or_lt_of_le hi1 with rfl | hlt
              · refine ⟨Ch, hC, ?_⟩
                rw [h2 k (by omega), hacc1, List.getElem?_append_right (by omega), hlen]
                simp [BoundsOf]
              · exact h1 i hlt (by omega) hal
            · intro i hi
              rw [h2 i (by omega), hacc1, List.getElem?_append_left hi]

theorem PopulateBundles_bounds_short (E : Externals) (s : Controller) (m k : Nat)
    (acc : List CharacterBounds) (hacc : acc.length < k)
    (hal : ∃ i, k ≤ i ∧ i < k + m ∧ s.IsAlive[i]? = some true) :
    PopulateBundles.bounds E s (List.range' k m) acc = none := by
  induction m generalizing k with
  | zero =>
    obtain ⟨i, h1, h2, -⟩ := hal
    omega
  | succ m ih =>
    obtain ⟨i, h1, h2, h3⟩ := hal
    simp only [List.range', PopulateBundles.bounds]
    cases hA : s.IsAlive[k]? with
    | none => rfl
    | some alive =>
      cases alive with
      | false =>
        simp only []
        have hik : i ≠ k := by
          rintro rfl
          rw [hA] at h3
          cases h3
        exact ih (k + 1) (by omega) ⟨i, by omega, by omega, h3⟩
      | true =>
        simp only []
        cases hC : s.Characters[k]? with
        | none => rfl
        | some Ch =>
          simp only [EmplaceAt, if_neg (not_le.mpr hacc)]

theorem PopulateBundles_bounds_fail (E : Externals) (s : Controller) (m k : Nat)
    (acc : List CharacterBounds) (hacc : acc.length ≤ k)
    (hbad : ∃ d i, k ≤ d ∧ d < i ∧ i < k + m ∧ s.IsAlive[d]? = some false ∧
      s.IsAlive[i]? = some true) :
    PopulateBundles.bounds E s (List.range' k m) acc = none := by
  induction m generalizing k acc with
  | zero =>
    obtain ⟨d, i, h1, h2, h3, -⟩ := hbad
    omega
  | succ m ih =>
    obtain ⟨d, i, h1, h2, h3, hd, hi⟩ := hbad
    simp only [List.range', PopulateBundles.bounds]
    cases hA : s.IsAlive[k]? with
    | none => rfl
    | some alive =>
      cases alive with
      | false =>
        simp only []
        exact PopulateBundles_bounds_short E s m (k + 1) acc (by omega) ⟨i, by omega, by omega, hi⟩
      | true =>
        simp only []
        have hdk : d ≠ k := by
          rintro rfl
          rw [hA] at hd
          cases hd
        cases hC : s.Characters[k]? with
        | none => rfl
        | some Ch =>
          simp only []
          cases hE : EmplaceAt acc k (E.MakeBounds Ch.CameraLocation Ch.Transform) with
          | none => rfl
          | some acc1 =>
            simp only []
            obtain ⟨hlen, hacc1⟩ := EmplaceAt_some acc acc1 k _ hacc hE
            exact ih (k + 1) acc1 (by rw [hacc1]; simp [hlen])
              ⟨d, i, by omega, h2, by omega, hd, hi⟩

theorem PopulateBundles_bounds_of_alive (E : Externals) (s s1 : Controller)
    (h : PopulateBundles E s = some s1) (i : Nat) (hi : i < s.Characters.length)
    (hal : s.IsAlive[i]? = some true) :
    ∃ Ch, s.Characters[i]? = some Ch ∧ s1.Bounds[i]? = some (BoundsOf E Ch) := by
  have hb := (PopulateBundles_spec E s s1 h).2.2.2.1
  rw [List.range_eq_range'] at hb
  exact (PopulateBundles_bounds_content E s _ 0 [] _ (le_refl 0) hb).1 i (Nat.zero_le i)
    (by omega) hal

/-! ## Claim on the bounds refresh -/

/-- C20: after a `PopulateBundles` that returns, `Bounds[i]` exists for every
living character `i` and is the bounds computed from that character's camera
location and transform, and every queued bundle carries the peeks computed from
the player's bounds and the enemy's bounds. The routine returns when no dead
character has a lower index than a living one; when a dead character precedes a
living one (the arrays having equal length), `Bounds.EmplaceAt(i, ...)` is called
with an index beyond the end of the freshly reset array and the routine does
not return. -/
theorem C20_bounds_refresh (E : Externals) (s : Controller) :
    (ArraysAligned s → AlivePrefix s → ∃ s1, PopulateBundles E s = some s1) ∧
    (∀ s1, PopulateBundles E s = some s1 →
      (∀ i, i < s.Characters.length → s.IsAlive[i]? = some true →
        ∃ Ch, s.Characters[i]? = some Ch ∧ s1.Bounds[i]? = some (BoundsOf E Ch)) ∧
      (∀ B ∈ s1.BundleQueue, ∃ Chp Che,
        s.Characters[B.PlayerI]? = some Chp ∧ s.Characters[B.EnemyI]? = some Che ∧
        s1.Bounds[B.EnemyI]? = some (BoundsOf E Che) ∧
        B.PossiblePeeks =
          GetPossiblePeeks E (BoundsOf E Chp).CameraLocation (BoundsOf E Che).Center 15 10)) ∧
    (ArraysAligned s →
      (∃ d i, d < i ∧ i < s.Characters.length ∧ s.IsAlive[d]? = some false ∧
        s.IsAlive[i]? = some true) →
      PopulateBundles E s = none) := by
  refine ⟨PopulateBundles_total E s, ?_, ?_⟩
  · intro s1 h
    refine ⟨PopulateBundles_bounds_of_alive E s s1 h, ?_⟩
    intro B hB
    obtain ⟨-, hQ, hG, -⟩ := PopulateBundles_spec E s s1 h
    obtain ⟨-, Bi, Bj, hBi, hBj, hp⟩ := hG B hB
    have hq : (B.PlayerI, B.EnemyI) ∈
        QueuedPairs s s.VisibilityTimers (List.range s.Characters.length) := by
      rw [← hQ]
      exact List.mem_map.mpr ⟨B, hB, rfl⟩
    obtain ⟨hi, hali, hj, hel⟩ := (QueuedPairs_mem s _ _ _ _).mp hq
    obtain ⟨Chp, hCp, hBp⟩ :=
      PopulateBundles_bounds_of_alive E s s1 h B.PlayerI (List.mem_range.mp hi) hali
    obtain ⟨Che, hCe, hBe⟩ := PopulateBundles_bounds_of_alive E s s1 h B.EnemyI hj hel.2.1
    refine ⟨Chp, Che, hCp, hCe, hBe, ?_⟩
    rw [hBp, Option.some.injEq] at hBi
    rw [hBe, Option.some.injEq] at hBj
    rw [hp, ← hBi, ← hBj]
  · rintro hA ⟨d, i, hdi, hi, hd, hal⟩
    unfold PopulateBundles
    rw [List.range_eq_range', PopulateBundles_bounds_fail E s _ 0 [] (le_refl 0)
      ⟨d, i, Nat.zero_le d, hdi, by omega, hd, hal⟩]

set_option maxRecDepth 8000 in
/-- Witness of C20: in the duel with both characters alive the refresh returns
and both bounds are those of the characters; in the duel whose character 0 is
dead and whose character 1 is alive it does not return. -/
theorem C20_bounds_refresh_witness :
    (∃ s1, PopulateBundles Scene.E (Scene.Start Scene.Duel [true, true] [Scene.Wall] [])
        = some s1 ∧
      s1.Bounds[1]? = some (BoundsOf Scene.E (Scene.CharacterAt 1 ⟨100, 0, 0⟩))) ∧
    PopulateBundles Scene.E Scene.DeadFirst = none := by
  constructor
  · obtain ⟨s1, h⟩ := (C20_bounds_refresh Scene.E
      (Scene.Start Scene.Duel [true, true] [Scene.Wall] [])).1 (by decide)
      (AlivePrefix_of_all_alive _ (by decide))
    obtain ⟨Ch, hC, hB⟩ := ((C20_bounds_refresh Scene.E
      (Scene.Start Scene.Duel [true, true] [Scene.Wall] [])).2.1 s1 h).1 1 (by decide)
      (by decide)
    refine ⟨s1, h, ?_⟩
    have : Ch = Scene.CharacterAt 1 ⟨100, 0, 0⟩ := by
      have h2 : (Scene.Start Scene.Duel [true, true] [Scene.Wall] []).Characters[1]?
          = some (Scene.CharacterAt 1 ⟨100, 0, 0⟩) := rfl
      rw [h2, Option.some.injEq] at hC
      exact hC.symm
    rw [hB, this]
  · exact (C20_bounds_refresh Scene.E Scene.DeadFirst).2.2 (by decide)
      ⟨0, 1, by decide, by decide, by decide, by decide⟩


/-! ## Lemmas on the cull stages of a scene without occluders -/

theorem CullWithCache_run_no_cuboids (E : Externals) (s : Controller) (hC : s.Cuboids = [])
    (hK : 0 < E.CUBOID_CACHE_SIZE) (B : Bundle) (rest : List Bundle)
    (st : (Nat → Nat → Nat → Int) × List Bundle) :
    CullWithCache.run E s (B :: rest) st = none := by
  obtain ⟨m, hm⟩ : ∃ m, E.CUBOID_CACHE_SIZE = m + 1 := ⟨E.CUBOID_CACHE_SIZE - 1, by omega⟩
  obtain ⟨CT, Rem⟩ := st
  have hs : CullWithCache.scan E s B (List.range E.CUBOID_CACHE_SIZE) CT = none := by
    rw [hm, List.range_succ_eq_map]
    unfold CullWithCache.scan
    rw [hC]
    rfl
  unfold CullWithCache.run
  rw [hs]

theorem CullWithSpheres_run_no_spheres (s : Controller) (hS : s.Spheres = [])
    (l Rem : List Bundle) : CullWithSpheres.run s l Rem = some (Rem ++ l) := by
  induction l generalizing Rem with
  | nil => simp [CullWithSpheres.run]
  | cons B rest ih =>
    have hs : CullWithSpheres.scan s B s.Spheres = some false := by
      rw [hS]; rfl
    unfold CullWithSpheres.run
    rw [hs]
    simp only [Bool.false_eq_true, if_false]
    rw [ih]
    simp

theorem CullWithCuboids_run_no_cuboids (E : Externals) (s : Controller) (hC : s.Cuboids = [])
    (l : List Bundle) (CC : Nat → Nat → Nat → Nat) (CT : Nat → Nat → Nat → Int)
    (Rem : List Bundle) :
    CullWithCuboids.run E s l (CC, CT, Rem) = some (CC, CT, Rem ++ l) := by
  induction l generalizing Rem with
  | nil => simp [CullWithCuboids.run]
  | cons B rest ih =>
    have hs : CullWithCuboids.scan E s B (GetPossibleOccludingCuboids s B) (CC, CT)
        = some (false, CC, CT) := by
      unfold GetPossibleOccludingCuboids
      rw [hC]; rfl
    unfold CullWithCuboids.run
    rw [hs]
    simp only [Bool.false_eq_true, if_false]
    rw [ih]
    simp

theorem Tick_of_Cull_none (E : Externals) (Delta : Int) (s : Controller)
    (h : Cull E { s with TotalTicks := s.TotalTicks + 1 } = none) : Tick E Delta s = none := by
  unfold Tick BenchmarkCull
  rw [h]
  rfl

/-! ## Claim on the scene without occluders -/

/-- C13, which fails in the code: with zero cuboids (and a cache of at least
one slot per pair) a cull tick that queues a bundle, for a living player `i` and
a living enemy `j` of another team whose timer is 0, does not return:
`CullWithCache` reads `Cuboids[CuboidCaches[i][j][0]]` in the empty array. The
two other stages do handle the empty scene: without spheres `CullWithSpheres`
and without cuboids `CullWithCuboids` return the state unchanged. -/
theorem C13_zero_cuboids_tick (E : Externals) (Delta : Int) (s : Controller)
    (hK : 0 < E.CUBOID_CACHE_SIZE) (hC : s.Cuboids = [])
    (hP : s.CullingPeriod ≠ 0) (hrun : (s.TotalTicks + 1).tmod s.CullingPeriod = 0)
    (i j : Nat) (hi : i < s.Characters.length) (hj : j < s.Characters.length)
    (hai : s.IsAlive[i]? = some true) (haj : s.IsAlive[j]? = some true)
    (hT : s.Teams[i]? ≠ s.Teams[j]?) (h0 : s.VisibilityTimers i j = 0) :
    Tick E Delta s = none ∧
    (∀ s0 : Controller, s0.Spheres = [] → CullWithSpheres s0 = some s0) ∧
    (∀ s0 : Controller, s0.Cuboids = [] → CullWithCuboids E s0 = some s0) := by
  refine ⟨?_, ?_, ?_⟩
  · apply Tick_of_Cull_none
    unfold Cull
    rw [if_neg hP, if_pos hrun]
    cases hpb : PopulateBundles E { s with TotalTicks := s.TotalTicks + 1 } with
    | none => rfl
    | some s0 =>
      obtain ⟨-, hQ, -, -, -, -, -, hCu, -⟩ := PopulateBundles_spec E _ s0 hpb
      have hmem : (i, j) ∈ s0.BundleQueue.map (fun B => (B.PlayerI, B.EnemyI)) := by
        rw [hQ]
        exact (QueuedPairs_mem _ _ _ i j).mpr
          ⟨List.mem_range.mpr hi, hai, hj, by
            show Decremented (s.VisibilityTimers i j) = 0
            rw [h0]; rfl, haj, hT⟩
      have hne : s0.BundleQueue ≠ [] := by
        intro hnil
        rw [hnil] at hmem
        simp at hmem
      obtain ⟨B, rest, hBr⟩ := List.exists_cons_of_ne_nil hne
      have hcw : CullWithCache E s0 = none := by
        unfold CullWithCache
        rw [hBr, CullWithCache_run_no_cuboids E s0 (hCu.trans hC) hK]
      simp only [Option.bind_eq_bind, Option.some_bind, hcw, Option.none_bind]
  · intro s0 hS
    unfold CullWithSpheres
    rw [CullWithSpheres_run_no_spheres s0 hS]
    rfl
  · intro s0 hCu
    unfold CullWithCuboids
    rw [CullWithCuboids_run_no_cuboids E s0 hCu]
    rfl

set_option maxRecDepth 8000 in
/-- Witness of C13: the first tick of the duel without occluders does not
return. -/
theorem C13_zero_cuboids_tick_witness : Tick Scene.E 5 Scene.OpenDuel = none :=
  (C13_zero_cuboids_tick Scene.E 5 Scene.OpenDuel (by decide) rfl (by decide) (by decide)
    0 1 (by decide) (by decide) (by decide) (by decide) (by decide) rfl).1

/-! ## Lemmas on the fields a tick leaves alone -/

theorem StaticFrame_refl (s : Controller) : StaticFrame s s :=
  ⟨rfl, rfl, rfl, rfl, rfl, rfl, rfl, rfl, rfl, rfl⟩

theorem StaticFrame_trans {s s1 s2 : Controller} (h1 : StaticFrame s s1)
    (h2 : StaticFrame s1 s2) : StaticFrame s s2 := by
  obtain ⟨a1, a2, a3, a4, a5, a6, a7, a8, a9, a10⟩ := h1
  obtain ⟨b1, b2, b3, b4, b5, b6, b7, b8, b9, b10⟩ := h2
  exact ⟨b1.trans a1, b2.trans a2, b3.trans a3, b4.trans a4, b5.trans a5, b6.trans a6,
    b7.trans a7, b8.trans a8, b9.trans a9, b10.trans a10⟩

theorem SchedulerFrame_refl (s : Controller) : SchedulerFrame s s :=
  ⟨rfl, rfl, rfl, rfl, rfl, rfl⟩

theorem SchedulerFrame_trans {s s1 s2 : Controller} (h1 : SchedulerFrame s s1)
    (h2 : SchedulerFrame s1 s2) : SchedulerFrame s s2 := by
  obtain ⟨tk, ti, tt, rt, rm, ra⟩ := h1
  exact ⟨h2.1.trans tk, h2.2.1.trans ti, h2.2.2.1.trans tt, h2.2.2.2.1.trans rt,
    h2.2.2.2.2.1.trans rm, h2.2.2.2.2.2.trans ra⟩

theorem PopulateBundles_static (E : Externals) (s s1 : Controller)
    (h : PopulateBundles E s = some s1) : StaticFrame s s1 ∧ SchedulerFrame s s1 := by
  unfold PopulateBundles at h
  split at h
  · cases h
  · split at h
    · cases h
    · simp only [Option.some.injEq] at h
      subst h
      exact ⟨StaticFrame_refl s, SchedulerFrame_refl s⟩

theorem CullWithCache_static (E : Externals) (s s1 : Controller)
    (h : CullWithCache E s = some s1) : StaticFrame s s1 ∧ SchedulerFrame s s1 := by
  unfold CullWithCache at h
  split at h
  · cases h
  · simp only [Option.some.injEq] at h
    subst h
    exact ⟨StaticFrame_refl s, SchedulerFrame_refl s⟩

theorem CullWithSpheres_static (s s1 : Controller) (h : CullWithSpheres s = some s1) :
    StaticFrame s s1 ∧ SchedulerFrame s s1 := by
  unfold CullWithSpheres at h
  split at h
  · cases h
  · simp only [Option.some.injEq] at h
    subst h
    exact ⟨StaticFrame_refl s, SchedulerFrame_refl s⟩

theorem CullWithCuboids_static (E : Externals) (s s1 : Controller)
    (h : CullWithCuboids E s = some s1) : StaticFrame s s1 ∧ SchedulerFrame s s1 := by
  unfold CullWithCuboids at h
  split at h
  · cases h
  · simp only [Option.some.injEq] at h
    subst h
    exact ⟨StaticFrame_refl s, SchedulerFrame_refl s⟩

theorem Cull_static (E : Externals) (s sc : Controller) (h : Cull E s = some sc) :
    StaticFrame s sc ∧ SchedulerFrame s sc := by
  by_cases hrun : s.TotalTicks.tmod s.CullingPeriod = 0
  · obtain ⟨s0, s1, s2, h0, h1, h2, h3⟩ := Cull_run E s sc h hrun
    obtain ⟨a0, b0⟩ := PopulateBundles_static E s s0 h0
    obtain ⟨a1, b1⟩ := CullWithCache_static E s0 s1 h1
    obtain ⟨a2, b2⟩ := CullWithSpheres_static s1 s2 h2
    obtain ⟨a3, b3⟩ := CullWithCuboids_static E s2 sc h3
    exact ⟨StaticFrame_trans (StaticFrame_trans (StaticFrame_trans a0 a1) a2) a3,
      SchedulerFrame_trans (SchedulerFrame_trans (SchedulerFrame_trans b0 b1) b2) b3⟩
  · rw [Cull_skip E s sc h hrun]
    exact ⟨StaticFrame_refl s, SchedulerFrame_refl s⟩

theorem UpdateVisibility_static (E : Externals) (s s1 : Controller)
    (h : UpdateVisibility E s = some s1) : StaticFrame s s1 ∧ SchedulerFrame s s1 := by
  unfold UpdateVisibility at h
  simp only [] at h
  split at h
  · cases h
  · simp only [Option.some.injEq] at h
    subst h
    exact ⟨StaticFrame_refl s, SchedulerFrame_refl s⟩

theorem BenchmarkCull_stats_static (Delta : Int) (s s1 : Controller)
    (h : BenchmarkCull.stats Delta s = some s1) :
    StaticFrame s s1 ∧ s1.TotalTicks = s.TotalTicks := by
  unfold BenchmarkCull.stats at h
  simp only [] at h
  split at h
  · cases h
  · split at h
    · simp only [Option.some.injEq] at h
      subst h
      exact ⟨StaticFrame_refl s, rfl⟩
    · simp only [Option.some.injEq] at h
      subst h
      exact ⟨StaticFrame_refl s, rfl⟩

theorem Tick_static (E : Externals) (Delta : Int) (s s1 : Controller)
    (h : Tick E Delta s = some s1) :
    StaticFrame s s1 ∧ s1.TotalTicks = s.TotalTicks + 1 := by
  obtain ⟨sc, su, hc, hu, hs⟩ := Tick_steps E Delta s s1 h
  obtain ⟨a0, b0⟩ := Cull_static E _ sc hc
  obtain ⟨a1, b1⟩ := UpdateVisibility_static E sc su hu
  obtain ⟨a2, b2⟩ := BenchmarkCull_stats_static Delta su s1 hs
  refine ⟨StaticFrame_trans (StaticFrame_trans a0 a1) a2, ?_⟩
  rw [b2, b1.1, b0.1]

/-! ## Lemmas on the outcome of the three cull stages -/

theorem FirstBlocker_congr (E : Externals) (s s1 : Controller) (B : Bundle)
    (hB : s1.Bounds = s.Bounds) (hC : s1.Cuboids = s.Cuboids) :
    FirstBlocker E s1 B = FirstBlocker E s B := by
  unfold FirstBlocker GetPossibleOccludingCuboids
  rw [hB, hC]

theorem CullWithCuboids_caches (E : Externals) (s s1 : Controller)
    (h : CullWithCuboids E s = some s1)
    (hnd : (s.BundleQueue.map (fun B => (B.PlayerI, B.EnemyI))).Nodup) :
    (∀ B ∈ s.BundleQueue, ∀ c, FirstBlocker E s B = some c → ∀ k,
      s1.CuboidCaches B.PlayerI B.EnemyI k =
        if k = ArgMin (s.CacheTimers B.PlayerI B.EnemyI) E.CUBOID_CACHE_SIZE then c
        else s.CuboidCaches B.PlayerI B.EnemyI k) ∧
    (∀ a b, (¬ ∃ B ∈ s.BundleQueue, (B.PlayerI, B.EnemyI) = (a, b) ∧
        BlockedByCuboid E s B = true) →
      ∀ k, s1.CuboidCaches a b k = s.CuboidCaches a b k) := by
  unfold CullWithCuboids at h
  cases hr : CullWithCuboids.run E s s.BundleQueue (s.CuboidCaches, s.CacheTimers, []) with
  | none => simp [hr] at h
  | some r =>
    obtain ⟨CC1, CT1, Rem1⟩ := r
    simp only [hr, Option.some.injEq] at h
    subst h
    obtain ⟨r1, r2⟩ := CullWithCuboids_run_caches E s s.BundleQueue hnd _ _ _ _ _ _ hr
    constructor
    · intro B hB c hF k
      show CC1 B.PlayerI B.EnemyI k = _
      rw [(r1 B hB c hF k).1]
      unfold set3
      by_cases hk : k = ArgMin (s.CacheTimers B.PlayerI B.EnemyI) E.CUBOID_CACHE_SIZE
      · rw [if_pos ⟨rfl, rfl, hk⟩, if_pos hk]
      · rw [if_neg (fun hc => hk hc.2.2), if_neg hk]
    · intro a b hno k
      have hno2 : ¬ ∃ B ∈ s.BundleQueue, (B.PlayerI, B.EnemyI) = (a, b) ∧
          (FirstBlocker E s B).isSome = true := by
        rintro ⟨B, hB, hp, hb⟩
        rw [FirstBlocker_isSome] at hb
        exact hno ⟨B, hB, hp, hb⟩
      exact (r2 a b hno2 k).1

theorem Cull_stages_outcome (E : Externals) (s0 s1 s2 s3 : Controller)
    (h1 : CullWithCache E s0 = some s1) (h2 : CullWithSpheres s1 = some s2)
    (h3 : CullWithCuboids E s2 = some s3)
    (hnd : (s0.BundleQueue.map (fun B => (B.PlayerI, B.EnemyI))).Nodup) :
    s3.BundleQueue = s0.BundleQueue.filter (fun B => !Blocked E s0 B) ∧
    s3.Bounds = s0.Bounds ∧ s3.VisibilityTimers = s0.VisibilityTimers ∧
    (∀ B ∈ s0.BundleQueue,
      (BlockedByCache E s0 B = true ∨ BlockedBySphere s0 B = true) →
      ∀ k, s3.CuboidCaches B.PlayerI B.EnemyI k = s0.CuboidCaches B.PlayerI B.EnemyI k) ∧
    (∀ B ∈ s0.BundleQueue, BlockedByCache E s0 B = false → BlockedBySphere s0 B = false →
      ∀ c, FirstBlocker E s0 B = some c →
        ∃ m, (0 < E.CUBOID_CACHE_SIZE → m < E.CUBOID_CACHE_SIZE) ∧
          ∀ k, s3.CuboidCaches B.PlayerI B.EnemyI k =
            if k = m then c else s0.CuboidCaches B.PlayerI B.EnemyI k) ∧
    (∀ a b k, s3.CuboidCaches a b k = s0.CuboidCaches a b k ∨
      s3.CuboidCaches a b k < s0.Cuboids.length) ∧
    (∀ a b, (a, b) ∉ s0.BundleQueue.map (fun B => (B.PlayerI, B.EnemyI)) →
      ∀ k, s3.CuboidCaches a b k = s0.CuboidCaches a b k) := by
  obtain ⟨q1, b1, c1, p1, cc1, t1⟩ := CullWithCache_queue E s0 s1 h1
  obtain ⟨q2, b2, c2, p2, cc2, t2, -⟩ := CullWithSpheres_queue s1 s2 h2
  obtain ⟨q3, b3, -, -, t3⟩ := CullWithCuboids_queue E s2 s3 h3
  have e2 : ∀ B, BlockedBySphere s1 B = BlockedBySphere s0 B :=
    fun B => BlockedBySphere_congr s0 s1 B b1 p1
  have e3 : ∀ B, BlockedByCuboid E s2 B = BlockedByCuboid E s0 B :=
    fun B => BlockedByCuboid_congr E s0 s2 B (b2.trans b1) (c2.trans c1)
  have eF : ∀ B, FirstBlocker E s2 B = FirstBlocker E s0 B :=
    fun B => FirstBlocker_congr E s0 s2 B (b2.trans b1) (c2.trans c1)
  have q20 : s2.BundleQueue = s0.BundleQueue.filter
      (fun B => !BlockedBySphere s0 B && !BlockedByCache E s0 B) := by
    rw [q2, q1, List.filter_filter]
    congr 1
    funext B
    rw [e2 B]
  have hsub : s2.BundleQueue.Sublist s0.BundleQueue := by
    rw [q20]; exact List.filter_sublist _
  have hnd2 : (s2.BundleQueue.map (fun B => (B.PlayerI, B.EnemyI))).Nodup :=
    List.Nodup.sublist (hsub.map _) hnd
  obtain ⟨k1, k2⟩ := CullWithCuboids_caches E s2 s3 h3 hnd2
  have hcc : s2.CuboidCaches = s0.CuboidCaches := cc2.trans cc1
  have hmem2 : ∀ B, B ∈ s2.BundleQueue ↔
      (B ∈ s0.BundleQueue ∧ BlockedBySphere s0 B = false ∧ BlockedByCache E s0 B = false) := by
    intro B
    rw [q20, List.mem_filter]
    cases BlockedBySphere s0 B <;> cases BlockedByCache E s0 B <;> simp
  have huniq : ∀ B ∈ s0.BundleQueue, ∀ B2 ∈ s0.BundleQueue,
      (B2.PlayerI, B2.EnemyI) = (B.PlayerI, B.EnemyI) → B2 = B :=
    fun B hB B2 hB2 hp => List.inj_on_of_nodup_map hnd hB2 hB hp
  refine ⟨?_, b3.trans (b2.trans b1), t3.trans (t2.trans t1), ?_, ?_, ?_, ?_⟩
  · rw [q3, q20, List.filter_filter]
    congr 1
    funext B
    rw [e3 B]
    unfold Blocked
    cases BlockedByCache E s0 B <;> cases BlockedBySphere s0 B <;>
      cases BlockedByCuboid E s0 B <;> rfl
  · intro B hB hbl k
    rw [← hcc]
    apply k2
    rintro ⟨B2, hB2, hp, -⟩
    obtain ⟨hB20, hs, hc⟩ := (hmem2 B2).mp hB2
    have := huniq B hB B2 hB20 hp
    subst this
    rcases hbl with hbl | hbl
    · rw [hbl] at hc; cases hc
    · rw [hbl] at hs; cases hs
  · intro B hB hc hs c hF
    have hB2 : B ∈ s2.BundleQueue := (hmem2 B).mpr ⟨hB, hs, hc⟩
    refine ⟨ArgMin (s2.CacheTimers B.PlayerI B.EnemyI) E.CUBOID_CACHE_SIZE,
      fun hK => (ArgMin_spec _ _ hK).1, ?_⟩
    intro k
    rw [k1 B hB2 c ((eF B).trans hF) k, hcc]
  · intro a b k
    by_cases hex : ∃ B ∈ s2.BundleQueue, (B.PlayerI, B.EnemyI) = (a, b) ∧
        BlockedByCuboid E s2 B = true
    · obtain ⟨B, hB, hp, hbl⟩ := hex
      rw [← FirstBlocker_isSome] at hbl
      obtain ⟨c, hF⟩ := Option.isSome_iff_exists.mp hbl
      have ha : a = B.PlayerI := (congrArg Prod.fst hp).symm
      have hb : b = B.EnemyI := (congrArg Prod.snd hp).symm
      subst ha hb
      rw [k1 B hB c hF k, hcc]
      by_cases hk : k = ArgMin (s2.CacheTimers B.PlayerI B.EnemyI) E.CUBOID_CACHE_SIZE
      · right
        rw [if_pos hk]
        have := (FirstBlocker_some E s2 B c hF).1
        rw [c2.trans c1] at this
        exact this
      · left
        rw [if_neg hk]
    · left
      rw [k2 a b hex k, hcc]
  · intro a b hab k
    rw [← hcc]
    apply k2
    rintro ⟨B2, hB2, hp, -⟩
    exact hab (List.mem_map.mpr ⟨B2, ((hmem2 B2).mp hB2).1, hp⟩)

/-! ## Lemmas on the outcome of a cull tick -/

theorem Tick_cull_outcome (E : Externals) (Delta : Int) (s s1 : Controller)
    (h : Tick E Delta s = some s1)
    (hrun : (s.TotalTicks + 1).tmod s.CullingPeriod = 0) :
    ∃ s0, PopulateBundles E { s with TotalTicks := s.TotalTicks + 1 } = some s0 ∧
      s1.BundleQueue = s0.BundleQueue.filter (fun B => !Blocked E s0 B) ∧
      s1.Bounds = s0.Bounds ∧
      (∀ a b, (a, b) ∉ s1.BundleQueue.map (fun B => (B.PlayerI, B.EnemyI)) →
        s1.VisibilityTimers a b = s0.VisibilityTimers a b) ∧
      (∀ a b, (a, b) ∈ s1.BundleQueue.map (fun B => (B.PlayerI, B.EnemyI)) →
        ∃ r : Nat, r < 3 ∧ s1.VisibilityTimers a b = Int32Add s.TimerIncrement (r : Int)) ∧
      (∃ New, s1.Sent = s.Sent ++ New ∧ New.Nodup ∧
        ∀ i j, (i, j) ∈ New ↔
          (i < s.Characters.length ∧ j < s.Characters.length ∧
            s.IsAlive[i]? = some true ∧ s.IsAlive[j]? = some true ∧
            0 < s1.VisibilityTimers i j)) ∧
      (∀ B ∈ s0.BundleQueue,
        (BlockedByCache E s0 B = true ∨ BlockedBySphere s0 B = true) →
        ∀ k, s1.CuboidCaches B.PlayerI B.EnemyI k = s.CuboidCaches B.PlayerI B.EnemyI k) ∧
      (∀ B ∈ s0.BundleQueue, BlockedByCache E s0 B = false → BlockedBySphere s0 B = false →
        ∀ c, FirstBlocker E s0 B = some c →
          ∃ m, (0 < E.CUBOID_CACHE_SIZE → m < E.CUBOID_CACHE_SIZE) ∧
            ∀ k, s1.CuboidCaches B.PlayerI B.EnemyI k =
              if k = m then c else s.CuboidCaches B.PlayerI B.EnemyI k) ∧
      (∀ a b k, s1.CuboidCaches a b k = s.CuboidCaches a b k ∨
        s1.CuboidCaches a b k < s.Cuboids.length) ∧
      (∀ a b, (a, b) ∉ s0.BundleQueue.map (fun B => (B.PlayerI, B.EnemyI)) →
        ∀ k, s1.CuboidCaches a b k = s.CuboidCaches a b k) := by
  obtain ⟨sc, su, hc, hu, hs⟩ := Tick_steps E Delta s s1 h
  obtain ⟨s0, sa, sb, h0, ha, hb, h3⟩ := Cull_run E _ sc hc hrun
  obtain ⟨-, hQ, -, -, -, -, -, hCu, -, hCC, -⟩ := PopulateBundles_spec E _ s0 h0
  have hnd : (s0.BundleQueue.map (fun B => (B.PlayerI, B.EnemyI))).Nodup := by
    rw [hQ]; exact QueuedPairs_nodup _ _ _ (List.nodup_range _)
  obtain ⟨o1, o2, o3, o4, o5, o6, o7⟩ := Cull_stages_outcome E s0 sa sb sc ha hb h3 hnd
  obtain ⟨fC, -⟩ := Cull_timers E _ sc hc
  obtain ⟨fCh, fAl, -, -, -, -, -, fTI, -, -, fSent, -⟩ := fC
  obtain ⟨u1, -, -, u4, u5, -, u7, -⟩ := UpdateVisibility_spec E sc su hu
  obtain ⟨New, n1, n2, n3⟩ := UpdateVisibility_reported E sc su hu
  obtain ⟨t1, t2, t3, t4, -, t6, -, -⟩ := BenchmarkCull_stats_frame Delta su s1 hs
  have hq : s1.BundleQueue = sc.BundleQueue := t3.trans u4
  have hcc : s1.CuboidCaches = sc.CuboidCaches := t4.trans u5
  have hvt : s1.VisibilityTimers = su.VisibilityTimers := t1
  obtain ⟨r1, r2, -⟩ := UpdateVisibility_reset_spec E sc.TimerIncrement sc.BundleQueue
    sc.VisibilityTimers sc.RandCalls
  refine ⟨s0, h0, hq.trans o1, (t6.trans u7).trans o2, ?_, ?_, ⟨New, ?_, n2, ?_⟩, ?_, ?_, ?_, ?_⟩
  · intro a b hab
    rw [hq] at hab
    rw [hvt, u1, r1 a b hab, o3]
  · intro a b hab
    rw [hq] at hab
    obtain ⟨r, hr, e⟩ := r2 a b hab
    refine ⟨r, hr, ?_⟩
    rw [hvt, u1, e, fTI]
  · rw [t2, n1, fSent]
  · intro i j
    rw [n3 i j, fCh, fAl, hvt]
  · intro B hB hbl k
    rw [hcc, o4 B hB hbl k, hCC]
  · intro B hB hcb hsb c hF
    obtain ⟨m, hm, e⟩ := o5 B hB hcb hsb c hF
    refine ⟨m, hm, fun k => ?_⟩
    rw [hcc, e k, hCC]
  · intro a b k
    rw [hcc]
    rcases o6 a b k with e | e
    · left; rw [e, hCC]
    · right; rw [hCu] at e; exact e
  · intro a b hab k
    rw [hcc, o7 a b hab k, hCC]


theorem PopulateBundles_queued_pair (E : Externals) (s s0 : Controller)
    (h : PopulateBundles E s = some s0) :
    (s0.BundleQueue.map (fun B => (B.PlayerI, B.EnemyI))).Nodup ∧
    (∀ B ∈ s0.BundleQueue,
      B.PlayerI < s.Characters.length ∧ B.EnemyI < s.Characters.length ∧
      s.IsAlive[B.PlayerI]? = some true ∧ s.IsAlive[B.EnemyI]? = some true ∧
      s.Teams[B.PlayerI]? ≠ s.Teams[B.EnemyI]? ∧
      Decremented (s.VisibilityTimers B.PlayerI B.EnemyI) = 0 ∧
      s0.VisibilityTimers B.PlayerI B.EnemyI = 0) ∧
    (∀ p e, p < s.Characters.length → e < s.Characters.length →
      s.IsAlive[p]? = some true → s.IsAlive[e]? = some true → s.Teams[p]? ≠ s.Teams[e]? →
      Decremented (s.VisibilityTimers p e) = 0 →
      ∃ B ∈ s0.BundleQueue, B.PlayerI = p ∧ B.EnemyI = e) := by
  obtain ⟨hdec, hQ, -⟩ := PopulateBundles_spec E s s0 h
  refine ⟨?_, ?_, ?_⟩
  · rw [hQ]; exact QueuedPairs_nodup _ _ _ (List.nodup_range _)
  · intro B hB
    have hq : (B.PlayerI, B.EnemyI) ∈
        QueuedPairs s s.VisibilityTimers (List.range s.Characters.length) := by
      rw [← hQ]
      exact List.mem_map.mpr ⟨B, hB, rfl⟩
    obtain ⟨hi, hali, hj, hd, hae, hT⟩ := (QueuedPairs_mem s _ _ _ _).mp hq
    refine ⟨List.mem_range.mp hi, hj, hali, hae, hT, hd, ?_⟩
    rw [hdec, if_pos ⟨List.mem_range.mp hi, hali, hj⟩]
    exact hd
  · intro p e hp he hap hae hT hd
    have hmem : (p, e) ∈ s0.BundleQueue.map (fun B => (B.PlayerI, B.EnemyI)) := by
      rw [hQ]
      exact (QueuedPairs_mem _ _ _ p e).mpr ⟨List.mem_range.mpr hp, hap, he, hd, hae, hT⟩
    obtain ⟨B, hB, hpe⟩ := List.mem_map.mp hmem
    exact ⟨B, hB, congrArg Prod.fst hpe, congrArg Prod.snd hpe⟩

theorem Tick_cull_bundle (E : Externals) (Delta : Int) (s s1 : Controller)
    (h : Tick E Delta s = some s1)
    (hrun : (s.TotalTicks + 1).tmod s.CullingPeriod = 0)
    (s0 : Controller)
    (hpb : PopulateBundles E { s with TotalTicks := s.TotalTicks + 1 } = some s0)
    (B : Bundle) (hB : B ∈ s0.BundleQueue) :
    (Blocked E s0 B = true →
      s1.VisibilityTimers B.PlayerI B.EnemyI = 0 ∧
      (B.PlayerI, B.EnemyI) ∉ s1.BundleQueue.map (fun B => (B.PlayerI, B.EnemyI)) ∧
      ∀ New, s1.Sent = s.Sent ++ New → (B.PlayerI, B.EnemyI) ∉ New) ∧
    (Blocked E s0 B = false →
      (∃ r : Nat, r < 3 ∧
        s1.VisibilityTimers B.PlayerI B.EnemyI = Int32Add s.TimerIncrement (r : Int)) ∧
      B ∈ s1.BundleQueue ∧
      (0 < s.TimerIncrement → s.TimerIncrement ≤ 2147483645 →
        ∀ New, s1.Sent = s.Sent ++ New → (B.PlayerI, B.EnemyI) ∈ New)) ∧
    ((BlockedByCache E s0 B = true ∨ BlockedBySphere s0 B = true) →
      ∀ k, s1.CuboidCaches B.PlayerI B.EnemyI k = s.CuboidCaches B.PlayerI B.EnemyI k) ∧
    (BlockedByCache E s0 B = false → BlockedBySphere s0 B = false →
      ∀ c, FirstBlocker E s0 B = some c →
        ∃ m, (0 < E.CUBOID_CACHE_SIZE → m < E.CUBOID_CACHE_SIZE) ∧
          ∀ k, s1.CuboidCaches B.PlayerI B.EnemyI k =
            if k = m then c else s.CuboidCaches B.PlayerI B.EnemyI k) := by
  obtain ⟨s0', hpb', hq, -, hv0, hv1, ⟨New, hn1, -, hn3⟩, hc1, hc2, -, -⟩ :=
    Tick_cull_outcome E Delta s s1 h hrun
  have hs0 : s0' = s0 := Option.some.inj (hpb'.symm.trans hpb)
  subst hs0
  obtain ⟨hnd, hall, -⟩ := PopulateBundles_queued_pair E _ s0' hpb
  obtain ⟨hp, he, hap, hae, -, -, hz⟩ := hall B hB
  have hnew : ∀ New2, s1.Sent = s.Sent ++ New2 → New2 = New := fun New2 e2 =>
    List.append_cancel_left (e2.symm.trans hn1)
  refine ⟨?_, ?_, hc1 B hB, hc2 B hB⟩
  · intro hbl
    have hnot : (B.PlayerI, B.EnemyI) ∉ s1.BundleQueue.map (fun B => (B.PlayerI, B.EnemyI)) := by
      intro hin
      obtain ⟨B2, hB2, hpe2⟩ := List.mem_map.mp hin
      rw [hq] at hB2
      obtain ⟨hB20, hf⟩ := List.mem_filter.mp hB2
      have : B2 = B := List.inj_on_of_nodup_map hnd hB20 hB hpe2
      subst this
      rw [hbl] at hf
      cases hf
    have hv : s1.VisibilityTimers B.PlayerI B.EnemyI = 0 := (hv0 _ _ hnot).trans hz
    refine ⟨hv, hnot, ?_⟩
    intro New2 e2 hin
    rw [hnew New2 e2] at hin
    have := ((hn3 _ _).mp hin).2.2.2.2
    rw [hv] at this
    exact absurd this (lt_irrefl 0)
  · intro hbl
    have hB1 : B ∈ s1.BundleQueue := by
      rw [hq]
      exact List.mem_filter.mpr ⟨hB, by rw [hbl]; rfl⟩
    have hin : (B.PlayerI, B.EnemyI) ∈ s1.BundleQueue.map (fun B => (B.PlayerI, B.EnemyI)) :=
      List.mem_map.mpr ⟨B, hB1, rfl⟩
    obtain ⟨r, hr, e1⟩ := hv1 _ _ hin
    refine ⟨⟨r, hr, e1⟩, hB1, ?_⟩
    intro hTI hmax New2 e2
    rw [hnew New2 e2]
    refine (hn3 _ _).mpr ⟨hp, he, hap, hae, ?_⟩
    rw [e1, Int32Add_jitter _ r hr (by omega) hmax]
    have : (0 : Int) ≤ (r : Int) := Int.ofNat_nonneg r
    omega

/-! ## Claim on the degenerate peek direction -/

theorem GetSafeNormal_zero (E : Externals) (P : FVector) :
    GetSafeNormal E (P - P) (1 / 1000000) = ⟨0, 0, 0⟩ := by
  have h0 : (P - P) = (⟨0, 0, 0⟩ : FVector) := by
    show FVector.sub P P = _
    simp [FVector.sub]
  rw [h0]
  unfold GetSafeNormal
  norm_num

theorem GetPossiblePeeks_same_point (E : Externals) (P : FVector) (Mh Mv : ℚ) :
    GetPossiblePeeks E P P Mh Mv =
      [P + ⟨0, 0, Mv⟩, P + ⟨0, 0, Mv⟩, P - ⟨0, 0, Mv⟩, P - ⟨0, 0, Mv⟩] := by
  unfold GetPossiblePeeks
  simp only [GetSafeNormal_zero]
  have hz : FVector.smul Mh ⟨-(0 : ℚ), 0, 0⟩ = ⟨0, 0, 0⟩ := by simp [FVector.smul]
  have ha : P + (⟨0, 0, 0⟩ : FVector) = P := by
    show FVector.add P _ = P
    simp [FVector.add]
  have hs : P - (⟨0, 0, 0⟩ : FVector) = P := by
    show FVector.sub P _ = P
    simp [FVector.sub]
  rw [hz, ha, hs]

theorem TickReady_Start (Characters : List Character) (IsAlive : List Bool)
    (Cuboids : List Cuboid) (Spheres : List Sphere)
    (hA : IsAlive.length = Characters.length)
    (hall : ∀ k, k < IsAlive.length → IsAlive[k]? = some true)
    (hC : 0 < Cuboids.length) :
    TickReady Scene.E (Scene.Start Characters IsAlive Cuboids Spheres) := by
  refine ⟨?_, ?_, ⟨hA, List.length_map _ _⟩, AlivePrefix_of_all_alive _ hall,
    fun _ _ _ _ => hC, fun hc => absurd ?_ hc⟩
  · show (1 : Int) ≠ 0
    decide
  · show (4 : Int) ≠ 0
    decide
  · show ((0 : Int) + 1).tmod 1 = 0
    decide

set_option maxRecDepth 8000 in
/-- C19, as stated, fails: two living characters of opposite teams stand at
the same point, inside a pillar. The direction from the camera of player 0 to
the centre of enemy 1 has length zero, the peeks lie 10 above and 10 below the
camera, and the pillar blocks the bundle: after the cull tick the queue is
empty, both timers are still 0 and nothing has been sent. -/
theorem C19_counterexample :
    (Scene.CharacterAt 0 ⟨0, 0, 0⟩).CameraLocation
      = (BoundsOf Scene.E (Scene.CharacterAt 1 ⟨0, 0, 0⟩)).Center ∧
    0 < Scene.Buried.TimerIncrement ∧
    (Scene.Queued Scene.Buried).BundleQueue.map (fun B => (B.PlayerI, B.EnemyI))
      = [(0, 1), (1, 0)] ∧
    (Tick Scene.E 5 Scene.Buried).map (fun s =>
      (s.BundleQueue.length, s.VisibilityTimers 0 1, s.VisibilityTimers 1 0, s.Sent))
      = some (0, 0, 0, []) := by
  refine ⟨by decide!, by decide!, by decide!, by decide!⟩

/-- C19, amended: when the player's camera is at the enemy's centre the safe
normalisation returns the zero vector without dividing, so the horizontal
offset is zero and the peeks are P+V, P+V, P-V, P-V. The bundle of such a pair
gets no special treatment on a cull tick: it is queued like any bundle of a
living pair of different teams with timer 0, it is removed and its timer stays
0 with no report when a cached cuboid, a sphere or a cuboid blocks it, and it
survives, with the timer set to the `int` sum of `TimerIncrement` and a jitter
in {0, 1, 2} (positive, and the pair reported, when `TimerIncrement` lies
between 1 and 2147483645, so that the sum does not wrap around), exactly when
nothing blocks it. The tick returns on every ready state. -/
theorem C19_degenerate_direction (E : Externals) (Delta : Int) (s : Controller) :
    (∀ (P : FVector) (Mh Mv : ℚ),
      GetSafeNormal E (P - P) (1 / 1000000) = ⟨0, 0, 0⟩ ∧
      GetPossiblePeeks E P P Mh Mv =
        [P + ⟨0, 0, Mv⟩, P + ⟨0, 0, Mv⟩, P - ⟨0, 0, Mv⟩, P - ⟨0, 0, Mv⟩]) ∧
    (TickReady E s → ∃ s1, Tick E Delta s = some s1) ∧
    (∀ s1, Tick E Delta s = some s1 → (s.TotalTicks + 1).tmod s.CullingPeriod = 0 →
      ∀ s0, PopulateBundles E { s with TotalTicks := s.TotalTicks + 1 } = some s0 →
        (∀ p e, p < s.Characters.length → e < s.Characters.length →
          s.IsAlive[p]? = some true → s.IsAlive[e]? = some true →
          s.Teams[p]? ≠ s.Teams[e]? → s.VisibilityTimers p e = 0 →
          ∃ B ∈ s0.BundleQueue, B.PlayerI = p ∧ B.EnemyI = e) ∧
        ∀ B ∈ s0.BundleQueue,
          (∀ Bp Be, s0.Bounds[B.PlayerI]? = some Bp → s0.Bounds[B.EnemyI]? = some Be →
            Bp.CameraLocation = Be.Center →
            B.PossiblePeeks =
              [Bp.CameraLocation + ⟨0, 0, 10⟩, Bp.CameraLocation + ⟨0, 0, 10⟩,
               Bp.CameraLocation - ⟨0, 0, 10⟩, Bp.CameraLocation - ⟨0, 0, 10⟩]) ∧
          (Blocked E s0 B = true →
            s1.VisibilityTimers B.PlayerI B.EnemyI = 0 ∧ B ∉ s1.BundleQueue ∧
            ∀ New, s1.Sent = s.Sent ++ New → (B.PlayerI, B.EnemyI) ∉ New) ∧
          (Blocked E s0 B = false →
            B ∈ s1.BundleQueue ∧
            (∃ jitter : Nat, jitter < 3 ∧
              s1.VisibilityTimers B.PlayerI B.EnemyI
                = Int32Add s.TimerIncrement (jitter : Int)) ∧
            (0 < s.TimerIncrement → s.TimerIncrement ≤ 2147483645 →
              0 < s1.VisibilityTimers B.PlayerI B.EnemyI ∧
              ∀ New, s1.Sent = s.Sent ++ New → (B.PlayerI, B.EnemyI) ∈ New))) := by
  refine ⟨fun P Mh Mv => ⟨GetSafeNormal_zero E P, GetPossiblePeeks_same_point E P Mh Mv⟩,
    Tick_total E Delta s, ?_⟩
  intro s1 h hrun s0 hpb
  obtain ⟨-, -, hex⟩ := PopulateBundles_queued_pair E _ s0 hpb
  refine ⟨?_, ?_⟩
  · intro p e hp he hap hae hT h0
    exact hex p e hp he hap hae hT (by
      show Decremented (s.VisibilityTimers p e) = 0
      rw [h0]; rfl)
  · intro B hB
    obtain ⟨hbl, hfree, -, -⟩ := Tick_cull_bundle E Delta s s1 h hrun s0 hpb B hB
    refine ⟨?_, ?_, ?_⟩
    · intro Bp Be hBp hBe hsame
      obtain ⟨-, -, hG, -⟩ := PopulateBundles_spec E _ s0 hpb
      obtain ⟨-, Bi, Bj, hBi, hBj, hpk⟩ := hG B hB
      rw [hBp, Option.some.injEq] at hBi
      rw [hBe, Option.some.injEq] at hBj
      rw [hpk, ← hBi, ← hBj, ← hsame]
      exact GetPossiblePeeks_same_point E _ 15 10
    · intro hb
      obtain ⟨hv, hnot, hsent⟩ := hbl hb
      exact ⟨hv, fun hin => hnot (List.mem_map.mpr ⟨B, hin, rfl⟩), hsent⟩
    · intro hb
      obtain ⟨⟨r, hr, hv⟩, hin, hsent⟩ := hfree hb
      refine ⟨hin, ⟨r, hr, hv⟩, fun hTI hmax => ⟨?_, hsent hTI hmax⟩⟩
      rw [hv, Int32Add_jitter _ r hr (by omega) hmax]
      have : (0 : Int) ≤ (r : Int) := Int.ofNat_nonneg r
      omega

set_option maxRecDepth 8000 in
/-- Witness of C19: inside the pillar the tick returns and the bundle of the
overlapping pair (0, 1), whose peeks lie 10 above and 10 below the camera, is
blocked: its timer stays 0. With only the pebble high above, the same bundle is
not blocked: it stays queued and its timer becomes positive. -/
theorem C19_degenerate_direction_witness :
    (∃ s1, Tick Scene.E 5 Scene.Buried = some s1 ∧ s1.VisibilityTimers 0 1 = 0 ∧
      Scene.OverlapBundle ∉ s1.BundleQueue) ∧
    (∃ s1, Tick Scene.E 5 Scene.Unburied = some s1 ∧ 0 < s1.VisibilityTimers 0 1 ∧
      Scene.OverlapBundle ∈ s1.BundleQueue) := by
  have hq : ∀ s : Controller,
      (PopulateBundles Scene.E { s with TotalTicks := s.TotalTicks + 1 }).isSome = true →
      PopulateBundles Scene.E { s with TotalTicks := s.TotalTicks + 1 }
        = some (Scene.Queued s) := by
    intro s hs
    obtain ⟨x, hx⟩ := Option.isSome_iff_exists.mp hs
    unfold Scene.Queued
    rw [hx]
    rfl
  constructor
  · obtain ⟨s1, h⟩ := (C19_degenerate_direction Scene.E 5 Scene.Buried).2.1
      (TickReady_Start _ _ _ _ (by decide) (by decide) (by decide))
    have hc := ((C19_degenerate_direction Scene.E 5 Scene.Buried).2.2 s1 h (by decide!)
      (Scene.Queued Scene.Buried) (hq _ (by decide!))).2 Scene.OverlapBundle (by decide!)
    obtain ⟨hv, hnot, -⟩ := hc.2.1 (by decide!)
    exact ⟨s1, h, hv, hnot⟩
  · obtain ⟨s1, h⟩ := (C19_degenerate_direction Scene.E 5 Scene.Unburied).2.1
      (TickReady_Start _ _ _ _ (by decide) (by decide) (by decide))
    have hc := ((C19_degenerate_direction Scene.E 5 Scene.Unburied).2.2 s1 h (by decide!)
      (Scene.Queued Scene.Unburied) (hq _ (by decide!))).2 Scene.OverlapBundle (by decide!)
    obtain ⟨hin, -, hpos⟩ := hc.2.2 (by decide!)
    exact ⟨s1, h, (hpos (by decide!) (by decide!)).1, hin⟩

/-! ## Lemmas on the bundle of a pair -/

theorem PopulateBundles_bounds_congr (E : Externals) (s s2 : Controller)
    (hC : s2.Characters = s.Characters) (hA : s2.IsAlive = s.IsAlive)
    (l : List Nat) (acc : List CharacterBounds) :
    PopulateBundles.bounds E s2 l acc = PopulateBundles.bounds E s l acc := by
  induction l generalizing acc with
  | nil => rfl
  | cons i rest ih =>
    unfold PopulateBundles.bounds
    rw [hC, hA]
    simp only [ih]

theorem RefreshedBounds_congr (E : Externals) (s s2 : Controller)
    (hC : s2.Characters = s.Characters) (hA : s2.IsAlive = s.IsAlive) :
    RefreshedBounds E s2 = RefreshedBounds E s := by
  unfold RefreshedBounds
  rw [PopulateBundles_bounds_congr E s s2 hC hA, hC]

theorem BundleOf_congr (E : Externals) (s s2 : Controller)
    (hC : s2.Characters = s.Characters) (hA : s2.IsAlive = s.IsAlive) (p e : Nat) :
    BundleOf E s2 p e = BundleOf E s p e := by
  unfold BundleOf
  rw [RefreshedBounds_congr E s s2 hC hA]

theorem CuboidBlocksPair_congr (E : Externals) (s s2 : Controller) (h : StaticFrame s s2)
    (p e c : Nat) : CuboidBlocksPair E s2 p e c = CuboidBlocksPair E s p e c := by
  unfold CuboidBlocksPair
  rw [BundleOf_congr E s s2 h.1 h.2.1, RefreshedBounds_congr E s s2 h.1 h.2.1, h.2.2.2.1]

theorem SphereBlocksPair_congr (E : Externals) (s s2 : Controller) (h : StaticFrame s s2)
    (p e : Nat) : SphereBlocksPair E s2 p e = SphereBlocksPair E s p e := by
  unfold SphereBlocksPair
  rw [BundleOf_congr E s s2 h.1 h.2.1, RefreshedBounds_congr E s s2 h.1 h.2.1, h.2.2.2.2.1]

theorem CacheHoldsBlocker_congr (E : Externals) (s s2 : Controller) (h : StaticFrame s s2)
    (p e : Nat) (hcc : ∀ k, s2.CuboidCaches p e k = s.CuboidCaches p e k) :
    CacheHoldsBlocker E s2 p e = CacheHoldsBlocker E s p e := by
  unfold CacheHoldsBlocker
  congr 1
  funext k
  rw [hcc k, CuboidBlocksPair_congr E s s2 h]

theorem PopulateBundles_refreshed (E : Externals) (s s0 : Controller)
    (h : PopulateBundles E s = some s0) :
    s0.Bounds = RefreshedBounds E s ∧
    ∀ B ∈ s0.BundleQueue, BundleOf E s B.PlayerI B.EnemyI = some B := by
  obtain ⟨-, -, hG, hb, -⟩ := PopulateBundles_spec E s s0 h
  have hB : s0.Bounds = RefreshedBounds E s := by
    unfold RefreshedBounds
    rw [hb]
    rfl
  refine ⟨hB, ?_⟩
  intro B hBq
  obtain ⟨-, Bi, Bj, hBi, hBj, hp⟩ := hG B hBq
  unfold BundleOf
  rw [← hB, hBi, hBj]
  obtain ⟨p, e, pk⟩ := B
  simp only at hp
  simp only [hp]

theorem Blocked_static (E : Externals) (s s0 : Controller)
    (h : PopulateBundles E s = some s0) (B : Bundle) (hB : B ∈ s0.BundleQueue) :
    BlockedByCache E s0 B = CacheHoldsBlocker E s B.PlayerI B.EnemyI ∧
    BlockedBySphere s0 B = SphereBlocksPair E s B.PlayerI B.EnemyI ∧
    (BlockedByCuboid E s0 B = true ↔ ∃ c, CuboidBlocksPair E s B.PlayerI B.EnemyI c = true) ∧
    (∀ c, FirstBlocker E s0 B = some c → CuboidBlocksPair E s B.PlayerI B.EnemyI c = true) := by
  obtain ⟨hbd, hbo⟩ := PopulateBundles_refreshed E s s0 h
  have hBo := hbo B hB
  obtain ⟨-, -, -, -, -, -, -, hCu, hSp, hCC, -⟩ := PopulateBundles_spec E s s0 h
  have hcb : ∀ c, CuboidBlocksPair E s B.PlayerI B.EnemyI c =
      (match s0.Cuboids[c]? with
        | some C => IsBlocking E s0.Bounds B C == some true
        | none => false) := by
    intro c
    unfold CuboidBlocksPair
    rw [hBo, hCu, hbd]
    cases s.Cuboids[c]? <;> rfl
  refine ⟨?_, ?_, ?_, ?_⟩
  · unfold BlockedByCache CacheHoldsBlocker
    congr 1
    funext k
    rw [hCC]
    exact (hcb _).symm
  · unfold BlockedBySphere SphereBlocksPair
    rw [hBo, hSp, hbd]
  · unfold BlockedByCuboid GetPossibleOccludingCuboids
    rw [List.any_eq_true]
    constructor
    · rintro ⟨c, -, hc⟩
      exact ⟨c, by rw [hcb]; exact hc⟩
    · rintro ⟨c, hc⟩
      rw [hcb] at hc
      refine ⟨c, List.mem_range.mpr ?_, hc⟩
      by_contra hlt
      rw [List.getElem?_eq_none (by omega)] at hc
      cases hc
  · intro c hF
    obtain ⟨-, C, hC, hI⟩ := FirstBlocker_some E s0 B c hF
    rw [hcb, hC]
    show (IsBlocking E s0.Bounds B C == some true) = true
    rw [hI]
    rfl

/-! ## Lemmas on a blocked pair over one tick and over several ticks -/

theorem Tick_sent (E : Externals) (Delta : Int) (s s1 : Controller)
    (h : Tick E Delta s = some s1) :
    ∃ New, s1.Sent = s.Sent ++ New ∧ New.Nodup ∧
      ∀ i j, (i, j) ∈ New ↔
        (i < s.Characters.length ∧ j < s.Characters.length ∧
          s.IsAlive[i]? = some true ∧ s.IsAlive[j]? = some true ∧
          0 < s1.VisibilityTimers i j) := by
  obtain ⟨sc, su, hc, hu, hs⟩ := Tick_steps E Delta s s1 h
  obtain ⟨fC, -⟩ := Cull_timers E _ sc hc
  obtain ⟨fCh, fAl, -, -, -, -, -, -, -, -, fSent, -⟩ := fC
  obtain ⟨New, n1, n2, n3⟩ := UpdateVisibility_reported E sc su hu
  obtain ⟨t1, t2, -⟩ := BenchmarkCull_stats_frame Delta su s1 hs
  refine ⟨New, ?_, n2, ?_⟩
  · rw [t2, n1, fSent]
  · intro i j
    rw [n3 i j, fCh, fAl, t1]

theorem Tick_skip_outcome (E : Externals) (Delta : Int) (s s1 : Controller)
    (h : Tick E Delta s = some s1)
    (hskip : (s.TotalTicks + 1).tmod s.CullingPeriod ≠ 0) :
    s1.BundleQueue = s.BundleQueue ∧ s1.CuboidCaches = s.CuboidCaches ∧
    s1.Bounds = s.Bounds ∧
    (∀ a b, (a, b) ∉ s.BundleQueue.map (fun B => (B.PlayerI, B.EnemyI)) →
      s1.VisibilityTimers a b = s.VisibilityTimers a b) := by
  obtain ⟨sc, su, hc, hu, hs⟩ := Tick_steps E Delta s s1 h
  have hsc := Cull_skip E _ sc hc hskip
  subst hsc
  obtain ⟨u1, -, -, u4, u5, -, u7, -⟩ := UpdateVisibility_spec E _ su hu
  obtain ⟨t1, -, t3, t4, -, t6, -, -⟩ := BenchmarkCull_stats_frame Delta su s1 hs
  refine ⟨t3.trans u4, t4.trans u5, t6.trans u7, ?_⟩
  intro a b hab
  rw [t1, u1]
  exact (UpdateVisibility_reset_spec E _ _ _ _).1 a b hab

theorem Tick_ready (E : Externals) (Delta : Int) (s s1 : Controller)
    (hr : TickReady E s) (h : Tick E Delta s = some s1) : TickReady E s1 := by
  obtain ⟨hP, hW, hA, hPre, hC, hB⟩ := hr
  obtain ⟨⟨f1, f2, f3, f4, -, f6, f7, -⟩, -⟩ := Tick_static E Delta s s1 h
  obtain ⟨sc, su, hc, hu, hs⟩ := Tick_steps E Delta s s1 h
  obtain ⟨sc2, hc2, -, hb⟩ := Cull_total E { s with TotalTicks := s.TotalTicks + 1 } hP hA hPre
    hC hB
  have hsc : sc2 = sc := Option.some.inj (hc2.symm.trans hc)
  subst hsc
  obtain ⟨fC, -⟩ := Cull_timers E _ sc2 hc
  obtain ⟨-, -, -, -, -, -, u7, -⟩ := UpdateVisibility_spec E sc2 su hu
  obtain ⟨-, -, -, -, -, t6, -, -⟩ := BenchmarkCull_stats_frame Delta su s1 hs
  refine ⟨by rw [f6]; exact hP, by rw [f7]; exact hW, ⟨?_, ?_⟩, ?_, ?_, ?_⟩
  · rw [f2, f1]; exact hA.1
  · rw [f3, f1]; exact hA.2
  · intro i k hki hi
    rw [f2] at hi ⊢
    exact hPre i k hki hi
  · intro i j k hk
    rw [f4]
    by_cases hrun : (s.TotalTicks + 1).tmod s.CullingPeriod = 0
    · obtain ⟨s0, -, -, -, -, -, -, -, -, o9, -⟩ := Tick_cull_outcome E Delta s s1 h hrun
      rcases o9 i j k with e | e
      · rw [e]; exact hC i j k hk
      · exact e
    · rw [(Tick_skip_outcome E Delta s s1 h hrun).2.1]
      exact hC i j k hk
  · intro _ i hi hal
    rw [f1] at hi
    rw [f2] at hal
    rw [t6, u7]
    have := hb i (by rw [fC.1]; exact hi) (by rw [fC.2.1]; exact hal)
    exact this

theorem Run_total (E : Externals) (Deltas : List Int) (s : Controller) (hr : TickReady E s) :
    ∃ sN, Run E Deltas s = some sN := by
  induction Deltas generalizing s with
  | nil => exact ⟨s, rfl⟩
  | cons Delta rest ih =>
    obtain ⟨s1, h⟩ := Tick_total E Delta s hr
    obtain ⟨sN, hN⟩ := ih s1 (Tick_ready E Delta s s1 hr h)
    refine ⟨sN, ?_⟩
    unfold Run
    rw [h]
    exact hN

theorem Run_cons (E : Externals) (Delta : Int) (rest : List Int) (s sN : Controller)
    (h : Run E (Delta :: rest) s = some sN) :
    ∃ s1, Tick E Delta s = some s1 ∧ Run E rest s1 = some sN := by
  unfold Run at h
  cases ht : Tick E Delta s with
  | none => rw [ht] at h; cases h
  | some s1 => rw [ht] at h; exact ⟨s1, rfl, h⟩

theorem Tick_blocked_pair (E : Externals) (Delta : Int) (s s1 : Controller)
    (h : Tick E Delta s = some s1) (p e : Nat)
    (hp : p < s.Characters.length) (he : e < s.Characters.length)
    (hap : s.IsAlive[p]? = some true) (hae : s.IsAlive[e]? = some true)
    (hT : s.Teams[p]? ≠ s.Teams[e]?) (h0 : s.VisibilityTimers p e = 0)
    (hnq : (s.TotalTicks + 1).tmod s.CullingPeriod ≠ 0 →
      (p, e) ∉ s.BundleQueue.map (fun B => (B.PlayerI, B.EnemyI)))
    (hblk : ∃ c, CuboidBlocksPair E s p e c = true) :
    s1.VisibilityTimers p e = 0 ∧
    (p, e) ∉ s1.BundleQueue.map (fun B => (B.PlayerI, B.EnemyI)) ∧
    (∃ New, s1.Sent = s.Sent ++ New ∧ (p, e) ∉ New) ∧
    (CacheHoldsBlocker E s p e = true → ∀ k, s1.CuboidCaches p e k = s.CuboidCaches p e k) ∧
    ((s.TotalTicks + 1).tmod s.CullingPeriod ≠ 0 →
      ∀ k, s1.CuboidCaches p e k = s.CuboidCaches p e k) ∧
    ((s.TotalTicks + 1).tmod s.CullingPeriod = 0 → CacheHoldsBlocker E s p e = false →
      (SphereBlocksPair E s p e = true → ∀ k, s1.CuboidCaches p e k = s.CuboidCaches p e k) ∧
      (SphereBlocksPair E s p e = false →
        ∃ m c, (0 < E.CUBOID_CACHE_SIZE → m < E.CUBOID_CACHE_SIZE) ∧
          CuboidBlocksPair E s p e c = true ∧
          ∀ k, s1.CuboidCaches p e k = if k = m then c else s.CuboidCaches p e k)) := by
  obtain ⟨New, hn1, -, hn3⟩ := Tick_sent E Delta s s1 h
  by_cases hrun : (s.TotalTicks + 1).tmod s.CullingPeriod = 0
  · cases hpb : PopulateBundles E { s with TotalTicks := s.TotalTicks + 1 } with
    | none =>
      obtain ⟨s0, hpb2, -⟩ := Tick_cull_outcome E Delta s s1 h hrun
      rw [hpb] at hpb2
      cases hpb2
    | some s0 =>
      obtain ⟨-, -, hex⟩ := PopulateBundles_queued_pair E _ s0 hpb
      obtain ⟨B, hB, hBp, hBe⟩ := hex p e hp he hap hae hT (by
        show Decremented (s.VisibilityTimers p e) = 0
        rw [h0]; rfl)
      obtain ⟨b1, b2, b3, b4⟩ := Blocked_static E _ s0 hpb B hB
      have hfr : StaticFrame s { s with TotalTicks := s.TotalTicks + 1 } := StaticFrame_refl s
      rw [hBp, hBe] at b1 b2 b3 b4
      rw [CacheHoldsBlocker_congr E s _ hfr p e (fun _ => rfl)] at b1
      rw [SphereBlocksPair_congr E s _ hfr] at b2
      simp only [CuboidBlocksPair_congr E s _ hfr] at b3 b4
      have hcub : BlockedByCuboid E s0 B = true := b3.mpr hblk
      have hbl : Blocked E s0 B = true := by
        unfold Blocked
        rw [hcub]
        simp
      obtain ⟨t1, t2, t3, t4⟩ := Tick_cull_bundle E Delta s s1 h hrun s0 hpb B hB
      rw [hBp, hBe] at t1 t2 t3 t4
      obtain ⟨hv, hnot, hsent⟩ := t1 hbl
      refine ⟨hv, hnot, ⟨New, hn1, hsent New hn1⟩, ?_, fun hc => absurd hrun hc, ?_⟩
      · intro hch
        exact t3 (Or.inl (b1.trans hch))
      · intro _ hch
        refine ⟨fun hsp => t3 (Or.inr (b2.trans hsp)), ?_⟩
        intro hsp
        rw [← FirstBlocker_isSome] at hcub
        obtain ⟨c, hF⟩ := Option.isSome_iff_exists.mp hcub
        obtain ⟨m, hm, hrow⟩ := t4 (b1.trans hch) (b2.trans hsp) c hF
        exact ⟨m, c, hm, b4 c hF, hrow⟩
  · obtain ⟨q, cc, -, hv⟩ := Tick_skip_outcome E Delta s s1 h hrun
    have hv0 : s1.VisibilityTimers p e = 0 := (hv p e (hnq hrun)).trans h0
    refine ⟨hv0, by rw [q]; exact hnq hrun, ⟨New, hn1, ?_⟩, fun _ k => by rw [cc],
      fun _ k => by rw [cc], fun hc => absurd hc hrun⟩
    intro hin
    have := ((hn3 p e).mp hin).2.2.2.2
    rw [hv0] at this
    exact absurd this (lt_irrefl 0)

theorem Run_blocked_pair (E : Externals) (Deltas : List Int) (s sN : Controller)
    (h : Run E Deltas s = some sN) (p e : Nat)
    (hp : p < s.Characters.length) (he : e < s.Characters.length)
    (hap : s.IsAlive[p]? = some true) (hae : s.IsAlive[e]? = some true)
    (hT : s.Teams[p]? ≠ s.Teams[e]?) (h0 : s.VisibilityTimers p e = 0)
    (hnq : (p, e) ∉ s.BundleQueue.map (fun B => (B.PlayerI, B.EnemyI)))
    (hblk : ∃ c, CuboidBlocksPair E s p e c = true) :
    sN.VisibilityTimers p e = 0 ∧
    (∃ New, sN.Sent = s.Sent ++ New ∧ (p, e) ∉ New) ∧
    StaticFrame s sN ∧
    (CacheHoldsBlocker E s p e = true → ∀ k, sN.CuboidCaches p e k = s.CuboidCaches p e k) := by
  induction Deltas generalizing s with
  | nil =>
    have : s = sN := Option.some.inj h
    subst this
    exact ⟨h0, ⟨[], (List.append_nil _).symm, List.not_mem_nil _⟩, StaticFrame_refl s,
      fun _ _ => rfl⟩
  | cons Delta rest ih =>
    obtain ⟨s1, ht, hr⟩ := Run_cons E Delta rest s sN h
    obtain ⟨hv, hq, ⟨N1, hs1, hn1⟩, hcache, -, -⟩ :=
      Tick_blocked_pair E Delta s s1 ht p e hp he hap hae hT h0 (fun _ => hnq) hblk
    obtain ⟨fr, -⟩ := Tick_static E Delta s s1 ht
    obtain ⟨c, hc⟩ := hblk
    obtain ⟨iv, ⟨N2, hs2, hn2⟩, ifr, icache⟩ := ih s1 hr (by rw [fr.1]; exact hp)
      (by rw [fr.1]; exact he) (by rw [fr.2.1]; exact hap) (by rw [fr.2.1]; exact hae)
      (by rw [fr.2.2.1]; exact hT) hv hq ⟨c, by rw [CuboidBlocksPair_congr E s s1 fr]; exact hc⟩
    refine ⟨iv, ⟨N1 ++ N2, ?_, ?_⟩, StaticFrame_trans fr ifr, ?_⟩
    · rw [hs2, hs1, List.append_assoc]
    · intro hin
      rcases List.mem_append.mp hin with hin | hin
      · exact hn1 hin
      · exact hn2 hin
    · intro hch k
      have hrow := hcache hch
      have hch1 : CacheHoldsBlocker E s1 p e = true := by
        rw [CacheHoldsBlocker_congr E s s1 fr p e hrow]; exact hch
      rw [icache hch1 k, hrow k]

theorem CacheHoldsBlocker_iff (E : Externals) (s : Controller) (p e : Nat) :
    CacheHoldsBlocker E s p e = true ↔
      ∃ k, k < E.CUBOID_CACHE_SIZE ∧ CuboidBlocksPair E s p e (s.CuboidCaches p e k) = true := by
  unfold CacheHoldsBlocker
  rw [List.any_eq_true]
  constructor
  · rintro ⟨k, hk, hb⟩
    exact ⟨k, List.mem_range.mp hk, hb⟩
  · rintro ⟨k, hk, hb⟩
    exact ⟨k, List.mem_range.mpr hk, hb⟩

/-! ## Claim on the blocked pair -/

set_option maxRecDepth 8000 in
set_option maxHeartbeats 4000000 in
/-- C14, as stated, fails: in the duel with the pebble (cuboid 0), the wall
(cuboid 1) and the ball, the pair (0, 1) has timer 0, both characters are alive
on different teams, and the wall blocks the pair's bundle. The cache of the pair
holds index 0 in both slots; the pebble does not block, so the bundle passes the
cache stage and is removed by the sphere stage. After the tick, and after three
more ticks, the timer is 0 and the cache slots still hold 0: no slot holds the
index of a blocking cuboid. -/
theorem C14_counterexample :
    CuboidBlocksPair Scene.E Scene.Shaded 0 1 1 = true ∧
    CuboidBlocksPair Scene.E Scene.Shaded 0 1 0 = false ∧
    SphereBlocksPair Scene.E Scene.Shaded 0 1 = true ∧
    (Scene.Shaded.TotalTicks + 1).tmod Scene.Shaded.CullingPeriod = 0 ∧
    (Tick Scene.E 5 Scene.Shaded).map (fun s =>
      (s.VisibilityTimers 0 1, s.CuboidCaches 0 1 0, s.CuboidCaches 0 1 1,
        CacheHoldsBlocker Scene.E s 0 1)) = some (0, 0, 0, false) ∧
    (Run Scene.E [5, 5, 5, 5] Scene.Shaded).map (fun s =>
      (s.VisibilityTimers 0 1, s.CuboidCaches 0 1 0, s.CuboidCaches 0 1 1,
        CacheHoldsBlocker Scene.E s 0 1)) = some (0, 0, 0, false) := by
  refine ⟨by decide!, by decide!, by decide!, by decide!, by decide!, by decide!⟩

/-- C14, amended: let the pair (p, e) have timer 0, both characters alive on
different teams, and let some cuboid block the pair's bundle. After a cull tick
the timer of the pair is still 0 and the pair is not reported. The cache of the
pair is written only by the cuboid stage: if before the tick a slot of
`CuboidCaches[p][e]` holds a blocking cuboid, or no sphere blocks the bundle
(and the cache has at least one slot), then after the tick a slot holds the
index of a blocking cuboid; if no slot holds one and a sphere blocks the
bundle, the sphere stage removes the bundle and the cache is unchanged. On all
later ticks of the unchanged scene, cull ticks or skipped ticks, the timer
stays 0, the pair is never reported, and a cache that holds a blocking cuboid
keeps holding one: the index of the one blocking cuboid when there is only one.
The ticks return on every ready state. -/
theorem C14_blocked_pair (E : Externals) (s : Controller) (p e : Nat)
    (hp : p < s.Characters.length) (he : e < s.Characters.length)
    (hap : s.IsAlive[p]? = some true) (hae : s.IsAlive[e]? = some true)
    (hT : s.Teams[p]? ≠ s.Teams[e]?) (h0 : s.VisibilityTimers p e = 0)
    (hrun : (s.TotalTicks + 1).tmod s.CullingPeriod = 0)
    (hblk : ∃ c, CuboidBlocksPair E s p e c = true) :
    (TickReady E s → ∀ Delta Deltas, ∃ s1 sN,
      Tick E Delta s = some s1 ∧ Run E Deltas s1 = some sN) ∧
    (∀ Delta s1, Tick E Delta s = some s1 →
      s1.VisibilityTimers p e = 0 ∧
      (∃ New, s1.Sent = s.Sent ++ New ∧ (p, e) ∉ New) ∧
      (0 < E.CUBOID_CACHE_SIZE →
        (CacheHoldsBlocker E s p e = true ∨ SphereBlocksPair E s p e = false) →
        CacheHoldsBlocker E s1 p e = true) ∧
      (CacheHoldsBlocker E s p e = false → SphereBlocksPair E s p e = true →
        (∀ k, s1.CuboidCaches p e k = s.CuboidCaches p e k) ∧
        CacheHoldsBlocker E s1 p e = false) ∧
      ∀ Deltas sN, Run E Deltas s1 = some sN →
        sN.VisibilityTimers p e = 0 ∧
        (∃ New, sN.Sent = s1.Sent ++ New ∧ (p, e) ∉ New) ∧
        (CacheHoldsBlocker E s1 p e = true →
          CacheHoldsBlocker E sN p e = true ∧
          ∀ c, (∀ c2, CuboidBlocksPair E s p e c2 = true → c2 = c) →
            ∃ k, k < E.CUBOID_CACHE_SIZE ∧ sN.CuboidCaches p e k = c)) := by
  constructor
  · intro hr Delta Deltas
    obtain ⟨s1, h1⟩ := Tick_total E Delta s hr
    obtain ⟨sN, hN⟩ := Run_total E Deltas s1 (Tick_ready E Delta s s1 hr h1)
    exact ⟨s1, sN, h1, hN⟩
  · intro Delta s1 ht
    obtain ⟨hv, hq, hsent, hkeep, -, hnew⟩ :=
      Tick_blocked_pair E Delta s s1 ht p e hp he hap hae hT h0 (fun hc => absurd hrun hc) hblk
    obtain ⟨fr, -⟩ := Tick_static E Delta s s1 ht
    refine ⟨hv, hsent, ?_, ?_, ?_⟩
    · intro hK hor
      cases hch : CacheHoldsBlocker E s p e with
      | true =>
        rw [CacheHoldsBlocker_congr E s s1 fr p e (hkeep hch)]
        exact hch
      | false =>
        rcases hor with hor | hor
        · rw [hch] at hor; cases hor
        · obtain ⟨m, c, hm, hc, hrow⟩ := (hnew hrun hch).2 hor
          refine (CacheHoldsBlocker_iff E s1 p e).mpr ⟨m, hm hK, ?_⟩
          rw [hrow m, if_pos rfl, CuboidBlocksPair_congr E s s1 fr]
          exact hc
    · intro hch hsp
      have hrow := (hnew hrun hch).1 hsp
      refine ⟨hrow, ?_⟩
      rw [CacheHoldsBlocker_congr E s s1 fr p e hrow]
      exact hch
    · intro Deltas sN hN
      obtain ⟨c0, hc0⟩ := hblk
      obtain ⟨iv, isent, ifr, icache⟩ := Run_blocked_pair E Deltas s1 sN hN p e
        (by rw [fr.1]; exact hp) (by rw [fr.1]; exact he) (by rw [fr.2.1]; exact hap)
        (by rw [fr.2.1]; exact hae) (by rw [fr.2.2.1]; exact hT) hv hq
        ⟨c0, by rw [CuboidBlocksPair_congr E s s1 fr]; exact hc0⟩
      refine ⟨iv, isent, ?_⟩
      intro hch1
      have hchN : CacheHoldsBlocker E sN p e = true := by
        rw [CacheHoldsBlocker_congr E s1 sN ifr p e (icache hch1)]
        exact hch1
      refine ⟨hchN, ?_⟩
      intro c hone
      obtain ⟨k, hk, hb⟩ := (CacheHoldsBlocker_iff E sN p e).mp hchN
      rw [CuboidBlocksPair_congr E s sN (StaticFrame_trans fr ifr)] at hb
      exact ⟨k, hk, hone _ hb⟩

set_option maxRecDepth 8000 in
/-- Witness of C14: in the duel with the pebble and the wall and no sphere, the
wall (cuboid 1) is the only cuboid that blocks the bundle of the pair (0, 1).
The first tick and two more ticks return; after them the timer of the pair is
0 and a slot of the pair's cache holds 1. -/
theorem C14_blocked_pair_witness :
    CuboidBlocksPair Scene.E Scene.Walled 0 1 1 = true ∧
    ∃ s1 sN, Tick Scene.E 5 Scene.Walled = some s1 ∧ Run Scene.E [5, 5] s1 = some sN ∧
      s1.VisibilityTimers 0 1 = 0 ∧ sN.VisibilityTimers 0 1 = 0 ∧
      ∃ k, k < Scene.E.CUBOID_CACHE_SIZE ∧ sN.CuboidCaches 0 1 k = 1 := by
  have hb : CuboidBlocksPair Scene.E Scene.Walled 0 1 1 = true := by decide!
  have hw := C14_blocked_pair Scene.E Scene.Walled 0 1 (by decide) (by decide) (by decide)
    (by decide) (by decide) rfl (by decide) ⟨1, hb⟩
  obtain ⟨s1, sN, h1, hN⟩ := hw.1
    (TickReady_Start _ _ _ _ (by decide) (by decide) (by decide)) 5 [5, 5]
  obtain ⟨hv, -, hcache, -, hlater⟩ := hw.2 5 s1 h1
  obtain ⟨hvN, -, hcN⟩ := hlater [5, 5] sN hN
  have hone : ∀ c2, CuboidBlocksPair Scene.E Scene.Walled 0 1 c2 = true → c2 = 1 := by
    intro c2 h2
    rcases c2 with _ | _ | n
    · exact absurd h2 (by decide!)
    · rfl
    · exact absurd h2 (by
        unfold CuboidBlocksPair
        have : Scene.Walled.Cuboids[n + 1 + 1]? = none := rfl
        rw [this]
        cases BundleOf Scene.E Scene.Walled 0 1 <;> simp)
  exact ⟨hb, s1, sN, h1, hN, hv, hvN,
    (hcN (hcache (by decide) (Or.inr (by decide!)))).2 1 hone⟩

/-! ## Lemmas on the scheduler -/

theorem BenchmarkCull_stats_spec (Delta : Int) (s s1 : Controller)
    (h : BenchmarkCull.stats Delta s = some s1) :
    s.RollingWindowLength ≠ 0 ∧ s1.TotalTime = s.TotalTime + Delta ∧
    (s.TotalTicks.tmod s.RollingWindowLength = 0 →
      s1.TimerIncrement =
        (if max s.RollingMaxTime Delta > s.TimerLoadThreshold then s.MaxTimerIncrement
          else s.MinTimerIncrement) ∧
      s1.RollingTotalTime = 0 ∧ s1.RollingMaxTime = 0 ∧
      s1.RollingAverageTime = (s.RollingTotalTime + Delta).tdiv s.RollingWindowLength) ∧
    (s.TotalTicks.tmod s.RollingWindowLength ≠ 0 →
      s1.TimerIncrement = s.TimerIncrement ∧
      s1.RollingTotalTime = s.RollingTotalTime + Delta ∧
      s1.RollingMaxTime = max s.RollingMaxTime Delta ∧
      s1.RollingAverageTime = s.RollingAverageTime) := by
  unfold BenchmarkCull.stats at h
  simp only [] at h
  by_cases hz : s.RollingWindowLength = 0
  · rw [if_pos hz] at h
    cases h
  · rw [if_neg hz] at h
    by_cases hb : s.TotalTicks.tmod s.RollingWindowLength = 0
    · rw [if_pos hb] at h
      simp only [Option.some.injEq] at h
      subst h
      exact ⟨hz, rfl, fun _ => ⟨rfl, rfl, rfl, rfl⟩, fun hc => absurd hb hc⟩
    · rw [if_neg hb] at h
      simp only [Option.some.injEq] at h
      subst h
      exact ⟨hz, rfl, fun hc => absurd hc hb, fun _ => ⟨rfl, rfl, rfl, rfl⟩⟩

theorem Tick_scheduler (E : Externals) (Delta : Int) (s s1 : Controller)
    (h : Tick E Delta s = some s1) :
    s1.TotalTicks = s.TotalTicks + 1 ∧ s1.RollingWindowLength = s.RollingWindowLength ∧
    s1.MinTimerIncrement = s.MinTimerIncrement ∧ s1.MaxTimerIncrement = s.MaxTimerIncrement ∧
    s1.TimerLoadThreshold = s.TimerLoadThreshold ∧
    s1.TotalTime = s.TotalTime + Delta ∧
    (s.RollingWindowLength ∣ s.TotalTicks + 1 →
      s1.TimerIncrement =
        (if max s.RollingMaxTime Delta > s.TimerLoadThreshold then s.MaxTimerIncrement
          else s.MinTimerIncrement) ∧
      s1.RollingTotalTime = 0 ∧ s1.RollingMaxTime = 0 ∧
      s1.RollingAverageTime = (s.RollingTotalTime + Delta).tdiv s.RollingWindowLength) ∧
    (¬ s.RollingWindowLength ∣ s.TotalTicks + 1 →
      s1.TimerIncrement = s.TimerIncrement ∧
      s1.RollingTotalTime = s.RollingTotalTime + Delta ∧
      s1.RollingMaxTime = max s.RollingMaxTime Delta ∧
      s1.RollingAverageTime = s.RollingAverageTime) := by
  obtain ⟨fr, ht⟩ := Tick_static E Delta s s1 h
  obtain ⟨sc, su, hc, hu, hs⟩ := Tick_steps E Delta s s1 h
  obtain ⟨a0, b0⟩ := Cull_static E _ sc hc
  obtain ⟨a1, b1⟩ := UpdateVisibility_static E sc su hu
  have a := StaticFrame_trans a0 a1
  obtain ⟨bt, bi, btt, brt, brm, bra⟩ := SchedulerFrame_trans b0 b1
  obtain ⟨-, -, -, -, -, -, aw, amin, amax, athr⟩ := a
  obtain ⟨-, k1, k2, k3⟩ := BenchmarkCull_stats_spec Delta su s1 hs
  rw [bt, bi, btt, brt, brm, bra, aw, amin, amax, athr] at *
  refine ⟨ht, fr.2.2.2.2.2.2.1, fr.2.2.2.2.2.2.2.1, fr.2.2.2.2.2.2.2.2.1,
    fr.2.2.2.2.2.2.2.2.2, k1, ?_, ?_⟩
  · intro hd
    exact k2 (Int.dvd_iff_tmod_eq_zero.mp hd)
  · intro hd
    exact k3 (fun hc => hd (Int.dvd_iff_tmod_eq_zero.mpr hc))

theorem Run_ready (E : Externals) (Deltas : List Int) (s sN : Controller)
    (hr : TickReady E s) (h : Run E Deltas s = some sN) : TickReady E sN := by
  induction Deltas generalizing s with
  | nil =>
    have : s = sN := Option.some.inj h
    subst this
    exact hr
  | cons Delta rest ih =>
    obtain ⟨s1, ht, hrest⟩ := Run_cons E Delta rest s sN h
    exact ih s1 (Tick_ready E Delta s s1 hr ht) hrest

theorem Run_window (E : Externals) (Deltas : List Int) (s sN : Controller)
    (h : Run E Deltas s = some sN)
    (hw : ∀ k : Nat, 0 < k → k ≤ Deltas.length →
      ¬ s.RollingWindowLength ∣ s.TotalTicks + (k : Int)) :
    sN.TotalTicks = s.TotalTicks + (Deltas.length : Int) ∧
    sN.RollingWindowLength = s.RollingWindowLength ∧
    sN.MinTimerIncrement = s.MinTimerIncrement ∧ sN.MaxTimerIncrement = s.MaxTimerIncrement ∧
    sN.TimerLoadThreshold = s.TimerLoadThreshold ∧
    sN.TimerIncrement = s.TimerIncrement ∧
    sN.RollingMaxTime = Deltas.foldl max s.RollingMaxTime ∧
    sN.RollingTotalTime = s.RollingTotalTime + Deltas.sum := by
  induction Deltas generalizing s with
  | nil =>
    have : s = sN := Option.some.inj h
    subst this
    simp
  | cons Delta rest ih =>
    obtain ⟨s1, ht, hrest⟩ := Run_cons E Delta rest s sN h
    obtain ⟨t1, t2, t3, t4, t5, -, -, t8⟩ := Tick_scheduler E Delta s s1 ht
    have h1 : ¬ s.RollingWindowLength ∣ s.TotalTicks + 1 := by
      have := hw 1 Nat.one_pos (by simp)
      simpa using this
    obtain ⟨u1, u2, u3, -⟩ := t8 h1
    have hw1 : ∀ k : Nat, 0 < k → k ≤ rest.length →
        ¬ s1.RollingWindowLength ∣ s1.TotalTicks + (k : Int) := by
      intro k hk hkl
      have := hw (k + 1) (Nat.succ_pos k) (by simp; omega)
      rw [t1, t2]
      have e : s.TotalTicks + ((k + 1 : Nat) : Int) = s.TotalTicks + 1 + (k : Int) := by
        push_cast; ring
      rw [e] at this
      exact this
    obtain ⟨i1, i2, i3, i4, i5, i6, i7, i8⟩ := ih s1 hrest hw1
    refine ⟨?_, i2.trans t2, i3.trans t3, i4.trans t4, i5.trans t5, i6.trans u1, ?_, ?_⟩
    · rw [i1, t1]
      simp only [List.length_cons]
      push_cast; ring
    · rw [i7, u3]
      rfl
    · rw [i8, u2, List.sum_cons]
      ring

theorem foldl_max_spec (l : List Int) (m : Int) :
    (∀ x ∈ l, x ≤ l.foldl max m) ∧ m ≤ l.foldl max m ∧
    (l.foldl max m = m ∨ l.foldl max m ∈ l) := by
  induction l generalizing m with
  | nil => simp
  | cons a rest ih =>
    obtain ⟨h1, h2, h3⟩ := ih (max m a)
    simp only [List.foldl_cons]
    refine ⟨?_, le_trans (le_max_left m a) h2, ?_⟩
    · intro x hx
      rcases List.mem_cons.mp hx with hx | hx
      · rw [hx]; exact le_trans (le_max_right m a) h2
      · exact h1 x hx
    · rcases h3 with h3 | h3
      · rw [h3]
        rcases max_choice m a with hc | hc
        · left; exact hc
        · right; rw [hc]; exact List.mem_cons_self _ _
      · right; exact List.mem_cons_of_mem _ h3

theorem foldl_max_append (l : List Int) (m d : Int) :
    (l ++ [d]).foldl max m = max (l.foldl max m) d := by
  simp [List.foldl_append]

/-! ## Claim on the scheduler -/

/-- C18: a tick changes `TimerIncrement` only when the advanced `TotalTicks` is
a multiple of `RollingWindowLength`. On such a tick `TimerIncrement` becomes
`MaxTimerIncrement` if the rolling maximum, this tick's cull time included,
exceeds `TimerLoadThreshold`, and `MinTimerIncrement` otherwise, and the rolling
sum and the rolling maximum are reset to 0. On every other tick
`TimerIncrement` is unchanged and the rolling maximum takes in this tick's cull
time. Over a window that starts after a reset, the rolling maximum is the
maximum of the cull times seen so far in the window (0 and the measured times),
and this maximum decides at the window's end. The ticks return on every ready
state. -/
theorem C18_scheduler (E : Externals) (s : Controller) :
    (TickReady E s → ∀ Window Delta, ∃ sM sN,
      Run E Window s = some sM ∧ Tick E Delta sM = some sN) ∧
    (∀ Delta s1, Tick E Delta s = some s1 →
      s1.TotalTicks = s.TotalTicks + 1 ∧
      (s1.RollingWindowLength ∣ s1.TotalTicks →
        s1.TimerIncrement =
          (if max s.RollingMaxTime Delta > s.TimerLoadThreshold then s.MaxTimerIncrement
            else s.MinTimerIncrement) ∧
        s1.RollingTotalTime = 0 ∧ s1.RollingMaxTime = 0) ∧
      (¬ s1.RollingWindowLength ∣ s1.TotalTicks →
        s1.TimerIncrement = s.TimerIncrement ∧
        s1.RollingMaxTime = max s.RollingMaxTime Delta ∧
        s1.RollingTotalTime = s.RollingTotalTime + Delta)) ∧
    (∀ Window Delta sM sN, Run E Window s = some sM → Tick E Delta sM = some sN →
      s.RollingMaxTime = 0 →
      (∀ k : Nat, 0 < k → k ≤ Window.length →
        ¬ s.RollingWindowLength ∣ s.TotalTicks + (k : Int)) →
      sM.TimerIncrement = s.TimerIncrement ∧
      sM.RollingMaxTime = Window.foldl max 0 ∧
      (s.RollingWindowLength ∣ s.TotalTicks + ((Window.length + 1 : Nat) : Int) →
        sN.TimerIncrement =
          (if (Window ++ [Delta]).foldl max 0 > s.TimerLoadThreshold then s.MaxTimerIncrement
            else s.MinTimerIncrement) ∧
        sN.RollingTotalTime = 0 ∧ sN.RollingMaxTime = 0) ∧
      (¬ s.RollingWindowLength ∣ s.TotalTicks + ((Window.length + 1 : Nat) : Int) →
        sN.TimerIncrement = s.TimerIncrement ∧
        sN.RollingMaxTime = (Window ++ [Delta]).foldl max 0)) ∧
    (∀ (l : List Int), (∀ x ∈ l, x ≤ l.foldl max 0) ∧ 0 ≤ l.foldl max 0 ∧
      (l.foldl max 0 = 0 ∨ l.foldl max 0 ∈ l)) := by
  refine ⟨?_, ?_, ?_, fun l => foldl_max_spec l 0⟩
  · intro hr Window Delta
    obtain ⟨sM, hM⟩ := Run_total E Window s hr
    obtain ⟨sN, hN⟩ := Tick_total E Delta sM (Run_ready E Window s sM hr hM)
    exact ⟨sM, sN, hM, hN⟩
  · intro Delta s1 h
    obtain ⟨t1, t2, -, -, -, -, t7, t8⟩ := Tick_scheduler E Delta s s1 h
    rw [t1, t2]
    refine ⟨rfl, ?_, ?_⟩
    · intro hd
      obtain ⟨a, b, c, -⟩ := t7 hd
      exact ⟨a, b, c⟩
    · intro hd
      obtain ⟨a, b, c, -⟩ := t8 hd
      exact ⟨a, c, b⟩
  · intro Window Delta sM sN hM hN h0 hw
    obtain ⟨i1, i2, i3, i4, i5, i6, i7, -⟩ := Run_window E Window s sM hM hw
    obtain ⟨-, -, -, -, -, -, t7, t8⟩ := Tick_scheduler E Delta sM sN hN
    simp only [i1, i2, i3, i4, i5, i6, i7, h0] at t7 t8
    rw [foldl_max_append]
    have e : s.TotalTicks + ((Window.length + 1 : Nat) : Int)
        = s.TotalTicks + (Window.length : Int) + 1 := by
      push_cast; ring
    rw [e]
    refine ⟨i6, by rw [i7, h0], ?_, ?_⟩
    · intro hd
      obtain ⟨a, b, c, -⟩ := t7 hd
      exact ⟨a, b, c⟩
    · intro hd
      obtain ⟨a, -, c, -⟩ := t8 hd
      exact ⟨a, c⟩

set_option maxRecDepth 8000 in
/-- Witness of C18: the duel with the wall starts at tick 0 with a window of 4
ticks, timer increment 3 (minimum 3, maximum 9) and load threshold 1000. The
ticks with cull times 5, 2000, 7 leave the increment at 3 and the rolling
maximum at 2000; the fourth tick, with cull time 1, ends the window: the
increment becomes 9 and the rolling maximum is reset to 0. -/
theorem C18_scheduler_witness :
    ∃ sM sN, Run Scene.E [5, 2000, 7] (Scene.Start Scene.Duel [true, true] [Scene.Wall] [])
        = some sM ∧
      Tick Scene.E 1 sM = some sN ∧
      sM.TimerIncrement = 3 ∧ sM.RollingMaxTime = 2000 ∧
      sN.TimerIncrement = 9 ∧ sN.RollingMaxTime = 0 := by
  have hw := C18_scheduler Scene.E (Scene.Start Scene.Duel [true, true] [Scene.Wall] [])
  obtain ⟨sM, sN, hM, hN⟩ := hw.1
    (TickReady_Start _ _ _ _ (by decide) (by decide) (by decide)) [5, 2000, 7] 1
  obtain ⟨a, b, c, -⟩ := hw.2.2.1 [5, 2000, 7] 1 sM sN hM hN rfl (by
    intro k h1 h2
    show ¬ (4 : Int) ∣ 0 + (k : Int)
    simp only [List.length_cons, List.length_nil] at h2
    omega)
  obtain ⟨d, -, f⟩ := c (by decide)
  exact ⟨sM, sN, hM, hN, a, b, d, f⟩

/-! ## Lemmas on the shadow frustum -/

theorem length_four {α : Type} (l : List α) (h : l.length = 4) :
    ∃ a b c d, l = [a, b, c, d] := by
  match l, h with
  | [a, b, c, d], _ => exact ⟨a, b, c, d, rfl⟩

theorem FacesValid_cons (F : Face) (rest : List Face) (h : FacesValid (F :: rest)) :
    (∃ V0 V1 V2 V3, F.Perimeter = [V0, V1, V2, V3] ∧
      V0 < CUBOID_V ∧ V1 < CUBOID_V ∧ V2 < CUBOID_V ∧ V3 < CUBOID_V) ∧ FacesValid rest := by
  obtain ⟨hl, hv⟩ := h F (List.mem_cons_self _ _)
  obtain ⟨a, b, c, d, e⟩ := length_four _ hl
  refine ⟨⟨a, b, c, d, e, ?_, ?_, ?_, ?_⟩, fun G hG => h G (List.mem_cons_of_mem _ hG)⟩ <;>
    exact hv _ (by rw [e]; simp)

theorem AllEdges_cons (F : Face) (rest : List Face) :
    AllEdges (F :: rest) = EdgesOf F.Perimeter ++ AllEdges rest := rfl

theorem AllEdges_mem (Fs : List Face) (e : Nat × Nat) :
    e ∈ AllEdges Fs ↔ ∃ F ∈ Fs, e ∈ EdgesOf F.Perimeter := by
  induction Fs with
  | nil => simp [AllEdges, AllEdgesOf]
  | cons F rest ih =>
    rw [AllEdges_cons, List.mem_append, ih]
    simp

theorem GetShadowFrustum_mark_spec (Fs : List Face) (ES ES1 : Nat → Nat → Bool)
    (h : GetShadowFrustum.mark Fs ES = some ES1) :
    ∀ a b, ES1 a b = (ES a b || decide ((a, b) ∈ AllEdges Fs)) := by
  induction Fs generalizing ES with
  | nil =>
    have : ES = ES1 := Option.some.inj h
    subst this
    intro a b
    simp [AllEdges, AllEdgesOf]
  | cons F rest ih =>
    unfold GetShadowFrustum.mark at h
    split at h
    · rename_i V0 V1 V2 V3 h0 h1 h2 h3
      split at h
      · intro a b
        rw [ih _ h a b, AllEdges_cons]
        have hE : EdgesOf F.Perimeter = [(V0, V1), (V1, V2), (V2, V3), (V3, V0)] := by
          unfold EdgesOf
          rw [h0, h1, h2, h3]
        rw [hE]
        simp only [set2, List.mem_append, List.mem_cons, Prod.mk.injEq, List.mem_nil_iff,
          or_false, Bool.decide_or]
        by_cases c3 : a = V3 ∧ b = V0 <;> by_cases c2 : a = V2 ∧ b = V3 <;>
          by_cases c1 : a = V1 ∧ b = V2 <;> by_cases c0 : a = V0 ∧ b = V1 <;>
          simp [c0, c1, c2, c3]
      · cases h
    · cases h

theorem GetShadowFrustum_mark_total (Fs : List Face) (ES : Nat → Nat → Bool)
    (hv : FacesValid Fs) : ∃ ES1, GetShadowFrustum.mark Fs ES = some ES1 := by
  induction Fs generalizing ES with
  | nil => exact ⟨ES, rfl⟩
  | cons F rest ih =>
    obtain ⟨⟨V0, V1, V2, V3, hP, b0, b1, b2, b3⟩, hr⟩ := FacesValid_cons F rest hv
    unfold GetShadowFrustum.mark
    rw [hP]
    simp only [List.getElem?_cons_zero, List.getElem?_cons_succ]
    rw [if_pos ⟨b0, b1, b2, b3⟩]
    exact ih _ hr

theorem GetShadowFrustum_edge_spec (P : FVector) (C : Cuboid) (ES : Nat → Nat → Bool)
    (Va Vb : Nat) (SF SF1 : List FPlane)
    (h : GetShadowFrustum.edge P C ES Va Vb SF = some SF1) :
    ∃ planes, SF1 = SF ++ planes ∧
      List.Forall₂ (PlaneOfEdge P C) planes ([(Va, Vb)].filter (fun e => !ES e.2 e.1)) := by
  unfold GetShadowFrustum.edge at h
  by_cases hes : ES Vb Va = true
  · rw [if_pos hes] at h
    have : SF = SF1 := Option.some.inj h
    subst this
    refine ⟨[], (List.append_nil _).symm, ?_⟩
    simp [hes]
  · rw [if_neg hes] at h
    split at h
    · rename_i A B hA hB
      have : SF ++ [⟨P, A, B⟩] = SF1 := Option.some.inj h
      subst this
      refine ⟨[⟨P, A, B⟩], rfl, ?_⟩
      have hf : ES Vb Va = false := by
        cases hc : ES Vb Va
        · rfl
        · exact absurd hc hes
      simp only [List.filter, hf, Bool.not_false]
      exact List.Forall₂.cons ⟨A, B, hA, hB, rfl⟩ List.Forall₂.nil
    · cases h

theorem GetShadowFrustum_edge_total (P : FVector) (C : Cuboid) (ES : Nat → Nat → Bool)
    (Va Vb : Nat) (SF : List FPlane) (ha : Va < C.Vertices.length)
    (hb : Vb < C.Vertices.length) :
    ∃ SF1, GetShadowFrustum.edge P C ES Va Vb SF = some SF1 := by
  unfold GetShadowFrustum.edge
  split
  · exact ⟨_, rfl⟩
  · rw [List.getElem?_eq_getElem ha, List.getElem?_eq_getElem hb]
    exact ⟨_, rfl⟩

theorem GetShadowFrustum_build_spec (P : FVector) (C : Cuboid) (ES : Nat → Nat → Bool)
    (Fs : List Face) (SF SF1 : List FPlane)
    (h : GetShadowFrustum.build P C ES Fs SF = some SF1) :
    ∃ planes, SF1 = SF ++ planes ∧
      List.Forall₂ (PlaneOfEdge P C) planes ((AllEdges Fs).filter (fun e => !ES e.2 e.1)) := by
  induction Fs generalizing SF with
  | nil =>
    have : SF = SF1 := Option.some.inj h
    subst this
    exact ⟨[], (List.append_nil _).symm, by simp [AllEdges, AllEdgesOf]⟩
  | cons F rest ih =>
    unfold GetShadowFrustum.build at h
    split at h
    · rename_i V0 V1 V2 V3 h0 h1 h2 h3
      simp only [Option.bind_eq_bind, Option.bind_eq_some] at h
      obtain ⟨s4, ⟨s3, ⟨s2, ⟨s1, e1, e2⟩, e3⟩, e4⟩, e5⟩ := h
      obtain ⟨p1, q1, r1⟩ := GetShadowFrustum_edge_spec P C ES _ _ _ _ e1
      obtain ⟨p2, q2, r2⟩ := GetShadowFrustum_edge_spec P C ES _ _ _ _ e2
      obtain ⟨p3, q3, r3⟩ := GetShadowFrustum_edge_spec P C ES _ _ _ _ e3
      obtain ⟨p4, q4, r4⟩ := GetShadowFrustum_edge_spec P C ES _ _ _ _ e4
      obtain ⟨p5, q5, r5⟩ := ih _ e5
      have hE : EdgesOf F.Perimeter = [(V0, V1), (V1, V2), (V2, V3), (V3, V0)] := by
        unfold EdgesOf
        rw [h0, h1, h2, h3]
      refine ⟨p1 ++ (p2 ++ (p3 ++ (p4 ++ p5))), ?_, ?_⟩
      · rw [q5, q4, q3, q2, q1]
        simp only [List.append_assoc]
      · rw [AllEdges_cons, hE]
        have hsplit : [(V0, V1), (V1, V2), (V2, V3), (V3, V0)] ++ AllEdges rest
            = [(V0, V1)] ++ ([(V1, V2)] ++ ([(V2, V3)] ++ ([(V3, V0)] ++ AllEdges rest))) := rfl
        rw [hsplit, List.filter_append, List.filter_append, List.filter_append,
          List.filter_append]
        exact List.rel_append r1 (List.rel_append r2 (List.rel_append r3
          (List.rel_append r4 r5)))
    · cases h

theorem GetShadowFrustum_build_total (P : FVector) (C : Cuboid) (ES : Nat → Nat → Bool)
    (Fs : List Face) (SF : List FPlane) (hv : FacesValid Fs)
    (hC : CUBOID_V ≤ C.Vertices.length) :
    ∃ SF1, GetShadowFrustum.build P C ES Fs SF = some SF1 := by
  induction Fs generalizing SF with
  | nil => exact ⟨SF, rfl⟩
  | cons F rest ih =>
    obtain ⟨⟨V0, V1, V2, V3, hP, b0, b1, b2, b3⟩, hr⟩ := FacesValid_cons F rest hv
    unfold GetShadowFrustum.build
    rw [hP]
    simp only [List.getElem?_cons_zero, List.getElem?_cons_succ]
    obtain ⟨s1, e1⟩ := GetShadowFrustum_edge_total P C ES V0 V1 SF (by omega) (by omega)
    obtain ⟨s2, e2⟩ := GetShadowFrustum_edge_total P C ES V1 V2 s1 (by omega) (by omega)
    obtain ⟨s3, e3⟩ := GetShadowFrustum_edge_total P C ES V2 V3 s2 (by omega) (by omega)
    obtain ⟨s4, e4⟩ := GetShadowFrustum_edge_total P C ES V3 V0 s3 (by omega) (by omega)
    rw [e1, Option.some_bind, e2, Option.some_bind, e3, Option.some_bind, e4, Option.some_bind]
    exact ih _ hr

theorem GetShadowFrustum_spec (P : FVector) (C : Cuboid) (Fs : List Face)
    (SF SF1 : List FPlane) (h : GetShadowFrustum P C Fs SF = some SF1) :
    ∃ planes, SF1 = SF ++ planes ∧
      List.Forall₂ (PlaneOfEdge P C) planes (SilhouetteEdges Fs) := by
  unfold GetShadowFrustum at h
  split at h
  · cases h
  · rename_i ES hm
    obtain ⟨planes, hp, hf⟩ := GetShadowFrustum_build_spec P C ES Fs SF SF1 h
    refine ⟨planes, hp, ?_⟩
    have hES := GetShadowFrustum_mark_spec Fs _ ES hm
    have : (fun e : Nat × Nat => !ES e.2 e.1)
        = (fun e => !decide ((e.2, e.1) ∈ AllEdges Fs)) := by
      funext e
      rw [hES e.2 e.1]
      simp
    rw [this] at hf
    exact hf

theorem GetShadowFrustum_total (P : FVector) (C : Cuboid) (Fs : List Face)
    (SF : List FPlane) (hv : FacesValid Fs) (hC : CUBOID_V ≤ C.Vertices.length) :
    ∃ SF1, GetShadowFrustum P C Fs SF = some SF1 := by
  obtain ⟨ES, hm⟩ := GetShadowFrustum_mark_total Fs (fun _ _ => false) hv
  unfold GetShadowFrustum
  rw [hm]
  exact GetShadowFrustum_build_total P C ES Fs SF hv hC

theorem SilhouetteEdges_mem (Fs : List Face) (i j : Nat) :
    (i, j) ∈ SilhouetteEdges Fs ↔ ((i, j) ∈ AllEdges Fs ∧ (j, i) ∉ AllEdges Fs) := by
  unfold SilhouetteEdges SilhouetteOf AllEdges
  rw [List.mem_filter]
  simp

/-! ## Claim on the silhouette planes -/

/-- C15: `GetShadowFrustum` appends to the frustum exactly one plane for each
silhouette edge of `FacesBetween`, in the order of the faces and of their
perimeters: a perimeter edge (i, j) of a face of `FacesBetween` whose reverse
(j, i) is not a perimeter edge of any face of `FacesBetween`; the plane is built
from the camera location, vertex i and vertex j in this order. An edge whose
reverse is present gets no plane: when two faces share an edge as (i, j) in one
and (j, i) in the other, neither direction is a silhouette edge. The routine
returns when every face has four perimeter indices below 8 and the cuboid has
its 8 vertices. -/
theorem C15_GetShadowFrustum_silhouette (P : FVector) (C : Cuboid) (Fs : List Face)
    (SF : List FPlane) :
    (FacesValid Fs → CUBOID_V ≤ C.Vertices.length →
      ∃ SF1, GetShadowFrustum P C Fs SF = some SF1) ∧
    (∀ SF1, GetShadowFrustum P C Fs SF = some SF1 →
      ∃ planes, SF1 = SF ++ planes ∧ planes.length = (SilhouetteEdges Fs).length ∧
        List.Forall₂ (PlaneOfEdge P C) planes (SilhouetteEdges Fs)) ∧
    (∀ i j, (i, j) ∈ SilhouetteEdges Fs ↔
      ((∃ F ∈ Fs, (i, j) ∈ EdgesOf F.Perimeter) ∧ ¬ ∃ F ∈ Fs, (j, i) ∈ EdgesOf F.Perimeter)) ∧
    ((AllEdges Fs).Nodup → (SilhouetteEdges Fs).Nodup) ∧
    (∀ i j F G, F ∈ Fs → G ∈ Fs → (i, j) ∈ EdgesOf F.Perimeter → (j, i) ∈ EdgesOf G.Perimeter →
      (i, j) ∉ SilhouetteEdges Fs ∧ (j, i) ∉ SilhouetteEdges Fs) := by
  refine ⟨GetShadowFrustum_total P C Fs SF, ?_, ?_, ?_, ?_⟩
  · intro SF1 h
    obtain ⟨planes, hp, hf⟩ := GetShadowFrustum_spec P C Fs SF SF1 h
    exact ⟨planes, hp, hf.length_eq, hf⟩
  · intro i j
    rw [SilhouetteEdges_mem, AllEdges_mem, AllEdges_mem]
  · intro hnd
    exact hnd.filter _
  · intro i j F G hF hG hij hji
    have h1 : (i, j) ∈ AllEdges Fs := (AllEdges_mem Fs _).mpr ⟨F, hF, hij⟩
    have h2 : (j, i) ∈ AllEdges Fs := (AllEdges_mem Fs _).mpr ⟨G, hG, hji⟩
    constructor
    · intro hc
      exact ((SilhouetteEdges_mem Fs i j).mp hc).2 h2
    · intro hc
      exact ((SilhouetteEdges_mem Fs j i).mp hc).2 h1

/-- Witness of C15: for the two faces of the crate towards negative X and
negative Y, seen from (-10, -10, 0), the routine returns; the shared edge between
the vertices 0 and 4 cancels, and the frustum gets the 6 planes of the edges
(4, 6), (6, 2), (2, 0), (0, 1), (1, 5), (5, 4). -/
theorem C15_GetShadowFrustum_silhouette_witness :
    SilhouetteEdges Scene.CrateCorner = [(4, 6), (6, 2), (2, 0), (0, 1), (1, 5), (5, 4)] ∧
    ∃ SF1, GetShadowFrustum ⟨-10, -10, 0⟩ Scene.Crate Scene.CrateCorner [] = some SF1 ∧
      SF1.length = 6 := by
  have hs : SilhouetteEdges Scene.CrateCorner
      = [(4, 6), (6, 2), (2, 0), (0, 1), (1, 5), (5, 4)] := by decide
  have hw := C15_GetShadowFrustum_silhouette ⟨-10, -10, 0⟩ Scene.Crate Scene.CrateCorner []
  obtain ⟨SF1, h⟩ := hw.1 (by decide) (by decide)
  obtain ⟨planes, hp, hl, -⟩ := hw.2.1 SF1 h
  refine ⟨hs, SF1, h, ?_⟩
  rw [hp, List.nil_append, hl, hs]
  rfl

/-! ## Lemmas on the faces between -/

theorem GetFacesBetween_loop_spec (P Ec : FVector) (C : Cuboid) (l : List Nat)
    (acc r : List Face) (h : GetFacesBetween.loop P Ec C l acc = some r) :
    ∃ fs, r = acc ++ fs ∧ fs.Sublist (l.filterMap (fun i => C.Faces[i]?)) ∧
      ∀ F ∈ fs, ∃ i ∈ l, ∃ V, C.Faces[i]? = some F ∧ C.GetVertex i 0 = some V ∧
        FVector.dot (V - P) F.Normal < 0 ∧ FVector.dot (V - Ec) F.Normal > 0 := by
  induction l generalizing acc with
  | nil =>
    have : acc = r := Option.some.inj h
    subst this
    exact ⟨[], (List.append_nil _).symm, List.Sublist.refl _, fun F hF => by cases hF⟩
  | cons i rest ih =>
    unfold GetFacesBetween.loop at h
    split at h
    · rename_i F V hF hV
      have hfm : (i :: rest).filterMap (fun i => C.Faces[i]?)
          = F :: rest.filterMap (fun i => C.Faces[i]?) := by
        simp [List.filterMap_cons, hF]
      split at h
      · rename_i hcond
        obtain ⟨fs, e, hs, hm⟩ := ih _ h
        refine ⟨F :: fs, ?_, ?_, ?_⟩
        · rw [e, List.append_assoc]; rfl
        · rw [hfm]; exact hs.cons₂ F
        · intro G hG
          rcases List.mem_cons.mp hG with hG | hG
          · subst hG
            exact ⟨i, List.mem_cons_self _ _, V, hF, hV, hcond.1, hcond.2⟩
          · obtain ⟨j, hj, W, a, b, c⟩ := hm G hG
            exact ⟨j, List.mem_cons_of_mem _ hj, W, a, b, c⟩
      · obtain ⟨fs, e, hs, hm⟩ := ih _ h
        refine ⟨fs, e, ?_, ?_⟩
        · rw [hfm]; exact hs.cons F
        · intro G hG
          obtain ⟨j, hj, W, a, b, c⟩ := hm G hG
          exact ⟨j, List.mem_cons_of_mem _ hj, W, a, b, c⟩
    · cases h

theorem GetFacesBetween_loop_total (P Ec : FVector) (C : Cuboid) (l : List Nat)
    (acc : List Face)
    (hl : ∀ i ∈ l, ∃ F V, C.Faces[i]? = some F ∧ C.GetVertex i 0 = some V) :
    ∃ r, GetFacesBetween.loop P Ec C l acc = some r := by
  induction l generalizing acc with
  | nil => exact ⟨acc, rfl⟩
  | cons i rest ih =>
    obtain ⟨F, V, hF, hV⟩ := hl i (List.mem_cons_self _ _)
    unfold GetFacesBetween.loop
    rw [hF, hV]
    simp only []
    split
    · exact ih _ (fun j hj => hl j (List.mem_cons_of_mem _ hj))
    · exact ih _ (fun j hj => hl j (List.mem_cons_of_mem _ hj))

theorem filterMap_range_getElem? {α : Type} (l : List α) (n : Nat) :
    (List.range n).filterMap (fun i => l[i]?) = l.take n := by
  induction n with
  | zero => simp
  | succ n ih =>
    rw [List.range_succ, List.filterMap_append, ih, List.take_succ]
    cases h : l[n]? <;> simp [List.filterMap_cons, h]

theorem GetFacesBetween_spec (P Ec : FVector) (C : Cuboid) (Fs : List Face)
    (h : GetFacesBetween P Ec C = some Fs) :
    Fs.Sublist C.Faces ∧
    ∀ F ∈ Fs, ∃ i, i < CUBOID_F ∧ ∃ V, C.Faces[i]? = some F ∧ C.GetVertex i 0 = some V ∧
      FVector.dot (V - P) F.Normal < 0 ∧ FVector.dot (V - Ec) F.Normal > 0 := by
  obtain ⟨fs, e, hs, hm⟩ := GetFacesBetween_loop_spec P Ec C _ [] Fs h
  rw [List.nil_append] at e
  subst e
  refine ⟨?_, ?_⟩
  · rw [filterMap_range_getElem?] at hs
    exact hs.trans (List.take_sublist _ _)
  · intro F hF
    obtain ⟨i, hi, V, a, b, c⟩ := hm F hF
    exact ⟨i, List.mem_range.mp hi, V, a, b, c⟩

theorem SilhouetteOf_count :
    ∀ Ps ∈ StandardPerimeters.sublists, OppositeFreeOf Ps →
      Ps.length ≤ 3 ∧ (Ps.length = 1 → (SilhouetteOf Ps).length = 4) ∧
      (Ps.length = 2 ∨ Ps.length = 3 → (SilhouetteOf Ps).length = 6) := by
  decide

theorem Box_faces_between (lo hi P Ec : FVector) (Fs : List Face)
    (h : GetFacesBetween P Ec (Scene.Box lo hi) = some Fs) (F : Face) (hF : F ∈ Fs) :
    (F = ⟨⟨-1, 0, 0⟩, [0, 4, 6, 2]⟩ ∧ P.X < lo.X ∧ lo.X < Ec.X) ∨
    (F = ⟨⟨1, 0, 0⟩, [1, 3, 7, 5]⟩ ∧ hi.X < P.X ∧ Ec.X < hi.X) ∨
    (F = ⟨⟨0, -1, 0⟩, [0, 1, 5, 4]⟩ ∧ P.Y < lo.Y ∧ lo.Y < Ec.Y) ∨
    (F = ⟨⟨0, 1, 0⟩, [2, 6, 7, 3]⟩ ∧ hi.Y < P.Y ∧ Ec.Y < hi.Y) ∨
    (F = ⟨⟨0, 0, -1⟩, [0, 2, 3, 1]⟩ ∧ P.Z < lo.Z ∧ lo.Z < Ec.Z) ∨
    (F = ⟨⟨0, 0, 1⟩, [4, 5, 7, 6]⟩ ∧ hi.Z < P.Z ∧ Ec.Z < hi.Z) := by
  obtain ⟨-, hm⟩ := GetFacesBetween_spec P Ec _ Fs h
  obtain ⟨i, hi6, V, hFi, hV, h1, h2⟩ := hm F hF
  have hi6' : i < 6 := hi6
  interval_cases i
  all_goals
    simp only [Scene.Box, Cuboid.GetVertex, List.getElem?_cons_zero, List.getElem?_cons_succ,
      Option.some.injEq] at hFi hV
    subst hFi
    subst hV
    simp only [FVector.dot, FVector_sub_X, FVector_sub_Y, FVector_sub_Z] at h1 h2
    simp only [mul_zero, mul_one, mul_neg, add_zero, zero_add] at h1 h2
  · left; exact ⟨rfl, by linarith, by linarith⟩
  · right; left; exact ⟨rfl, by linarith, by linarith⟩
  · right; right; left; exact ⟨rfl, by linarith, by linarith⟩
  · right; right; right; left; exact ⟨rfl, by linarith, by linarith⟩
  · right; right; right; right; left; exact ⟨rfl, by linarith, by linarith⟩
  · right; right; right; right; right; exact ⟨rfl, by linarith, by linarith⟩

theorem Box_opposite_free (lo hi P Ec : FVector) (hx : lo.X ≤ hi.X) (hy : lo.Y ≤ hi.Y)
    (hz : lo.Z ≤ hi.Z) (Fs : List Face)
    (h : GetFacesBetween P Ec (Scene.Box lo hi) = some Fs) : OppositeFree Fs := by
  intro p hp q hq
  obtain ⟨F, hF, rfl⟩ := List.mem_map.mp hp
  obtain ⟨G, hG, rfl⟩ := List.mem_map.mp hq
  have a := Box_faces_between lo hi P Ec Fs h F hF
  have b := Box_faces_between lo hi P Ec Fs h G hG
  rcases a with ⟨rfl, a1, a2⟩ | ⟨rfl, a1, a2⟩ | ⟨rfl, a1, a2⟩ | ⟨rfl, a1, a2⟩ |
      ⟨rfl, a1, a2⟩ | ⟨rfl, a1, a2⟩ <;>
    rcases b with ⟨rfl, b1, b2⟩ | ⟨rfl, b1, b2⟩ | ⟨rfl, b1, b2⟩ | ⟨rfl, b1, b2⟩ |
      ⟨rfl, b1, b2⟩ | ⟨rfl, b1, b2⟩ <;>
    first
      | decide
      | (exfalso; linarith)

theorem StandardPerimeters_valid :
    ∀ p ∈ StandardPerimeters, p.length = 4 ∧ (∀ v ∈ p, v < CUBOID_V) ∧
      ∃ v, p[0]? = some v ∧ v < CUBOID_V := by
  decide

theorem GetFacesBetween_total (P Ec : FVector) (C : Cuboid)
    (hF : C.Faces.map (fun F => F.Perimeter) = StandardPerimeters)
    (hV : CUBOID_V ≤ C.Vertices.length) :
    ∃ Fs, GetFacesBetween P Ec C = some Fs := by
  have hlen : C.Faces.length = 6 := by
    rw [← List.length_map C.Faces (fun F => F.Perimeter), hF]
    rfl
  apply GetFacesBetween_loop_total
  intro i hi
  have hi6 : i < C.Faces.length := by
    rw [hlen]
    exact List.mem_range.mp hi
  obtain ⟨F, hFi⟩ : ∃ F, C.Faces[i]? = some F := ⟨_, List.getElem?_eq_getElem hi6⟩
  have hmem : F.Perimeter ∈ StandardPerimeters := by
    rw [← hF]
    exact List.mem_map.mpr ⟨F, List.getElem?_mem hFi, rfl⟩
  obtain ⟨-, -, v, hv, hv8⟩ := StandardPerimeters_valid _ hmem
  have hvl : v < C.Vertices.length := lt_of_lt_of_le hv8 hV
  refine ⟨F, C.Vertices[v], hFi, ?_⟩
  unfold Cuboid.GetVertex
  rw [hFi]
  simp only [hv]
  exact List.getElem?_eq_getElem hvl

theorem FacesValid_of_sublist (C : Cuboid) (Fs : List Face)
    (hF : C.Faces.map (fun F => F.Perimeter) = StandardPerimeters)
    (hs : Fs.Sublist C.Faces) : FacesValid Fs := by
  intro F hFm
  have hmem : F.Perimeter ∈ StandardPerimeters := by
    rw [← hF]
    exact List.mem_map.mpr ⟨F, hs.subset hFm, rfl⟩
  obtain ⟨a, b, -⟩ := StandardPerimeters_valid _ hmem
  exact ⟨a, b⟩

theorem SilhouetteOf_formula :
    ∀ Ps ∈ StandardPerimeters.sublists,
      (SilhouetteOf Ps).length + Ps.length * (Ps.length - 1)
        = 4 * Ps.length + 2 * OppositePairsOf Ps := by
  decide

theorem FVector_dot_split (a b c n : FVector) :
    FVector.dot (a - c) n = FVector.dot (a - b) n + FVector.dot (b - c) n := by
  simp only [FVector.dot, FVector_sub_X, FVector_sub_Y, FVector_sub_Z]
  ring

theorem FVector_dot_neg (v n : FVector) :
    FVector.dot v (FVector.smul (-1) n) = -FVector.dot v n := by
  simp only [FVector.dot, FVector.smul]
  ring

theorem Parallel_not_both (P : FVector) (C : Cuboid) (hpar : ParallelOpposite C) (k : Nat)
    (hk : k ∈ [0, 2, 4]) (F G : Face) (V W : FVector)
    (hF : C.Faces[k]? = some F) (hG : C.Faces[k + 1]? = some G)
    (hV : C.GetVertex k 0 = some V) (hW : C.GetVertex (k + 1) 0 = some W)
    (h1 : FVector.dot (V - P) F.Normal < 0) (h2 : FVector.dot (W - P) G.Normal < 0) :
    False := by
  obtain ⟨hn, hs⟩ := hpar k hk
  have eF : FaceNormal C k = F.Normal := by
    unfold FaceNormal
    rw [List.getD_eq_getElem?_getD, hF]
    rfl
  have eG : FaceNormal C (k + 1) = G.Normal := by
    unfold FaceNormal
    rw [List.getD_eq_getElem?_getD, hG]
    rfl
  have eV : FaceVertex C k = V := by
    unfold FaceVertex
    rw [hV]
    rfl
  have eW : FaceVertex C (k + 1) = W := by
    unfold FaceVertex
    rw [hW]
    rfl
  rw [eF, eG] at hn
  rw [eF, eV, eW] at hs
  rw [hn, FVector_dot_neg] at h2
  have := FVector_dot_split V W P F.Normal
  linarith

theorem Parallel_opposite_free (P Ec : FVector) (C : Cuboid)
    (hF : C.Faces.map (fun F => F.Perimeter) = StandardPerimeters)
    (hpar : ParallelOpposite C) (Fs : List Face)
    (h : GetFacesBetween P Ec C = some Fs) : OppositeFree Fs := by
  obtain ⟨-, hm⟩ := GetFacesBetween_spec P Ec C Fs h
  have hper : ∀ (i : Nat) (F : Face), C.Faces[i]? = some F →
      StandardPerimeters[i]? = some F.Perimeter := by
    intro i F hi
    rw [← hF, List.getElem?_map, hi]
    rfl
  intro p hp q hq
  obtain ⟨F, hFm, rfl⟩ := List.mem_map.mp hp
  obtain ⟨G, hGm, rfl⟩ := List.mem_map.mp hq
  obtain ⟨i, hi6, V, hFi, hV, h1, -⟩ := hm F hFm
  obtain ⟨j, hj6, W, hGj, hW, h2, -⟩ := hm G hGm
  have pi := hper i F hFi
  have pj := hper j G hGj
  have hi6' : i < 6 := hi6
  have hj6' : j < 6 := hj6
  interval_cases i <;> interval_cases j <;>
    first
      | (exfalso
         exact Parallel_not_both P C hpar 0 (by decide) F G V W hFi hGj hV hW h1 h2)
      | (exfalso
         exact Parallel_not_both P C hpar 0 (by decide) G F W V hGj hFi hW hV h2 h1)
      | (exfalso
         exact Parallel_not_both P C hpar 2 (by decide) F G V W hFi hGj hV hW h1 h2)
      | (exfalso
         exact Parallel_not_both P C hpar 2 (by decide) G F W V hGj hFi hW hV h2 h1)
      | (exfalso
         exact Parallel_not_both P C hpar 4 (by decide) F G V W hFi hGj hV hW h1 h2)
      | (exfalso
         exact Parallel_not_both P C hpar 4 (by decide) G F W V hGj hFi hW hV h2 h1)
      | (have e1 := Option.some.inj pi
         have e2 := Option.some.inj pj
         rw [← e1, ← e2]
         decide)

theorem Box_parallel (lo hi : FVector) (hx : lo.X ≤ hi.X) (hy : lo.Y ≤ hi.Y)
    (hz : lo.Z ≤ hi.Z) : ParallelOpposite (Scene.Box lo hi) := by
  intro k hk
  simp only [List.mem_cons, List.mem_singleton, List.not_mem_nil, or_false] at hk
  rcases hk with rfl | rfl | rfl
  · refine ⟨by simp [FaceNormal, Scene.Box, FVector.smul], ?_⟩
    simp [FaceNormal, FaceVertex, Cuboid.GetVertex, Scene.Box, FVector.dot, FVector_sub_X,
      FVector_sub_Y, FVector_sub_Z]
    linarith
  · refine ⟨by simp [FaceNormal, Scene.Box, FVector.smul], ?_⟩
    simp [FaceNormal, FaceVertex, Cuboid.GetVertex, Scene.Box, FVector.dot, FVector_sub_X,
      FVector_sub_Y, FVector_sub_Z]
    linarith
  · refine ⟨by simp [FaceNormal, Scene.Box, FVector.smul], ?_⟩
    simp [FaceNormal, FaceVertex, Cuboid.GetVertex, Scene.Box, FVector.dot, FVector_sub_X,
      FVector_sub_Y, FVector_sub_Z]
    linarith

/-! ## Claim on the number of planes of the shadow frustum -/

set_option maxRecDepth 8000 in
/-- C16, as stated, fails: the crate is a box whose faces are wound
consistently (every directed edge has its reverse in another face) and whose
normals point outward. From the camera at (-10, -10, 0) towards the enemy at
(10, 10, 0) the two faces towards negative X and negative Y lie between, and the
shadow frustum built from them has 6 planes, not 4. The wedge has the same
layout with outward normals, and from the camera at (0, 0, 20) towards the enemy
at (0, 0, -5) its top and its two leaning sides lie between: the frustum built
from them has 8 planes. -/
theorem C16_counterexample :
    SilhouetteOf (Scene.Crate.Faces.map (fun F => F.Perimeter)) = [] ∧
    (∀ F ∈ Scene.Crate.Faces, ∀ V ∈ Scene.Crate.Vertices,
      FVector.dot (V - Scene.Crate.Vertices.getD (F.Perimeter.getD 0 0) ⟨0, 0, 0⟩) F.Normal
        ≤ 0) ∧
    GetFacesBetween ⟨-10, -10, 0⟩ ⟨10, 10, 0⟩ Scene.Crate = some Scene.CrateCorner ∧
    1 ≤ Scene.CrateCorner.length ∧
    (GetShadowFrustum ⟨-10, -10, 0⟩ Scene.Crate Scene.CrateCorner []).map List.length
      = some 6 ∧
    Scene.Wedge.Faces.map (fun F => F.Perimeter) = StandardPerimeters ∧
    (∀ F ∈ Scene.Wedge.Faces, F.Normal.SizeSquared = 1 ∧ ∀ V ∈ Scene.Wedge.Vertices,
      FVector.dot (V - Scene.Wedge.Vertices.getD (F.Perimeter.getD 0 0) ⟨0, 0, 0⟩) F.Normal
        ≤ 0) ∧
    (GetFacesBetween ⟨0, 0, 20⟩ ⟨0, 0, -5⟩ Scene.Wedge).map
      (fun Fs => Fs.map (fun F => F.Perimeter))
      = some [[0, 4, 6, 2], [1, 3, 7, 5], [4, 5, 7, 6]] ∧
    ((GetFacesBetween ⟨0, 0, 20⟩ ⟨0, 0, -5⟩ Scene.Wedge).bind
      (fun Fs => GetShadowFrustum ⟨0, 0, 20⟩ Scene.Wedge Fs [])).map List.length
      = some 8 := by
  refine ⟨by decide, by decide!, by decide!, by decide, by decide!, by decide, by decide!,
    by decide!, by decide!⟩

/-- C16, amended: for a cuboid with the standard face layout (the six
perimeters of a box, wound consistently) and at least 8 vertices, and for any
camera and enemy centre, `GetFacesBetween` and `GetShadowFrustum` return, and
the frustum gets one plane per silhouette edge of the faces between: with k
faces between, o pairs of opposite faces among them, 4 k - k (k - 1) + 2 o
planes. When no two opposite faces lie between, at most three faces do, and the
frustum has exactly 4 planes when exactly one face lies between and exactly 6
planes when two or three faces lie between. No two opposite faces lie between
when the opposite faces of the cuboid are parallel with opposite normals, that
is for a box in any orientation, in particular for an axis-aligned box. -/
theorem C16_frustum_plane_count (P Ec : FVector) (C : Cuboid) (SF : List FPlane)
    (hF : C.Faces.map (fun F => F.Perimeter) = StandardPerimeters)
    (hV : CUBOID_V ≤ C.Vertices.length) :
    ∃ Fs SF1 planes, GetFacesBetween P Ec C = some Fs ∧
      GetShadowFrustum P C Fs SF = some SF1 ∧ SF1 = SF ++ planes ∧
      planes.length = (SilhouetteEdges Fs).length ∧
      planes.length + Fs.length * (Fs.length - 1) = 4 * Fs.length + 2 * OppositePairs Fs ∧
      (OppositeFree Fs → Fs.length ≤ 3 ∧ (Fs.length = 1 → planes.length = 4) ∧
        (Fs.length = 2 ∨ Fs.length = 3 → planes.length = 6)) ∧
      (ParallelOpposite C → OppositeFree Fs) ∧
      (∀ lo hi : FVector, lo.X ≤ hi.X → lo.Y ≤ hi.Y → lo.Z ≤ hi.Z → C = Scene.Box lo hi →
        OppositeFree Fs) := by
  obtain ⟨Fs, hFs⟩ := GetFacesBetween_total P Ec C hF hV
  obtain ⟨hsub, -⟩ := GetFacesBetween_spec P Ec C Fs hFs
  obtain ⟨SF1, hSF⟩ := GetShadowFrustum_total P C Fs SF (FacesValid_of_sublist C Fs hF hsub) hV
  obtain ⟨planes, hp, hf⟩ := GetShadowFrustum_spec P C Fs SF SF1 hSF
  have hl : planes.length = (SilhouetteEdges Fs).length := hf.length_eq
  have hin : Fs.map (fun F => F.Perimeter) ∈ StandardPerimeters.sublists := by
    rw [List.mem_sublists, ← hF]
    exact hsub.map _
  refine ⟨Fs, SF1, planes, hFs, hSF, hp, hl, ?_, ?_, ?_, ?_⟩
  · have c := SilhouetteOf_formula _ hin
    rw [List.length_map] at c
    rw [hl]
    exact c
  · intro hopp
    obtain ⟨c1, c2, c3⟩ := SilhouetteOf_count _ hin hopp
    rw [List.length_map] at c1 c2 c3
    rw [hl]
    exact ⟨c1, c2, c3⟩
  · intro hpar
    exact Parallel_opposite_free P Ec C hF hpar Fs hFs
  · intro lo hi hx hy hz hC
    subst hC
    exact Box_opposite_free lo hi P Ec hx hy hz Fs hFs

set_option maxRecDepth 8000 in
/-- Witness of C16: on the crate, seen from (-10, 0, 0) towards (10, 0, 0) one
face lies between and the frustum has 4 planes; seen from (-10, -10, 0) towards
(10, 10, 0) two faces lie between and the frustum has 6 planes. On the tilted
box, whose opposite faces are parallel, seen from (-20, 0, 0) towards (20, 0, 0)
two faces lie between and the frustum has 6 planes. -/
theorem C16_frustum_plane_count_witness :
    (∃ Fs SF1, GetFacesBetween ⟨-10, 0, 0⟩ ⟨10, 0, 0⟩ Scene.Crate = some Fs ∧
      Fs.length = 1 ∧ GetShadowFrustum ⟨-10, 0, 0⟩ Scene.Crate Fs [] = some SF1 ∧
      SF1.length = 4) ∧
    (∃ Fs SF1, GetFacesBetween ⟨-10, -10, 0⟩ ⟨10, 10, 0⟩ Scene.Crate = some Fs ∧
      Fs.length = 2 ∧ GetShadowFrustum ⟨-10, -10, 0⟩ Scene.Crate Fs [] = some SF1 ∧
      SF1.length = 6) ∧
    (ParallelOpposite Scene.Tilted ∧
      ∃ Fs SF1, GetFacesBetween ⟨-20, 0, 0⟩ ⟨20, 0, 0⟩ Scene.Tilted = some Fs ∧
        Fs.length = 2 ∧ GetShadowFrustum ⟨-20, 0, 0⟩ Scene.Tilted Fs [] = some SF1 ∧
        SF1.length = 6) := by
  refine ⟨?_, ?_, ?_⟩
  · obtain ⟨Fs, SF1, planes, h1, h2, h3, -, -, h5, -, h6⟩ :=
      C16_frustum_plane_count ⟨-10, 0, 0⟩ ⟨10, 0, 0⟩ Scene.Crate [] rfl (by decide)
    have hFs : Fs = [⟨⟨-1, 0, 0⟩, [0, 4, 6, 2]⟩] :=
      Option.some.inj (h1.symm.trans (by decide!))
    have hlen : Fs.length = 1 := by rw [hFs]; rfl
    have hopp := h6 ⟨-1, -1, -1⟩ ⟨1, 1, 1⟩ (by decide!) (by decide!) (by decide!) rfl
    refine ⟨Fs, SF1, h1, hlen, h2, ?_⟩
    rw [h3, List.nil_append]
    exact (h5 hopp).2.1 hlen
  · obtain ⟨Fs, SF1, planes, h1, h2, h3, -, -, h5, -, h6⟩ :=
      C16_frustum_plane_count ⟨-10, -10, 0⟩ ⟨10, 10, 0⟩ Scene.Crate [] rfl (by decide)
    have hFs : Fs = Scene.CrateCorner := Option.some.inj (h1.symm.trans (by decide!))
    have hlen : Fs.length = 2 := by rw [hFs]; rfl
    have hopp := h6 ⟨-1, -1, -1⟩ ⟨1, 1, 1⟩ (by decide!) (by decide!) (by decide!) rfl
    refine ⟨Fs, SF1, h1, hlen, h2, ?_⟩
    rw [h3, List.nil_append]
    exact (h5 hopp).2.2 (Or.inl hlen)
  · have hpar : ParallelOpposite Scene.Tilted := by decide!
    obtain ⟨Fs, SF1, planes, h1, h2, h3, -, -, h5, h6, -⟩ :=
      C16_frustum_plane_count ⟨-20, 0, 0⟩ ⟨20, 0, 0⟩ Scene.Tilted [] rfl (by decide)
    have hFs : Fs = [⟨⟨-3 / 5, -4 / 5, 0⟩, [0, 4, 6, 2]⟩, ⟨⟨-4 / 5, 3 / 5, 0⟩, [2, 6, 7, 3]⟩] :=
      Option.some.inj (h1.symm.trans (by decide!))
    have hlen : Fs.length = 2 := by rw [hFs]; rfl
    refine ⟨hpar, Fs, SF1, h1, hlen, h2, ?_⟩
    rw [h3, List.nil_append]
    exact (h5 (h6 hpar)).2.2 (Or.inl hlen)

/-! ## Lemmas on the BVH traversal -/

theorem traverse_loop_nil {Box Prim Seg : Type} (T : FastBVH.Traverser Box Prim Seg)
    (segment : Seg) (f : Nat) (acc : List Prim) :
    FastBVH.traverse.loop T segment f [] acc = .returned acc := by
  cases f <;> rfl

theorem Tree_flatten_root {Box : Type} (t : FastBVH.Tree Box) :
    ∃ tl, t.flatten = t.root :: tl := by
  cases t with
  | leaf b s c => exact ⟨[], rfl⟩
  | node b l r => exact ⟨_, rfl⟩

theorem Tree_flatten_length {Box : Type} (t : FastBVH.Tree Box) :
    t.flatten.length = t.size := by
  induction t with
  | leaf b s c => rfl
  | node b l r ihl ihr =>
    simp only [FastBVH.Tree.flatten, FastBVH.Tree.size, List.length_cons, List.length_append,
      ihl, ihr]
    omega

theorem Tree_root_bbox {Box : Type} (t : FastBVH.Tree Box) : t.root.bbox = t.bbox := by
  cases t <;> rfl

theorem Tree_size_pos {Box : Type} (t : FastBVH.Tree Box) : 1 ≤ t.size := by
  cases t with
  | leaf b s c => exact le_refl 1
  | node b l r =>
    simp only [FastBVH.Tree.size]
    omega

theorem nodes_at_root {Box : Type} (nodes pre post : List (FastBVH.Node Box))
    (t : FastBVH.Tree Box) (h : nodes = pre ++ t.flatten ++ post) :
    nodes[pre.length]? = some t.root := by
  obtain ⟨tl, htl⟩ := Tree_flatten_root t
  rw [h, htl, List.append_assoc, List.getElem?_append_right (le_refl _)]
  simp

theorem Tree_covers_le {Box : Type} (t : FastBVH.Tree Box) (a b : Nat)
    (h : t.covers a = some b) : a ≤ b := by
  induction t generalizing a b with
  | leaf bx s c =>
    unfold FastBVH.Tree.covers at h
    split at h
    · have := Option.some.inj h
      omega
    · cases h
  | node bx l r ihl ihr =>
    unfold FastBVH.Tree.covers at h
    split at h
    · cases h
    · rename_i m hm
      exact le_trans (ihl a m hm) (ihr m b h)

theorem HitIn_iff {Box Prim Seg : Type} (T : FastBVH.Traverser Box Prim Seg) (segment : Seg)
    (a b : Nat) :
    FastBVH.HitIn T segment a b = true ↔
      ∃ i, a ≤ i ∧ i < b ∧ FastBVH.HitAt T segment i = true := by
  unfold FastBVH.HitIn
  rw [List.any_eq_true]
  constructor
  · rintro ⟨i, hi, hh⟩
    rw [List.mem_range'_1] at hi
    exact ⟨i, hi.1, by omega, hh⟩
  · rintro ⟨i, h1, h2, hh⟩
    exact ⟨i, List.mem_range'_1.mpr ⟨h1, by omega⟩, hh⟩

theorem HitIn_split {Box Prim Seg : Type} (T : FastBVH.Traverser Box Prim Seg) (segment : Seg)
    (a m b : Nat) (h1 : a ≤ m) (h2 : m ≤ b) :
    FastBVH.HitIn T segment a b
      = (FastBVH.HitIn T segment a m || FastBVH.HitIn T segment m b) := by
  rw [Bool.eq_iff_iff, Bool.or_eq_true, HitIn_iff, HitIn_iff, HitIn_iff]
  constructor
  · rintro ⟨i, ha, hb, hh⟩
    by_cases hi : i < m
    · exact Or.inl ⟨i, ha, hi, hh⟩
    · exact Or.inr ⟨i, by omega, hb, hh⟩
  · rintro (⟨i, ha, hb, hh⟩ | ⟨i, ha, hb, hh⟩)
    · exact ⟨i, ha, by omega, hh⟩
    · exact ⟨i, by omega, hb, hh⟩

theorem GenuineHit_mono {Box Prim Seg : Type} (T : FastBVH.Traverser Box Prim Seg)
    (segment : Seg) (h : Prim) (a b a2 b2 : Nat) (h1 : a2 ≤ a) (h2 : b ≤ b2)
    (hg : FastBVH.GenuineHit T segment h a b) : FastBVH.GenuineHit T segment h a2 b2 := by
  obtain ⟨i, obj, x, y, z, w⟩ := hg
  exact ⟨i, obj, by omega, by omega, z, w⟩

theorem traverse_leaf_scan {Box Prim Seg : Type} (T : FastBVH.Traverser Box Prim Seg)
    (segment : Seg) (hO : T.OnlyTestOcclusion = true) (node : FastBVH.Node Box)
    (os : List Nat) (acc : List Prim)
    (hr : ∀ o ∈ os, node.start + o < T.build_prims.length) :
    ((∀ o ∈ os, FastBVH.HitAt T segment (node.start + o) = false) →
      FastBVH.traverse.leaf T segment node os acc = some (false, acc)) ∧
    ((∃ o ∈ os, FastBVH.HitAt T segment (node.start + o) = true) →
      ∃ h, FastBVH.traverse.leaf T segment node os acc = some (true, acc ++ [h]) ∧
        ∃ o ∈ os, ∃ obj, T.build_prims[node.start + o]? = some obj ∧
          T.intersector obj segment = some h) := by
  induction os with
  | nil =>
    exact ⟨fun _ => rfl, fun ⟨o, ho, _⟩ => by cases ho⟩
  | cons o rest ih =>
    have hlt := hr o (List.mem_cons_self _ _)
    obtain ⟨obj, hobj⟩ : ∃ obj, T.build_prims[node.start + o]? = some obj :=
      ⟨_, List.getElem?_eq_getElem hlt⟩
    obtain ⟨ih1, ih2⟩ := ih (fun x hx => hr x (List.mem_cons_of_mem _ hx))
    cases hint : T.intersector obj segment with
    | none =>
      have hat : FastBVH.HitAt T segment (node.start + o) = false := by
        unfold FastBVH.HitAt
        rw [hobj]
        simp [hint]
      have hstep : FastBVH.traverse.leaf T segment node (o :: rest) acc
          = FastBVH.traverse.leaf T segment node rest acc := by
        rw [FastBVH.traverse.leaf]
        simp only [hobj, hint]
      rw [hstep]
      constructor
      · intro hall
        exact ih1 (fun x hx => hall x (List.mem_cons_of_mem _ hx))
      · rintro ⟨x, hx, hxh⟩
        rcases List.mem_cons.mp hx with hx | hx
        · subst hx
          rw [hat] at hxh
          cases hxh
        · obtain ⟨h, e, y, hy, w⟩ := ih2 ⟨x, hx, hxh⟩
          exact ⟨h, e, y, List.mem_cons_of_mem _ hy, w⟩
    | some h =>
      have hat : FastBVH.HitAt T segment (node.start + o) = true := by
        unfold FastBVH.HitAt
        rw [hobj]
        simp [hint]
      have hstep : FastBVH.traverse.leaf T segment node (o :: rest) acc
          = some (true, acc ++ [h]) := by
        rw [FastBVH.traverse.leaf]
        simp only [hobj, hint, hO, if_true]
      rw [hstep]
      constructor
      · intro hall
        have := hall o (List.mem_cons_self _ _)
        rw [hat] at this
        cases this
      · intro _
        exact ⟨h, rfl, o, List.mem_cons_self _ _, obj, hobj, hint⟩

theorem traverse_step_leaf {Box Prim Seg : Type} (T : FastBVH.Traverser Box Prim Seg)
    (segment : Seg) (f ni : Nat) (m : ℚ) (todo : List (Nat × ℚ)) (acc : List Prim)
    (node : FastBVH.Node Box) (hn : T.nodes[ni]? = some node) (hl : node.isLeaf = true) :
    FastBVH.traverse.loop T segment (f + 1) ((ni, m) :: todo) acc =
      match FastBVH.traverse.leaf T segment node (List.range node.primitive_count) acc with
      | none => .outOfRange
      | some (true, acc1) => .returned acc1
      | some (false, acc1) => FastBVH.traverse.loop T segment f todo acc1 := by
  rw [FastBVH.traverse.loop]
  simp only [hn, hl, if_true]

theorem traverse_step_both {Box Prim Seg : Type} (T : FastBVH.Traverser Box Prim Seg)
    (segment : Seg) (f ni : Nat) (m : ℚ) (todo : List (Nat × ℚ)) (acc : List Prim)
    (node c0 c1 : FastBVH.Node Box) (t0 t1 t2 t3 : ℚ)
    (hn : T.nodes[ni]? = some node) (hl : node.isLeaf = false)
    (h0 : T.nodes[ni + 1]? = some c0) (h1 : T.nodes[ni + node.right_offset]? = some c1)
    (i0 : T.intersect c0.bbox segment = some (t0, t1))
    (i1 : T.intersect c1.bbox segment = some (t2, t3))
    (hcap : todo.length + 2 ≤ FastBVH.TODO_SIZE) :
    FastBVH.traverse.loop T segment (f + 1) ((ni, m) :: todo) acc =
      FastBVH.traverse.loop T segment f
        ((if t2 < t0 then ni + node.right_offset else ni + 1, if t2 < t0 then t2 else t0) ::
          (if t2 < t0 then ni + 1 else ni + node.right_offset, if t2 < t0 then t0 else t2) ::
          todo) acc := by
  rw [FastBVH.traverse.loop]
  have p1 : todo.length < FastBVH.TODO_SIZE := by omega
  have p2 : todo.length + 1 < FastBVH.TODO_SIZE := by omega
  simp only [hn, hl, h0, h1, i0, i1, FastBVH.push, p1, p2, if_true, List.length_cons,
    Bool.false_eq_true, if_false]

theorem traverse_step_left {Box Prim Seg : Type} (T : FastBVH.Traverser Box Prim Seg)
    (segment : Seg) (f ni : Nat) (m : ℚ) (todo : List (Nat × ℚ)) (acc : List Prim)
    (node c0 c1 : FastBVH.Node Box) (t0 t1 : ℚ)
    (hn : T.nodes[ni]? = some node) (hl : node.isLeaf = false)
    (h0 : T.nodes[ni + 1]? = some c0) (h1 : T.nodes[ni + node.right_offset]? = some c1)
    (i0 : T.intersect c0.bbox segment = some (t0, t1))
    (i1 : T.intersect c1.bbox segment = none)
    (hcap : todo.length + 1 ≤ FastBVH.TODO_SIZE) :
    FastBVH.traverse.loop T segment (f + 1) ((ni, m) :: todo) acc =
      FastBVH.traverse.loop T segment f ((ni + 1, t0) :: todo) acc := by
  rw [FastBVH.traverse.loop]
  have p1 : todo.length < FastBVH.TODO_SIZE := by omega
  simp only [hn, hl, h0, h1, i0, i1, FastBVH.push, p1, if_true, Bool.false_eq_true, if_false]

theorem traverse_step_right {Box Prim Seg : Type} (T : FastBVH.Traverser Box Prim Seg)
    (segment : Seg) (f ni : Nat) (m : ℚ) (todo : List (Nat × ℚ)) (acc : List Prim)
    (node c0 c1 : FastBVH.Node Box) (t2 t3 : ℚ)
    (hn : T.nodes[ni]? = some node) (hl : node.isLeaf = false)
    (h0 : T.nodes[ni + 1]? = some c0) (h1 : T.nodes[ni + node.right_offset]? = some c1)
    (i0 : T.intersect c0.bbox segment = none)
    (i1 : T.intersect c1.bbox segment = some (t2, t3))
    (hcap : todo.length + 1 ≤ FastBVH.TODO_SIZE) :
    FastBVH.traverse.loop T segment (f + 1) ((ni, m) :: todo) acc =
      FastBVH.traverse.loop T segment f ((ni + node.right_offset, t2) :: todo) acc := by
  rw [FastBVH.traverse.loop]
  have p1 : todo.length < FastBVH.TODO_SIZE := by omega
  simp only [hn, hl, h0, h1, i0, i1, FastBVH.push, p1, if_true, Bool.false_eq_true, if_false]

theorem traverse_step_none {Box Prim Seg : Type} (T : FastBVH.Traverser Box Prim Seg)
    (segment : Seg) (f ni : Nat) (m : ℚ) (todo : List (Nat × ℚ)) (acc : List Prim)
    (node c0 c1 : FastBVH.Node Box)
    (hn : T.nodes[ni]? = some node) (hl : node.isLeaf = false)
    (h0 : T.nodes[ni + 1]? = some c0) (h1 : T.nodes[ni + node.right_offset]? = some c1)
    (i0 : T.intersect c0.bbox segment = none)
    (i1 : T.intersect c1.bbox segment = none) :
    FastBVH.traverse.loop T segment (f + 1) ((ni, m) :: todo) acc =
      FastBVH.traverse.loop T segment f todo acc := by
  rw [FastBVH.traverse.loop]
  simp only [hn, hl, h0, h1, i0, i1, Bool.false_eq_true, if_false]

theorem Visits_seq {Box Prim Seg : Type} (T : FastBVH.Traverser Box Prim Seg) (segment : Seg)
    (iX iY szX szY : Nat) (hitX hitY : Bool) (aX bX aY bY : Nat) (todo : List (Nat × ℚ))
    (mY : ℚ)
    (hX : FastBVH.Visits T segment iX szX hitX aX bX ((iY, mY) :: todo))
    (hY : FastBVH.Visits T segment iY szY hitY aY bY todo) :
    ((hitX || hitY) = false → ∃ c, 1 ≤ c ∧ c ≤ szX + szY ∧ ∀ f m,
      FastBVH.traverse.loop T segment (c + f) ((iX, m) :: (iY, mY) :: todo) []
        = FastBVH.traverse.loop T segment f todo []) ∧
    ((hitX || hitY) = true → ∃ c, 1 ≤ c ∧ c ≤ szX + szY ∧ ∃ h,
      (FastBVH.GenuineHit T segment h aX bX ∨ FastBVH.GenuineHit T segment h aY bY) ∧
      ∀ f m, FastBVH.traverse.loop T segment (c + f) ((iX, m) :: (iY, mY) :: todo) []
        = .returned [h]) := by
  cases hx : hitX with
  | true =>
    refine ⟨fun hc => by simp at hc, fun _ => ?_⟩
    obtain ⟨c, c1, c2, h, hg, hl⟩ := hX.2 hx
    exact ⟨c, c1, by omega, h, Or.inl hg, hl⟩
  | false =>
    obtain ⟨cX, x1, x2, hlX⟩ := hX.1 hx
    cases hy : hitY with
    | true =>
      refine ⟨fun hc => by simp at hc, fun _ => ?_⟩
      obtain ⟨cY, y1, y2, h, hg, hlY⟩ := hY.2 hy
      refine ⟨cX + cY, by omega, by omega, h, Or.inr hg, ?_⟩
      intro f m
      rw [Nat.add_assoc, hlX, hlY]
    | false =>
      refine ⟨fun _ => ?_, fun hc => by simp at hc⟩
      obtain ⟨cY, y1, y2, hlY⟩ := hY.1 hy
      refine ⟨cX + cY, by omega, by omega, ?_⟩
      intro f m
      rw [Nat.add_assoc, hlX, hlY]

theorem Visits_of_step0 {Box Prim Seg : Type} (T : FastBVH.Traverser Box Prim Seg)
    (segment : Seg) (i sz a b : Nat) (todo : List (Nat × ℚ)) (hsz : 1 ≤ sz)
    (hstep : ∀ f m, FastBVH.traverse.loop T segment (f + 1) ((i, m) :: todo) []
      = FastBVH.traverse.loop T segment f todo []) :
    FastBVH.Visits T segment i sz false a b todo := by
  refine ⟨fun _ => ⟨1, le_refl 1, hsz, fun f m => ?_⟩, fun hc => by cases hc⟩
  rw [Nat.add_comm 1 f]
  exact hstep f m

theorem Visits_of_step1 {Box Prim Seg : Type} (T : FastBVH.Traverser Box Prim Seg)
    (segment : Seg) (i iX sz szX a b aX bX : Nat) (hit : Bool) (mX : ℚ)
    (todo : List (Nat × ℚ)) (hsz : szX + 1 ≤ sz) (ha : a ≤ aX) (hb : bX ≤ b)
    (hstep : ∀ f m, FastBVH.traverse.loop T segment (f + 1) ((i, m) :: todo) []
      = FastBVH.traverse.loop T segment f ((iX, mX) :: todo) [])
    (hX : FastBVH.Visits T segment iX szX hit aX bX todo) :
    FastBVH.Visits T segment i sz hit a b todo := by
  constructor
  · intro hh
    obtain ⟨c, c1, c2, hl⟩ := hX.1 hh
    refine ⟨c + 1, by omega, by omega, fun f m => ?_⟩
    have e : c + 1 + f = (c + f) + 1 := by omega
    rw [e, hstep, hl]
  · intro hh
    obtain ⟨c, c1, c2, h, hg, hl⟩ := hX.2 hh
    refine ⟨c + 1, by omega, by omega, h, GenuineHit_mono T segment h aX bX a b ha hb hg,
      fun f m => ?_⟩
    have e : c + 1 + f = (c + f) + 1 := by omega
    rw [e, hstep, hl]

theorem Visits_of_step2 {Box Prim Seg : Type} (T : FastBVH.Traverser Box Prim Seg)
    (segment : Seg) (i iX iY sz szX szY a b aX bX aY bY : Nat) (hitX hitY : Bool)
    (mX mY : ℚ) (todo : List (Nat × ℚ)) (hsz : szX + szY + 1 ≤ sz)
    (haX : a ≤ aX) (hbX : bX ≤ b) (haY : a ≤ aY) (hbY : bY ≤ b)
    (hstep : ∀ f m, FastBVH.traverse.loop T segment (f + 1) ((i, m) :: todo) []
      = FastBVH.traverse.loop T segment f ((iX, mX) :: (iY, mY) :: todo) [])
    (hX : FastBVH.Visits T segment iX szX hitX aX bX ((iY, mY) :: todo))
    (hY : FastBVH.Visits T segment iY szY hitY aY bY todo) :
    FastBVH.Visits T segment i sz (hitX || hitY) a b todo := by
  obtain ⟨s1, s2⟩ := Visits_seq T segment iX iY szX szY hitX hitY aX bX aY bY todo mY hX hY
  constructor
  · intro hh
    obtain ⟨c, c1, c2, hl⟩ := s1 hh
    refine ⟨c + 1, by omega, by omega, fun f m => ?_⟩
    have e : c + 1 + f = (c + f) + 1 := by omega
    rw [e, hstep, hl]
  · intro hh
    obtain ⟨c, c1, c2, h, hg, hl⟩ := s2 hh
    refine ⟨c + 1, by omega, by omega, h, ?_, fun f m => ?_⟩
    · rcases hg with hg | hg
      · exact GenuineHit_mono T segment h aX bX a b haX hbX hg
      · exact GenuineHit_mono T segment h aY bY a b haY hbY hg
    · have e : c + 1 + f = (c + f) + 1 := by omega
      rw [e, hstep, hl]

theorem BoxesSound_root {Box Prim Seg : Type} (T : FastBVH.Traverser Box Prim Seg)
    (segment : Seg) (t : FastBVH.Tree Box) (a b : Nat)
    (hs : FastBVH.BoxesSound T segment t a = true) (hc : t.covers a = some b)
    (hh : FastBVH.HitIn T segment a b = true) :
    (T.intersect t.bbox segment).isSome = true := by
  cases t with
  | leaf bx s c =>
    unfold FastBVH.Tree.covers at hc
    split at hc
    · have hb : a + c = b := Option.some.inj hc
      unfold FastBVH.BoxesSound at hs
      rw [hb, hh] at hs
      simpa using hs
    · cases hc
  | node bx l r =>
    unfold FastBVH.Tree.covers at hc
    unfold FastBVH.BoxesSound at hs
    cases hl : l.covers a with
    | none => rw [hl] at hc; cases hc
    | some m =>
      rw [hl] at hc hs
      simp only [] at hc hs
      rw [hc] at hs
      simp only [Bool.and_eq_true, Bool.or_eq_true, Bool.not_eq_true'] at hs
      rcases hs.1.1 with h1 | h1
      · rw [hh] at h1; cases h1
      · exact h1

theorem BoxesSound_children {Box Prim Seg : Type} (T : FastBVH.Traverser Box Prim Seg)
    (segment : Seg) (bx : Box) (l r : FastBVH.Tree Box) (a m : Nat)
    (hs : FastBVH.BoxesSound T segment (.node bx l r) a = true) (hl : l.covers a = some m) :
    FastBVH.BoxesSound T segment l a = true ∧ FastBVH.BoxesSound T segment r m = true := by
  unfold FastBVH.BoxesSound at hs
  rw [hl] at hs
  simp only [] at hs
  cases hr : r.covers m with
  | none => rw [hr] at hs; cases hs
  | some e =>
    rw [hr] at hs
    simp only [Bool.and_eq_true] at hs
    exact ⟨hs.1.2, hs.2⟩

theorem traverse_visit {Box Prim Seg : Type} (T : FastBVH.Traverser Box Prim Seg)
    (segment : Seg) (hO : T.OnlyTestOcclusion = true) (t : FastBVH.Tree Box) :
    ∀ (pre post : List (FastBVH.Node Box)) (todo : List (Nat × ℚ)) (a b : Nat),
      T.nodes = pre ++ t.flatten ++ post →
      t.covers a = some b → b ≤ T.build_prims.length →
      FastBVH.BoxesSound T segment t a = true →
      todo.length + 1 + t.depth ≤ FastBVH.TODO_SIZE →
      FastBVH.Visits T segment pre.length t.size (FastBVH.HitIn T segment a b) a b todo := by
  induction t with
  | leaf bx s c =>
    intro pre post todo a b hn hc hb _ _
    have hroot := nodes_at_root T.nodes pre post (.leaf bx s c) hn
    unfold FastBVH.Tree.covers at hc
    split at hc
    · rename_i hsa
      have hbe : a + c = b := Option.some.inj hc
      subst hsa
      have hstep := fun f m => traverse_step_leaf T segment f pre.length m todo []
        (FastBVH.Tree.root (.leaf bx s c)) hroot rfl
      have hr : ∀ o ∈ List.range c,
          (FastBVH.Tree.root (.leaf bx s c)).start + o < T.build_prims.length := by
        intro o ho
        have := List.mem_range.mp ho
        show s + o < _
        omega
      obtain ⟨sc1, sc2⟩ := traverse_leaf_scan T segment hO (FastBVH.Tree.root (.leaf bx s c))
        (List.range c) [] hr
      constructor
      · intro hh
        refine ⟨1, le_refl 1, le_refl 1, fun f m => ?_⟩
        have hall : ∀ o ∈ List.range c, FastBVH.HitAt T segment
            ((FastBVH.Tree.root (.leaf bx s c)).start + o) = false := by
          intro o ho
          have := List.mem_range.mp ho
          cases hat : FastBVH.HitAt T segment
              ((FastBVH.Tree.root (.leaf bx s c)).start + o) with
          | false => rfl
          | true =>
            have : FastBVH.HitIn T segment s b = true :=
              (HitIn_iff T segment s b).mpr ⟨s + o, by omega, by omega, hat⟩
            rw [hh] at this
            cases this
        rw [Nat.add_comm 1 f, hstep f m]
        show (match FastBVH.traverse.leaf T segment (FastBVH.Tree.root (.leaf bx s c))
          (List.range c) [] with
          | none => FastBVH.Traversed.outOfRange
          | some (true, acc1) => .returned acc1
          | some (false, acc1) => FastBVH.traverse.loop T segment f todo acc1) = _
        rw [sc1 hall]
      · intro hh
        obtain ⟨i, hi1, hi2, hat⟩ := (HitIn_iff T segment s b).mp hh
        have hex : ∃ o ∈ List.range c, FastBVH.HitAt T segment
            ((FastBVH.Tree.root (.leaf bx s c)).start + o) = true := by
          refine ⟨i - s, List.mem_range.mpr (by omega), ?_⟩
          show FastBVH.HitAt T segment (s + (i - s)) = true
          have : s + (i - s) = i := by omega
          rw [this]
          exact hat
        obtain ⟨h, hleaf, o, ho, obj, hobj, hint⟩ := sc2 hex
        have hoc := List.mem_range.mp ho
        refine ⟨1, le_refl 1, le_refl 1, h, ⟨s + o, obj, by omega, by omega, hobj, hint⟩,
          fun f m => ?_⟩
        rw [Nat.add_comm 1 f, hstep f m]
        show (match FastBVH.traverse.leaf T segment (FastBVH.Tree.root (.leaf bx s c))
          (List.range c) [] with
          | none => FastBVH.Traversed.outOfRange
          | some (true, acc1) => .returned acc1
          | some (false, acc1) => FastBVH.traverse.loop T segment f todo acc1) = _
        rw [hleaf]
        rfl
    · cases hc
  | node bx l r ihl ihr =>
    intro pre post todo a b hn hc hb hs hd
    have hroot := nodes_at_root T.nodes pre post (.node bx l r) hn
    unfold FastBVH.Tree.covers at hc
    cases hlc : l.covers a with
    | none => rw [hlc] at hc; cases hc
    | some mid =>
      rw [hlc] at hc
      simp only [] at hc
      have hamid := Tree_covers_le l a mid hlc
      have hmidb := Tree_covers_le r mid b hc
      obtain ⟨hsl, hsr⟩ := BoxesSound_children T segment bx l r a mid hs hlc
      have hnl : T.nodes = (pre ++ [FastBVH.Tree.root (.node bx l r)]) ++ l.flatten
          ++ (r.flatten ++ post) := by
        rw [hn]
        simp [FastBVH.Tree.flatten, FastBVH.Tree.root, List.append_assoc]
      have hnr : T.nodes = (pre ++ [FastBVH.Tree.root (.node bx l r)] ++ l.flatten)
          ++ r.flatten ++ post := by
        rw [hn]
        simp [FastBVH.Tree.flatten, FastBVH.Tree.root, List.append_assoc]
      have hlenl : (pre ++ [FastBVH.Tree.root (.node bx l r)]).length = pre.length + 1 := by
        simp
      have hlenr : (pre ++ [FastBVH.Tree.root (.node bx l r)] ++ l.flatten).length
          = pre.length + (FastBVH.Tree.root (.node bx l r)).right_offset := by
        simp only [List.length_append, List.length_cons, List.length_nil, Tree_flatten_length]
        show _ = pre.length + (l.size + 1)
        omega
      have h0 : T.nodes[pre.length + 1]? = some l.root := by
        rw [← hlenl]
        exact nodes_at_root T.nodes _ _ l hnl
      have h1 : T.nodes[pre.length + (FastBVH.Tree.root (.node bx l r)).right_offset]?
          = some r.root := by
        rw [← hlenr]
        exact nodes_at_root T.nodes _ _ r hnr
      have hdep : 1 + max l.depth r.depth = (FastBVH.Tree.node bx l r).depth := rfl
      have hdl : l.depth ≤ max l.depth r.depth := le_max_left _ _
      have hdr : r.depth ≤ max l.depth r.depth := le_max_right _ _
      have hsize : (FastBVH.Tree.node bx l r).size = 1 + l.size + r.size := rfl
      have hsplit := HitIn_split T segment a mid b hamid hmidb
      have vl : ∀ todo2 : List (Nat × ℚ), todo2.length ≤ todo.length + 1 →
          FastBVH.Visits T segment (pre.length + 1) l.size (FastBVH.HitIn T segment a mid)
            a mid todo2 := by
        intro todo2 h2
        rw [← hlenl]
        exact ihl _ _ todo2 a mid hnl hlc (le_trans hmidb hb) hsl (by omega)
      have vr : ∀ todo2 : List (Nat × ℚ), todo2.length ≤ todo.length + 1 →
          FastBVH.Visits T segment
            (pre.length + (FastBVH.Tree.root (.node bx l r)).right_offset) r.size
            (FastBVH.HitIn T segment mid b) mid b todo2 := by
        intro todo2 h2
        rw [← hlenr]
        exact ihr _ _ todo2 mid b hnr hc hb hsr (by omega)
      have bl : T.intersect l.root.bbox segment = none →
          FastBVH.HitIn T segment a mid = false := by
        intro hnone
        cases hh : FastBVH.HitIn T segment a mid with
        | false => rfl
        | true =>
          have := BoxesSound_root T segment l a mid hsl hlc hh
          rw [← Tree_root_bbox, hnone] at this
          cases this
      have br : T.intersect r.root.bbox segment = none →
          FastBVH.HitIn T segment mid b = false := by
        intro hnone
        cases hh : FastBVH.HitIn T segment mid b with
        | false => rfl
        | true =>
          have := BoxesSound_root T segment r mid b hsr hc hh
          rw [← Tree_root_bbox, hnone] at this
          cases this
      rw [hsplit, hsize]
      cases i0 : T.intersect l.root.bbox segment with
      | none =>
        cases i1 : T.intersect r.root.bbox segment with
        | none =>
          rw [bl i0, br i1]
          exact Visits_of_step0 T segment _ _ a b todo (by omega)
            (fun f m => traverse_step_none T segment f pre.length m todo [] _ _ _ hroot rfl
              h0 h1 i0 i1)
        | some p1 =>
          obtain ⟨t2, t3⟩ := p1
          rw [bl i0, Bool.false_or]
          exact Visits_of_step1 T segment _ _ _ r.size a b mid b _ t2 todo (by omega) hamid
            (le_refl b)
            (fun f m => traverse_step_right T segment f pre.length m todo [] _ _ _ t2 t3
              hroot rfl h0 h1 i0 i1 (by omega))
            (vr todo (by omega))
      | some p0 =>
        obtain ⟨t0, t1⟩ := p0
        cases i1 : T.intersect r.root.bbox segment with
        | none =>
          rw [br i1, Bool.or_false]
          exact Visits_of_step1 T segment _ _ _ l.size a b a mid _ t0 todo (by omega)
            (le_refl a) hmidb
            (fun f m => traverse_step_left T segment f pre.length m todo [] _ _ _ t0 t1
              hroot rfl h0 h1 i0 i1 (by omega))
            (vl todo (by omega))
        | some p1 =>
          obtain ⟨t2, t3⟩ := p1
          have hcap : todo.length + 2 ≤ FastBVH.TODO_SIZE := by omega
          have hstep := fun f m => traverse_step_both T segment f pre.length m todo [] _ _ _
            t0 t1 t2 t3 hroot rfl h0 h1 i0 i1 hcap
          by_cases hlt : t2 < t0
          · simp only [hlt, if_true] at hstep
            rw [Bool.or_comm]
            exact Visits_of_step2 T segment _ _ _ _ r.size l.size a b mid b a mid _ _ t2 t0
              todo (by omega) hamid (le_refl b) (le_refl a) hmidb hstep
              (vr _ (by simp)) (vl todo (by omega))
          · simp only [hlt, if_false] at hstep
            exact Visits_of_step2 T segment _ _ _ _ l.size r.size a b a mid mid b _ _ t0 t2
              todo (by omega) (le_refl a) hmidb hamid (le_refl b) hstep
              (vl _ (by simp)) (vr todo (by omega))

theorem HitIn_BruteForce {Box Prim Seg : Type} (T : FastBVH.Traverser Box Prim Seg)
    (segment : Seg) :
    FastBVH.HitIn T segment 0 T.build_prims.length = FastBVH.BruteForce T segment := by
  rw [Bool.eq_iff_iff, HitIn_iff]
  unfold FastBVH.BruteForce FastBVH.HitAt
  rw [List.any_eq_true]
  constructor
  · rintro ⟨i, -, hi, hh⟩
    rw [List.getElem?_eq_getElem hi] at hh
    exact ⟨_, List.getElem_mem _, hh⟩
  · rintro ⟨obj, hobj, hh⟩
    obtain ⟨i, hi⟩ := List.mem_iff_getElem?.mp hobj
    have hlt : i < T.build_prims.length := by
      by_contra hc
      rw [List.getElem?_eq_none (by omega)] at hi
      cases hi
    refine ⟨i, Nat.zero_le i, hlt, ?_⟩
    rw [hi]
    exact hh

theorem traverse_loop_mono {Box Prim Seg : Type} (T : FastBVH.Traverser Box Prim Seg)
    (segment : Seg) (f : Nat) :
    ∀ (todo : List (Nat × ℚ)) (acc : List Prim),
      FastBVH.traverse.loop T segment f todo acc ≠ .outOfFuel →
      FastBVH.traverse.loop T segment (f + 1) todo acc
        = FastBVH.traverse.loop T segment f todo acc := by
  induction f with
  | zero =>
    intro todo acc h
    cases todo with
    | nil => rfl
    | cons x rest => exact absurd rfl h
  | succ f ih =>
    intro todo acc h
    cases todo with
    | nil => rfl
    | cons x rest =>
      obtain ⟨ni, m⟩ := x
      rw [FastBVH.traverse.loop] at h
      conv_lhs => rw [FastBVH.traverse.loop]
      conv_rhs => rw [FastBVH.traverse.loop]
      cases hn : T.nodes[ni]? with
      | none => rfl
      | some node =>
        simp only [hn] at h ⊢
        cases hl : node.isLeaf with
        | true =>
          simp only [hl, if_true] at h ⊢
          cases hs : FastBVH.traverse.leaf T segment node (List.range node.primitive_count)
              acc with
          | none => rfl
          | some r =>
            obtain ⟨fl, acc1⟩ := r
            cases fl with
            | true => rfl
            | false =>
              simp only [hs] at h ⊢
              exact ih _ _ h
        | false =>
          simp only [hl, Bool.false_eq_true, if_false] at h ⊢
          cases h0 : T.nodes[ni + 1]? with
          | none => rfl
          | some c0 =>
            cases h1 : T.nodes[ni + node.right_offset]? with
            | none => rfl
            | some c1 =>
              simp only [h0, h1] at h ⊢
              cases i0 : T.intersect c0.bbox segment with
              | none =>
                cases i1 : T.intersect c1.bbox segment with
                | none =>
                  simp only [i0, i1] at h ⊢
                  exact ih _ _ h
                | some p1 =>
                  obtain ⟨t2, t3⟩ := p1
                  simp only [i0, i1] at h ⊢
                  cases hp : FastBVH.push rest (ni + node.right_offset) t2 with
                  | none => rfl
                  | some todo1 =>
                    simp only [hp] at h ⊢
                    exact ih _ _ h
              | some p0 =>
                obtain ⟨t0, t1⟩ := p0
                cases i1 : T.intersect c1.bbox segment with
                | none =>
                  simp only [i0, i1] at h ⊢
                  cases hp : FastBVH.push rest (ni + 1) t0 with
                  | none => rfl
                  | some todo1 =>
                    simp only [hp] at h ⊢
                    exact ih _ _ h
                | some p1 =>
                  obtain ⟨t2, t3⟩ := p1
                  simp only [i0, i1] at h ⊢
                  cases hp : FastBVH.push rest (if t2 < t0 then ni + 1
                      else ni + node.right_offset) (if t2 < t0 then t0 else t2) with
                  | none =>
                    simp only [hp]
                  | some todo1 =>
                    simp only [hp] at h ⊢
                    cases hq : FastBVH.push todo1 (if t2 < t0 then ni + node.right_offset
                        else ni + 1) (if t2 < t0 then t2 else t0) with
                    | none =>
                      simp only [hq]
                    | some todo2 =>
                      simp only [hq] at h ⊢
                      exact ih _ _ h

theorem traverse_loop_more_fuel {Box Prim Seg : Type} (T : FastBVH.Traverser Box Prim Seg)
    (segment : Seg) (f k : Nat) (todo : List (Nat × ℚ)) (acc : List Prim)
    (h : FastBVH.traverse.loop T segment f todo acc ≠ .outOfFuel) :
    FastBVH.traverse.loop T segment (f + k) todo acc
      = FastBVH.traverse.loop T segment f todo acc := by
  induction k with
  | zero => rfl
  | succ k ih =>
    rw [← Nat.add_assoc, traverse_loop_mono T segment (f + k) todo acc (by rw [ih]; exact h), ih]

theorem traverse_returns {Box Prim Seg : Type} (T : FastBVH.Traverser Box Prim Seg)
    (segment : Seg) (t : FastBVH.Tree Box) (hO : T.OnlyTestOcclusion = true)
    (hw : FastBVH.WellFormed T segment t) (hd : t.depth < FastBVH.TODO_SIZE) :
    (FastBVH.BruteForce T segment = false →
      ∀ fuel, t.size ≤ fuel → FastBVH.traverse T segment fuel = .returned []) ∧
    (FastBVH.BruteForce T segment = true →
      ∃ h, (∃ obj ∈ T.build_prims, T.intersector obj segment = some h) ∧
        ∀ fuel, t.size ≤ fuel → FastBVH.traverse T segment fuel = .returned [h]) := by
  obtain ⟨hn, hc, hs⟩ := hw
  have hv := traverse_visit T segment hO t [] [] [] 0 T.build_prims.length
    (by rw [hn]; simp) hc (le_refl _) hs (by simp only [List.length_nil]; omega)
  rw [HitIn_BruteForce] at hv
  constructor
  · intro hb fuel hf
    obtain ⟨c, -, c2, hl⟩ := hv.1 hb
    have e : fuel = c + (fuel - c) := by omega
    unfold FastBVH.traverse
    rw [e]
    exact (hl _ _).trans (traverse_loop_nil T segment _ _)
  · intro hb
    obtain ⟨c, -, c2, h, ⟨i, obj, -, -, hobj, hint⟩, hl⟩ := hv.2 hb
    refine ⟨h, ⟨obj, List.getElem?_mem hobj, hint⟩, ?_⟩
    intro fuel hf
    have e : fuel = c + (fuel - c) := by omega
    unfold FastBVH.traverse
    rw [e]
    exact hl _ _

/-! ## Claim on the BVH traversal -/

set_option maxRecDepth 100000 in
/-- C17, as stated, fails: the chain of depth 64 is a well-formed BVH over 65
primitives (left child at n + 1, right child at n + right_offset, the leaves
partition the primitives, every box is hit by the segment), and the intersector
hits no primitive, so brute force says unblocked. The traversal descends the
chain, leaving one right child in the working set per level; at depth 64 the
push is the 65th entry of `todo[64]`: the routine writes outside the array and
does not return, whatever the fuel. -/
theorem C17_counterexample :
    FastBVH.WellFormed (Scene.ChainBVH 64 (fun _ => false)) () (Scene.Chain 64) ∧
    (Scene.Chain 64).depth = 64 ∧
    FastBVH.BruteForce (Scene.ChainBVH 64 (fun _ => false)) () = false ∧
    FastBVH.traverse (Scene.ChainBVH 64 (fun _ => false)) () 200 = .outOfRange ∧
    ∀ fuel r, FastBVH.traverse (Scene.ChainBVH 64 (fun _ => false)) () fuel ≠ .returned r := by
  have h200 : FastBVH.traverse (Scene.ChainBVH 64 (fun _ => false)) () 200 = .outOfRange := by
    decide!
  refine ⟨⟨rfl, by decide!, by decide!⟩, by decide!, by decide!, h200, ?_⟩
  intro fuel r hr
  have h1 := traverse_loop_more_fuel (Scene.ChainBVH 64 (fun _ => false)) () fuel 200
    [(0, -9999999)] [] (by
      show FastBVH.traverse _ () fuel ≠ _
      rw [hr]
      exact fun hc => by cases hc)
  have h2 := traverse_loop_more_fuel (Scene.ChainBVH 64 (fun _ => false)) () 200 fuel
    [(0, -9999999)] [] (by
      show FastBVH.traverse _ () 200 ≠ _
      rw [h200]
      exact fun hc => by cases hc)
  have e1 : FastBVH.traverse.loop (Scene.ChainBVH 64 (fun _ => false)) () (fuel + 200)
      [(0, -9999999)] [] = .returned r := h1.trans hr
  have e2 : FastBVH.traverse.loop (Scene.ChainBVH 64 (fun _ => false)) () (200 + fuel)
      [(0, -9999999)] [] = .outOfRange := h2.trans h200
  rw [Nat.add_comm] at e1
  rw [e1] at e2
  cases e2

/-- C17, amended: for every well-formed BVH whose depth is below 64, the size
of the working set, and every query segment, `traverse` in `OnlyTestOcclusion`
mode terminates (with any fuel from the number of nodes on it returns the same
result), returns at most one primitive, each returned primitive is the
intersector's answer for a primitive of the set, and the result is non-empty if
and only if the intersector reports a hit for at least one primitive of the
whole set: the verdict of brute force. -/
theorem C17_traverse_occlusion {Box Prim Seg : Type} (T : FastBVH.Traverser Box Prim Seg)
    (segment : Seg) (t : FastBVH.Tree Box) (hO : T.OnlyTestOcclusion = true)
    (hw : FastBVH.WellFormed T segment t) (hd : t.depth < FastBVH.TODO_SIZE) :
    ∃ r, (∀ fuel, t.size ≤ fuel → FastBVH.traverse T segment fuel = .returned r) ∧
      r.length ≤ 1 ∧
      (r ≠ [] ↔ FastBVH.BruteForce T segment = true) ∧
      (∀ h ∈ r, ∃ obj ∈ T.build_prims, T.intersector obj segment = some h) := by
  obtain ⟨h1, h2⟩ := traverse_returns T segment t hO hw hd
  cases hb : FastBVH.BruteForce T segment with
  | false =>
    refine ⟨[], h1 hb, Nat.zero_le _, ?_, fun h hh => by cases hh⟩
    constructor
    · intro hc; exact absurd rfl hc
    · intro hc; cases hc
  | true =>
    obtain ⟨h, hg, hl⟩ := h2 hb
    refine ⟨[h], hl, le_refl 1, ?_, ?_⟩
    · constructor
      · intro _; rfl
      · intro _ hc; cases hc
    · intro x hx
      rcases List.mem_cons.mp hx with hx | hx
      · rw [hx]; exact hg
      · cases hx

set_option maxRecDepth 100000 in
/-- Witness of C17: the chain of depth 63 is well formed; when the intersector
hits no primitive the traversal returns the empty list, and when it hits
primitive 5 the traversal returns one primitive. -/
theorem C17_traverse_occlusion_witness :
    (∃ r, FastBVH.traverse (Scene.ChainBVH 63 (fun _ => false)) () 127 = .returned r ∧
      r = []) ∧
    (∃ r, FastBVH.traverse (Scene.ChainBVH 63 (fun obj => obj == 5)) () 127 = .returned r ∧
      r.length ≤ 1 ∧ r ≠ []) := by
  constructor
  · obtain ⟨r, h1, -, h3, -⟩ := C17_traverse_occlusion (Scene.ChainBVH 63 (fun _ => false)) ()
      (Scene.Chain 63) rfl ⟨rfl, by decide!, by decide!⟩ (by decide!)
    refine ⟨r, h1 127 (by decide!), ?_⟩
    by_contra hne
    have := h3.mp hne
    exact absurd this (by decide!)
  · obtain ⟨r, h1, h2, h3, -⟩ :=
      C17_traverse_occlusion (Scene.ChainBVH 63 (fun obj => obj == 5)) ()
        (Scene.Chain 63) rfl ⟨rfl, by decide!, by decide!⟩ (by decide!)
    exact ⟨r, h1 127 (by decide!), h2, h3.mpr (by decide!)⟩

/-! ## Claim on the cache as an optimisation -/

theorem BlockedByCache_imp_cuboid (E : Externals) (s : Controller) (B : Bundle)
    (h : BlockedByCache E s B = true) : BlockedByCuboid E s B = true := by
  unfold BlockedByCache at h
  rw [List.any_eq_true] at h
  obtain ⟨k, -, hk⟩ := h
  unfold BlockedByCuboid GetPossibleOccludingCuboids
  rw [List.any_eq_true]
  cases hC : s.Cuboids[s.CuboidCaches B.PlayerI B.EnemyI k]? with
  | none =>
    rw [hC] at hk
    cases hk
  | some C =>
    refine ⟨s.CuboidCaches B.PlayerI B.EnemyI k,
      List.mem_range.mpr (getElem?_some_lt _ _ _ hC), ?_⟩
    rw [hC] at hk ⊢
    exact hk

theorem Cull_two_stages_queue (E : Externals) (s t2 t3 : Controller)
    (h2 : CullWithSpheres s = some t2) (h3 : CullWithCuboids E t2 = some t3) :
    t3.BundleQueue = s.BundleQueue.filter
      (fun B => !BlockedBySphere s B && !BlockedByCuboid E s B) := by
  obtain ⟨q2, b2, c2, -, -, -, -⟩ := CullWithSpheres_queue s t2 h2
  obtain ⟨q3, -, -, -, -⟩ := CullWithCuboids_queue E t2 t3 h3
  rw [q3, q2, List.filter_filter]
  congr 1
  funext B
  rw [BlockedByCuboid_congr E s t2 B b2 c2, Bool.and_comm]

theorem Cull_three_stages_queue (E : Externals) (s s1 s2 s3 : Controller)
    (h1 : CullWithCache E s = some s1) (h2 : CullWithSpheres s1 = some s2)
    (h3 : CullWithCuboids E s2 = some s3) :
    s3.BundleQueue = s.BundleQueue.filter
      (fun B => !BlockedBySphere s B && !BlockedByCuboid E s B) := by
  obtain ⟨q1, b1, c1, p1, -, -⟩ := CullWithCache_queue E s s1 h1
  obtain ⟨q2, b2, c2, p2, -, -, -⟩ := CullWithSpheres_queue s1 s2 h2
  obtain ⟨q3, -, -, -, -⟩ := CullWithCuboids_queue E s2 s3 h3
  rw [q3, q2, q1, List.filter_filter, List.filter_filter]
  congr 1
  funext B
  rw [BlockedBySphere_congr s s1 B b1 p1,
    BlockedByCuboid_congr E s s2 B (b2.trans b1) (c2.trans c1)]
  have hi := BlockedByCache_imp_cuboid E s B
  cases hc : BlockedByCache E s B <;> cases hs : BlockedBySphere s B <;>
    cases hb : BlockedByCuboid E s B <;> simp_all

/-- C23: the cache changes no verdict. When every cache entry of every queued
pair is the index of a cuboid (and every queued bundle has its peeks and its
enemy's bounds), the three stages return and so do the sphere stage and the
cuboid stage run alone on the same input. Whenever both runs return, the queue
after `CullWithCache`, `CullWithSpheres`, `CullWithCuboids` equals the queue
after `CullWithSpheres`, `CullWithCuboids`: the bundles of the input queue
blocked by no sphere and by no cuboid of the whole array, in their order. Two
controllers that differ only in the caches and their timestamps leave the same
bundles. -/
theorem C23_cache_pure_optimisation (E : Externals) (s : Controller) :
    (QueueReady E s → ∃ s1 s2 s3 t2 t3, CullWithCache E s = some s1 ∧
      CullWithSpheres s1 = some s2 ∧ CullWithCuboids E s2 = some s3 ∧
      CullWithSpheres s = some t2 ∧ CullWithCuboids E t2 = some t3) ∧
    (∀ s1 s2 s3 t2 t3, CullWithCache E s = some s1 → CullWithSpheres s1 = some s2 →
      CullWithCuboids E s2 = some s3 → CullWithSpheres s = some t2 →
      CullWithCuboids E t2 = some t3 →
      s3.BundleQueue = t3.BundleQueue ∧
      t3.BundleQueue = s.BundleQueue.filter
        (fun B => !BlockedBySphere s B && !BlockedByCuboid E s B)) ∧
    (∀ r : Controller, r.BundleQueue = s.BundleQueue → r.Bounds = s.Bounds →
      r.Cuboids = s.Cuboids → r.Spheres = s.Spheres →
      ∀ s1 s2 s3 r1 r2 r3, CullWithCache E s = some s1 → CullWithSpheres s1 = some s2 →
        CullWithCuboids E s2 = some s3 → CullWithCache E r = some r1 →
        CullWithSpheres r1 = some r2 → CullWithCuboids E r2 = some r3 →
        r3.BundleQueue = s3.BundleQueue) := by
  refine ⟨?_, ?_, ?_⟩
  · intro hr
    obtain ⟨s1, s2, s3, h1, h2, h3⟩ := Cull_stages_total E s hr
    have hq : ∀ B ∈ s.BundleQueue,
        B.EnemyI < s.Bounds.length ∧ NUM_PEEKS ≤ B.PossiblePeeks.length :=
      fun B hB => ⟨(hr B hB).1, (hr B hB).2.1⟩
    obtain ⟨t2, g2⟩ := CullWithSpheres_total s hq
    obtain ⟨q2, b2, -⟩ := CullWithSpheres_queue s t2 g2
    have hq2 : ∀ B ∈ t2.BundleQueue,
        B.EnemyI < t2.Bounds.length ∧ NUM_PEEKS ≤ B.PossiblePeeks.length := by
      intro B hB
      rw [q2] at hB
      rw [b2]
      exact hq B (List.mem_of_mem_filter hB)
    obtain ⟨t3, g3⟩ := CullWithCuboids_total E t2 hq2
    exact ⟨s1, s2, s3, t2, t3, h1, h2, h3, g2, g3⟩
  · intro s1 s2 s3 t2 t3 h1 h2 h3 g2 g3
    have e1 := Cull_three_stages_queue E s s1 s2 s3 h1 h2 h3
    have e2 := Cull_two_stages_queue E s t2 t3 g2 g3
    exact ⟨e1.trans e2.symm, e2⟩
  · intro r hq hb hc hsp s1 s2 s3 r1 r2 r3 h1 h2 h3 g1 g2 g3
    rw [Cull_three_stages_queue E r r1 r2 r3 g1 g2 g3,
      Cull_three_stages_queue E s s1 s2 s3 h1 h2 h3, hq]
    congr 1
    funext B
    rw [BlockedBySphere_congr s r B hb hsp, BlockedByCuboid_congr E s r B hb hc]

set_option maxRecDepth 8000 in
/-- Witness of C23 on the trio after `PopulateBundles`: the queue is ready, both
runs return, and both leave the bundles of the pairs (0, 2) and (2, 0). -/
theorem C23_cache_pure_optimisation_witness :
    QueueReady Scene.E Scene.TrioQueued ∧
    ∃ s3 t3 : Controller, s3.BundleQueue = t3.BundleQueue ∧
      t3.BundleQueue.map (fun B => (B.PlayerI, B.EnemyI)) = [(0, 2), (2, 0)] := by
  have hr : QueueReady Scene.E Scene.TrioQueued := by decide!
  obtain ⟨s1, s2, s3, t2, t3, h1, h2, h3, g2, g3⟩ :=
    (C23_cache_pure_optimisation Scene.E Scene.TrioQueued).1 hr
  obtain ⟨e1, e2⟩ :=
    (C23_cache_pure_optimisation Scene.E Scene.TrioQueued).2.1 s1 s2 s3 t2 t3 h1 h2 h3 g2 g3
  refine ⟨hr, s3, t3, e1, ?_⟩
  rw [e2]
  decide!

/-! ## Lemmas on the relevant corners -/

theorem GetRelevantCorners_loop_spec (G : FVector2D → FVector2D → ℚ) (Box : ACullingBox)
    (P : FVector2D) (l : List Nat) :
    ∀ (S : List Nat) (Min Max : ℚ) (MinIndex MaxIndex : Nat) (Min1 Max1 : ℚ)
      (MinIndex1 MaxIndex1 : Nat),
      GetRelevantCorners.loop G Box P
        ⟨Box.Center.X - P.X, Box.Center.Y - P.Y⟩ l (Min, Max, MinIndex, MaxIndex)
        = some (Min1, Max1, MinIndex1, MaxIndex1) →
      ((Min = FLT_MAX ∧ MinIndex = 0 ∧ ∀ i ∈ S, FLT_MAX ≤ AngleAt G Box P i) ∨
        (MinIndex ∈ S ∧ AngleAt G Box P MinIndex = Min ∧ ∀ i ∈ S, Min ≤ AngleAt G Box P i)) →
      ((Max = FLT_MIN ∧ MaxIndex = 0 ∧ ∀ i ∈ S, AngleAt G Box P i ≤ FLT_MIN) ∨
        (MaxIndex ∈ S ∧ AngleAt G Box P MaxIndex = Max ∧ FLT_MIN < Max ∧
          ∀ i ∈ S, AngleAt G Box P i ≤ Max)) →
      ((Min1 = FLT_MAX ∧ MinIndex1 = 0 ∧ ∀ i ∈ S ++ l, FLT_MAX ≤ AngleAt G Box P i) ∨
        (MinIndex1 ∈ S ++ l ∧ AngleAt G Box P MinIndex1 = Min1 ∧
          ∀ i ∈ S ++ l, Min1 ≤ AngleAt G Box P i)) ∧
      ((Max1 = FLT_MIN ∧ MaxIndex1 = 0 ∧ ∀ i ∈ S ++ l, AngleAt G Box P i ≤ FLT_MIN) ∨
        (MaxIndex1 ∈ S ++ l ∧ AngleAt G Box P MaxIndex1 = Max1 ∧ FLT_MIN < Max1 ∧
          ∀ i ∈ S ++ l, AngleAt G Box P i ≤ Max1)) ∧
      ∀ i ∈ l, i < Box.CornerLocations.length := by
  induction l with
  | nil =>
    intro S Min Max MinIndex MaxIndex Min1 Max1 MinIndex1 MaxIndex1 h hmin hmax
    have e : (Min, Max, MinIndex, MaxIndex) = (Min1, Max1, MinIndex1, MaxIndex1) :=
      Option.some.inj h
    simp only [Prod.mk.injEq] at e
    obtain ⟨e1, e2, e3, e4⟩ := e
    subst e1 e2 e3 e4
    rw [List.append_nil]
    exact ⟨hmin, hmax, fun i hi => by cases hi⟩
  | cons j rest ih =>
    intro S Min Max MinIndex MaxIndex Min1 Max1 MinIndex1 MaxIndex1 h hmin hmax
    unfold GetRelevantCorners.loop at h
    cases hc : Box.CornerLocations[j]? with
    | none => rw [hc] at h; cases h
    | some Corner =>
      rw [hc] at h
      simp only [] at h
      have ha : G ⟨Box.Center.X - P.X, Box.Center.Y - P.Y⟩ (Corner - P) = AngleAt G Box P j := by
        unfold AngleAt CornerAngle
        rw [hc]
      rw [ha] at h
      have hS : S ++ j :: rest = (S ++ [j]) ++ rest := by simp
      rw [hS]
      have hjm : j ∈ S ++ [j] := List.mem_append.mpr (Or.inr (List.mem_singleton.mpr rfl))
      have hres := ih (S ++ [j]) _ _ _ _ Min1 Max1 MinIndex1 MaxIndex1 h ?_ ?_
      · obtain ⟨r1, r2, r3⟩ := hres
        refine ⟨r1, r2, ?_⟩
        intro i hi
        rcases List.mem_cons.mp hi with hi | hi
        · rw [hi]; exact getElem?_some_lt _ _ _ hc
        · exact r3 i hi
      · by_cases hlt : AngleAt G Box P j < Min
        · simp only [hlt, if_true]
          right
          refine ⟨hjm, trivial, ?_⟩
          intro i hi
          rcases List.mem_append.mp hi with hi | hi
          · rcases hmin with ⟨e, -, hall⟩ | ⟨-, -, hall⟩
            · exact le_trans (le_of_lt (e ▸ hlt)) (hall i hi)
            · exact le_trans (le_of_lt hlt) (hall i hi)
          · rw [List.mem_singleton.mp hi]
        · simp only [hlt, if_false]
          rcases hmin with ⟨e, e0, hall⟩ | ⟨hm, hv, hall⟩
          · left
            refine ⟨e, e0, ?_⟩
            intro i hi
            rcases List.mem_append.mp hi with hi | hi
            · exact hall i hi
            · rw [List.mem_singleton.mp hi, ← e]; exact not_lt.mp hlt
          · right
            refine ⟨List.mem_append.mpr (Or.inl hm), hv, ?_⟩
            intro i hi
            rcases List.mem_append.mp hi with hi | hi
            · exact hall i hi
            · rw [List.mem_singleton.mp hi]; exact not_lt.mp hlt
      · by_cases hgt : AngleAt G Box P j > Max
        · simp only [hgt, if_true]
          right
          have hpos : FLT_MIN < AngleAt G Box P j := by
            rcases hmax with ⟨e, -, -⟩ | ⟨-, -, hp, -⟩
            · rw [← e]; exact hgt
            · exact lt_trans hp hgt
          refine ⟨hjm, trivial, hpos, ?_⟩
          intro i hi
          rcases List.mem_append.mp hi with hi | hi
          · rcases hmax with ⟨e, -, hall⟩ | ⟨-, -, -, hall⟩
            · exact le_trans (hall i hi) (le_of_lt hpos)
            · exact le_trans (hall i hi) (le_of_lt hgt)
          · rw [List.mem_singleton.mp hi]
        · simp only [hgt, if_false]
          rcases hmax with ⟨e, e0, hall⟩ | ⟨hm, hv, hp, hall⟩
          · left
            refine ⟨e, e0, ?_⟩
            intro i hi
            rcases List.mem_append.mp hi with hi | hi
            · exact hall i hi
            · rw [List.mem_singleton.mp hi, ← e]; exact not_lt.mp hgt
          · right
            refine ⟨List.mem_append.mpr (Or.inl hm), hv, hp, ?_⟩
            intro i hi
            rcases List.mem_append.mp hi with hi | hi
            · exact hall i hi
            · rw [List.mem_singleton.mp hi]; exact not_lt.mp hgt

theorem GetRelevantCorners_loop_total (G : FVector2D → FVector2D → ℚ) (Box : ACullingBox)
    (P Q : FVector2D) (l : List Nat) (hl : ∀ i ∈ l, i < Box.CornerLocations.length) :
    ∀ st, ∃ st1, GetRelevantCorners.loop G Box P Q l st = some st1 := by
  induction l with
  | nil => exact fun st => ⟨st, rfl⟩
  | cons j rest ih =>
    intro st
    obtain ⟨Min, Max, MinIndex, MaxIndex⟩ := st
    unfold GetRelevantCorners.loop
    rw [List.getElem?_eq_getElem (hl j (List.mem_cons_self _ _))]
    exact ih (fun i hi => hl i (List.mem_cons_of_mem _ hi)) _

theorem GetRelevantCorners_spec (G : FVector2D → FVector2D → ℚ) (Box : ACullingBox)
    (P CornerLeft CornerRight : FVector2D)
    (h : GetRelevantCorners G Box P = some (CornerLeft, CornerRight)) :
    ∃ MinIndex MaxIndex, Box.CornerLocations[MinIndex]? = some CornerLeft ∧
      Box.CornerLocations[MaxIndex]? = some CornerRight ∧
      Box.N ≤ Box.CornerLocations.length ∧
      ((MinIndex = 0 ∧ ∀ i, i < Box.N → FLT_MAX ≤ AngleAt G Box P i) ∨
        (MinIndex < Box.N ∧ ∀ i, i < Box.N → AngleAt G Box P MinIndex ≤ AngleAt G Box P i)) ∧
      ((MaxIndex = 0 ∧ ∀ i, i < Box.N → AngleAt G Box P i ≤ FLT_MIN) ∨
        (MaxIndex < Box.N ∧ FLT_MIN < AngleAt G Box P MaxIndex ∧
          ∀ i, i < Box.N → AngleAt G Box P i ≤ AngleAt G Box P MaxIndex)) := by
  unfold GetRelevantCorners at h
  simp only [] at h
  cases hl : GetRelevantCorners.loop G Box P ⟨Box.Center.X - P.X, Box.Center.Y - P.Y⟩
      (List.range Box.N) (FLT_MAX, FLT_MIN, 0, 0) with
  | none => rw [hl] at h; cases h
  | some st =>
    obtain ⟨Min1, Max1, MinIndex, MaxIndex⟩ := st
    rw [hl] at h
    simp only [] at h
    cases hL : Box.CornerLocations[MinIndex]? with
    | none => rw [hL] at h; cases h
    | some L =>
      cases hR : Box.CornerLocations[MaxIndex]? with
      | none => rw [hL, hR] at h; cases h
      | some R =>
        rw [hL, hR] at h
        have e : (L, R) = (CornerLeft, CornerRight) := Option.some.inj h
        simp only [Prod.mk.injEq] at e
        obtain ⟨e1, e2⟩ := e
        subst e1 e2
        obtain ⟨r1, r2, r3⟩ := GetRelevantCorners_loop_spec G Box P (List.range Box.N) []
          FLT_MAX FLT_MIN 0 0 Min1 Max1 MinIndex MaxIndex hl
          (Or.inl ⟨rfl, rfl, fun i hi => by cases hi⟩)
          (Or.inl ⟨rfl, rfl, fun i hi => by cases hi⟩)
        rw [List.nil_append] at r1 r2
        refine ⟨MinIndex, MaxIndex, hL, hR, ?_, ?_, ?_⟩
        · by_contra hc
          have := r3 Box.CornerLocations.length (List.mem_range.mpr (by omega))
          exact absurd this (lt_irrefl _)
        · rcases r1 with ⟨-, e0, hall⟩ | ⟨hm, hv, hall⟩
          · exact Or.inl ⟨e0, fun i hi => hall i (List.mem_range.mpr hi)⟩
          · refine Or.inr ⟨List.mem_range.mp hm, fun i hi => ?_⟩
            rw [hv]
            exact hall i (List.mem_range.mpr hi)
        · rcases r2 with ⟨-, e0, hall⟩ | ⟨hm, hv, hp, hall⟩
          · exact Or.inl ⟨e0, fun i hi => hall i (List.mem_range.mpr hi)⟩
          · refine Or.inr ⟨List.mem_range.mp hm, by rw [hv]; exact hp, fun i hi => ?_⟩
            rw [hv]
            exact hall i (List.mem_range.mpr hi)

theorem GetRelevantCorners_total (G : FVector2D → FVector2D → ℚ) (Box : ACullingBox)
    (P : FVector2D) (h0 : 0 < Box.N) (hN : Box.N ≤ Box.CornerLocations.length) :
    ∃ CornerLeft CornerRight, GetRelevantCorners G Box P = some (CornerLeft, CornerRight) := by
  obtain ⟨st, hl⟩ := GetRelevantCorners_loop_total G Box P
    ⟨Box.Center.X - P.X, Box.Center.Y - P.Y⟩ (List.range Box.N)
    (fun i hi => lt_of_lt_of_le (List.mem_range.mp hi) hN) (FLT_MAX, FLT_MIN, 0, 0)
  obtain ⟨Min1, Max1, MinIndex, MaxIndex⟩ := st
  obtain ⟨r1, r2, -⟩ := GetRelevantCorners_loop_spec G Box P (List.range Box.N) []
    FLT_MAX FLT_MIN 0 0 Min1 Max1 MinIndex MaxIndex hl
    (Or.inl ⟨rfl, rfl, fun i hi => by cases hi⟩)
    (Or.inl ⟨rfl, rfl, fun i hi => by cases hi⟩)
  rw [List.nil_append] at r1 r2
  have hmin : MinIndex < Box.CornerLocations.length := by
    rcases r1 with ⟨-, e0, -⟩ | ⟨hm, -, -⟩
    · omega
    · exact lt_of_lt_of_le (List.mem_range.mp hm) hN
  have hmax : MaxIndex < Box.CornerLocations.length := by
    rcases r2 with ⟨-, e0, -⟩ | ⟨hm, -, -, -⟩
    · omega
    · exact lt_of_lt_of_le (List.mem_range.mp hm) hN
  refine ⟨Box.CornerLocations[MinIndex], Box.CornerLocations[MaxIndex], ?_⟩
  unfold GetRelevantCorners
  simp only [hl, List.getElem?_eq_getElem hmin, List.getElem?_eq_getElem hmax]

theorem BeginPlay_cross (ActorLocation Extents : FVector) (RotateVector : FVector → FVector)
    (P : FVector2D)
    (hodd : ∀ x y : ℚ, RotateVector ⟨-x, -y, 0⟩ = FVector.smul (-1) (RotateVector ⟨x, y, 0⟩)) :
    CrossAt (ACullingBox.BeginPlay ActorLocation Extents RotateVector) P 3
      = -CrossAt (ACullingBox.BeginPlay ActorLocation Extents RotateVector) P 0 ∧
    CrossAt (ACullingBox.BeginPlay ActorLocation Extents RotateVector) P 2
      = -CrossAt (ACullingBox.BeginPlay ActorLocation Extents RotateVector) P 1 := by
  have h0 := hodd Extents.X Extents.Y
  have h1 := hodd Extents.X (-Extents.Y)
  rw [neg_neg] at h1
  constructor
  · simp only [CrossAt, ACullingBox.BeginPlay, List.getElem?_cons_succ,
      List.getElem?_cons_zero, FVector2D.CrossProduct, h0, FVector_add_X, FVector_add_Y,
      FVector_smul_X, FVector_smul_Y]
    show _ * (_ - _) - _ * (_ - _) = -(_ * (_ - _) - _ * (_ - _))
    ring
  · simp only [CrossAt, ACullingBox.BeginPlay, List.getElem?_cons_succ,
      List.getElem?_cons_zero, FVector2D.CrossProduct, h1, FVector_add_X, FVector_add_Y,
      FVector_smul_X, FVector_smul_Y]
    show _ * (_ - _) - _ * (_ - _) = -(_ * (_ - _) - _ * (_ - _))
    ring

theorem Signed_all_zero (G : FVector2D → FVector2D → ℚ) (Box : ACullingBox) (P : FVector2D)
    (Side : ℚ) (hN : Box.N = 4) (h3 : CrossAt Box P 3 = -CrossAt Box P 0)
    (h2 : CrossAt Box P 2 = -CrossAt Box P 1) (hS : SignedAngles G Box P Side)
    (hall : ∀ i, i < Box.N → AngleAt G Box P i ≤ FLT_MIN) :
    ∀ i, i < Box.N → AngleAt G Box P i = 0 := by
  have hle : ∀ i, i < Box.N → AngleAt G Box P i ≤ 0 := by
    intro i hi
    by_contra hc
    exact absurd (hall i hi) (not_le.mpr ((hS i hi).2.2.1 (not_le.mp hc)))
  have hc : ∀ i, i < Box.N → Side * CrossAt Box P i ≤ 0 := by
    intro i hi
    by_contra hc
    exact absurd (hle i hi) (not_le.mpr ((hS i hi).2.1 (not_le.mp hc)))
  have c0 := hc 0 (by omega)
  have c1 := hc 1 (by omega)
  have c2 := hc 2 (by omega)
  have c3 := hc 3 (by omega)
  rw [h3] at c3
  rw [h2] at c2
  have hz : ∀ i, i < Box.N → Side * CrossAt Box P i = 0 := by
    intro i hi
    have hi4 : i < 4 := hN ▸ hi
    interval_cases i
    · nlinarith
    · nlinarith
    · rw [h2]; nlinarith
    · rw [h3]; nlinarith
  intro i hi
  refine le_antisymm (hle i hi) ?_
  by_contra hneg
  have := (hS i hi).1 (not_le.mp hneg)
  rw [hz i hi] at this
  exact lt_irrefl _ this

theorem Yaw_odd (x y : ℚ) :
    Scene.Yaw ⟨-x, -y, 0⟩ = FVector.smul (-1) (Scene.Yaw ⟨x, y, 0⟩) := by
  apply FVector_ext
  · show (3 * -x - 4 * -y) / 5 = -1 * ((3 * x - 4 * y) / 5)
    ring
  · show (4 * -x + 3 * -y) / 5 = -1 * ((4 * x + 3 * y) / 5)
    ring
  · show (0 : ℚ) = -1 * 0
    ring

/-! ## Claim on the relevant corners -/

set_option maxRecDepth 8000 in
/-- The initial `Max` of `FLT_MIN` shows on a corner list that is not one of
`BeginPlay`: the angles are -20, -10, -20, -10, none exceeds `FLT_MIN`, and
`CornerRight` is the corner of index 0 of angle -20. -/
theorem GetRelevantCorners_side_box :
    (List.range 4).map (AngleAt Scene.Cross Scene.SideBox ⟨0, 0⟩) = [-20, -10, -20, -10] ∧
    GetRelevantCorners Scene.Cross Scene.SideBox ⟨0, 0⟩ = some (⟨10, -2⟩, ⟨10, -2⟩) ∧
    (∀ ActorLocation Extents RotateVector,
      (∀ x y : ℚ, RotateVector ⟨-x, -y, 0⟩ = FVector.smul (-1) (RotateVector ⟨x, y, 0⟩)) →
      Scene.SideBox ≠ ACullingBox.BeginPlay ActorLocation Extents RotateVector) := by
  refine ⟨by decide!, by decide!, ?_⟩
  intro A Ex R hodd hB
  obtain ⟨h3, h2⟩ := BeginPlay_cross A Ex R ⟨0, 0⟩ hodd
  rw [← hB] at h3
  revert h3
  decide!

/-! ## Lemmas on the working set of the traversal -/

theorem traverse_loop_step {Box Prim Seg : Type} (T : FastBVH.Traverser Box Prim Seg)
    (segment : Seg) (f ni : Nat) (m : ℚ) (todo : List (Nat × ℚ)) (acc : List Prim) :
    FastBVH.traverse.loop T segment (f + 1) ((ni, m) :: todo) acc =
      match FastBVH.traverse.step T segment ni todo acc with
      | .inl outcome => outcome
      | .inr (todo1, acc1) => FastBVH.traverse.loop T segment f todo1 acc1 := by
  rw [FastBVH.traverse.loop]
  unfold FastBVH.traverse.step
  cases hn : T.nodes[ni]? with
  | none => rfl
  | some node =>
    simp only []
    cases hl : node.isLeaf with
    | true =>
      simp only [if_true]
      cases hs : FastBVH.traverse.leaf T segment node (List.range node.primitive_count)
          acc with
      | none => rfl
      | some r =>
        obtain ⟨fl, acc1⟩ := r
        cases fl <;> rfl
    | false =>
      simp only [Bool.false_eq_true, if_false]
      cases h0 : T.nodes[ni + 1]? with
      | none => rfl
      | some c0 =>
        cases h1 : T.nodes[ni + node.right_offset]? with
        | none => rfl
        | some c1 =>
          simp only []
          cases i0 : T.intersect c0.bbox segment with
          | none =>
            cases i1 : T.intersect c1.bbox segment with
            | none => rfl
            | some p1 =>
              obtain ⟨t2, t3⟩ := p1
              simp only []
              cases hp : FastBVH.push todo (ni + node.right_offset) t2 <;> rfl
          | some p0 =>
            obtain ⟨t0, t1⟩ := p0
            cases i1 : T.intersect c1.bbox segment with
            | none =>
              simp only []
              cases hp : FastBVH.push todo (ni + 1) t0 <;> rfl
            | some p1 =>
              obtain ⟨t2, t3⟩ := p1
              simp only []
              cases hp : FastBVH.push todo (if t2 < t0 then ni + 1
                  else ni + node.right_offset) (if t2 < t0 then t0 else t2) with
              | none => rfl
              | some todo1 =>
                simp only []
                cases hq : FastBVH.push todo1 (if t2 < t0 then ni + node.right_offset
                    else ni + 1) (if t2 < t0 then t2 else t0) <;> rfl

theorem push_length (todo todo1 : List (Nat × ℚ)) (i : Nat) (m : ℚ)
    (h : FastBVH.push todo i m = some todo1) :
    todo1 = (i, m) :: todo ∧ todo1.length ≤ FastBVH.TODO_SIZE := by
  unfold FastBVH.push at h
  split at h
  · rename_i hlt
    have e : (i, m) :: todo = todo1 := Option.some.inj h
    subst e
    exact ⟨rfl, by simp only [List.length_cons]; omega⟩
  · cases h

theorem traverse_step_length {Box Prim Seg : Type} (T : FastBVH.Traverser Box Prim Seg)
    (segment : Seg) (ni : Nat) (todo todo1 : List (Nat × ℚ)) (acc acc1 : List Prim)
    (hlen : todo.length ≤ FastBVH.TODO_SIZE)
    (h : FastBVH.traverse.step T segment ni todo acc = .inr (todo1, acc1)) :
    todo1.length ≤ FastBVH.TODO_SIZE := by
  unfold FastBVH.traverse.step at h
  cases hn : T.nodes[ni]? with
  | none => rw [hn] at h; cases h
  | some node =>
    rw [hn] at h
    simp only [] at h
    cases hl : node.isLeaf with
    | true =>
      simp only [hl, if_true] at h
      cases hs : FastBVH.traverse.leaf T segment node (List.range node.primitive_count)
          acc with
      | none => rw [hs] at h; cases h
      | some r =>
        obtain ⟨fl, a1⟩ := r
        rw [hs] at h
        cases fl with
        | true => cases h
        | false =>
          simp only [Sum.inr.injEq, Prod.mk.injEq] at h
          rw [← h.1]; exact hlen
    | false =>
      simp only [hl, Bool.false_eq_true, if_false] at h
      cases h0 : T.nodes[ni + 1]? with
      | none => rw [h0] at h; cases h
      | some c0 =>
        cases h1 : T.nodes[ni + node.right_offset]? with
        | none => rw [h0, h1] at h; cases h
        | some c1 =>
          rw [h0, h1] at h
          simp only [] at h
          cases i0 : T.intersect c0.bbox segment with
          | none =>
            cases i1 : T.intersect c1.bbox segment with
            | none =>
              rw [i0, i1] at h
              simp only [Sum.inr.injEq, Prod.mk.injEq] at h
              rw [← h.1]; exact hlen
            | some p1 =>
              obtain ⟨t2, t3⟩ := p1
              rw [i0, i1] at h
              simp only [] at h
              cases hp : FastBVH.push todo (ni + node.right_offset) t2 with
              | none => rw [hp] at h; cases h
              | some x =>
                rw [hp] at h
                simp only [Sum.inr.injEq, Prod.mk.injEq] at h
                rw [← h.1]; exact (push_length _ _ _ _ hp).2
          | some p0 =>
            obtain ⟨t0, t1⟩ := p0
            cases i1 : T.intersect c1.bbox segment with
            | none =>
              rw [i0, i1] at h
              simp only [] at h
              cases hp : FastBVH.push todo (ni + 1) t0 with
              | none => rw [hp] at h; cases h
              | some x =>
                rw [hp] at h
                simp only [Sum.inr.injEq, Prod.mk.injEq] at h
                rw [← h.1]; exact (push_length _ _ _ _ hp).2
            | some p1 =>
              obtain ⟨t2, t3⟩ := p1
              rw [i0, i1] at h
              simp only [] at h
              cases hp : FastBVH.push todo (if t2 < t0 then ni + 1
                  else ni + node.right_offset) (if t2 < t0 then t0 else t2) with
              | none => rw [hp] at h; cases h
              | some x =>
                rw [hp] at h
                simp only [] at h
                cases hq : FastBVH.push x (if t2 < t0 then ni + node.right_offset
                    else ni + 1) (if t2 < t0 then t2 else t0) with
                | none => rw [hq] at h; cases h
                | some y =>
                  rw [hq] at h
                  simp only [Sum.inr.injEq, Prod.mk.injEq] at h
                  rw [← h.1]; exact (push_length _ _ _ _ hq).2

theorem traverse_stacks_bounded {Box Prim Seg : Type} (T : FastBVH.Traverser Box Prim Seg)
    (segment : Seg) (f : Nat) :
    ∀ (todo : List (Nat × ℚ)) (acc : List Prim), todo.length ≤ FastBVH.TODO_SIZE →
      ∀ s ∈ FastBVH.traverse.stacks T segment f todo acc, s.length ≤ FastBVH.TODO_SIZE := by
  induction f with
  | zero =>
    intro todo acc hlen s hs
    cases todo with
    | nil =>
      have : s = [] := by simpa [FastBVH.traverse.stacks] using hs
      rw [this]; exact Nat.zero_le _
    | cons x rest =>
      have : s = x :: rest := by simpa [FastBVH.traverse.stacks] using hs
      rw [this]; exact hlen
  | succ f ih =>
    intro todo acc hlen s hs
    cases todo with
    | nil =>
      have : s = [] := by simpa [FastBVH.traverse.stacks] using hs
      rw [this]; exact Nat.zero_le _
    | cons x rest =>
      obtain ⟨ni, m⟩ := x
      rw [FastBVH.traverse.stacks] at hs
      rcases List.mem_cons.mp hs with hs | hs
      · rw [hs]; exact hlen
      · cases hst : FastBVH.traverse.step T segment ni rest acc with
        | inl o => rw [hst] at hs; cases hs
        | inr p =>
          obtain ⟨todo1, acc1⟩ := p
          rw [hst] at hs
          have hrest : rest.length ≤ FastBVH.TODO_SIZE := by
            simp only [List.length_cons] at hlen
            omega
          exact ih todo1 acc1 (traverse_step_length T segment ni rest todo1 acc acc1 hrest hst)
            s hs

theorem traverse_leaf_total {Box Prim Seg : Type} (T : FastBVH.Traverser Box Prim Seg)
    (segment : Seg) (node : FastBVH.Node Box) (os : List Nat) :
    ∀ acc : List Prim, (∀ o ∈ os, node.start + o < T.build_prims.length) →
      ∃ fl acc1, FastBVH.traverse.leaf T segment node os acc = some (fl, acc1) := by
  induction os with
  | nil => exact fun acc _ => ⟨false, acc, rfl⟩
  | cons o rest ih =>
    intro acc hr
    have hlt := hr o (List.mem_cons_self _ _)
    have hobj : T.build_prims[node.start + o]? = some (T.build_prims[node.start + o]) :=
      List.getElem?_eq_getElem hlt
    have hrest : ∀ x ∈ rest, node.start + x < T.build_prims.length :=
      fun x hx => hr x (List.mem_cons_of_mem _ hx)
    rw [FastBVH.traverse.leaf]
    simp only [hobj]
    cases hint : T.intersector (T.build_prims[node.start + o]) segment with
    | none => exact ih acc hrest
    | some h =>
      simp only []
      cases hO : T.OnlyTestOcclusion with
      | true => exact ⟨true, acc ++ [h], by simp⟩
      | false =>
        simp only [Bool.false_eq_true, if_false]
        exact ih (acc ++ [h]) hrest

theorem Passes_of_step0 {Box Prim Seg : Type} (T : FastBVH.Traverser Box Prim Seg)
    (segment : Seg) (i sz : Nat) (todo : List (Nat × ℚ)) (hsz : 1 ≤ sz)
    (hstep : ∀ acc f m, FastBVH.traverse.loop T segment (f + 1) ((i, m) :: todo) acc
      = FastBVH.traverse.loop T segment f todo acc) :
    FastBVH.Passes T segment i sz todo := by
  intro acc
  refine ⟨1, le_refl 1, hsz, Or.inr ⟨acc, fun f m => ?_⟩⟩
  rw [Nat.add_comm 1 f]
  exact hstep acc f m

theorem Passes_of_step1 {Box Prim Seg : Type} (T : FastBVH.Traverser Box Prim Seg)
    (segment : Seg) (i iX sz szX : Nat) (mX : ℚ) (todo : List (Nat × ℚ))
    (hsz : szX + 1 ≤ sz)
    (hstep : ∀ acc f m, FastBVH.traverse.loop T segment (f + 1) ((i, m) :: todo) acc
      = FastBVH.traverse.loop T segment f ((iX, mX) :: todo) acc)
    (hX : FastBVH.Passes T segment iX szX todo) :
    FastBVH.Passes T segment i sz todo := by
  intro acc
  obtain ⟨c, c1, c2, hl⟩ := hX acc
  refine ⟨c + 1, by omega, by omega, ?_⟩
  have e : ∀ f, c + 1 + f = (c + f) + 1 := fun f => by omega
  rcases hl with ⟨r, hl⟩ | ⟨acc1, hl⟩
  · exact Or.inl ⟨r, fun f m => by rw [e, hstep, hl]⟩
  · exact Or.inr ⟨acc1, fun f m => by rw [e, hstep, hl]⟩

theorem Passes_of_step2 {Box Prim Seg : Type} (T : FastBVH.Traverser Box Prim Seg)
    (segment : Seg) (i iX iY sz szX szY : Nat) (mX mY : ℚ) (todo : List (Nat × ℚ))
    (hsz : szX + szY + 1 ≤ sz)
    (hstep : ∀ acc f m, FastBVH.traverse.loop T segment (f + 1) ((i, m) :: todo) acc
      = FastBVH.traverse.loop T segment f ((iX, mX) :: (iY, mY) :: todo) acc)
    (hX : FastBVH.Passes T segment iX szX ((iY, mY) :: todo))
    (hY : FastBVH.Passes T segment iY szY todo) :
    FastBVH.Passes T segment i sz todo := by
  intro acc
  obtain ⟨cX, x1, x2, hlX⟩ := hX acc
  have e : ∀ c f, c + 1 + f = (c + f) + 1 := fun c f => by omega
  rcases hlX with ⟨r, hlX⟩ | ⟨accX, hlX⟩
  · exact ⟨cX + 1, by omega, by omega, Or.inl ⟨r, fun f m => by rw [e, hstep, hlX]⟩⟩
  · obtain ⟨cY, y1, y2, hlY⟩ := hY accX
    refine ⟨cX + cY + 1, by omega, by omega, ?_⟩
    rcases hlY with ⟨r, hlY⟩ | ⟨accY, hlY⟩
    · exact Or.inl ⟨r, fun f m => by rw [e, hstep, Nat.add_assoc, hlX, hlY]⟩
    · exact Or.inr ⟨accY, fun f m => by rw [e, hstep, Nat.add_assoc, hlX, hlY]⟩

theorem traverse_passes {Box Prim Seg : Type} (T : FastBVH.Traverser Box Prim Seg)
    (segment : Seg) (t : FastBVH.Tree Box) :
    ∀ (pre post : List (FastBVH.Node Box)) (todo : List (Nat × ℚ)) (a b : Nat),
      T.nodes = pre ++ t.flatten ++ post →
      t.covers a = some b → b ≤ T.build_prims.length →
      todo.length + 1 + t.depth ≤ FastBVH.TODO_SIZE →
      FastBVH.Passes T segment pre.length t.size todo := by
  induction t with
  | leaf bx s c =>
    intro pre post todo a b hn hc hb _ acc
    have hroot := nodes_at_root T.nodes pre post (.leaf bx s c) hn
    unfold FastBVH.Tree.covers at hc
    split at hc
    · rename_i hsa
      have hbe : a + c = b := Option.some.inj hc
      subst hsa
      have hr : ∀ o ∈ List.range c,
          (FastBVH.Tree.root (.leaf bx s c)).start + o < T.build_prims.length := by
        intro o ho
        have := List.mem_range.mp ho
        show s + o < _
        omega
      obtain ⟨fl, acc1, hscan⟩ := traverse_leaf_total T segment
        (FastBVH.Tree.root (.leaf bx s c)) (List.range c) acc hr
      have hstep : ∀ f m, FastBVH.traverse.loop T segment (1 + f) ((pre.length, m) :: todo) acc
          = match (some (fl, acc1) : Option (Bool × List Prim)) with
            | none => FastBVH.Traversed.outOfRange
            | some (true, acc2) => .returned acc2
            | some (false, acc2) => FastBVH.traverse.loop T segment f todo acc2 := by
        intro f m
        rw [Nat.add_comm 1 f, traverse_step_leaf T segment f pre.length m todo acc
          (FastBVH.Tree.root (.leaf bx s c)) hroot rfl]
        show (match FastBVH.traverse.leaf T segment (FastBVH.Tree.root (.leaf bx s c))
          (List.range c) acc with
          | none => FastBVH.Traversed.outOfRange
          | some (true, acc2) => .returned acc2
          | some (false, acc2) => FastBVH.traverse.loop T segment f todo acc2) = _
        rw [hscan]
      refine ⟨1, le_refl 1, le_refl 1, ?_⟩
      cases fl with
      | true => exact Or.inl ⟨acc1, fun f m => hstep f m⟩
      | false => exact Or.inr ⟨acc1, fun f m => hstep f m⟩
    · cases hc
  | node bx l r ihl ihr =>
    intro pre post todo a b hn hc hb hd
    have hroot := nodes_at_root T.nodes pre post (.node bx l r) hn
    unfold FastBVH.Tree.covers at hc
    cases hlc : l.covers a with
    | none => rw [hlc] at hc; cases hc
    | some mid =>
      rw [hlc] at hc
      simp only [] at hc
      have hmidb := Tree_covers_le r mid b hc
      have hnl : T.nodes = (pre ++ [FastBVH.Tree.root (.node bx l r)]) ++ l.flatten
          ++ (r.flatten ++ post) := by
        rw [hn]
        simp [FastBVH.Tree.flatten, FastBVH.Tree.root, List.append_assoc]
      have hnr : T.nodes = (pre ++ [FastBVH.Tree.root (.node bx l r)] ++ l.flatten)
          ++ r.flatten ++ post := by
        rw [hn]
        simp [FastBVH.Tree.flatten, FastBVH.Tree.root, List.append_assoc]
      have hlenl : (pre ++ [FastBVH.Tree.root (.node bx l r)]).length = pre.length + 1 := by
        simp
      have hlenr : (pre ++ [FastBVH.Tree.root (.node bx l r)] ++ l.flatten).length
          = pre.length + (FastBVH.Tree.root (.node bx l r)).right_offset := by
        simp only [List.length_append, List.length_cons, List.length_nil, Tree_flatten_length]
        show _ = pre.length + (l.size + 1)
        omega
      have h0 : T.nodes[pre.length + 1]? = some l.root := by
        rw [← hlenl]
        exact nodes_at_root T.nodes _ _ l hnl
      have h1 : T.nodes[pre.length + (FastBVH.Tree.root (.node bx l r)).right_offset]?
          = some r.root := by
        rw [← hlenr]
        exact nodes_at_root T.nodes _ _ r hnr
      have hdep : 1 + max l.depth r.depth = (FastBVH.Tree.node bx l r).depth := rfl
      have hdl : l.depth ≤ max l.depth r.depth := le_max_left _ _
      have hdr : r.depth ≤ max l.depth r.depth := le_max_right _ _
      have hsize : (FastBVH.Tree.node bx l r).size = 1 + l.size + r.size := rfl
      have vl : ∀ todo2 : List (Nat × ℚ), todo2.length ≤ todo.length + 1 →
          FastBVH.Passes T segment (pre.length + 1) l.size todo2 := by
        intro todo2 h2
        rw [← hlenl]
        exact ihl _ _ todo2 a mid hnl hlc (le_trans hmidb hb) (by omega)
      have vr : ∀ todo2 : List (Nat × ℚ), todo2.length ≤ todo.length + 1 →
          FastBVH.Passes T segment
            (pre.length + (FastBVH.Tree.root (.node bx l r)).right_offset) r.size todo2 := by
        intro todo2 h2
        rw [← hlenr]
        exact ihr _ _ todo2 mid b hnr hc hb (by omega)
      rw [hsize]
      cases i0 : T.intersect l.root.bbox segment with
      | none =>
        cases i1 : T.intersect r.root.bbox segment with
        | none =>
          exact Passes_of_step0 T segment _ _ todo (by omega)
            (fun acc f m => traverse_step_none T segment f pre.length m todo acc _ _ _ hroot rfl
              h0 h1 i0 i1)
        | some p1 =>
          obtain ⟨t2, t3⟩ := p1
          exact Passes_of_step1 T segment _ _ _ r.size t2 todo (by omega)
            (fun acc f m => traverse_step_right T segment f pre.length m todo acc _ _ _ t2 t3
              hroot rfl h0 h1 i0 i1 (by omega))
            (vr todo (by omega))
      | some p0 =>
        obtain ⟨t0, t1⟩ := p0
        cases i1 : T.intersect r.root.bbox segment with
        | none =>
          exact Passes_of_step1 T segment _ _ _ l.size t0 todo (by omega)
            (fun acc f m => traverse_step_left T segment f pre.length m todo acc _ _ _ t0 t1
              hroot rfl h0 h1 i0 i1 (by omega))
            (vl todo (by omega))
        | some p1 =>
          obtain ⟨t2, t3⟩ := p1
          have hcap : todo.length + 2 ≤ FastBVH.TODO_SIZE := by omega
          have hstep := fun acc f m => traverse_step_both T segment f pre.length m todo acc
            _ _ _ t0 t1 t2 t3 hroot rfl h0 h1 i0 i1 hcap
          by_cases hlt : t2 < t0
          · simp only [hlt, if_true] at hstep
            exact Passes_of_step2 T segment _ _ _ _ r.size l.size t2 t0 todo (by omega) hstep
              (vr _ (by simp)) (vl todo (by omega))
          · simp only [hlt, if_false] at hstep
            exact Passes_of_step2 T segment _ _ _ _ l.size r.size t0 t2 todo (by omega) hstep
              (vl _ (by simp)) (vr todo (by omega))

theorem traverse_step_ordered {Box Prim Seg : Type} (T : FastBVH.Traverser Box Prim Seg)
    (segment : Seg) (ni : Nat) (todo : List (Nat × ℚ)) (acc : List Prim)
    (node c0 c1 : FastBVH.Node Box) (t0 t1 t2 t3 : ℚ)
    (hn : T.nodes[ni]? = some node) (hl : node.isLeaf = false)
    (h0 : T.nodes[ni + 1]? = some c0) (h1 : T.nodes[ni + node.right_offset]? = some c1)
    (i0 : T.intersect c0.bbox segment = some (t0, t1))
    (i1 : T.intersect c1.bbox segment = some (t2, t3))
    (hcap : todo.length + 2 ≤ FastBVH.TODO_SIZE) :
    FastBVH.traverse.step T segment ni todo acc = .inr
      ((if t2 < t0 then ni + node.right_offset else ni + 1, if t2 < t0 then t2 else t0) ::
        (if t2 < t0 then ni + 1 else ni + node.right_offset, if t2 < t0 then t0 else t2) ::
        todo, acc) := by
  unfold FastBVH.traverse.step
  have p1 : todo.length < FastBVH.TODO_SIZE := by omega
  have p2 : todo.length + 1 < FastBVH.TODO_SIZE := by omega
  simp only [hn, hl, h0, h1, i0, i1, FastBVH.push, p1, p2, if_true, List.length_cons,
    Bool.false_eq_true, if_false]

theorem traverse_run_bounded {Box Prim Seg : Type} (T : FastBVH.Traverser Box Prim Seg)
    (segment : Seg) (t : FastBVH.Tree Box) (hn : T.nodes = t.flatten)
    (hc : t.covers 0 = some T.build_prims.length) (hd : t.depth < FastBVH.TODO_SIZE) :
    ∃ r, ∀ fuel, t.size ≤ fuel → FastBVH.traverse T segment fuel = .returned r := by
  have hp := traverse_passes T segment t [] [] [] 0 T.build_prims.length
    (by rw [hn]; simp) hc (le_refl _) (by simp only [List.length_nil]; omega) []
  obtain ⟨c, -, c2, hl⟩ := hp
  rcases hl with ⟨r, hl⟩ | ⟨acc1, hl⟩
  · refine ⟨r, fun fuel hf => ?_⟩
    have e : fuel = c + (fuel - c) := by omega
    unfold FastBVH.traverse
    rw [e]
    exact hl _ _
  · refine ⟨acc1, fun fuel hf => ?_⟩
    have e : fuel = c + (fuel - c) := by omega
    unfold FastBVH.traverse
    rw [e]
    exact (hl _ _).trans (traverse_loop_nil T segment _ _)

/-! ## Claim on the working set of the traversal -/

/-- C21: for every BVH laid out as `traverse` reads it (left child of node n at
n + 1, right child at n + right_offset, the leaves partitioning the primitive
array) whose depth, root at depth 0, is at most 63, and every query segment, in
either mode: `traverse` returns (with any fuel from the number of nodes on, the
same result) and never reads or writes out of range; at the top of every
iteration the working set holds at most 64 entries, so the stack index stays
between -1 and 63; the trace of working sets is the one of the loop; and at an
interior node whose two children are hit, at entry times t0 (left) and t2
(right), the working set goes on with the closer child on top, the right child
if t2 < t0 and the left child otherwise (so also on a tie), and the other child
right below it. -/
theorem C21_traverse_stack_bounded {Box Prim Seg : Type} (T : FastBVH.Traverser Box Prim Seg)
    (segment : Seg) (t : FastBVH.Tree Box) (hn : T.nodes = t.flatten)
    (hc : t.covers 0 = some T.build_prims.length) (hd : t.depth ≤ 63) :
    (∃ r, ∀ fuel, t.size ≤ fuel → FastBVH.traverse T segment fuel = .returned r) ∧
    (∀ fuel, FastBVH.traverse T segment fuel ≠ .outOfRange) ∧
    (∀ fuel, ∀ s ∈ FastBVH.traverse.stacks T segment fuel [(0, -9999999)] [],
      s.length ≤ 64) ∧
    (∀ fuel ni m todo acc,
      FastBVH.traverse.loop T segment (fuel + 1) ((ni, m) :: todo) acc =
        match FastBVH.traverse.step T segment ni todo acc with
        | .inl outcome => outcome
        | .inr (todo1, acc1) => FastBVH.traverse.loop T segment fuel todo1 acc1) ∧
    (∀ ni todo acc node c0 c1 t0 t1 t2 t3,
      T.nodes[ni]? = some node → node.isLeaf = false →
      T.nodes[ni + 1]? = some c0 → T.nodes[ni + node.right_offset]? = some c1 →
      T.intersect c0.bbox segment = some (t0, t1) →
      T.intersect c1.bbox segment = some (t2, t3) →
      todo.length + 2 ≤ 64 →
      FastBVH.traverse.step T segment ni todo acc = .inr
        ((if t2 < t0 then ni + node.right_offset else ni + 1, if t2 < t0 then t2 else t0) ::
          (if t2 < t0 then ni + 1 else ni + node.right_offset, if t2 < t0 then t0 else t2) ::
          todo, acc)) := by
  have hd2 : t.depth < FastBVH.TODO_SIZE := Nat.lt_succ_of_le hd
  obtain ⟨r, hr⟩ := traverse_run_bounded T segment t hn hc hd2
  refine ⟨⟨r, hr⟩, ?_, ?_, ?_, ?_⟩
  · intro fuel hbad
    have h1 := traverse_loop_more_fuel T segment fuel t.size [(0, -9999999)] [] (by
      show FastBVH.traverse T segment fuel ≠ _
      rw [hbad]
      exact fun hx => by cases hx)
    have e1 : FastBVH.traverse T segment (fuel + t.size) = .outOfRange := h1.trans hbad
    rw [hr (fuel + t.size) (Nat.le_add_left _ _)] at e1
    cases e1
  · intro fuel s hs
    exact traverse_stacks_bounded T segment fuel [(0, -9999999)] [] (by decide) s hs
  · intro fuel ni m todo acc
    exact traverse_loop_step T segment fuel ni m todo acc
  · intro ni todo acc node c0 c1 t0 t1 t2 t3 hnode hl h0 h1 i0 i1 hcap
    exact traverse_step_ordered T segment ni todo acc node c0 c1 t0 t1 t2 t3 hnode hl h0 h1
      i0 i1 hcap

set_option maxRecDepth 100000 in
/-- Witness of C21: on the chain of depth 63, where every box is hit at equal
times, the traversal returns, every working set of its trace holds at most 64
entries, and at the root the left child (index 1) goes on top of the right
child (index 126); on the fork whose right box is entered at time 3 and whose
left box at time 5, the right child (index 2) goes on top. -/
theorem C21_traverse_stack_bounded_witness :
    (Scene.Chain 63).depth ≤ 63 ∧
    (∃ r, FastBVH.traverse (Scene.ChainBVH 63 (fun _ => false)) () 127 = .returned r) ∧
    (∀ s ∈ FastBVH.traverse.stacks (Scene.ChainBVH 63 (fun _ => false)) () 127
      [(0, -9999999)] [], s.length ≤ 64) ∧
    FastBVH.traverse.step (Scene.ChainBVH 63 (fun _ => false)) () 0 [] []
      = .inr ([(1, 0), (126, 0)], []) ∧
    FastBVH.traverse.step (Scene.ForkBVH 5 3) () 0 [] []
      = .inr ([(2, 3), (1, 5)], []) := by
  have hdep : (Scene.Chain 63).depth ≤ 63 := by decide!
  obtain ⟨⟨r, h1⟩, -, h3, -, h5⟩ :=
    C21_traverse_stack_bounded (Scene.ChainBVH 63 (fun _ => false)) () (Scene.Chain 63) rfl
      (by decide!) hdep
  obtain ⟨-, -, -, -, g5⟩ :=
    C21_traverse_stack_bounded (Scene.ForkBVH 5 3) ()
      (FastBVH.Tree.node 0 (.leaf 5 0 1) (.leaf 3 1 1)) rfl (by decide!) (by decide!)
  refine ⟨hdep, ⟨r, h1 127 (by decide!)⟩, h3 127, ?_, ?_⟩
  · exact h5 0 [] [] (Scene.Chain 63).root (Scene.Chain 62).root
      (FastBVH.Tree.root (.leaf () 63 1)) 0 1 0 1 (by decide!) (by decide!) (by decide!)
      (by decide!) rfl rfl (by decide)
  · exact g5 0 [] [] (FastBVH.Tree.root (.node 0 (.leaf 5 0 1) (.leaf 3 1 1)))
      (FastBVH.Tree.root (.leaf 5 0 1)) (FastBVH.Tree.root (.leaf 3 1 1)) 5 6 3 4
      (by decide!) (by decide!) (by decide!) (by decide!) (by decide!) (by decide!) (by decide)

end CornerCulling
